import Mathlib

/-!
# OsmAnd-core routing: `binaryRoutePlanner.h`

A shallow embedding of the routing configuration cost model
(`RoutingConfiguration`) and of the directed segment resolution
(`RouteSegment::initRouteSegment`) of `native/src/binaryRoutePlanner.h`.

Conventions of the embedding:

* `float` values of the cost model (speeds, priorities, obstacles) are exact
  rationals (`ℚ`); the constant `3.6` is `18/5` and `1.6` is `8/5`. The
  `float` thresholds of `unloadUnusedTiles`, which decide what is evicted, are
  single-precision floats with rounding (`Float32`).
* `int` arithmetic wraps: `atoi`, `getSize()` and the running size of the
  eviction are reduced to 32 bits (`toInt32`).
* `std::string` is `String`; `a + "$" + b` is `a ++ "$" ++ b`.
* `UNORDERED(map)<string, float>` is a partial function `String → Option ℚ`;
  `m.find(k) != m.end()` is `m k ≠ none` and `m[k]` after a successful `find`
  is the stored value.
* Objects reached through `SHARED_PTR<RouteSegment>` live in an explicit heap;
  a null pointer is `none`.
-/

/-! ## Data model -/

/-- Modelled from the spec: `tag_value` is declared in `binaryRead.h`, which is
not part of the sources at hand; it is the pair `tag = value` of strings
(`first` is the tag, `second` the value). -/
abbrev tag_value := String × String

/-- Modelled from the spec: `RoutingIndex` (the `region` of a road) is declared
in `binaryRead.h`; only its per-region decoding-rule table is used here, read as
`region->decodingRules[t]` for a type index `t`. -/
structure RoutingIndex where
  decodingRules : Nat → tag_value

/-- Modelled from the spec: `RouteDataObject` is declared in `binaryRead.h`; an
immutable road with a list of type-tag indices, the points in the 31-bit
projection, per-point extra tags, an id, and the byte estimate answered by
`getSize()`. -/
structure RouteDataObject where
  region : RoutingIndex
  types : List Nat
  pointsX : List Nat
  pointsY : List Nat
  pointTypes : List (List Nat)
  id : Int
  size : Nat

namespace RouteDataObject

/-- Modelled from the spec: `getPointsLength()` of `binaryRead.h`, the number
of points of the road. -/
def getPointsLength (r : RouteDataObject) : Nat := r.pointsX.length

/-- The decoded tags of the road, `region->decodingRules[*t]` for `t` running
over `types` in order. -/
def tags (r : RouteDataObject) : List tag_value := r.types.map r.region.decodingRules

end RouteDataObject

abbrev MAP_STR_FLOAT := String → Option ℚ
abbrev MAP_STR_STR := String → Option String

structure RoutingConfiguration where
  highwaySpeed : MAP_STR_FLOAT
  highwayPriorities : MAP_STR_FLOAT
  avoid : MAP_STR_FLOAT
  obstacles : MAP_STR_FLOAT
  routingObstacles : MAP_STR_FLOAT
  attributes : MAP_STR_STR
  zoomToLoad : Int
  heurCoefficient : ℚ
  maxDefaultSpeed : ℚ
  minDefaultSpeed : ℚ
  restrictions : Bool
  onewayAware : Bool
  followLimitations : Bool
  memoryLimitation : Int
  planRoadDirection : Int
  routerName : String
  initialDirection : ℚ
  distanceRecalculate : ℚ
  routerProfile : String
  roundaboutTurn : ℚ
  leftTurn : ℚ
  rightTurn : ℚ

/-! ## String helpers used by `maxSpeed` -/

/-- The loop `while(i < v.length() && v[i] >= '0' && v[i] <= '9') i++` of
`maxSpeed`, started at `i = 0`: the length of the leading run of digits. -/
def digitRun : List Char → Nat
  | [] => 0
  | c :: cs => if '0' ≤ c ∧ c ≤ '9' then digitRun cs + 1 else 0

/-- Conversion of an integer to `int` (32 bits, two's complement). -/
def toInt32 (n : Int) : Int := (n + 2147483648) % 4294967296 - 2147483648

/-- The number that a string of decimal digits denotes, most significant digit
first. -/
def atoi.value (s : List Char) : Nat :=
  s.foldl (fun acc c => acc * 10 + (c.toNat - '0'.toNat)) 0

/-- The C library `atoi` on a string of decimal digits (as `maxSpeed` applies
it, to `v.substr(0, i)`). The result is an `int`: the library computes
`(int) strtol(s, NULL, 10)`, where `strtol` stops at `LONG_MAX = 2^63 - 1` and
the conversion to `int` keeps the low 32 bits. A digit string that denotes a
number up to `INT_MAX` gives that number; `2147483648` gives `-2147483648`. -/
def atoi (s : List Char) : Int :=
  toInt32 ((min (atoi.value s) 9223372036854775807 : Nat) : Int)

/-- `v.find(pat) != std::string::npos`: some position of `v` starts an
occurrence of `pat`. -/
def strFind (pat : List Char) : List Char → Bool
  | [] => pat.isEmpty
  | c :: cs => pat.isPrefixOf (c :: cs) || strFind pat cs

namespace RoutingConfiguration

/-! ## Cost functions of `RoutingConfiguration` -/

/-- `getHighwaySpeed(key)`. -/
def getHighwaySpeed (c : RoutingConfiguration) (key : String) : ℚ :=
  match c.highwaySpeed key with
  | some v => v
  | none => 0

/-- First loop of `acceptLine`: the value of `accepted` when the loop ends. -/
def acceptLine.accepted (c : RoutingConfiguration) (rules : Nat → tag_value) : List Nat → Bool
  | [] => false
  | t :: ts =>
    let type := rules t
    if type.1 = "highway" ∧ 0 < c.getHighwaySpeed type.2 then true
    else if 0 < c.getHighwaySpeed (type.1 ++ "$" ++ type.2) then true
    else acceptLine.accepted c rules ts

/-- Second loop of `acceptLine`: `true` when the loop returns `false` from
inside (some tag is in the `avoid` map). -/
def acceptLine.avoided (c : RoutingConfiguration) (rules : Nat → tag_value) : List Nat → Bool
  | [] => false
  | t :: ts =>
    let type := rules t
    if c.avoid (type.1 ++ "$" ++ type.2) ≠ none then true
    else acceptLine.avoided c rules ts

/-- `acceptLine(r)`. -/
def acceptLine (c : RoutingConfiguration) (r : RouteDataObject) : Bool :=
  if ¬ acceptLine.accepted c r.region.decodingRules r.types then false
  else if acceptLine.avoided c r.region.decodingRules r.types then false
  else true

/-- Loop of `defineSpeedPriority`, with the running value `priority`. -/
def defineSpeedPriority.loop (c : RoutingConfiguration) (rules : Nat → tag_value) :
    ℚ → List Nat → ℚ
  | priority, [] => priority
  | priority, t :: ts =>
    let type := rules t
    let key := type.1 ++ "$" ++ type.2
    match c.highwayPriorities key with
    | some p => defineSpeedPriority.loop c rules (priority * p) ts
    | none => defineSpeedPriority.loop c rules priority ts

/-- `defineSpeedPriority(r)`. -/
def defineSpeedPriority (c : RoutingConfiguration) (r : RouteDataObject) : ℚ :=
  defineSpeedPriority.loop c r.region.decodingRules 1 r.types

def getMinDefaultSpeed (c : RoutingConfiguration) : ℚ := c.minDefaultSpeed

def getMaxDefaultSpeed (c : RoutingConfiguration) : ℚ := c.maxDefaultSpeed

/-- Loop of `isOneWay` (entered when `onewayAware` holds). -/
def isOneWay.loop (rules : Nat → tag_value) : List Nat → Int
  | [] => 0
  | t :: ts =>
    let type := rules t
    if type.1 = "oneway" then
      let v := type.2
      if "-1" = v ∨ "reverse" = v then -1
      else if "1" = v ∨ "yes" = v then 1
      else isOneWay.loop rules ts
    else if type.1 = "roundabout" then 1
    else if type.1 = "junction" ∧ type.2 = "roundabout" then 1
    else isOneWay.loop rules ts

/-- `isOneWay(r)`. -/
def isOneWay (c : RoutingConfiguration) (r : RouteDataObject) : Int :=
  if ¬ c.onewayAware then 0
  else isOneWay.loop r.region.decodingRules r.types

/-- First loop of `defineRoutingObstacle` (exact key `tag$value`); `none` when
the loop ends without returning. -/
def defineRoutingObstacle.exact (c : RoutingConfiguration) (rules : Nat → tag_value) :
    List Nat → Option ℚ
  | [] => none
  | t :: ts =>
    let type := rules t
    match c.routingObstacles (type.1 ++ "$" ++ type.2) with
    | some v => some v
    | none => defineRoutingObstacle.exact c rules ts

/-- Second loop of `defineRoutingObstacle` (tag-only key `tag$`). -/
def defineRoutingObstacle.tagOnly (c : RoutingConfiguration) (rules : Nat → tag_value) :
    List Nat → Option ℚ
  | [] => none
  | t :: ts =>
    let type := rules t
    match c.routingObstacles (type.1 ++ "$") with
    | some v => some v
    | none => defineRoutingObstacle.tagOnly c rules ts

/-- `defineRoutingObstacle(road, segmentEnd)`. -/
def defineRoutingObstacle (c : RoutingConfiguration) (road : RouteDataObject)
    (segmentEnd : Nat) : ℚ :=
  if road.pointTypes.length ≤ segmentEnd then 0
  else
    let pointTypes := road.pointTypes.getD segmentEnd []
    match defineRoutingObstacle.exact c road.region.decodingRules pointTypes with
    | some v => v
    | none =>
      match defineRoutingObstacle.tagOnly c road.region.decodingRules pointTypes with
      | some v => v
      | none => 0

/-- The body of `maxSpeed` for one `maxspeed` value `v`. -/
def maxSpeed.parse (v : String) : ℚ :=
  if v = "none" then 40
  else
    let i := digitRun v.data
    if 0 < i then
      let f : ℚ := (atoi (v.data.take i) : ℚ)
      let f := f / (18 / 5)
      if strFind "mph".data v.data then f * (8 / 5) else f
    else 0

/-- Loop of `maxSpeed`: the first `maxspeed` tag decides. -/
def maxSpeed.loop (rules : Nat → tag_value) : List Nat → ℚ
  | [] => 0
  | t :: ts =>
    let type := rules t
    if type.1 = "maxspeed" then maxSpeed.parse type.2
    else maxSpeed.loop rules ts

/-- `maxSpeed(r)`. -/
def maxSpeed (_c : RoutingConfiguration) (r : RouteDataObject) : ℚ :=
  maxSpeed.loop r.region.decodingRules r.types

/-- Loop of `defineSpeed` over the tags; `none` when it ends without
returning. -/
def defineSpeed.loop (c : RoutingConfiguration) (rules : Nat → tag_value) :
    List Nat → Option ℚ
  | [] => none
  | t :: ts =>
    let type := rules t
    let key := type.1 ++ "$" ++ type.2
    let f := c.getHighwaySpeed key
    if 0 < f then some (f / (18 / 5))
    else defineSpeed.loop c rules ts

/-- `defineSpeed(r)`. -/
def defineSpeed (c : RoutingConfiguration) (r : RouteDataObject) : ℚ :=
  if c.followLimitations ∧ 0 < c.maxSpeed r then c.maxSpeed r
  else
    match defineSpeed.loop c r.region.decodingRules r.types with
    | some s => s
    | none => c.getMinDefaultSpeed

end RoutingConfiguration

/-! ## `RouteSegment` and the heap of segments -/

/-- The address of a heap object; `SHARED_PTR<RouteSegment>` is `Option Addr`,
with `none` the null pointer. -/
abbrev Addr := Nat

/-- The fields of `struct RouteSegment`. `segmentStart` is a `uint16_t`,
`directionAssgn` and `reverseWaySearch` are `int8_t` (1 - positive, -1 -
negative, 0 - not assigned). -/
structure RouteSegment where
  segmentStart : Nat
  road : RouteDataObject
  next : Option Addr
  oppositeDirection : Option Addr
  parentRoute : Option Addr
  parentSegmentEnd : Nat
  directionAssgn : Int
  reverseWaySearch : Int
  opposite : Option Addr
  distanceFromStart : ℚ
  distanceToEnd : ℚ

namespace RouteSegment

/-- The constructor `RouteSegment(road, int segmentStart)`: the `int` argument
is stored in the `uint16_t` field, that is modulo `2^16`. -/
def new (road : RouteDataObject) (segmentStart : Int) : RouteSegment where
  segmentStart := (segmentStart % 65536).toNat
  road := road
  next := none
  oppositeDirection := none
  parentRoute := none
  parentSegmentEnd := 0
  directionAssgn := 0
  reverseWaySearch := 0
  opposite := none
  distanceFromStart := 0
  distanceToEnd := 0

def isFinal (s : RouteSegment) : Bool := s.reverseWaySearch ≠ 0

def isReverseWaySearch (s : RouteSegment) : Bool := s.reverseWaySearch = 1

def getSegmentStart (s : RouteSegment) : Nat := s.segmentStart

def isPositive (s : RouteSegment) : Bool := s.directionAssgn = 1

def getRoad (s : RouteSegment) : RouteDataObject := s.road

end RouteSegment

/-- The heap of `RouteSegment` objects: the object at each address, and the
number of objects allocated so far (`new` returns the address `size`). -/
structure SegmentHeap where
  cells : Addr → RouteSegment
  size : Nat

namespace SegmentHeap

/-- `new RouteSegment(...)`: the fresh address and the heap that holds the new
object there. -/
def alloc (h : SegmentHeap) (s : RouteSegment) : Addr × SegmentHeap :=
  (h.size, ⟨Function.update h.cells h.size s, h.size + 1⟩)

/-- Assignment to the object at address `a`. -/
def write (h : SegmentHeap) (a : Addr) (s : RouteSegment) : SegmentHeap :=
  ⟨Function.update h.cells a s, h.size⟩

end SegmentHeap

namespace RouteSegment

/-- The value `positiveDirection ? 1 : -1`. -/
def dirOf (positiveDirection : Bool) : Int := if positiveDirection then 1 else -1

/-- `initRouteSegment(th, positiveDirection)`: the returned pointer and the
heap after the call. The branch that only logs `Alert failed - directionAssgn
wrongly` changes nothing and is left out. -/
def initRouteSegment (h : SegmentHeap) (th : Addr) (positiveDirection : Bool) :
    Option Addr × SegmentHeap :=
  if (h.cells th).segmentStart = 0 ∧ positiveDirection = false then (none, h)
  else if ((h.cells th).segmentStart : Int) = ((h.cells th).road.getPointsLength : Int) - 1 ∧
      positiveDirection = true then (none, h)
  else if (h.cells th).directionAssgn = 0 then
    (some th, h.write th { h.cells th with directionAssgn := dirOf positiveDirection })
  else if positiveDirection ≠ decide ((h.cells th).directionAssgn = 1) then
    let h1 :=
      if (h.cells th).oppositeDirection = none then
        let n := h.alloc (RouteSegment.new (h.cells th).road (h.cells th).segmentStart)
        let h2 := n.2.write th { n.2.cells th with oppositeDirection := some n.1 }
        h2.write n.1 { h2.cells n.1 with directionAssgn := dirOf positiveDirection }
      else h
    ((h1.cells th).oppositeDirection, h1)
  else (some th, h)

end RouteSegment

/-! ## The one-way verdict in the words of the specification -/

/-- The verdict of one tag as the specification words it: `oneway` with value
`-1` or `reverse` gives -1, `oneway` with value `1` or `yes` gives 1, any
`roundabout` tag or `junction=roundabout` gives 1; any other tag is not
decisive. -/
def specOnewayVerdict (t : tag_value) : Option Int :=
  if t.1 = "oneway" ∧ (t.2 = "-1" ∨ t.2 = "reverse") then some (-1)
  else if t.1 = "oneway" ∧ (t.2 = "1" ∨ t.2 = "yes") then some 1
  else if t.1 = "roundabout" ∨ (t.1 = "junction" ∧ t.2 = "roundabout") then some 1
  else none

/-! ## Concrete data used by the examples -/

/-- A region whose decoding table is the list `rules` (index `t` decodes to
the `t`-th pair; an index outside the list decodes to the empty pair). -/
def regionOf (rules : List tag_value) : RoutingIndex :=
  ⟨fun t => rules.getD t ("", "")⟩

/-- A road with the decoding table `rules`, the type indices `types`, the
points `pts` and the per-point type indices `pointTypes`. -/
def roadOf (id : Int) (rules : List tag_value) (types : List Nat) (pts : List (Nat × Nat))
    (pointTypes : List (List Nat)) : RouteDataObject where
  region := regionOf rules
  types := types
  pointsX := pts.map Prod.fst
  pointsY := pts.map Prod.snd
  pointTypes := pointTypes
  id := id
  size := 0

/-- The map after the assignments `m[key] = value` for the listed entries, in
order, starting from the empty map. -/
def mapOf {α : Type} (entries : List (String × α)) : String → Option α :=
  entries.foldl (fun m e => Function.update m e.1 (some e.2)) (fun _ => none)

/-- The configuration that the constructor builds from the speed, priority,
avoid and routing-obstacle entries given, with no attributes: `defaultParams`
then assigns the default of every parameter. -/
def configOf (speed priorities avoid routingObstacles : List (String × ℚ)) :
    RoutingConfiguration where
  highwaySpeed := mapOf speed
  highwayPriorities := mapOf priorities
  avoid := mapOf avoid
  obstacles := mapOf []
  routingObstacles := mapOf routingObstacles
  attributes := mapOf []
  zoomToLoad := 16
  heurCoefficient := 1
  maxDefaultSpeed := 130 / (18 / 5)
  minDefaultSpeed := 45 / (18 / 5)
  restrictions := true
  onewayAware := true
  followLimitations := true
  memoryLimitation := 48
  planRoadDirection := 0
  routerName := "default"
  initialDirection := -360
  distanceRecalculate := 10000
  routerProfile := "car"
  roundaboutTurn := 0
  leftTurn := 0
  rightTurn := 0

/-- The road with the single tag `highway=primary`. -/
def roadPrimary : RouteDataObject := roadOf 1 [("highway", "primary")] [0] [] []

/-- A profile whose only speed entry is stored under the tag name `highway`. -/
def cfgTagName : RoutingConfiguration := configOf [("highway", 50)] [] [] []

/-- A profile with `highway$primary` at 200 km/h, above the default ceiling of
130 km/h. -/
def cfgFast : RoutingConfiguration := configOf [("highway$primary", 200)] [] [] []

/-- A profile with `highway$primary` at 90 km/h. -/
def cfgPrimary90 : RoutingConfiguration := configOf [("highway$primary", 90)] [] [] []

/-- The road `highway=primary`, `maxspeed=60 mph`. -/
def roadMph : RouteDataObject :=
  roadOf 2 [("highway", "primary"), ("maxspeed", "60 mph")] [0, 1] [] []

/-- The road `highway=primary`, `maxspeed=2147483648`: the number is `INT_MAX + 1`. -/
def roadHugeLimit : RouteDataObject :=
  roadOf 9 [("highway", "primary"), ("maxspeed", "2147483648")] [0, 1] [] []

/-- The road `oneway=-1`, `junction=roundabout` (in this type order). -/
def roadReverseRoundabout : RouteDataObject :=
  roadOf 3 [("oneway", "-1"), ("junction", "roundabout")] [0, 1] [] []

/-- The road with the single tag `junction=roundabout`. -/
def roadRoundabout : RouteDataObject := roadOf 4 [("junction", "roundabout")] [0] [] []

/-- A road with one point whose extra tags are `barrier=gate`, then
`highway=traffic_signals`. -/
def roadObstacle : RouteDataObject :=
  roadOf 5 [("highway", "primary"), ("barrier", "gate"), ("highway", "traffic_signals")]
    [0] [(10, 20)] [[1, 2]]

/-- A profile with the tag-only obstacle `barrier$` (7 seconds) and the exact
obstacle `highway$traffic_signals` (3 seconds). -/
def cfgObstacle : RoutingConfiguration :=
  configOf [("highway$primary", 90)] [] [] [("barrier$", 7), ("highway$traffic_signals", 3)]

/-! ## Concrete heaps used by the examples -/

/-- The heap that holds the listed segments at the addresses 0, 1, ... -/
def heapOf (l : List RouteSegment) : SegmentHeap :=
  ⟨fun a => l.getD a (RouteSegment.new (roadOf 0 [] [] [] []) 0), l.length⟩

/-- A road with three points and the tag `highway=primary`. -/
def roadThree : RouteDataObject :=
  roadOf 6 [("highway", "primary")] [0] [(10, 20), (11, 21), (12, 22)] []

/-- A heap with a segment of `roadThree` at point 1 assigned to the positive
direction, whose `oppositeDirection` is a segment assigned to the negative
direction at point 2. -/
def heapMismatch : SegmentHeap :=
  heapOf [{ RouteSegment.new roadThree 1 with directionAssgn := 1, oppositeDirection := some 1 },
    { RouteSegment.new roadThree 2 with directionAssgn := -1, oppositeDirection := some 0 }]

/-- A heap with one segment of `roadThree` at point 1, assigned to the positive
direction, without sibling. -/
def heapPositive : SegmentHeap :=
  heapOf [{ RouteSegment.new roadThree 1 with directionAssgn := 1 }]

/-- A heap with one fresh segment of `roadThree` at its first point. -/
def heapFirst : SegmentHeap := heapOf [RouteSegment.new roadThree 0]

/-! ## Reachable segment states and the alert branch of `initRouteSegment` -/

namespace RouteSegment

/-- The heap `initRouteSegment` works on after the block
`if(th->oppositeDirection.get() == NULL) ...`: the sibling has been allocated
and assigned when there was none. -/
def initRouteSegment.siblingHeap (h : SegmentHeap) (th : Addr) (positiveDirection : Bool) :
    SegmentHeap :=
  if (h.cells th).oppositeDirection = none then
    let n := h.alloc (RouteSegment.new (h.cells th).road (h.cells th).segmentStart)
    let h2 := n.2.write th { n.2.cells th with oppositeDirection := some n.1 }
    h2.write n.1 { h2.cells n.1 with directionAssgn := dirOf positiveDirection }
  else h

/-- Whether `initRouteSegment(th, positiveDirection)` executes the statement
that logs `Alert failed - directionAssgn wrongly`, that is whether the test
`(th->oppositeDirection->directionAssgn == 1) != positiveDirection` is reached
and holds. -/
def initRouteSegment.alert (h : SegmentHeap) (th : Addr) (positiveDirection : Bool) : Bool :=
  if (h.cells th).segmentStart = 0 ∧ positiveDirection = false then false
  else if ((h.cells th).segmentStart : Int) = ((h.cells th).road.getPointsLength : Int) - 1 ∧
      positiveDirection = true then false
  else if (h.cells th).directionAssgn = 0 then false
  else if positiveDirection ≠ decide ((h.cells th).directionAssgn = 1) then
    let h1 := initRouteSegment.siblingHeap h th positiveDirection
    match (h1.cells th).oppositeDirection with
    | some o => decide (decide ((h1.cells o).directionAssgn = 1) ≠ positiveDirection)
    | none => false
  else false

end RouteSegment

namespace SegmentHeap

/-- A heap of freshly constructed segments: every allocated segment is as the
constructor leaves it as far as the direction is concerned (unassigned, no
sibling), with `segmentStart` in the range of `uint16_t`. -/
def Fresh (h : SegmentHeap) : Prop :=
  ∀ a, a < h.size → (h.cells a).directionAssgn = 0 ∧ (h.cells a).oppositeDirection = none ∧
    (h.cells a).segmentStart < 65536

/-- The heaps reachable from freshly constructed segments by calls of
`initRouteSegment` on allocated segments (the given ones or the ones that
earlier calls returned). -/
inductive Reachable : SegmentHeap → Prop
  | fresh (h : SegmentHeap) : h.Fresh → Reachable h
  | init (h : SegmentHeap) (th : Addr) (p : Bool) :
      Reachable h → th < h.size → Reachable (RouteSegment.initRouteSegment h th p).2

end SegmentHeap

/-- A heap with one fresh segment of `roadThree` at its interior point 1. -/
def heapInterior : SegmentHeap := heapOf [RouteSegment.new roadThree 1]

/-- The heap after asking the segment of `heapInterior` for the positive and
then for the negative direction. -/
def heapBoth : SegmentHeap :=
  (RouteSegment.initRouteSegment (RouteSegment.initRouteSegment heapInterior 0 true).2 0 false).2

/-- The heap after asking the sibling allocated in `heapBoth` (address 1) for
the positive direction. -/
def heapThird : SegmentHeap := (RouteSegment.initRouteSegment heapBoth 1 true).2

namespace SegmentHeap

/-- The sibling invariant of a heap: every allocated segment has its
`segmentStart` in the range of `uint16_t` and a direction -1, 0 or 1; when its
`oppositeDirection` is set, the sibling is allocated, both are assigned, to
opposite directions, the sibling has the same road and `segmentStart`, and no
other segment has the same sibling. -/
def SiblingInvariant (h : SegmentHeap) : Prop :=
  ∀ a, a < h.size →
    (h.cells a).segmentStart < 65536 ∧
    ((h.cells a).directionAssgn = -1 ∨ (h.cells a).directionAssgn = 0 ∨
      (h.cells a).directionAssgn = 1) ∧
    ∀ o, (h.cells a).oppositeDirection = some o →
      o < h.size ∧
      ((h.cells a).directionAssgn = 1 ∨ (h.cells a).directionAssgn = -1) ∧
      (h.cells o).directionAssgn = -(h.cells a).directionAssgn ∧
      (h.cells o).road = (h.cells a).road ∧
      (h.cells o).segmentStart = (h.cells a).segmentStart ∧
      ∀ a', a' < h.size → (h.cells a').oppositeDirection = some o → a' = a

end SegmentHeap

/-! ## Machine integers, maps and the external collaborators -/

/-- Conversion of an integer to `int64_t` (two's complement). -/
def toInt64 (n : Int) : Int := (n + 9223372036854775808) % 18446744073709551616 - 9223372036854775808

/-! ## Single-precision floats -/

/-- A value of type `float` (IEEE 754 binary32), as the dyadic number
`m * 2^e`. The operations below round to nearest, ties to even, with a
significand of 24 bits; the exponent range is not modelled (the values that
`unloadUnusedTiles` computes from its `int` arguments lie far inside it). -/
structure Float32 where
  m : Int
  e : Int
deriving DecidableEq

namespace Float32

/-- The number of low bits that the natural number `n` has beyond 24
significant bits (`fuel` bounds the search; `n` itself is enough). -/
def dropBits : Nat → Nat → Nat
  | 0, _ => 0
  | fuel + 1, n => if n < 16777216 then 0 else dropBits fuel (n / 2) + 1

/-- Rounding of a natural number to 24 significant bits, to nearest with ties
to even: the pair `(q, s)` stands for `q * 2^s`. -/
def roundNat (n : Nat) : Nat × Nat :=
  let s := dropBits n n
  let q := n / 2 ^ s
  let r := n % 2 ^ s
  if 2 * r < 2 ^ s ∨ (2 * r = 2 ^ s ∧ q % 2 = 0) then (q, s) else (q + 1, s)

/-- The natural number that `roundNat n` stands for. -/
def roundedNat (n : Nat) : Nat := (roundNat n).1 * 2 ^ (roundNat n).2

/-- The float nearest to the dyadic number `m * 2^e`. -/
def norm (m e : Int) : Float32 :=
  ⟨m.sign * ((roundNat m.natAbs).1 : Int), e + ((roundNat m.natAbs).2 : Int)⟩

/-- The conversion `(float) z` of an `int`. -/
def ofInt (z : Int) : Float32 := norm z 0

/-- The product `a * b` of two floats: the exact product, rounded. -/
def mul (a b : Float32) : Float32 := norm (a.m * b.m) (a.e + b.e)

/-- The integer `a * 2^(-k)`, for an exponent `k` with `k <= a.e`. -/
def scaled (a : Float32) (k : Int) : Int := a.m * 2 ^ (a.e - k).toNat

/-- The comparison `a < b` of two floats. -/
def lt (a b : Float32) : Bool := decide (a.scaled (min a.e b.e) < b.scaled (min a.e b.e))

/-- The comparison `a <= b` of two floats. -/
def le (a b : Float32) : Bool := decide (a.scaled (min a.e b.e) ≤ b.scaled (min a.e b.e))

/-- The rational value of a float. -/
def toRat (a : Float32) : ℚ := (a.m : ℚ) * 2 ^ a.e

/-- The literal `0.9f`: the float nearest to 9/10 is `15099494 * 2^-24`. -/
def lit09 : Float32 := ⟨15099494, -24⟩

/-- The literal `0.7f`: the float nearest to 7/10 is `11744051 * 2^-24`. -/
def lit07 : Float32 := ⟨11744051, -24⟩

end Float32

/-- The packed point key `(((uint64_t) x31) << 31) + (uint64_t) y31`, computed
in `uint64_t` and used as a key of type `int64_t`. -/
def pointKey (x31 y31 : Nat) : Int :=
  toInt64 (((x31 * 2147483648 + y31) % 18446744073709551616 : Nat) : Int)

/-- `m[k] = v` on an `UNORDERED(map)<int64_t, V>` kept as an association list
with one entry per key: the entry of `k` is replaced, or appended when `k` is
not a key yet. `m.find(k)` is `m.lookup k` and `m.size()` is `m.length`. -/
def mapSet {V : Type} (m : List (Int × V)) (k : Int) (v : V) : List (Int × V) :=
  if (m.lookup k).isSome then m.map fun e => if e.1 = k then (k, v) else e
  else m ++ [(k, v)]

/-- Modelled from the spec: `RouteSubregion` is declared in `binaryRead.h`; a
subregion descriptor with its bounds and its file pointer. -/
structure RouteSubregion where
  left : Nat
  right : Nat
  top : Nat
  bottom : Nat
  filePointer : Nat
deriving DecidableEq

/-- Modelled from the spec: `SearchQuery` is declared in `binaryRead.h`; the
bounding box of a query, in the 31-bit projection. -/
structure SearchQuery where
  left : Nat
  right : Nat
  top : Nat
  bottom : Nat
deriving DecidableEq

/-- The packed key of the point `i` of a road, from `pointsX[i]` and
`pointsY[i]`. -/
def RouteDataObject.keyAt (o : RouteDataObject) (i : Nat) : Int :=
  pointKey (o.pointsX.getD i 0) (o.pointsY.getD i 0)

/-! ## `RoutingSubregionTile` -/

/-- The fields of `struct RoutingSubregionTile`: `access` and `loaded` are
`int`, `size` is a `uint` (32 bits), `routes` maps a packed point key to the
head of a chain of segments (a key can be present with a null head). -/
structure RoutingSubregionTile where
  subregion : RouteSubregion
  access : Int
  loaded : Int
  size : Nat
  routes : List (Int × Option Addr)

/-- What the code takes from outside this header. The `sizeof` values of the
platform; `sortTiles`, the effect of
`sort(list.begin(), list.end(), compareRoutingSubregionTile)` (the comparator
is only declared here; it reads the tiles); and the two queries of the binary
reader, `searchRouteSubregions` and `searchRouteDataForSubRegion` (a null
pointer in the result is `none`). -/
structure Externals where
  sizeofTile : Nat
  sizeofSegment : Nat
  sizeofRoutesEntry : Nat
  sizeofTilesEntry : Nat
  sortTiles : (Addr → RoutingSubregionTile) → List Addr → List Addr
  searchRouteSubregions : SearchQuery → Bool → List RouteSubregion
  searchRouteDataForSubRegion : RouteSubregion → List (Option RouteDataObject)

namespace SegmentHeap

/-- The walk `while (orig->next.get() != NULL) orig = orig->next` of
`RoutingSubregionTile::add`, with fuel: the last segment of the chain that
starts at `a`, or `none` when the fuel runs out (the walk of the code would not
end on a cyclic chain). -/
def walkTail (h : SegmentHeap) : Nat → Addr → Option Addr
  | 0, _ => none
  | fuel + 1, a =>
    match (h.cells a).next with
    | none => some a
    | some b => walkTail h fuel b

/-- The chain that starts at the pointer `p` is the list `l` of allocated
segments: `p` points to the first, `next` of each to the following one, and
`next` of the last is null. -/
def isChain (h : SegmentHeap) : Option Addr → List Addr → Bool
  | none, [] => true
  | some a, b :: l => decide (a = b) && decide (a < h.size) && isChain h (h.cells a).next l
  | none, _ :: _ => false
  | some _, [] => false

end SegmentHeap

/-- A segment without its chain pointer `next`. -/
def segData (s : RouteSegment) : RouteSegment := { s with next := none }

namespace RoutingSubregionTile

/-- The constructor `RoutingSubregionTile(sub)`. -/
def new (e : Externals) (sub : RouteSubregion) : RoutingSubregionTile where
  subregion := sub
  access := 0
  loaded := 0
  size := e.sizeofTile % 4294967296
  routes := []

def isLoaded (t : RoutingSubregionTile) : Bool := 0 < t.loaded

def setLoaded (t : RoutingSubregionTile) : RoutingSubregionTile :=
  { t with loaded := (t.loaded.natAbs : Int) + 1 }

def unload (t : RoutingSubregionTile) : RoutingSubregionTile :=
  { t with routes := [], size := 0, loaded := -(t.loaded.natAbs : Int) }

def getUnloadCount (t : RoutingSubregionTile) : Int := (t.loaded.natAbs : Int)

/-- `getSize()`: the sum is computed in `size_t` and returned as `int`. -/
def getSize (e : Externals) (t : RoutingSubregionTile) : Int :=
  toInt32 ((t.size + t.routes.length * e.sizeofRoutesEntry : Nat) : Int)

/-- The pointer `routes[k]` as a lookup that inserts nothing: null when `k` is
no key. -/
def head (t : RoutingSubregionTile) (k : Int) : Option Addr := (t.routes.lookup k).join

/-- One pass of the loop body of `add` for the point index `i`: the routes map
and the heap after it; `none` when the walk to the tail does not end. -/
def add.step (o : RouteDataObject) (i : Nat) (routes : List (Int × Option Addr))
    (h : SegmentHeap) : Option (List (Int × Option Addr) × SegmentHeap) :=
  let l := o.keyAt i
  let segment := h.alloc (RouteSegment.new o i)
  match (routes.lookup l).join with
  | none => some (mapSet routes l (some segment.1), segment.2)
  | some orig =>
    match segment.2.walkTail segment.2.size orig with
    | some tail =>
      some (routes, segment.2.write tail { segment.2.cells tail with next := some segment.1 })
    | none => none

/-- The loop of `add` over the point indices `is`. -/
def add.loop (o : RouteDataObject) :
    List Nat → List (Int × Option Addr) → SegmentHeap →
      Option (List (Int × Option Addr) × SegmentHeap)
  | [], routes, h => some (routes, h)
  | i :: is, routes, h =>
    match add.step o i routes h with
    | none => none
    | some r => add.loop o is r.1 r.2

/-- `add(o)`: the tile and the heap of segments after it. The `size` field is
a 32-bit unsigned: the sum is taken modulo `2^32`. -/
def add (e : Externals) (t : RoutingSubregionTile) (h : SegmentHeap) (o : RouteDataObject) :
    Option (RoutingSubregionTile × SegmentHeap) :=
  match add.loop o (List.range o.pointsX.length) t.routes h with
  | none => none
  | some r =>
    some ({ t with
        size := (t.size + o.size + e.sizeofSegment * o.pointsX.length) % 4294967296,
        routes := r.1 }, r.2)

end RoutingSubregionTile

/-- The addresses of the segments that the loop of `add` over the point
indices `is` allocates for the key `k`, when the first allocation is at
`base`. -/
def RoutingSubregionTile.add.newAddrs (o : RouteDataObject) (k : Int) : List Nat → Addr → List Addr
  | [], _ => []
  | i :: is, base =>
    (if o.keyAt i = k then [base] else []) ++ RoutingSubregionTile.add.newAddrs o k is (base + 1)

/-- The chains stored in a routes map are well formed in the heap `h`: under
every key the chain is a finite list of allocated segments, and the chains of
two different keys have no segment in common. -/
def RoutingSubregionTile.ChainsWF (routes : List (Int × Option Addr)) (h : SegmentHeap) : Prop :=
  (∀ k, ∃ l, h.isChain ((routes.lookup k).join) l = true) ∧
  ∀ k1 k2 l1 l2, k1 ≠ k2 → h.isChain ((routes.lookup k1).join) l1 = true →
    h.isChain ((routes.lookup k2).join) l2 = true → ∀ a ∈ l1, a ∉ l2

/-- A call of one of the methods `setLoaded`, `unload`, `add` of a tile. -/
inductive TileOp where
  | setLoaded : TileOp
  | unload : TileOp
  | add : RouteDataObject → TileOp

namespace TileOp

def apply (e : Externals) (op : TileOp) (s : RoutingSubregionTile × SegmentHeap) :
    Option (RoutingSubregionTile × SegmentHeap) :=
  match op with
  | setLoaded => some (s.1.setLoaded, s.2)
  | unload => some (s.1.unload, s.2)
  | add o => s.1.add e s.2 o

/-- The calls `ops` made one after the other. -/
def run (e : Externals) : List TileOp → RoutingSubregionTile × SegmentHeap →
    Option (RoutingSubregionTile × SegmentHeap)
  | [], s => some s
  | op :: ops, s =>
    match op.apply e s with
    | none => none
    | some s1 => run e ops s1

/-- The number of `setLoaded` calls among `ops`. -/
def loadCount : List TileOp → Nat
  | [] => 0
  | setLoaded :: ops => loadCount ops + 1
  | _ :: ops => loadCount ops

/-- Whether the most recent of the `setLoaded`/`unload` calls among `ops`,
made after a state of which `before` tells the same, was `setLoaded`. -/
def lastIsLoad : Bool → List TileOp → Bool
  | before, [] => before
  | _, setLoaded :: ops => lastIsLoad true ops
  | _, unload :: ops => lastIsLoad false ops
  | before, add _ :: ops => lastIsLoad before ops

end TileOp

/-- The empty heap of segments. -/
def heapEmpty : SegmentHeap := heapOf []

/-- A subregion descriptor with the given left bound and file pointer. -/
def subregionOf (left filePointer : Nat) : RouteSubregion where
  left := left
  right := left + 1024
  top := 0
  bottom := 1024
  filePointer := filePointer

/-- Concrete externals: `sizeof` values of a 64-bit platform, tiles sorted by
ascending `access`, an index that answers every query with `subregions` and a
reader that finds `roads` in every subregion. -/
def externalsOf (subregions : List RouteSubregion) (roads : List (Option RouteDataObject)) :
    Externals where
  sizeofTile := 96
  sizeofSegment := 96
  sizeofRoutesEntry := 24
  sizeofTilesEntry := 24
  sortTiles := fun tiles l => l.insertionSort fun a b => (tiles a).access ≤ (tiles b).access
  searchRouteSubregions := fun _ _ => subregions
  searchRouteDataForSubRegion := fun _ => roads

/-- A road with `n + 1` points: `n` times the point (0, 0), then the point
(1, 0), which alone has the key `pointKey 1 0`. -/
def roadMany (n : Nat) : RouteDataObject where
  region := regionOf [("highway", "primary")]
  types := [0]
  pointsX := List.replicate n 0 ++ [1]
  pointsY := List.replicate (n + 1) 0
  pointTypes := []
  id := 7
  size := 0

/-! ## `RoutingContext` -/

/-- The fields of `struct RoutingContext` that the functions embedded here
read or write. Tiles are shared objects (`SHARED_PTR<RoutingSubregionTile>`):
they live in the heap `tiles` (`tilesSize` tiles allocated so far), and the two
maps hold their addresses. `segments` is the heap of all `RouteSegment`
objects. -/
structure RoutingContext where
  visitedSegments : Int
  loadedTiles : Int
  firstRoadDirection : Int
  firstRoadId : Int
  config : RoutingConfiguration
  basemap : Bool
  subregionTiles : List (Int × Addr)
  indexedSubregions : List (Int × List Addr)
  tiles : Addr → RoutingSubregionTile
  tilesSize : Nat
  segments : SegmentHeap

/-- The key `((int64_t)rs.left << 31) + rs.filePointer` of a subregion (exact:
no overflow for 32-bit `left` below `2^32 - 1`). -/
def subregionKey (rs : RouteSubregion) : Int := (rs.left : Int) * 2147483648 + rs.filePointer

/-- The shift `x << s` of a `uint32_t` (modulo `2^32`). -/
def shl32 (x : Nat) (s : Int) : Nat := (x % 4294967296 * 2 ^ s.toNat) % 4294967296

/-- The coarse tile id `(xloc << z) + yloc` of `loadHeaders`, computed in
`uint32_t` and widened to `int64_t`. -/
def tileIdOf (z : Int) (xloc yloc : Nat) : Int :=
  (((shl32 xloc z + yloc % 4294967296) % 4294967296 : Nat) : Int)

namespace RoutingContext

/-- The constructor `RoutingContext(config)`, in a process whose heap of
segments is `segments`: no tile is allocated, the maps are empty. -/
def new (config : RoutingConfiguration) (basemap : Bool) (segments : SegmentHeap) :
    RoutingContext where
  visitedSegments := 0
  loadedTiles := 0
  firstRoadDirection := 0
  firstRoadId := 0
  config := config
  basemap := basemap
  subregionTiles := []
  indexedSubregions := []
  tiles := fun _ => ⟨⟨0, 0, 0, 0, 0⟩, 0, 0, 0, []⟩
  tilesSize := 0
  segments := segments

def acceptLine (c : RoutingContext) (r : RouteDataObject) : Bool := c.config.acceptLine r

/-- `getSize()`: twice the entries of `subregionTiles`, converted to `int`, to
which the loop adds the size of each tile stored in the map. Every addition is
an `int` addition: a sum outside the range of `int` wraps (so the order in
which the map is visited does not matter). -/
def getSize (e : Externals) (c : RoutingContext) : Int :=
  ((c.subregionTiles.map Prod.snd).map fun a => (c.tiles a).getSize e).foldl
    (fun sz g => toInt32 (sz + g))
    (toInt32 ((c.subregionTiles.length * e.sizeofTilesEntry * 2 : Nat) : Int))

/-- The vector `list` of `unloadUnusedTiles` after the `sort`: the currently
loaded tiles of `subregionTiles` in the order the comparator yields. -/
def unloadUnusedTiles.list (e : Externals) (c : RoutingContext) : List Addr :=
  e.sortTiles c.tiles ((c.subregionTiles.map Prod.snd).filter fun a => (c.tiles a).isLoaded)

/-- The loop `while(sz >= desirableSize && i < list.size())` of
`unloadUnusedTiles`: the tiles after it and the counter `unloadedTiles`. The
comparison converts the `int` `sz` to `float`; `sz -= unload->getSize()` is an
`int` subtraction. -/
def unloadUnusedTiles.loop (e : Externals) (desirableSize : Float32) :
    Int → List Addr → (Addr → RoutingSubregionTile) → (Addr → RoutingSubregionTile) × Nat
  | _, [], tiles => (tiles, 0)
  | sz, a :: rest, tiles =>
    if Float32.le desirableSize (Float32.ofInt sz) then
      let r := unloadUnusedTiles.loop e desirableSize (toInt32 (sz - (tiles a).getSize e)) rest
        (Function.update tiles a (tiles a).unload)
      (r.1, r.2 + 1)
    else (tiles, 0)

/-- The loop `list[i]->access /= 3` of `unloadUnusedTiles` (`int` division,
truncating). -/
def unloadUnusedTiles.decay :
    List Addr → (Addr → RoutingSubregionTile) → (Addr → RoutingSubregionTile)
  | [], tiles => tiles
  | a :: rest, tiles =>
    unloadUnusedTiles.decay rest
      (Function.update tiles a { tiles a with access := Int.tdiv (tiles a).access 3 })

/-- The value of `float desirableSize = memoryLimit * 0.7f * 1024 * 1024`: the
`int` operands are converted to `float` and each product is rounded. -/
def unloadUnusedTiles.desirableSize (memoryLimit : Int) : Float32 :=
  (((Float32.ofInt memoryLimit).mul Float32.lit07).mul (Float32.ofInt 1024)).mul
    (Float32.ofInt 1024)

/-- The value of `float critical = 0.9f * memoryLimit * 1024 * 1024`: the `int`
operands are converted to `float` and each product is rounded. -/
def unloadUnusedTiles.critical (memoryLimit : Int) : Float32 :=
  ((Float32.lit09.mul (Float32.ofInt memoryLimit)).mul (Float32.ofInt 1024)).mul
    (Float32.ofInt 1024)

/-- `unloadUnusedTiles(memoryLimit)`. The test `sz < critical` converts the
`int` `sz` to `float`. -/
def unloadUnusedTiles (e : Externals) (c : RoutingContext) (memoryLimit : Int) :
    RoutingContext :=
  if Float32.lt (Float32.ofInt (c.getSize e)) (unloadUnusedTiles.critical memoryLimit) then c
  else
    let list := unloadUnusedTiles.list e c
    let r := unloadUnusedTiles.loop e (unloadUnusedTiles.desirableSize memoryLimit)
      (c.getSize e) list c.tiles
    { c with tiles := unloadUnusedTiles.decay list r.1 }

/-- The inner loop of `loadHeaderObjects` over the result of
`searchRouteDataForSubRegion`: every non-null road that `acceptLine` accepts
is added to the tile. -/
def loadHeaderObjects.addAll (e : Externals) (config : RoutingConfiguration) :
    List (Option RouteDataObject) → RoutingSubregionTile → SegmentHeap →
      Option (RoutingSubregionTile × SegmentHeap)
  | [], t, h => some (t, h)
  | none :: rest, t, h => loadHeaderObjects.addAll e config rest t h
  | some o :: rest, t, h =>
    if config.acceptLine o then
      match t.add e h o with
      | none => none
      | some r => loadHeaderObjects.addAll e config rest r.1 r.2
    else loadHeaderObjects.addAll e config rest t h

/-- The second loop of `loadHeaderObjects` over the subregions of the coarse
tile: each one that is not loaded is marked loaded and filled. -/
def loadHeaderObjects.loop (e : Externals) :
    List Addr → RoutingContext → Option RoutingContext
  | [], c => some c
  | a :: rest, c =>
    if (c.tiles a).isLoaded then loadHeaderObjects.loop e rest c
    else
      match loadHeaderObjects.addAll e c.config
          (e.searchRouteDataForSubRegion (c.tiles a).subregion) (c.tiles a).setLoaded
          c.segments with
      | none => none
      | some r =>
        loadHeaderObjects.loop e rest
          { c with
            loadedTiles := c.loadedTiles + 1,
            tiles := Function.update c.tiles a r.1,
            segments := r.2 }

/-- `loadHeaderObjects(tileId)`. The reference `indexedSubregions[tileId]`
inserts an empty list when the tile id is no key yet. -/
def loadHeaderObjects (e : Externals) (c : RoutingContext) (tileId : Int) :
    Option RoutingContext :=
  let subregions := (c.indexedSubregions.lookup tileId).getD []
  let c0 :=
    if (c.indexedSubregions.lookup tileId).isNone then
      { c with indexedSubregions := c.indexedSubregions ++ [(tileId, [])] }
    else c
  let gc := subregions.any fun a => !(c0.tiles a).isLoaded
  let c1 := if gc then c0.unloadUnusedTiles e c0.config.memoryLimitation else c0
  loadHeaderObjects.loop e subregions c1

/-- The loop of `loadHeaders` over the subregions that the index returned: the
tile of each subregion is looked up under its key in `subregionTiles`, created
there when missing, and pushed to `collection`. -/
def loadHeaders.collect (e : Externals) :
    List RouteSubregion → RoutingContext → List Addr → RoutingContext × List Addr
  | [], c, collection => (c, collection)
  | rs :: rest, c, collection =>
    match c.subregionTiles.lookup (subregionKey rs) with
    | some a => loadHeaders.collect e rest c (collection ++ [a])
    | none =>
      loadHeaders.collect e rest
        { c with
          subregionTiles := mapSet c.subregionTiles (subregionKey rs) c.tilesSize,
          tiles := Function.update c.tiles c.tilesSize (RoutingSubregionTile.new e rs),
          tilesSize := c.tilesSize + 1 }
        (collection ++ [c.tilesSize])

/-- `loadHeaders(xloc, yloc)`. -/
def loadHeaders (e : Externals) (c : RoutingContext) (xloc yloc : Nat) :
    Option RoutingContext :=
  let z := c.config.zoomToLoad
  let tz := 31 - z
  let tileId := tileIdOf z xloc yloc
  let c1 :=
    if (c.indexedSubregions.lookup tileId).isNone then
      let q : SearchQuery :=
        ⟨shl32 xloc tz, shl32 (xloc + 1) tz, shl32 yloc tz, shl32 (yloc + 1) tz⟩
      let r := loadHeaders.collect e (e.searchRouteSubregions q c.basemap) c []
      { r.1 with indexedSubregions := mapSet r.1.indexedSubregions tileId r.2 }
    else c
  loadHeaderObjects e c1 tileId

/-- The calls `loadHeaders(xloc, yloc)` for the listed pairs, one after the
other. -/
def runLoadHeaders (e : Externals) : List (Nat × Nat) → RoutingContext → Option RoutingContext
  | [], c => some c
  | xy :: rest, c =>
    match c.loadHeaders e xy.1 xy.2 with
    | none => none
    | some c1 => runLoadHeaders e rest c1

end RoutingContext

/-- The counter `unloadedTiles` that `unloadUnusedTiles` logs when it runs the
eviction: the number of tiles it has unloaded. -/
def RoutingContext.unloadUnusedTiles.unloadedTiles (e : Externals) (c : RoutingContext)
    (memoryLimit : Int) : Nat :=
  (RoutingContext.unloadUnusedTiles.loop e
    (RoutingContext.unloadUnusedTiles.desirableSize memoryLimit) (c.getSize e)
    (RoutingContext.unloadUnusedTiles.list e c) c.tiles).2

/-- A configuration with no speed entry and the default parameters. -/
def cfgDefault : RoutingConfiguration := configOf [] [] [] []

/-- Three tiles for the examples: tile 0 loaded with size 40000000 and
`access` 7, tile 1 loaded with size 20000000 and `access` 9, tile 2 not loaded
with `access` 5. -/
def tilesThree : Addr → RoutingSubregionTile := fun a =>
  if a = 0 then ⟨subregionOf 0 10, 7, 1, 40000000, []⟩
  else if a = 1 then ⟨subregionOf 1024 20, 9, 2, 20000000, []⟩
  else ⟨subregionOf 2048 30, 5, -1, 0, []⟩

/-- A context that holds the tiles of `tilesThree` under their keys; its size,
60000144, is above 90% of a limit of 48 MB. -/
def ctxThree : RoutingContext :=
  { RoutingContext.new cfgDefault false heapEmpty with
    subregionTiles := [(subregionKey (subregionOf 0 10), 0),
      (subregionKey (subregionOf 1024 20), 1), (subregionKey (subregionOf 2048 30), 2)]
    tiles := tilesThree
    tilesSize := 3 }

/-- A context with one loaded tile of size 45298433: its size, 45298481, is
below 90% of a limit of 48 MB (45298483.2) by less than 3. -/
def ctxNearCritical : RoutingContext :=
  { RoutingContext.new cfgDefault false heapEmpty with
    subregionTiles := [(subregionKey (subregionOf 0 10), 0)]
    tiles := fun a =>
      if a = 0 then ⟨subregionOf 0 10, 7, 1, 45298433, []⟩
      else ⟨subregionOf 2048 30, 5, -1, 0, []⟩
    tilesSize := 1 }

/-- A context with two loaded tiles, of sizes 14767850 (`access` 7) and
35232054 (`access` 9): its size is 50000000, and 35232150 once the first tile
is unloaded, below 70% of a limit of 48 MB (35232153.6) by less than 4. -/
def ctxRound : RoutingContext :=
  { RoutingContext.new cfgDefault false heapEmpty with
    subregionTiles := [(subregionKey (subregionOf 0 10), 0),
      (subregionKey (subregionOf 1024 20), 1)]
    tiles := fun a =>
      if a = 0 then ⟨subregionOf 0 10, 7, 1, 14767850, []⟩
      else if a = 1 then ⟨subregionOf 1024 20, 9, 1, 35232054, []⟩
      else ⟨subregionOf 2048 30, 5, -1, 0, []⟩
    tilesSize := 2 }

/-! ## `RoutingContext::loadRouteSegment` and `RoutingContext::loadTileData` -/

/-- `calcRouteId(o, ind)`: `((int64_t) o->id << 10) + ind`, in `int64_t`. -/
def calcRouteId (o : RouteDataObject) (ind : Int) : Int := toInt64 (o.id * 1024 + ind)

namespace RoutingContext

/-- The locals `xloc = x31 >> (31 - z)` and `yloc = y31 >> (31 - z)` of
`loadRouteSegment`: arithmetic shift of an `int`, widened to `int64_t`. -/
def loadRouteSegment.loc (z : Int) (x31 : Int) : Int := x31 / 2 ^ (31 - z).toNat

/-- The local `l = (((uint64_t) x31) << 31) + (uint64_t) y31` of
`loadRouteSegment`, as the `int64_t` key it is used as. -/
def loadRouteSegment.key (x31 y31 : Int) : Int :=
  pointKey (x31 % 18446744073709551616).toNat (y31 % 18446744073709551616).toNat

/-- The local `tileId = (xloc << z) + yloc` of `loadRouteSegment`, computed in
`int64_t`. -/
def loadRouteSegment.tileId (z : Int) (x31 y31 : Int) : Int :=
  toInt64 (loadRouteSegment.loc z x31 * 2 ^ z.toNat + loadRouteSegment.loc z y31)

/-- The test `toCmp.get() == NULL || toCmp->pointsX.size() < ro->pointsX.size()`
of `loadRouteSegment` for the road `ro` at the point index `start`, with
`toCmp` the entry of `excludeDuplications` under `calcRouteId(ro, start)`. -/
def loadRouteSegment.accepts (excl : List (Int × RouteDataObject)) (ro : RouteDataObject)
    (start : Nat) : Bool :=
  match excl.lookup (calcRouteId ro start) with
  | none => true
  | some toCmp => decide (toCmp.pointsX.length < ro.pointsX.length)

/-- The loop `while (segment.get() != NULL)` of `loadRouteSegment`, with fuel:
the map `excludeDuplications`, the pointer `original` and the heap after the
walk over the chain that starts at `segment`; `none` when the fuel runs out
(the loop of the code would not end on a cyclic chain). -/
def loadRouteSegment.walk :
    Nat → Option Addr → List (Int × RouteDataObject) → Option Addr → SegmentHeap →
      Option (List (Int × RouteDataObject) × Option Addr × SegmentHeap)
  | _, none, excl, original, h => some (excl, original, h)
  | 0, some _, _, _, _ => none
  | fuel + 1, some a, excl, original, h =>
    let ro := (h.cells a).road
    let start := (h.cells a).getSegmentStart
    if loadRouteSegment.accepts excl ro start then
      let s := h.alloc { RouteSegment.new ro start with next := original }
      loadRouteSegment.walk fuel (s.2.cells a).next (mapSet excl (calcRouteId ro start) ro)
        (some s.1) s.2
    else loadRouteSegment.walk fuel (h.cells a).next excl original h

/-- The tile after the statements `segment = subregions[j]->routes[l]` and
`subregions[j]->access++`: the reference `routes[l]` inserts a null entry when
`l` is no key of the map. -/
def loadRouteSegment.touch (l : Int) (t : RoutingSubregionTile) : RoutingSubregionTile :=
  { t with
    routes := if (t.routes.lookup l).isNone then t.routes ++ [(l, none)] else t.routes,
    access := t.access + 1 }

/-- The loop of `loadRouteSegment` over the subregions of the coarse tile. -/
def loadRouteSegment.loop (l : Int) :
    List Addr → RoutingContext → List (Int × RouteDataObject) → Option Addr →
      Option (Option Addr × RoutingContext)
  | [], c, _, original => some (original, c)
  | a :: rest, c, excl, original =>
    if (c.tiles a).isLoaded then
      match loadRouteSegment.walk c.segments.size ((c.tiles a).head l) excl original
          c.segments with
      | none => none
      | some r =>
        loadRouteSegment.loop l rest
          { c with
            tiles := Function.update c.tiles a (loadRouteSegment.touch l (c.tiles a)),
            segments := r.2.2 }
          r.1 r.2.1
    else loadRouteSegment.loop l rest c excl original

/-- `loadRouteSegment(x31, y31)`: the returned pointer and the context after
the call. The arguments of `loadHeaders` are converted to `uint32_t`; the
reference `indexedSubregions[tileId]` inserts an empty list when `tileId` is
no key. -/
def loadRouteSegment (e : Externals) (c : RoutingContext) (x31 y31 : Int) :
    Option (Option Addr × RoutingContext) :=
  let z := c.config.zoomToLoad
  let xloc := loadRouteSegment.loc z x31
  let yloc := loadRouteSegment.loc z y31
  let tileId := loadRouteSegment.tileId z x31 y31
  match c.loadHeaders e (xloc % 4294967296).toNat (yloc % 4294967296).toNat with
  | none => none
  | some c1 =>
    let subregions := (c1.indexedSubregions.lookup tileId).getD []
    let c2 :=
      if (c1.indexedSubregions.lookup tileId).isNone then
        { c1 with indexedSubregions := c1.indexedSubregions ++ [(tileId, [])] }
      else c1
    loadRouteSegment.loop (loadRouteSegment.key x31 y31) subregions c2 [] none

/-- The loop of `loadTileData` over the entries of one `routes` map: the road
of the head of each chain is pushed when its id is not in `ids` yet (the body
is an `if`, so the segments behind the head are not visited). -/
def loadTileData.visitRoutes (h : SegmentHeap) :
    List (Int × Option Addr) → List Int → List RouteDataObject →
      List Int × List RouteDataObject
  | [], ids, out => (ids, out)
  | (_, none) :: rest, ids, out => loadTileData.visitRoutes h rest ids out
  | (_, some a) :: rest, ids, out =>
    if (h.cells a).road.id ∈ ids then loadTileData.visitRoutes h rest ids out
    else
      loadTileData.visitRoutes h rest (ids ++ [(h.cells a).road.id])
        (out ++ [(h.cells a).road])

/-- The loop of `loadTileData` over the subregions of one coarse tile. -/
def loadTileData.visitTiles (c : RoutingContext) :
    List Addr → List Int → List RouteDataObject → List Int × List RouteDataObject
  | [], ids, out => (ids, out)
  | a :: rest, ids, out =>
    if (c.tiles a).isLoaded then
      let r := loadTileData.visitRoutes c.segments (c.tiles a).routes ids out
      loadTileData.visitTiles c rest r.1 r.2
    else loadTileData.visitTiles c rest ids out

/-- The locals `xloc`, `yloc` of `loadTileData`:
`(x31 + i*coordinatesShift) >> (31 - z)` in `int`, stored in a `uint32_t`. -/
def loadTileData.loc (z coordinatesShift x31 i : Int) : Nat :=
  (toInt32 (x31 + toInt32 (i * coordinatesShift)) / 2 ^ (31 - z).toNat % 4294967296).toNat

/-- The body of the two nested loops of `loadTileData` for the offsets `i`,
`j`: the headers of the coarse tile are loaded and its loaded subregions are
visited. -/
def loadTileData.cell (e : Externals) (coordinatesShift x31 y31 : Int) (ij : Int × Int)
    (s : RoutingContext × List Int × List RouteDataObject) :
    Option (RoutingContext × List Int × List RouteDataObject) :=
  let z := s.1.config.zoomToLoad
  let xloc := loadTileData.loc z coordinatesShift x31 ij.1
  let yloc := loadTileData.loc z coordinatesShift y31 ij.2
  let tileId := tileIdOf z xloc yloc
  match s.1.loadHeaders e xloc yloc with
  | none => none
  | some c1 =>
    let subregions := (c1.indexedSubregions.lookup tileId).getD []
    let c2 :=
      if (c1.indexedSubregions.lookup tileId).isNone then
        { c1 with indexedSubregions := c1.indexedSubregions ++ [(tileId, [])] }
      else c1
    let r := loadTileData.visitTiles c2 subregions s.2.1 s.2.2
    some (c2, r.1, r.2)

/-- The cells `cells`, one after the other. -/
def loadTileData.cells (e : Externals) (coordinatesShift x31 y31 : Int) :
    List (Int × Int) → RoutingContext × List Int × List RouteDataObject →
      Option (RoutingContext × List Int × List RouteDataObject)
  | [], s => some s
  | ij :: rest, s =>
    match loadTileData.cell e coordinatesShift x31 y31 ij s with
    | none => none
    | some s1 => loadTileData.cells e coordinatesShift x31 y31 rest s1

/-- The values of `t` and `coordinatesShift` that `loadTileData` computes from
`zoomToLoad` and `zoomAround` (`int` arithmetic). -/
def loadTileData.radius (zoomToLoad zoomAround : Int) : Int × Int :=
  if zoomToLoad - zoomAround ≤ 0 then (1, toInt32 (2 ^ (31 - zoomAround).toNat))
  else (toInt32 (2 ^ (zoomToLoad - zoomAround).toNat), toInt32 (2 ^ (31 - zoomToLoad).toNat))

/-- The offsets `-t, ..., t` that the loops of `loadTileData` run over. -/
def loadTileData.offsets (t : Int) : List Int :=
  (List.range (2 * t + 1).toNat).map fun k => -t + (k : Int)

/-- `loadTileData(x31, y31, zoomAround, dataObjects)`: the context and the list
`dataObjects` after the call. -/
def loadTileData (e : Externals) (c : RoutingContext) (x31 y31 zoomAround : Int)
    (dataObjects : List RouteDataObject) : Option (RoutingContext × List RouteDataObject) :=
  let r := loadTileData.radius c.config.zoomToLoad zoomAround
  let ijs := (loadTileData.offsets r.1).flatMap fun i => (loadTileData.offsets r.1).map fun j => (i, j)
  match loadTileData.cells e r.2 x31 y31 ijs (c, [], dataObjects) with
  | none => none
  | some s => some (s.1, s.2.2)

end RoutingContext

/-! ## Concrete contexts used by the examples -/

/-- A loaded tile of the subregion `sub` after `add` of the listed roads, in
this order, and the heap of segments after it. -/
def tileWith (e : Externals) (sub : RouteSubregion) (roads : List RouteDataObject)
    (h : SegmentHeap) : RoutingSubregionTile × SegmentHeap :=
  roads.foldl (fun s o => (s.1.add e s.2 o).getD s) ((RoutingSubregionTile.new e sub).setLoaded, h)

/-- A context of the default configuration (zoom 16) that holds the listed
tiles at the addresses 0, 1, ..., each under the key of its subregion, all of
them indexed under the coarse tile (3, 5), whose id is 196613. -/
def ctxOf (tiles : List RoutingSubregionTile) (segments : SegmentHeap) : RoutingContext :=
  { RoutingContext.new cfgDefault false segments with
    subregionTiles := tiles.enum.map fun p => (subregionKey p.2.subregion, p.1)
    indexedSubregions := [(196613, List.range tiles.length)]
    tiles := fun a => tiles.getD a ⟨⟨0, 0, 0, 0, 0⟩, 0, 0, 0, []⟩
    tilesSize := tiles.length }

/-- A copy of the road 7 with two points, the first one (98304, 163840). -/
def roadLow : RouteDataObject :=
  roadOf 7 [("highway", "primary")] [0] [(98304, 163840), (98400, 163900)] []

/-- A copy of the road 7 with three points (more detail), with the same first
point (98304, 163840). -/
def roadHigh : RouteDataObject :=
  roadOf 7 [("highway", "primary")] [0] [(98304, 163840), (98350, 163870), (98400, 163900)] []

/-- A context with two loaded subregions under the coarse tile (3, 5): the
first holds `roadLow`, the second `roadHigh`. -/
def ctxLowHigh : RoutingContext :=
  let e := externalsOf [] []
  let s0 := tileWith e (subregionOf 0 10) [roadLow] heapEmpty
  let s1 := tileWith e (subregionOf 0 20) [roadHigh] s0.2
  ctxOf [s0.1, s1.1] s1.2

/-- A context with one loaded subregion under the coarse tile (3, 5) that
holds no road. -/
def ctxLoadedEmpty : RoutingContext :=
  ctxOf [(tileWith (externalsOf [] []) (subregionOf 0 10) [] heapEmpty).1] heapEmpty

/-- The road 1 with the points (98304, 163840) and (98400, 163900). -/
def roadFirst : RouteDataObject :=
  roadOf 1 [("highway", "primary")] [0] [(98304, 163840), (98400, 163900)] []

/-- The road 2, whose two points are the points of `roadFirst`. -/
def roadSecond : RouteDataObject :=
  roadOf 2 [("highway", "primary")] [0] [(98304, 163840), (98400, 163900)] []

/-- A context with one loaded subregion under the coarse tile (3, 5) to which
`roadFirst` and then `roadSecond` have been added. -/
def ctxTwoRoads : RoutingContext :=
  let s := tileWith (externalsOf [] []) (subregionOf 0 10) [roadFirst, roadSecond] heapEmpty
  ctxOf [s.1] s.2

/-- The road 0 with 1025 points: 1024 times the point (0, 0), then the point
(98304, 163840) at index 1024. -/
def roadLong : RouteDataObject where
  region := regionOf [("highway", "primary")]
  types := [0]
  pointsX := List.replicate 1024 0 ++ [98304]
  pointsY := List.replicate 1024 0 ++ [163840]
  pointTypes := []
  id := 0
  size := 0

/-- The heap after `add(roadLong)` and `add(roadFirst)` on an empty heap: the
segment of the point `i` of `roadLong` is at the address `i` (the first 1024
are chained under the key of (0, 0)), the two segments of `roadFirst` are at
1025 and 1026, and the segment 1024 is followed by the segment 1025 in the
chain of the point (98304, 163840). -/
def heapLong : SegmentHeap :=
  ⟨fun a =>
    if a < 1023 then { RouteSegment.new roadLong a with next := some (a + 1) }
    else if a = 1023 then RouteSegment.new roadLong 1023
    else if a = 1024 then { RouteSegment.new roadLong 1024 with next := some 1025 }
    else if a = 1025 then RouteSegment.new roadFirst 0
    else RouteSegment.new roadFirst 1, 1027⟩

/-- A context with one loaded subregion under the coarse tile (3, 5) that
holds `roadLong` and `roadFirst`, added in this order. -/
def ctxLong : RoutingContext :=
  ctxOf
    [{ (RoutingSubregionTile.new (externalsOf [] []) (subregionOf 0 10)).setLoaded with
        size := 98688,
        routes := [(pointKey 0 0, some 0), (pointKey 98304 163840, some 1024),
          (pointKey 98400 163900, some 1026)] }]
    heapLong

namespace SegmentHeap

/-- The segments of the chain that starts at `p`, at most `fuel` of them. -/
def chainFrom (h : SegmentHeap) : Nat → Option Addr → List Addr
  | 0, _ => []
  | _ + 1, none => []
  | fuel + 1, some a => a :: chainFrom h fuel (h.cells a).next

end SegmentHeap

/-- What a caller of `loadRouteSegment` reads from the returned chain: the
road id, the point index and the number of points of the road of each
segment, in chain order. -/
def returnedPairs (r : Option Addr × RoutingContext) : List (Int × Nat × Nat) :=
  (r.2.segments.chainFrom r.2.segments.size r.1).map fun a =>
    ((r.2.segments.cells a).road.id, (r.2.segments.cells a).segmentStart,
      (r.2.segments.cells a).road.pointsX.length)

/-- The context of `ctxLowHigh` with the two subregions in the other order:
the first holds `roadHigh`, the second `roadLow`. -/
def ctxHighLow : RoutingContext :=
  let e := externalsOf [] []
  let s0 := tileWith e (subregionOf 0 10) [roadHigh] heapEmpty
  let s1 := tileWith e (subregionOf 0 20) [roadLow] s0.2
  ctxOf [s0.1, s1.1] s1.2

/-- The road id and the point index of each segment of the chain stored in the
tile `a` of the context under the key of the point `(x, y)`. -/
def storedPairs (c : RoutingContext) (a : Addr) (x y : Nat) : List (Int × Nat) :=
  (c.segments.chainFrom c.segments.size ((c.tiles a).head (pointKey x y))).map fun s =>
    ((c.segments.cells s).road.id, (c.segments.cells s).segmentStart)

/-! ## Invariants of a routing context -/

namespace RoutingContext

/-- Every chain stored in a tile of the context is a finite list of allocated
segments (so the walks of `add` and of `loadRouteSegment` end). -/
def FiniteChains (c : RoutingContext) : Prop :=
  ∀ a k, ∃ l, c.segments.isChain ((c.tiles a).head k) l = true

/-- The maps of the context are consistent with its tiles: `subregionTiles`
has one entry per key; each entry holds an allocated tile, under the key of
the subregion of that tile; every allocated tile is stored under the key of
its subregion; and the lists of `indexedSubregions` hold allocated tiles. -/
def MapsWF (c : RoutingContext) : Prop :=
  (c.subregionTiles.map Prod.fst).Nodup ∧
  (∀ k a, c.subregionTiles.lookup k = some a →
    a < c.tilesSize ∧ subregionKey (c.tiles a).subregion = k) ∧
  (∀ a, a < c.tilesSize →
    c.subregionTiles.lookup (subregionKey (c.tiles a).subregion) = some a) ∧
  (∀ t l, c.indexedSubregions.lookup t = some l → ∀ a ∈ l, a < c.tilesSize)

end RoutingContext

/-- Two collections of externals that differ at most in the index query
`searchRouteSubregions`. -/
def Externals.sameButQuery (e1 e2 : Externals) : Prop :=
  e1.sizeofTile = e2.sizeofTile ∧ e1.sizeofSegment = e2.sizeofSegment ∧
  e1.sizeofRoutesEntry = e2.sizeofRoutesEntry ∧ e1.sizeofTilesEntry = e2.sizeofTilesEntry ∧
  e1.sortTiles = e2.sortTiles ∧
  e1.searchRouteDataForSubRegion = e2.searchRouteDataForSubRegion

/-- The context `ctxThree` with its tiles 1 (loaded) and 2 (not loaded) indexed
under the coarse tile 196613. -/
def ctxIndexed : RoutingContext :=
  { ctxThree with indexedSubregions := [(196613, [1, 2])] }

/-! ## The chain that `loadRouteSegment` returns, as a function of what it visits -/

namespace SegmentHeap

/-- The road and the point index of each segment of the list `l`. -/
def items (h : SegmentHeap) (l : List Addr) : List (RouteDataObject × Nat) :=
  l.map fun x => ((h.cells x).road, (h.cells x).segmentStart)

end SegmentHeap

namespace RoutingContext

/-- The duplicate filter of `loadRouteSegment` over a sequence of visited
(road, point index) pairs: the map `excludeDuplications` after it and the
pairs that passed the test, in visiting order. -/
def loadRouteSegment.select :
    List (RouteDataObject × Nat) → List (Int × RouteDataObject) →
      List (Int × RouteDataObject) × List (RouteDataObject × Nat)
  | [], excl => (excl, [])
  | it :: rest, excl =>
    if loadRouteSegment.accepts excl it.1 it.2 then
      ((loadRouteSegment.select rest (mapSet excl (calcRouteId it.1 it.2) it.1)).1,
        it :: (loadRouteSegment.select rest (mapSet excl (calcRouteId it.1 it.2) it.1)).2)
    else loadRouteSegment.select rest excl

/-- The (road, point index) pairs that `loadRouteSegment` visits: for each
loaded tile of `subs`, in order, the segments of the chain stored under the
key `l`. -/
def loadRouteSegment.visited (c : RoutingContext) (l : Int) (subs : List Addr) :
    List (RouteDataObject × Nat) :=
  subs.flatMap fun a =>
    if (c.tiles a).isLoaded then
      c.segments.items (c.segments.chainFrom c.segments.size ((c.tiles a).head l))
    else []

end RoutingContext

/-! ## The position of a segment in its road -/

/-- The segment sits at a point of its road that packs to the key `k`: its
`segmentStart` is in the range of `uint16_t` and inside the point array of the
road, and the point of that index has the key `k`. -/
def RouteSegment.atKey (s : RouteSegment) (k : Int) : Prop :=
  s.segmentStart < 65536 ∧ s.segmentStart < s.road.pointsX.length ∧
    s.road.keyAt s.segmentStart = k

/-- The chain that starts at `p` is finite and all its segments sit at points
with the key `k`. -/
def SegmentHeap.PosChain (h : SegmentHeap) (p : Option Addr) (k : Int) : Prop :=
  ∃ l, h.isChain p l = true ∧ ∀ x ∈ l, (h.cells x).atKey k

/-- The chain-position invariant of a context: in every tile the chain stored
under a key is finite and holds segments of points with that key only. -/
def RoutingContext.PosInv (c : RoutingContext) : Prop :=
  ∀ a k, c.segments.PosChain ((c.tiles a).head k) k

/-- The call adds no road with more than 65536 points (the point indices of
such a road do not all fit the `uint16_t` field `segmentStart`). -/
def TileOp.small : TileOp → Bool
  | TileOp.add o => decide (o.pointsX.length ≤ 65536)
  | _ => true

/-- The reader returns no road with more than 65536 points. -/
def Externals.smallRoads (e : Externals) : Prop :=
  ∀ sub o, some o ∈ e.searchRouteDataForSubRegion sub → o.pointsX.length ≤ 65536

/-! # Theorems -/

open RoutingConfiguration

/-! ## `acceptLine` -/

theorem getHighwaySpeed_pos_iff (c : RoutingConfiguration) (key : String) :
    0 < c.getHighwaySpeed key ↔ ∃ s, c.highwaySpeed key = some s ∧ 0 < s := by
  unfold getHighwaySpeed
  cases h : c.highwaySpeed key <;> simp

theorem acceptLine_accepted_iff (c : RoutingConfiguration) (rules : Nat → tag_value)
    (ts : List Nat) :
    acceptLine.accepted c rules ts = true ↔
      ∃ t ∈ ts.map rules, (t.1 = "highway" ∧ 0 < c.getHighwaySpeed t.2) ∨
        0 < c.getHighwaySpeed (t.1 ++ "$" ++ t.2) := by
  induction ts with
  | nil => simp [acceptLine.accepted]
  | cons t ts ih =>
    simp only [acceptLine.accepted, List.map_cons, List.exists_mem_cons_iff]
    split_ifs with h1 h2
    · simp [h1]
    · simp [h2]
    · rw [ih]; simp [h1, h2]

theorem acceptLine_avoided_iff (c : RoutingConfiguration) (rules : Nat → tag_value)
    (ts : List Nat) :
    acceptLine.avoided c rules ts = true ↔
      ∃ t ∈ ts.map rules, c.avoid (t.1 ++ "$" ++ t.2) ≠ none := by
  induction ts with
  | nil => simp [acceptLine.avoided]
  | cons t ts ih =>
    simp only [acceptLine.avoided, List.map_cons, List.exists_mem_cons_iff]
    split_ifs with h1
    · simp [h1]
    · rw [ih]; simp [h1]

/-- C1 (as stated, refuted): with the only speed entry stored under the tag name
`highway`, the road `highway=primary` has a tag that "maps to a positive
entry under the tag alone" and no avoided tag, yet `acceptLine` rejects it. -/
theorem acceptLine_tag_alone_counterexample :
    ¬ (acceptLine cfgTagName roadPrimary = true ↔
        ((∃ t ∈ roadPrimary.tags,
            (∃ s, cfgTagName.highwaySpeed t.1 = some s ∧ 0 < s) ∨
            (∃ s, cfgTagName.highwaySpeed (t.1 ++ "$" ++ t.2) = some s ∧ 0 < s)) ∧
          ∀ t ∈ roadPrimary.tags, cfgTagName.avoid (t.1 ++ "$" ++ t.2) = none)) := by
  have h1 : acceptLine cfgTagName roadPrimary = false := by decide
  rw [h1]
  simp [roadPrimary, roadOf, regionOf, RouteDataObject.tags, cfgTagName, configOf, mapOf,
    Function.update_apply]

/-- C1 (amended): `acceptLine(road)` is true if and only if (a) some tag of the
road either is a `highway` tag whose value alone is a key with a positive
`highwaySpeed` entry, or has its `tag$value` key with a positive entry, and (b)
no tag of the road has its `tag$value` key in the `avoid` map. -/
theorem acceptLine_iff (c : RoutingConfiguration) (r : RouteDataObject) :
    acceptLine c r = true ↔
      ((∃ t ∈ r.tags,
          (t.1 = "highway" ∧ ∃ s, c.highwaySpeed t.2 = some s ∧ 0 < s) ∨
          (∃ s, c.highwaySpeed (t.1 ++ "$" ++ t.2) = some s ∧ 0 < s)) ∧
        ∀ t ∈ r.tags, c.avoid (t.1 ++ "$" ++ t.2) = none) := by
  have ha := acceptLine_accepted_iff c r.region.decodingRules r.types
  have hv := acceptLine_avoided_iff c r.region.decodingRules r.types
  simp only [getHighwaySpeed_pos_iff] at ha
  unfold acceptLine RouteDataObject.tags
  rw [← ha]
  by_cases h1 : acceptLine.accepted c r.region.decodingRules r.types = true
  · by_cases h2 : acceptLine.avoided c r.region.decodingRules r.types = true
    · have h2' := hv.1 h2
      simp only [h1, h2, not_true_eq_false, if_false, if_true, true_and]
      constructor
      · intro h; cases h
      · intro h
        obtain ⟨t, ht, hne⟩ := h2'
        exact absurd (h t ht) hne
    · simp only [Bool.not_eq_true] at h2
      simp only [h1, h2, not_true_eq_false, if_false, true_and, Bool.false_eq_true, true_iff]
      intro t ht
      by_contra hne
      rw [hv.2 ⟨t, ht, hne⟩] at h2
      cases h2
  · simp [h1]

/-! ## `maxSpeed` and `defineSpeed` -/

theorem digitRun_eq_takeWhile (l : List Char) :
    digitRun l = (l.takeWhile Char.isDigit).length ∧
      l.take (digitRun l) = l.takeWhile Char.isDigit := by
  induction l with
  | nil => simp [digitRun]
  | cons ch cs ih =>
    have hd : ('0' ≤ ch ∧ ch ≤ '9') ↔ ch.isDigit = true := by
      simp only [Char.isDigit, Bool.and_eq_true, decide_eq_true_eq, Char.le_def]
      exact Iff.rfl
    by_cases h : ch.isDigit = true
    · have e1 : digitRun (ch :: cs) = digitRun cs + 1 := by simp [digitRun, hd.2 h]
      rw [e1, List.takeWhile_cons, h]
      simp only [if_true, List.length_cons, List.take_succ_cons]
      exact ⟨by rw [ih.1], by rw [ih.2]⟩
    · have h' : ¬ ('0' ≤ ch ∧ ch ≤ '9') := fun hh => h (hd.1 hh)
      simp [digitRun, h', h, List.takeWhile_cons]

theorem atoi_foldl (ds : List Char) (acc : Nat) :
    ds.foldl (fun acc c => acc * 10 + (c.toNat - '0'.toNat)) acc =
      acc * 10 ^ ds.length +
        Nat.ofDigits 10 (ds.reverse.map fun c => c.toNat - '0'.toNat) := by
  induction ds generalizing acc with
  | nil => simp
  | cons d ds ih =>
    rw [List.foldl_cons, ih, List.reverse_cons, List.map_append, Nat.ofDigits_append]
    simp only [List.length_cons, List.map_cons, List.map_nil, Nat.ofDigits_singleton,
      List.length_map, List.length_reverse]
    ring

theorem atoi_value_eq_ofDigits (ds : List Char) :
    atoi.value ds = Nat.ofDigits 10 (ds.reverse.map fun c => c.toNat - '0'.toNat) := by
  unfold atoi.value
  rw [atoi_foldl]
  simp

theorem atoi_of_le (ds : List Char) (h : atoi.value ds ≤ 2147483647) :
    atoi ds = (atoi.value ds : Int) := by
  unfold atoi toInt32
  rw [min_eq_left (le_trans h (by decide))]
  generalize atoi.value ds = n at h
  omega

theorem strFind_iff (pat l : List Char) : strFind pat l = true ↔ pat <:+: l := by
  induction l with
  | nil => simp [strFind, List.isEmpty_iff]
  | cons ch cs ih =>
    rw [strFind, Bool.or_eq_true, ih, List.infix_cons_iff, List.isPrefixOf_iff_prefix]

theorem maxSpeed_loop_eq (rules : Nat → tag_value) (ts : List Nat) :
    maxSpeed.loop rules ts =
      match (ts.map rules).find? (fun t => decide (t.1 = "maxspeed")) with
      | some t => maxSpeed.parse t.2
      | none => 0 := by
  induction ts with
  | nil => simp [maxSpeed.loop]
  | cons t ts ih =>
    by_cases h : (rules t).1 = "maxspeed"
    · simp [maxSpeed.loop, h, List.find?_cons]
    · simp [maxSpeed.loop, h, List.find?_cons, ih]

theorem defineSpeed_loop_eq (c : RoutingConfiguration) (rules : Nat → tag_value)
    (ts : List Nat) :
    defineSpeed.loop c rules ts =
      ((ts.map rules).findSome? fun t =>
        (c.highwaySpeed (t.1 ++ "$" ++ t.2)).filter fun s => decide (0 < s)).map
        fun s => s / (18 / 5) := by
  induction ts with
  | nil => simp [defineSpeed.loop]
  | cons t ts ih =>
    simp only [defineSpeed.loop, List.map_cons, List.findSome?_cons, getHighwaySpeed]
    cases hk : c.highwaySpeed ((rules t).1 ++ "$" ++ (rules t).2) with
    | none => simpa [Option.filter] using ih
    | some s =>
      by_cases hs : 0 < s
      · simp [Option.filter, hs]
      · simpa [Option.filter, hs] using ih

theorem defineSpeed_loop_pos (c : RoutingConfiguration) (rules : Nat → tag_value)
    (ts : List Nat) (s : ℚ) (h : defineSpeed.loop c rules ts = some s) :
    0 < s ∧ ∃ k s0, c.highwaySpeed k = some s0 ∧ s = s0 / (18 / 5) := by
  induction ts with
  | nil => simp [defineSpeed.loop] at h
  | cons t ts ih =>
    simp only [defineSpeed.loop] at h
    split_ifs at h with hp
    · cases h
      refine ⟨by positivity, (rules t).1 ++ "$" ++ (rules t).2, ?_⟩
      unfold getHighwaySpeed at hp ⊢
      cases hk : c.highwaySpeed ((rules t).1 ++ "$" ++ (rules t).2) with
      | none => simp [hk] at hp
      | some s0 => exact ⟨s0, rfl, rfl⟩
    · exact ih h

/-- C2 (as stated, refuted): with `highway$primary` configured at 200 km/h and
the default ceiling of 130 km/h, the accepted road `highway=primary` gets the
speed 200/3.6, above `maxDefaultSpeed`. -/
theorem defineSpeed_ceiling_counterexample :
    ¬ (acceptLine cfgFast roadPrimary = true →
        0 < defineSpeed cfgFast roadPrimary ∧
          defineSpeed cfgFast roadPrimary ≤ cfgFast.maxDefaultSpeed) := by
  have h1 : acceptLine cfgFast roadPrimary = true := by decide
  have h2 : defineSpeed cfgFast roadPrimary = 200 / (18 / 5) := by
    simp [defineSpeed, cfgFast, roadPrimary, configOf, roadOf, regionOf, mapOf, maxSpeed,
      maxSpeed.loop, defineSpeed.loop, getHighwaySpeed, Function.update_apply]
  have h3 : cfgFast.maxDefaultSpeed = 130 / (18 / 5) := rfl
  rw [h2, h3]
  intro h
  have := (h h1).2
  norm_num at this

/-- C2 (amended): for an accepted road `defineSpeed` is positive as soon as
`minDefaultSpeed` is positive, and it is at most `maxDefaultSpeed` when
`minDefaultSpeed <= maxDefaultSpeed`, every configured highway speed (divided
by 3.6) is at most `maxDefaultSpeed`, and the speed limit of the road, when
limits are followed, is at most `maxDefaultSpeed`; nothing is clamped. -/
theorem defineSpeed_bounds (c : RoutingConfiguration) (r : RouteDataObject)
    (_hacc : acceptLine c r = true) :
    (0 < c.minDefaultSpeed → 0 < defineSpeed c r) ∧
    (c.minDefaultSpeed ≤ c.maxDefaultSpeed →
      (∀ k s, c.highwaySpeed k = some s → s / (18 / 5) ≤ c.maxDefaultSpeed) →
      (c.followLimitations = true → c.maxSpeed r ≤ c.maxDefaultSpeed) →
      defineSpeed c r ≤ c.maxDefaultSpeed) := by
  unfold defineSpeed
  constructor
  · intro hmin
    split_ifs with hl
    · exact hl.2
    · cases hk : defineSpeed.loop c r.region.decodingRules r.types with
      | none => simpa [getMinDefaultSpeed] using hmin
      | some s => exact (defineSpeed_loop_pos c _ _ s hk).1
  · intro hle hs hm
    split_ifs with hl
    · exact hm hl.1
    · cases hk : defineSpeed.loop c r.region.decodingRules r.types with
      | none => simpa [getMinDefaultSpeed] using hle
      | some s =>
        obtain ⟨_, k, s0, hk0, rfl⟩ := defineSpeed_loop_pos c _ _ s hk
        exact hs k s0 hk0

/-- Witness of `defineSpeed_bounds`: the road `highway=primary` under the
profile with `highway$primary` at 90 km/h. -/
theorem defineSpeed_bounds_witness :
    acceptLine cfgPrimary90 roadPrimary = true ∧
      0 < defineSpeed cfgPrimary90 roadPrimary ∧
      defineSpeed cfgPrimary90 roadPrimary ≤ cfgPrimary90.maxDefaultSpeed := by
  have h := defineSpeed_bounds cfgPrimary90 roadPrimary (by decide)
  refine ⟨by decide, h.1 (by norm_num [cfgPrimary90, configOf]), h.2 ?_ ?_ ?_⟩
  · norm_num [cfgPrimary90, configOf]
  · intro k s hk
    simp only [cfgPrimary90, configOf, mapOf, List.foldl, Function.update_apply] at hk ⊢
    split at hk
    · cases hk; norm_num
    · cases hk
  · intro _
    simp [cfgPrimary90, configOf, roadPrimary, roadOf, regionOf, maxSpeed, maxSpeed.loop]
    norm_num

theorem maxSpeed_eq_parse (c : RoutingConfiguration) (r : RouteDataObject) (t : tag_value)
    (hv : r.tags.find? (fun t => decide (t.1 = "maxspeed")) = some t) :
    c.maxSpeed r = maxSpeed.parse t.2 := by
  unfold maxSpeed
  rw [maxSpeed_loop_eq]
  unfold RouteDataObject.tags at hv
  rw [hv]

theorem defineSpeed_of_limit (c : RoutingConfiguration) (r : RouteDataObject)
    (hf : c.followLimitations = true) (hm : 0 < c.maxSpeed r) :
    defineSpeed c r = c.maxSpeed r := by
  unfold defineSpeed
  rw [if_pos ⟨hf, hm⟩]

theorem defineSpeed_of_no_limit (c : RoutingConfiguration) (r : RouteDataObject)
    (h : c.followLimitations = false ∨ c.maxSpeed r = 0) :
    defineSpeed c r =
      match r.tags.findSome? (fun t =>
        (c.highwaySpeed (t.1 ++ "$" ++ t.2)).filter fun s => decide (0 < s)) with
      | some s => s / (18 / 5)
      | none => c.minDefaultSpeed := by
  have hc : ¬ (c.followLimitations = true ∧ 0 < c.maxSpeed r) := by
    rintro ⟨h1, h2⟩
    rcases h with h | h
    · rw [h] at h1; cases h1
    · rw [h] at h2; exact lt_irrefl _ h2
  unfold defineSpeed
  rw [if_neg hc, defineSpeed_loop_eq]
  unfold RouteDataObject.tags getMinDefaultSpeed
  cases (List.map r.region.decodingRules r.types).findSome? fun t =>
    (c.highwaySpeed (t.1 ++ "$" ++ t.2)).filter fun s => decide (0 < s) <;> rfl

/-- C3 (as stated, refuted): under a profile that follows limits and has
`highway$primary` at 90 km/h, the road `highway=primary`,
`maxspeed=2147483648` has a first `maxspeed` value that begins with a run of
digits denoting `n = 2147483648 > 0` and contains no `mph`, yet `defineSpeed`
is 90/3.6 and not `n/3.6`: `atoi` returns an `int`, here `-2147483648`, so the
limit is not positive and the configured highway speed decides. -/
theorem defineSpeed_maxspeed_counterexample :
    cfgPrimary90.followLimitations = true ∧
      roadHugeLimit.tags.find? (fun t => decide (t.1 = "maxspeed")) =
        some ("maxspeed", "2147483648") ∧
      "2147483648".data.takeWhile Char.isDigit ≠ [] ∧
      Nat.ofDigits 10 (("2147483648".data.takeWhile Char.isDigit).reverse.map
        fun ch => ch.toNat - '0'.toNat) = 2147483648 ∧
      ¬ "mph".data <:+: "2147483648".data ∧
      defineSpeed cfgPrimary90 roadHugeLimit = 90 / (18 / 5) ∧
      defineSpeed cfgPrimary90 roadHugeLimit ≠ ((2147483648 : ℕ) : ℚ) / (18 / 5) := by
  have hat : atoi ("2147483648".data.take (digitRun "2147483648".data)) = -2147483648 := by
    decide
  have hi : 0 < digitRun "2147483648".data := by decide
  have hs : strFind "mph".data "2147483648".data = false := by decide
  have hne : ("2147483648" : String) ≠ "none" := by decide
  have hp : maxSpeed.parse "2147483648" = -2147483648 / (18 / 5) := by
    simp only [maxSpeed.parse, hne, hi, hat, hs, if_true, if_false]
    norm_num
  have hm : cfgPrimary90.maxSpeed roadHugeLimit = -2147483648 / (18 / 5) := by
    rw [maxSpeed_eq_parse cfgPrimary90 roadHugeLimit ("maxspeed", "2147483648") (by decide)]
    exact hp
  have hc : ¬ (cfgPrimary90.followLimitations = true ∧
      0 < cfgPrimary90.maxSpeed roadHugeLimit) := by
    rw [hm]
    norm_num
  have hd : defineSpeed cfgPrimary90 roadHugeLimit = 90 / (18 / 5) := by
    unfold defineSpeed
    rw [if_neg hc]
    simp [cfgPrimary90, roadHugeLimit, configOf, roadOf, regionOf, mapOf, defineSpeed.loop,
      getHighwaySpeed, Function.update_apply]
  refine ⟨rfl, by decide, by decide, by decide, ?_, hd, ?_⟩
  · rw [← strFind_iff, hs]
    decide
  · rw [hd]
    norm_num

/-- C3 (amended): with `followLimitations` set, the first `maxspeed` tag of the
road decides the speed: the value `none` gives 40; a value that begins with a
run of decimal digits denoting `n` with `0 < n <= 2147483647` (the range of
`int`) gives `n/3.6`, or `(n*1.6)/3.6` when the value contains `mph` -
whatever highway speed is configured for the road. -/
theorem defineSpeed_maxspeed (c : RoutingConfiguration) (r : RouteDataObject) (v : String)
    (hf : c.followLimitations = true)
    (hv : r.tags.find? (fun t => decide (t.1 = "maxspeed")) = some ("maxspeed", v)) :
    (v = "none" → defineSpeed c r = 40) ∧
    (∀ n : ℕ, v.data.takeWhile Char.isDigit ≠ [] →
      Nat.ofDigits 10 ((v.data.takeWhile Char.isDigit).reverse.map
        fun ch => ch.toNat - '0'.toNat) = n →
      0 < n → n ≤ 2147483647 →
      (¬ "mph".data <:+: v.data → defineSpeed c r = (n : ℚ) / (18 / 5)) ∧
      ("mph".data <:+: v.data → defineSpeed c r = ((n : ℚ) * (8 / 5)) / (18 / 5))) := by
  have hm := maxSpeed_eq_parse c r _ hv
  simp only at hm
  constructor
  · intro hnone
    have h40 : c.maxSpeed r = 40 := by rw [hm, hnone]; simp [maxSpeed.parse]
    rw [defineSpeed_of_limit c r hf (by rw [h40]; norm_num), h40]
  · intro n hds hn hpos hmax
    obtain ⟨hlen, htake⟩ := digitRun_eq_takeWhile v.data
    have hne : v ≠ "none" := by
      rintro rfl
      exact hds (by decide)
    have hi : 0 < digitRun v.data := by
      rw [hlen]
      exact List.length_pos.2 hds
    have hval : atoi.value (v.data.take (digitRun v.data)) = n := by
      rw [htake, atoi_value_eq_ofDigits, hn]
    have hat : ((atoi (v.data.take (digitRun v.data)) : Int) : ℚ) = (n : ℚ) := by
      rw [atoi_of_le _ (by rw [hval]; exact hmax), hval]
      norm_cast
    have hq : (0 : ℚ) < (n : ℚ) := by exact_mod_cast hpos
    constructor
    · intro hnot
      have hs : strFind "mph".data v.data = false := by
        rw [← Bool.not_eq_true, strFind_iff]; exact hnot
      have hp : c.maxSpeed r = (n : ℚ) / (18 / 5) := by
        rw [hm]; simp only [maxSpeed.parse, hne, hi, hat, hs, if_true, if_false]
        simp
      rw [defineSpeed_of_limit c r hf (by rw [hp]; positivity), hp]
    · intro hin
      have hs : strFind "mph".data v.data = true := (strFind_iff _ _).2 hin
      have hp : c.maxSpeed r = ((n : ℚ) * (8 / 5)) / (18 / 5) := by
        rw [hm]; simp only [maxSpeed.parse, hne, hi, hat, hs, if_true, if_false]
        ring
      rw [defineSpeed_of_limit c r hf (by rw [hp]; positivity), hp]

/-- Witness of `defineSpeed_maxspeed`: `maxspeed=60 mph` on a road whose
`highway$primary` speed is configured at 90 km/h gives `(60*1.6)/3.6`. -/
theorem defineSpeed_maxspeed_witness :
    cfgPrimary90.followLimitations = true ∧
      roadMph.tags.find? (fun t => decide (t.1 = "maxspeed")) = some ("maxspeed", "60 mph") ∧
      defineSpeed cfgPrimary90 roadMph = ((60 : ℕ) * (8 / 5) : ℚ) / (18 / 5) :=
  ⟨rfl, by decide,
    ((defineSpeed_maxspeed cfgPrimary90 roadMph "60 mph" rfl (by decide)).2 60
      (by decide) (by decide) (by decide) (by decide)).2 ⟨['6', '0', ' '], [], rfl⟩⟩

/-- C4: when no speed limit applies to the road (limits are not followed, or
the road has no `maxspeed` tag, or its first `maxspeed` value is neither `none`
nor starts with a digit), `defineSpeed` is the `highwaySpeed` entry, divided by
3.6, of the first tag in type order whose `tag$value` key has a positive entry,
and `minDefaultSpeed` when no tag has one. `defineSpeed` is a total function:
it has a value on every road. -/
theorem defineSpeed_no_limit (c : RoutingConfiguration) (r : RouteDataObject)
    (h : c.followLimitations = false ∨ (∀ t ∈ r.tags, t.1 ≠ "maxspeed") ∨
      ∃ v, r.tags.find? (fun t => decide (t.1 = "maxspeed")) = some ("maxspeed", v) ∧
        v ≠ "none" ∧ ∀ ch ∈ v.data.head?, ch.isDigit = false) :
    defineSpeed c r =
      match r.tags.findSome? (fun t =>
        (c.highwaySpeed (t.1 ++ "$" ++ t.2)).filter fun s => decide (0 < s)) with
      | some s => s / (18 / 5)
      | none => c.minDefaultSpeed := by
  apply defineSpeed_of_no_limit
  rcases h with h | h | ⟨v, hv, hne, hdig⟩
  · exact Or.inl h
  · right
    unfold maxSpeed
    rw [maxSpeed_loop_eq]
    have : (List.map r.region.decodingRules r.types).find?
        (fun t => decide (t.1 = "maxspeed")) = none := by
      rw [List.find?_eq_none]
      intro t ht
      simpa using h t ht
    rw [this]
  · right
    rw [maxSpeed_eq_parse c r _ hv]
    have hi : digitRun v.data = 0 := by
      rw [(digitRun_eq_takeWhile v.data).1]
      cases hd : v.data with
      | nil => rfl
      | cons ch cs =>
        have := hdig ch (by rw [hd]; rfl)
        simp [List.takeWhile_cons, this]
    simp [maxSpeed.parse, hne, hi]

/-- Witness of `defineSpeed_no_limit`: tags `highway=primary` with
`highwaySpeed[highway$primary] = 90` give 25. -/
theorem defineSpeed_no_limit_witness :
    (∀ t ∈ roadPrimary.tags, t.1 ≠ "maxspeed") ∧ defineSpeed cfgPrimary90 roadPrimary = 25 := by
  have hno : ∀ t ∈ roadPrimary.tags, t.1 ≠ "maxspeed" := by decide
  refine ⟨hno, ?_⟩
  rw [defineSpeed_no_limit cfgPrimary90 roadPrimary (Or.inr (Or.inl hno))]
  simp [roadPrimary, roadOf, regionOf, RouteDataObject.tags, cfgPrimary90, configOf, mapOf,
    Function.update_apply, Option.filter]
  norm_num

/-! ## `isOneWay` -/

theorem isOneWay_loop_eq (rules : Nat → tag_value) (ts : List Nat) :
    isOneWay.loop rules ts = ((ts.map rules).findSome? specOnewayVerdict).getD 0 := by
  induction ts with
  | nil => simp [isOneWay.loop]
  | cons t ts ih =>
    simp only [isOneWay.loop, List.map_cons, List.findSome?_cons, specOnewayVerdict]
    by_cases h1 : (rules t).1 = "oneway"
    · have hr : ¬ (rules t).1 = "roundabout" := by rw [h1]; decide
      have hj : ¬ (rules t).1 = "junction" := by rw [h1]; decide
      by_cases h2 : "-1" = (rules t).2 ∨ "reverse" = (rules t).2
      · have h2' : (rules t).2 = "-1" ∨ (rules t).2 = "reverse" := by
          rcases h2 with h | h
          · exact Or.inl h.symm
          · exact Or.inr h.symm
        simp [h1, h2, h2']
      · have h2' : ¬ ((rules t).2 = "-1" ∨ (rules t).2 = "reverse") := by
          rintro (h | h)
          · exact h2 (Or.inl h.symm)
          · exact h2 (Or.inr h.symm)
        by_cases h3 : "1" = (rules t).2 ∨ "yes" = (rules t).2
        · have h3' : (rules t).2 = "1" ∨ (rules t).2 = "yes" := by
            rcases h3 with h | h
            · exact Or.inl h.symm
            · exact Or.inr h.symm
          simp [h1, h2, h2', h3, h3']
        · have h3' : ¬ ((rules t).2 = "1" ∨ (rules t).2 = "yes") := by
            rintro (h | h)
            · exact h3 (Or.inl h.symm)
            · exact h3 (Or.inr h.symm)
          simp only [h1, h2, h2', h3, h3', hr, hj, if_true, if_false, and_false, true_and,
            false_and, or_self]
          exact ih
    · by_cases h4 : (rules t).1 = "roundabout"
      · simp [h1, h4]
      · by_cases h5 : (rules t).1 = "junction" ∧ (rules t).2 = "roundabout"
        · simp [h1, h4, h5]
        · simp only [h1, h4, h5, if_false, false_and, false_or]
          exact ih

theorem specOnewayVerdict_range (t : tag_value) (v : Int) (h : specOnewayVerdict t = some v) :
    v = -1 ∨ v = 1 := by
  unfold specOnewayVerdict at h
  split_ifs at h <;> cases h <;> simp

theorem isOneWay_eq_findSome (c : RoutingConfiguration) (r : RouteDataObject) :
    isOneWay c r =
      (if c.onewayAware = true then (r.tags.findSome? specOnewayVerdict).getD 0 else 0) := by
  unfold isOneWay RouteDataObject.tags
  by_cases h : c.onewayAware = true
  · simp [h, isOneWay_loop_eq]
  · simp [h]

/-- C5: with `onewayAware` false `isOneWay` is 0 for every road; with
`onewayAware` true it is the verdict of the first tag, in the type order of the
road, that is decisive (`oneway=-1|reverse` gives -1, `oneway=1|yes` gives 1, a
`roundabout` tag or `junction=roundabout` gives 1) and 0 when no tag is
decisive; the result is always -1, 0 or 1. -/
theorem isOneWay_first_decisive (c : RoutingConfiguration) (r : RouteDataObject) :
    isOneWay c r =
        (if c.onewayAware = true then (r.tags.findSome? specOnewayVerdict).getD 0 else 0) ∧
      (isOneWay c r = -1 ∨ isOneWay c r = 0 ∨ isOneWay c r = 1) := by
  refine ⟨isOneWay_eq_findSome c r, ?_⟩
  rw [isOneWay_eq_findSome]
  split_ifs
  · cases hf : r.tags.findSome? specOnewayVerdict with
    | none => simp
    | some v =>
      obtain ⟨t, _, ht⟩ := List.exists_of_findSome?_eq_some hf
      rcases specOnewayVerdict_range t v ht with h | h <;> simp [h]
  · simp

/-- C6 (as stated, refuted): the road `oneway=-1`, `junction=roundabout`
carries the tag `junction=roundabout`, yet `isOneWay` answers -1, the verdict
of the `oneway` tag that comes first. -/
theorem isOneWay_roundabout_counterexample :
    cfgPrimary90.onewayAware = true ∧
      (∃ t ∈ roadReverseRoundabout.tags,
        t.1 = "roundabout" ∨ (t.1 = "junction" ∧ t.2 = "roundabout")) ∧
      isOneWay cfgPrimary90 roadReverseRoundabout = -1 ∧
      isOneWay cfgPrimary90 roadReverseRoundabout ≠ 1 := by
  refine ⟨rfl, ⟨("junction", "roundabout"), by decide, by decide⟩, by decide, by decide⟩

/-- C6 (amended): with `onewayAware` true, a road that carries a `roundabout`
tag or the tag `junction=roundabout` has `isOneWay` 1 provided no `oneway` tag
with value `-1` or `reverse` comes before that tag in the type order. -/
theorem isOneWay_roundabout (c : RoutingConfiguration) (r : RouteDataObject)
    (pre post : List tag_value) (t : tag_value)
    (haware : c.onewayAware = true)
    (htags : r.tags = pre ++ t :: post)
    (ht : t.1 = "roundabout" ∨ (t.1 = "junction" ∧ t.2 = "roundabout"))
    (hpre : ∀ u ∈ pre, ¬ (u.1 = "oneway" ∧ (u.2 = "-1" ∨ u.2 = "reverse"))) :
    isOneWay c r = 1 := by
  rw [isOneWay_eq_findSome, if_pos haware, htags]
  clear htags
  induction pre with
  | nil =>
    have hno : ¬ t.1 = "oneway" := by
      rcases ht with h | h
      · rw [h]; decide
      · rw [h.1]; decide
    simp [List.findSome?_cons, specOnewayVerdict, hno, ht]
  | cons u pre ih =>
    have hu := hpre u (List.mem_cons_self _ _)
    have ih' := ih fun w hw => hpre w (List.mem_cons_of_mem _ hw)
    rw [List.cons_append, List.findSome?_cons]
    cases hv : specOnewayVerdict u with
    | none => simpa using ih'
    | some v =>
      unfold specOnewayVerdict at hv
      rw [if_neg hu] at hv
      split_ifs at hv <;> cases hv <;> rfl

/-- Witness of `isOneWay_roundabout`: the tag `junction=roundabout` alone
gives 1. -/
theorem isOneWay_roundabout_witness :
    cfgPrimary90.onewayAware = true ∧ roadRoundabout.tags = [] ++ ("junction", "roundabout") :: [] ∧
      isOneWay cfgPrimary90 roadRoundabout = 1 :=
  ⟨rfl, by decide,
    isOneWay_roundabout cfgPrimary90 roadRoundabout [] [] ("junction", "roundabout") rfl
      (by decide) (Or.inr ⟨rfl, rfl⟩) (by simp)⟩

/-! ## `defineSpeedPriority` -/

theorem defineSpeedPriority_loop_eq (c : RoutingConfiguration) (rules : Nat → tag_value)
    (priority : ℚ) (ts : List Nat) :
    defineSpeedPriority.loop c rules priority ts =
      priority *
        ((ts.map rules).filterMap fun t => c.highwayPriorities (t.1 ++ "$" ++ t.2)).prod := by
  induction ts generalizing priority with
  | nil => simp [defineSpeedPriority.loop]
  | cons t ts ih =>
    simp only [defineSpeedPriority.loop, List.map_cons]
    cases hk : c.highwayPriorities ((rules t).1 ++ "$" ++ (rules t).2) with
    | none => simp only [ih, List.filterMap_cons, hk]
    | some p => simp only [ih, List.filterMap_cons, hk, List.prod_cons, mul_assoc]

/-- C7: `defineSpeedPriority(road)` is the product, over the tags of the road
in type order (one factor per occurrence), of `highwayPriorities[tag$value]`
for the tags whose key is configured; a road none of whose tags is configured
has priority exactly 1. -/
theorem defineSpeedPriority_product (c : RoutingConfiguration) (r : RouteDataObject) :
    defineSpeedPriority c r =
        (r.tags.filterMap fun t => c.highwayPriorities (t.1 ++ "$" ++ t.2)).prod ∧
      ((∀ t ∈ r.tags, c.highwayPriorities (t.1 ++ "$" ++ t.2) = none) →
        defineSpeedPriority c r = 1) := by
  have heq : defineSpeedPriority c r =
      (r.tags.filterMap fun t => c.highwayPriorities (t.1 ++ "$" ++ t.2)).prod := by
    unfold defineSpeedPriority RouteDataObject.tags
    rw [defineSpeedPriority_loop_eq, one_mul]
  refine ⟨heq, fun hnone => ?_⟩
  rw [heq]
  have : (r.tags.filterMap fun t => c.highwayPriorities (t.1 ++ "$" ++ t.2)) = [] := by
    rw [List.filterMap_eq_nil_iff]
    exact hnone
  rw [this, List.prod_nil]

/-- Witness of `defineSpeedPriority_product`: with no priority configured the
road `highway=primary` has priority 1. -/
theorem defineSpeedPriority_product_witness :
    (∀ t ∈ roadPrimary.tags, cfgPrimary90.highwayPriorities (t.1 ++ "$" ++ t.2) = none) ∧
      defineSpeedPriority cfgPrimary90 roadPrimary = 1 :=
  have hnone : ∀ t ∈ roadPrimary.tags,
      cfgPrimary90.highwayPriorities (t.1 ++ "$" ++ t.2) = none := by
    intro t _
    rfl
  ⟨hnone, (defineSpeedPriority_product cfgPrimary90 roadPrimary).2 hnone⟩

/-! ## `defineRoutingObstacle` -/

theorem defineRoutingObstacle_exact_eq (c : RoutingConfiguration) (rules : Nat → tag_value)
    (ts : List Nat) :
    defineRoutingObstacle.exact c rules ts =
      (ts.map rules).findSome? fun t => c.routingObstacles (t.1 ++ "$" ++ t.2) := by
  induction ts with
  | nil => rfl
  | cons t ts ih =>
    simp only [defineRoutingObstacle.exact, List.map_cons, List.findSome?_cons]
    cases c.routingObstacles ((rules t).1 ++ "$" ++ (rules t).2) with
    | none => exact ih
    | some v => rfl

theorem defineRoutingObstacle_tagOnly_eq (c : RoutingConfiguration) (rules : Nat → tag_value)
    (ts : List Nat) :
    defineRoutingObstacle.tagOnly c rules ts =
      (ts.map rules).findSome? fun t => c.routingObstacles (t.1 ++ "$") := by
  induction ts with
  | nil => rfl
  | cons t ts ih =>
    simp only [defineRoutingObstacle.tagOnly, List.map_cons, List.findSome?_cons]
    cases c.routingObstacles ((rules t).1 ++ "$") with
    | none => exact ih
    | some v => rfl

/-- C8: `defineRoutingObstacle(road, i)` is 0 when point `i` has no extra tags
(`i` at or beyond the length of `pointTypes`, or an empty tag list); otherwise
it is the `routingObstacles` value of the first point tag whose exact key
`tag$value` is configured; only when no point tag has an exact match is it the
value of the first point tag whose tag-only key `tag$` is configured; and 0
when neither form matches. So an exact match on any tag, also a later one, wins
over a tag-only match. -/
theorem defineRoutingObstacle_lookup (c : RoutingConfiguration) (road : RouteDataObject)
    (i : Nat) :
    (road.pointTypes.length ≤ i → defineRoutingObstacle c road i = 0) ∧
    (∀ pts, road.pointTypes.get? i = some pts →
      (pts = [] → defineRoutingObstacle c road i = 0) ∧
      defineRoutingObstacle c road i =
        match (pts.map road.region.decodingRules).findSome?
            fun t => c.routingObstacles (t.1 ++ "$" ++ t.2) with
        | some v => v
        | none =>
          match (pts.map road.region.decodingRules).findSome?
              fun t => c.routingObstacles (t.1 ++ "$") with
          | some v => v
          | none => 0) := by
  constructor
  · intro h
    simp [defineRoutingObstacle, h]
  · intro pts hp
    have hlt : i < road.pointTypes.length := (List.get?_eq_some.1 hp).1
    have hget : road.pointTypes.getD i [] = pts := by
      rw [List.getD_eq_getElem?_getD, ← List.get?_eq_getElem?, hp]; rfl
    have heq : defineRoutingObstacle c road i =
        match (pts.map road.region.decodingRules).findSome?
            fun t => c.routingObstacles (t.1 ++ "$" ++ t.2) with
        | some v => v
        | none =>
          match (pts.map road.region.decodingRules).findSome?
              fun t => c.routingObstacles (t.1 ++ "$") with
          | some v => v
          | none => 0 := by
      unfold defineRoutingObstacle
      rw [if_neg (not_le.2 hlt)]
      simp only [hget, defineRoutingObstacle_exact_eq, defineRoutingObstacle_tagOnly_eq]
    refine ⟨?_, heq⟩
    rintro rfl
    rw [heq]
    rfl

/-- Witness of `defineRoutingObstacle_lookup`: at a point tagged `barrier=gate`
then `highway=traffic_signals`, with `barrier$` (7) and
`highway$traffic_signals` (3) configured, the exact match on the later tag
wins: the obstacle is 3. -/
theorem defineRoutingObstacle_lookup_witness :
    roadObstacle.pointTypes.get? 0 = some [1, 2] ∧
      defineRoutingObstacle cfgObstacle roadObstacle 0 = 3 := by
  refine ⟨rfl, ?_⟩
  rw [((defineRoutingObstacle_lookup cfgObstacle roadObstacle 0).2 [1, 2] rfl).2]
  simp [cfgObstacle, roadObstacle, roadOf, regionOf, configOf, mapOf, Function.update_apply]

/-! ## `RouteSegment::initRouteSegment` -/

open RouteSegment

theorem dirOf_cases (p : Bool) : dirOf p = 1 ∨ dirOf p = -1 := by
  cases p <;> simp [dirOf]

/-- The guard `positiveDirection != (th->directionAssgn == 1)` for a direction
that is -1, 0 or 1 and not 0: the segment has the other direction. -/
theorem dirOf_flip (d : Int) (p : Bool) (hdir : d = -1 ∨ d = 0 ∨ d = 1) (h0 : d ≠ 0)
    (h4 : p ≠ decide (d = 1)) : -d = dirOf p ∧ d ≠ dirOf p := by
  rcases hdir with hd | hd | hd
  · subst hd; cases p
    · simp at h4
    · simp [dirOf]
  · exact absurd hd h0
  · subst hd; cases p
    · simp [dirOf]
    · simp at h4

theorem dirOf_same (d : Int) (p : Bool) (hdir : d = -1 ∨ d = 0 ∨ d = 1) (h0 : d ≠ 0)
    (h4 : ¬ p ≠ decide (d = 1)) : d = dirOf p := by
  rcases hdir with hd | hd | hd
  · subst hd; cases p
    · simp [dirOf]
    · simp at h4
  · exact absurd hd h0
  · subst hd; cases p
    · simp at h4
    · simp [dirOf]

/-- The branches of `initRouteSegment` past the two boundary checks. -/
theorem initRouteSegment_inner (h : SegmentHeap) (th : Addr) (p : Bool)
    (h1 : ¬ ((h.cells th).segmentStart = 0 ∧ p = false))
    (h2 : ¬ (((h.cells th).segmentStart : Int) = ((h.cells th).road.getPointsLength : Int) - 1 ∧
      p = true)) :
    ((h.cells th).directionAssgn = 0 →
      initRouteSegment h th p =
        (some th, h.write th { h.cells th with directionAssgn := dirOf p })) ∧
    ((h.cells th).directionAssgn ≠ 0 → ¬ p ≠ decide ((h.cells th).directionAssgn = 1) →
      initRouteSegment h th p = (some th, h)) ∧
    ((h.cells th).directionAssgn ≠ 0 → p ≠ decide ((h.cells th).directionAssgn = 1) →
      (h.cells th).oppositeDirection ≠ none →
      initRouteSegment h th p = ((h.cells th).oppositeDirection, h)) ∧
    ((h.cells th).directionAssgn ≠ 0 → p ≠ decide ((h.cells th).directionAssgn = 1) →
      (h.cells th).oppositeDirection = none → h.size ≠ th →
      (initRouteSegment h th p).1 = some h.size ∧
      (initRouteSegment h th p).2.cells h.size =
        { RouteSegment.new (h.cells th).road (h.cells th).segmentStart with
          directionAssgn := dirOf p } ∧
      (initRouteSegment h th p).2.cells th =
        { h.cells th with oppositeDirection := some h.size }) ∧
    ((h.cells th).directionAssgn ≠ 0 → p ≠ decide ((h.cells th).directionAssgn = 1) →
      (h.cells th).oppositeDirection = none → h.size = th →
      (initRouteSegment h th p).1 = some th) := by
  unfold initRouteSegment
  rw [if_neg h1, if_neg h2]
  refine ⟨fun h3 => ?_, fun h3 h4 => ?_, fun h3 h4 h5 => ?_, fun h3 h4 h5 hs => ?_,
    fun h3 h4 h5 hs => ?_⟩
  · rw [if_pos h3]
  · rw [if_neg h3, if_neg h4]
  · rw [if_neg h3, if_pos h4, if_neg h5]
  · rw [if_neg h3, if_pos h4, if_pos h5]
    simp [SegmentHeap.write, SegmentHeap.alloc, hs, Function.update_noteq (Ne.symm hs)]
  · rw [if_neg h3, if_pos h4, if_pos h5]
    simp [SegmentHeap.write, SegmentHeap.alloc, hs]

theorem initRouteSegment_fst_ne_none (h : SegmentHeap) (th : Addr) (p : Bool)
    (h1 : ¬ ((h.cells th).segmentStart = 0 ∧ p = false))
    (h2 : ¬ (((h.cells th).segmentStart : Int) = ((h.cells th).road.getPointsLength : Int) - 1 ∧
      p = true)) :
    (initRouteSegment h th p).1 ≠ none := by
  obtain ⟨e1, e2, e3, e4, e5⟩ := initRouteSegment_inner h th p h1 h2
  by_cases h3 : (h.cells th).directionAssgn = 0
  · rw [e1 h3]; simp
  · by_cases h4 : p ≠ decide ((h.cells th).directionAssgn = 1)
    · by_cases h5 : (h.cells th).oppositeDirection = none
      · by_cases hs : h.size = th
        · rw [e5 h3 h4 h5 hs]; simp
        · rw [(e4 h3 h4 h5 hs).1]; simp
      · rw [e3 h3 h4 h5]; exact h5
    · rw [e2 h3 h4]; simp

/-- C9 (as stated, refuted): in `heapMismatch` the segment at address 0 has an
`oppositeDirection` link whose `directionAssgn` is the opposite one, the call
for the negative direction does not fail, and the segment returned (address 1)
starts at point 2, not at point 1 as the input does. -/
theorem initRouteSegment_sibling_counterexample :
    (∀ o, (heapMismatch.cells 0).oppositeDirection = some o →
        (heapMismatch.cells o).directionAssgn = -(heapMismatch.cells 0).directionAssgn) ∧
      (initRouteSegment heapMismatch 0 false).1 = some 1 ∧
      ((initRouteSegment heapMismatch 0 false).2.cells 1).segmentStart ≠
        (heapMismatch.cells 0).segmentStart := by
  refine ⟨?_, by decide, by decide⟩
  intro o ho
  have h1 : (heapMismatch.cells 0).oppositeDirection = some 1 := by decide
  rw [h1] at ho
  cases ho
  decide

/-- C9 (amended): let `th` be an allocated segment whose `directionAssgn` is
-1, 0 or 1 (and whose `segmentStart` is in the range of `uint16_t`) and whose
`oppositeDirection` link, if set, has the opposite `directionAssgn`, the same
road and the same `segmentStart`. When `initRouteSegment` does not fail, the
returned segment has the road and the `segmentStart` of the input and its
`directionAssgn` is the requested direction; it is the input itself when the
input was unassigned or already had that direction, and otherwise it is another
segment, the `oppositeDirection` sibling of the input. -/
theorem initRouteSegment_result (h h' : SegmentHeap) (th r : Addr) (p : Bool)
    (hvalid : th < h.size)
    (hrange : (h.cells th).segmentStart < 65536)
    (hdir : (h.cells th).directionAssgn = -1 ∨ (h.cells th).directionAssgn = 0 ∨
      (h.cells th).directionAssgn = 1)
    (hopp : ∀ o, (h.cells th).oppositeDirection = some o →
      (h.cells o).directionAssgn = -(h.cells th).directionAssgn ∧
        (h.cells o).road = (h.cells th).road ∧
        (h.cells o).segmentStart = (h.cells th).segmentStart)
    (hres : initRouteSegment h th p = (some r, h')) :
    (h'.cells r).road = (h.cells th).road ∧
      (h'.cells r).segmentStart = (h.cells th).segmentStart ∧
      (h'.cells r).directionAssgn = dirOf p ∧
      ((h.cells th).directionAssgn = 0 ∨ (h.cells th).directionAssgn = dirOf p → r = th) ∧
      (¬ ((h.cells th).directionAssgn = 0 ∨ (h.cells th).directionAssgn = dirOf p) →
        r ≠ th ∧ (h'.cells th).oppositeDirection = some r) := by
  by_cases h1 : (h.cells th).segmentStart = 0 ∧ p = false
  · unfold initRouteSegment at hres
    rw [if_pos h1] at hres
    cases hres
  by_cases h2 : ((h.cells th).segmentStart : Int) =
      ((h.cells th).road.getPointsLength : Int) - 1 ∧ p = true
  · unfold initRouteSegment at hres
    rw [if_neg h1, if_pos h2] at hres
    cases hres
  obtain ⟨e1, e2, e3, e4, _⟩ := initRouteSegment_inner h th p h1 h2
  by_cases h3 : (h.cells th).directionAssgn = 0
  · -- unassigned: the segment is claimed for the requested direction
    rw [e1 h3] at hres
    simp only [Prod.mk.injEq, Option.some.injEq] at hres
    obtain ⟨rfl, rfl⟩ := hres
    simp [SegmentHeap.write, h3]
  by_cases h4 : p ≠ decide ((h.cells th).directionAssgn = 1)
  · -- assigned to the other direction: the sibling is returned
    obtain ⟨hflip, hne⟩ := dirOf_flip _ p hdir h3 h4
    have hnot : ¬ ((h.cells th).directionAssgn = 0 ∨ (h.cells th).directionAssgn = dirOf p) :=
      fun hh => hh.elim h3 hne
    by_cases h5 : (h.cells th).oppositeDirection = none
    · -- no sibling yet: one is allocated at the fresh address `h.size`
      have hsz : h.size ≠ th := Nat.ne_of_gt hvalid
      obtain ⟨a1, a2, a3⟩ := e4 h3 h4 h5 hsz
      rw [hres] at a1 a2 a3
      simp only [Option.some.injEq] at a1
      subst a1
      have hmod : ((((h.cells th).segmentStart : Int) % 65536).toNat) =
          (h.cells th).segmentStart := by
        omega
      refine ⟨?_, ?_, ?_, fun hh => absurd hh hnot, fun _ => ⟨hsz, ?_⟩⟩
      · rw [a2]; rfl
      · rw [a2]; exact hmod
      · rw [a2]
      · rw [a3]
    · -- the cached sibling is returned, the heap is untouched
      rw [e3 h3 h4 h5] at hres
      simp only [Prod.mk.injEq] at hres
      obtain ⟨hr, rfl⟩ := hres
      obtain ⟨ho1, ho2, ho3⟩ := hopp r hr
      refine ⟨ho2, ho3, by rw [ho1, hflip], fun hh => absurd hh hnot, fun _ => ⟨?_, hr⟩⟩
      rintro rfl
      rw [← hflip] at hne
      omega
  · -- already assigned to the requested direction
    rw [e2 h3 h4] at hres
    simp only [Prod.mk.injEq, Option.some.injEq] at hres
    obtain ⟨rfl, rfl⟩ := hres
    have hsame := dirOf_same _ p hdir h3 h4
    exact ⟨rfl, rfl, hsame, fun _ => rfl, fun hh => absurd (Or.inr hsame) hh⟩

/-- Witness of `initRouteSegment_result`: a segment assigned to the positive
direction at an interior point, asked for the negative direction, returns a
newly allocated sibling at address 1. -/
theorem initRouteSegment_result_witness :
    (initRouteSegment heapPositive 0 false).1 = some 1 ∧
      ((initRouteSegment heapPositive 0 false).2.cells 1).road = (heapPositive.cells 0).road ∧
      ((initRouteSegment heapPositive 0 false).2.cells 1).segmentStart = 1 ∧
      ((initRouteSegment heapPositive 0 false).2.cells 1).directionAssgn = -1 ∧
      ((initRouteSegment heapPositive 0 false).2.cells 0).oppositeDirection = some 1 := by
  have hres : initRouteSegment heapPositive 0 false =
      (some 1, (initRouteSegment heapPositive 0 false).2) :=
    Prod.ext (by decide) rfl
  have hnot : ¬ ((heapPositive.cells 0).directionAssgn = 0 ∨
      (heapPositive.cells 0).directionAssgn = dirOf false) := by decide
  have hw := initRouteSegment_result heapPositive _ 0 1 false (by decide) (by decide)
    (by decide) (fun o ho => by simp [heapPositive, heapOf, RouteSegment.new] at ho) hres
  exact ⟨by decide, hw.1, hw.2.1, hw.2.2.1, (hw.2.2.2.2 hnot).2⟩

/-- C10: for a segment on a road with at least one point and `segmentStart`
within the point array, `initRouteSegment` returns the empty result if and only
if `segmentStart == 0` and the negative direction is requested, or
`segmentStart` is the last point index and the positive direction is
requested; when it returns empty, the heap (the segment with all its fields,
and every other segment) is left unchanged. -/
theorem initRouteSegment_none_iff (h : SegmentHeap) (th : Addr) (p : Bool)
    (hlen : 1 ≤ (h.cells th).road.getPointsLength)
    (_hin : (h.cells th).segmentStart < (h.cells th).road.getPointsLength) :
    ((initRouteSegment h th p).1 = none ↔
        ((h.cells th).segmentStart = 0 ∧ p = false) ∨
        ((h.cells th).segmentStart = (h.cells th).road.getPointsLength - 1 ∧ p = true)) ∧
      ((initRouteSegment h th p).1 = none → (initRouteSegment h th p).2 = h) := by
  have hlast : ((h.cells th).segmentStart : Int) =
      ((h.cells th).road.getPointsLength : Int) - 1 ↔
      (h.cells th).segmentStart = (h.cells th).road.getPointsLength - 1 := by
    omega
  have hiff : (initRouteSegment h th p).1 = none ↔
      ((h.cells th).segmentStart = 0 ∧ p = false) ∨
      ((h.cells th).segmentStart = (h.cells th).road.getPointsLength - 1 ∧ p = true) := by
    constructor
    · intro hn
      by_contra hc
      push_neg at hc
      refine initRouteSegment_fst_ne_none h th p (fun h1 => ?_) (fun h2 => ?_) hn
      · exact hc.1 h1.1 h1.2
      · exact hc.2 (hlast.1 h2.1) h2.2
    · rintro (h1 | h2)
      · unfold initRouteSegment
        rw [if_pos h1]
      · unfold initRouteSegment
        have h2' : ((h.cells th).segmentStart : Int) =
            ((h.cells th).road.getPointsLength : Int) - 1 ∧ p = true := ⟨hlast.2 h2.1, h2.2⟩
        by_cases h1 : (h.cells th).segmentStart = 0 ∧ p = false
        · rw [if_pos h1]
        · rw [if_neg h1, if_pos h2']
  refine ⟨hiff, fun hn => ?_⟩
  rcases hiff.1 hn with h1 | h2
  · unfold initRouteSegment
    rw [if_pos h1]
  · unfold initRouteSegment
    have h2' : ((h.cells th).segmentStart : Int) =
        ((h.cells th).road.getPointsLength : Int) - 1 ∧ p = true := ⟨hlast.2 h2.1, h2.2⟩
    by_cases h1 : (h.cells th).segmentStart = 0 ∧ p = false
    · rw [if_pos h1]
    · rw [if_neg h1, if_pos h2']

/-- Witness of `initRouteSegment_none_iff`: a fresh segment at the first point
of a road with three points, asked for the negative direction, gives the empty
result and leaves the heap as it was. -/
theorem initRouteSegment_none_iff_witness :
    1 ≤ (heapFirst.cells 0).road.getPointsLength ∧
      (heapFirst.cells 0).segmentStart < (heapFirst.cells 0).road.getPointsLength ∧
      (initRouteSegment heapFirst 0 false).1 = none ∧
      (initRouteSegment heapFirst 0 false).2 = heapFirst :=
  have hw := initRouteSegment_none_iff heapFirst 0 false (by decide) (by decide)
  have hn : (initRouteSegment heapFirst 0 false).1 = none := hw.1.2 (Or.inl (by decide))
  ⟨by decide, by decide, hn, hw.2 hn⟩

/-! ## `initRouteSegment`: idempotence, both directions, sibling invariant -/

/-- The heap after `initRouteSegment`, cell by cell, for an allocated `th`. -/
theorem initRouteSegment_heap (h : SegmentHeap) (th : Addr) (p : Bool) (hvalid : th < h.size) :
    ((h.cells th).segmentStart = 0 ∧ p = false → initRouteSegment h th p = (none, h)) ∧
    (((h.cells th).segmentStart : Int) = ((h.cells th).road.getPointsLength : Int) - 1 ∧
      p = true → initRouteSegment h th p = (none, h)) ∧
    (¬ ((h.cells th).segmentStart = 0 ∧ p = false) →
      ¬ (((h.cells th).segmentStart : Int) = ((h.cells th).road.getPointsLength : Int) - 1 ∧
        p = true) →
      ((h.cells th).directionAssgn = 0 →
        (initRouteSegment h th p).1 = some th ∧ (initRouteSegment h th p).2.size = h.size ∧
        ∀ a, (initRouteSegment h th p).2.cells a =
          if a = th then { h.cells th with directionAssgn := dirOf p } else h.cells a) ∧
      ((h.cells th).directionAssgn ≠ 0 → ¬ p ≠ decide ((h.cells th).directionAssgn = 1) →
        initRouteSegment h th p = (some th, h)) ∧
      ((h.cells th).directionAssgn ≠ 0 → p ≠ decide ((h.cells th).directionAssgn = 1) →
        (h.cells th).oppositeDirection ≠ none →
        initRouteSegment h th p = ((h.cells th).oppositeDirection, h)) ∧
      ((h.cells th).directionAssgn ≠ 0 → p ≠ decide ((h.cells th).directionAssgn = 1) →
        (h.cells th).oppositeDirection = none →
        (initRouteSegment h th p).1 = some h.size ∧
        (initRouteSegment h th p).2.size = h.size + 1 ∧
        ∀ a, (initRouteSegment h th p).2.cells a =
          if a = h.size then
            { RouteSegment.new (h.cells th).road (h.cells th).segmentStart with
              directionAssgn := dirOf p }
          else if a = th then { h.cells th with oppositeDirection := some h.size }
          else h.cells a)) := by
  have hsz : h.size ≠ th := Nat.ne_of_gt hvalid
  refine ⟨fun h1 => ?_, fun h2 => ?_, fun h1 h2 => ⟨fun h3 => ?_, fun h3 h4 => ?_,
    fun h3 h4 h5 => ?_, fun h3 h4 h5 => ?_⟩⟩
  · unfold initRouteSegment; rw [if_pos h1]
  · unfold initRouteSegment
    by_cases h1 : (h.cells th).segmentStart = 0 ∧ p = false
    · rw [if_pos h1]
    · rw [if_neg h1, if_pos h2]
  · rw [(initRouteSegment_inner h th p h1 h2).1 h3]
    refine ⟨rfl, rfl, fun a => ?_⟩
    by_cases ha : a = th
    · subst ha; simp [SegmentHeap.write]
    · simp [SegmentHeap.write, ha, Function.update_noteq ha]
  · exact (initRouteSegment_inner h th p h1 h2).2.1 h3 h4
  · exact (initRouteSegment_inner h th p h1 h2).2.2.1 h3 h4 h5
  · unfold initRouteSegment
    rw [if_neg h1, if_neg h2, if_neg h3, if_pos h4, if_pos h5]
    refine ⟨?_, ?_, fun a => ?_⟩
    · simp [SegmentHeap.write, SegmentHeap.alloc, hsz, Function.update_noteq (Ne.symm hsz)]
    · simp [SegmentHeap.write, SegmentHeap.alloc]
    · by_cases ha : a = h.size
      · subst ha
        simp [SegmentHeap.write, SegmentHeap.alloc, hsz]
      · by_cases hb : a = th
        · subst hb
          simp [SegmentHeap.write, SegmentHeap.alloc, ha, Ne.symm hsz,
            Function.update_noteq ha]
        · simp [SegmentHeap.write, SegmentHeap.alloc, ha, hb, Function.update_noteq ha,
            Function.update_noteq hb]

theorem SegmentHeap.ext_cells (h h' : SegmentHeap) (hs : h.size = h'.size)
    (hc : ∀ a, h.cells a = h'.cells a) : h = h' := by
  cases h; cases h'
  simp only [SegmentHeap.mk.injEq]
  exact ⟨funext hc, hs⟩

/-- C11: `initRouteSegment` is idempotent. For every allocated segment `th`
(unassigned, assigned to the requested direction or to the opposite one) and
every direction, calling `initRouteSegment` a second time with the same
arguments returns the same pointer as the first call (the cached sibling in the
third case) and leaves the heap exactly as the first call left it: no field of
any segment changes and nothing is allocated. -/
theorem initRouteSegment_idempotent (h : SegmentHeap) (th : Addr) (p : Bool)
    (hvalid : th < h.size) :
    initRouteSegment (initRouteSegment h th p).2 th p =
      ((initRouteSegment h th p).1, (initRouteSegment h th p).2) := by
  obtain ⟨b1, b2, inner⟩ := initRouteSegment_heap h th p hvalid
  by_cases h1 : (h.cells th).segmentStart = 0 ∧ p = false
  · rw [b1 h1]; exact b1 h1
  by_cases h2 : ((h.cells th).segmentStart : Int) =
      ((h.cells th).road.getPointsLength : Int) - 1 ∧ p = true
  · rw [b2 h2]; exact b2 h2
  obtain ⟨e1, e2, e3, e4⟩ := inner h1 h2
  by_cases h3 : (h.cells th).directionAssgn = 0
  · -- the first call assigns the direction, the second finds it assigned
    obtain ⟨r1, s1, c1⟩ := e1 h3
    have hth : (initRouteSegment h th p).2.cells th =
        { h.cells th with directionAssgn := dirOf p } := by rw [c1 th, if_pos rfl]
    have hvalid' : th < (initRouteSegment h th p).2.size := by rw [s1]; exact hvalid
    obtain ⟨_, _, inner'⟩ := initRouteSegment_heap (initRouteSegment h th p).2 th p hvalid'
    have h1' : ¬ (((initRouteSegment h th p).2.cells th).segmentStart = 0 ∧ p = false) := by
      rw [hth]; exact h1
    have h2' : ¬ ((((initRouteSegment h th p).2.cells th).segmentStart : Int) =
        (((initRouteSegment h th p).2.cells th).road.getPointsLength : Int) - 1 ∧ p = true) := by
      rw [hth]; exact h2
    have h3' : ((initRouteSegment h th p).2.cells th).directionAssgn ≠ 0 := by
      rw [hth]; cases p <;> simp [dirOf]
    have h4' : ¬ p ≠ decide (((initRouteSegment h th p).2.cells th).directionAssgn = 1) := by
      rw [hth]; cases p <;> simp [dirOf]
    rw [(inner' h1' h2').2.1 h3' h4', r1]
  by_cases h4 : p ≠ decide ((h.cells th).directionAssgn = 1)
  · by_cases h5 : (h.cells th).oppositeDirection = none
    · -- the first call allocates the sibling, the second returns the cached one
      obtain ⟨r1, s1, c1⟩ := e4 h3 h4 h5
      have hsz : th ≠ h.size := Nat.ne_of_lt hvalid
      have hth : (initRouteSegment h th p).2.cells th =
          { h.cells th with oppositeDirection := some h.size } := by
        rw [c1 th, if_neg hsz, if_pos rfl]
      have hvalid' : th < (initRouteSegment h th p).2.size := by
        rw [s1]; exact Nat.lt_succ_of_lt hvalid
      obtain ⟨_, _, inner'⟩ := initRouteSegment_heap (initRouteSegment h th p).2 th p hvalid'
      have h1' : ¬ (((initRouteSegment h th p).2.cells th).segmentStart = 0 ∧ p = false) := by
        rw [hth]; exact h1
      have h2' : ¬ ((((initRouteSegment h th p).2.cells th).segmentStart : Int) =
          (((initRouteSegment h th p).2.cells th).road.getPointsLength : Int) - 1 ∧
          p = true) := by
        rw [hth]; exact h2
      have h3' : ((initRouteSegment h th p).2.cells th).directionAssgn ≠ 0 := by
        rw [hth]; exact h3
      have h4' : p ≠ decide (((initRouteSegment h th p).2.cells th).directionAssgn = 1) := by
        rw [hth]; exact h4
      have h5' : ((initRouteSegment h th p).2.cells th).oppositeDirection ≠ none := by
        rw [hth]; simp
      rw [(inner' h1' h2').2.2.1 h3' h4' h5', hth, r1]
    · rw [e3 h3 h4 h5]; exact e3 h3 h4 h5
  · rw [e2 h3 h4]; exact e2 h3 h4

/-- Witness of `initRouteSegment_idempotent`: the segment of `heapPositive`
asked twice for the negative direction gets its sibling (address 1) both
times. -/
theorem initRouteSegment_idempotent_witness :
    (initRouteSegment heapPositive 0 false).1 = some 1 ∧
      initRouteSegment (initRouteSegment heapPositive 0 false).2 0 false =
        (some 1, (initRouteSegment heapPositive 0 false).2) := by
  have h1 : (initRouteSegment heapPositive 0 false).1 = some 1 := by decide
  refine ⟨h1, ?_⟩
  rw [initRouteSegment_idempotent heapPositive 0 false (by decide), h1]

/-- C12 (as stated, refuted): the fresh segment of `heapInterior` (address 0,
interior point 1) asked for the positive and then for the negative direction
returns itself and then a new segment (address 1); the first has the second as
its `oppositeDirection`, but the `oppositeDirection` of the second is null, not
the first. -/
theorem initRouteSegment_both_counterexample :
    (initRouteSegment heapInterior 0 true).1 = some 0 ∧
      (initRouteSegment (initRouteSegment heapInterior 0 true).2 0 false).1 = some 1 ∧
      (heapBoth.cells 0).oppositeDirection = some 1 ∧
      (heapBoth.cells 1).oppositeDirection = none ∧
      (heapBoth.cells 1).oppositeDirection ≠ some 0 := by
  refine ⟨by decide, by decide, by decide, by decide, by decide⟩

/-- C12 (amended): for an allocated, direction-unassigned segment without
sibling at an interior point of its road, calling `initRouteSegment` for one
direction and then for the other (in either order) returns the segment itself
and then a newly allocated, different segment of the same road and
`segmentStart`; the two are assigned to the two requested directions, the
first has the second as its `oppositeDirection`, and the `oppositeDirection`
of the second stays null (the link is one-way). -/
theorem initRouteSegment_both (h : SegmentHeap) (th : Addr) (p : Bool)
    (hvalid : th < h.size)
    (hdir : (h.cells th).directionAssgn = 0)
    (hopp : (h.cells th).oppositeDirection = none)
    (hrange : (h.cells th).segmentStart < 65536)
    (hlow : 0 < (h.cells th).segmentStart)
    (hhigh : (h.cells th).segmentStart + 1 < (h.cells th).road.getPointsLength) :
    (initRouteSegment h th p).1 = some th ∧
      (initRouteSegment (initRouteSegment h th p).2 th (!p)).1 = some h.size ∧
      th ≠ h.size ∧
      ((initRouteSegment (initRouteSegment h th p).2 th (!p)).2.cells th).oppositeDirection =
        some h.size ∧
      ((initRouteSegment (initRouteSegment h th p).2 th (!p)).2.cells h.size).oppositeDirection =
        none ∧
      ((initRouteSegment (initRouteSegment h th p).2 th (!p)).2.cells th).directionAssgn =
        dirOf p ∧
      ((initRouteSegment (initRouteSegment h th p).2 th (!p)).2.cells h.size).directionAssgn =
        dirOf (!p) ∧
      ((initRouteSegment (initRouteSegment h th p).2 th (!p)).2.cells h.size).road =
        (h.cells th).road ∧
      ((initRouteSegment (initRouteSegment h th p).2 th (!p)).2.cells h.size).segmentStart =
        (h.cells th).segmentStart := by
  have hsz : th ≠ h.size := Nat.ne_of_lt hvalid
  have h1 : ∀ q : Bool, ¬ ((h.cells th).segmentStart = 0 ∧ q = false) :=
    fun q hq => (Nat.ne_of_gt hlow) hq.1
  have h2 : ∀ q : Bool, ¬ (((h.cells th).segmentStart : Int) =
      ((h.cells th).road.getPointsLength : Int) - 1 ∧ q = true) := by
    intro q hq
    have := hq.1
    omega
  obtain ⟨r1, s1, c1⟩ := ((initRouteSegment_heap h th p hvalid).2.2 (h1 p) (h2 p)).1 hdir
  have hth : (initRouteSegment h th p).2.cells th =
      { h.cells th with directionAssgn := dirOf p } := by rw [c1 th, if_pos rfl]
  have hvalid' : th < (initRouteSegment h th p).2.size := by rw [s1]; exact hvalid
  have h1' : ¬ (((initRouteSegment h th p).2.cells th).segmentStart = 0 ∧ (!p) = false) := by
    rw [hth]; exact h1 _
  have h2' : ¬ ((((initRouteSegment h th p).2.cells th).segmentStart : Int) =
      (((initRouteSegment h th p).2.cells th).road.getPointsLength : Int) - 1 ∧
      (!p) = true) := by
    rw [hth]; exact h2 _
  have h3' : ((initRouteSegment h th p).2.cells th).directionAssgn ≠ 0 := by
    rw [hth]; cases p <;> simp [dirOf]
  have h4' : (!p) ≠ decide (((initRouteSegment h th p).2.cells th).directionAssgn = 1) := by
    rw [hth]; cases p <;> simp [dirOf]
  have h5' : ((initRouteSegment h th p).2.cells th).oppositeDirection = none := by
    rw [hth]; exact hopp
  obtain ⟨r2, _, c2⟩ :=
    ((initRouteSegment_heap _ th (!p) hvalid').2.2 h1' h2').2.2.2 h3' h4' h5'
  rw [s1] at r2 c2
  have hmod : ((((h.cells th).segmentStart : Int) % 65536).toNat) =
      (h.cells th).segmentStart := by
    omega
  refine ⟨r1, r2, hsz, ?_, ?_, ?_, ?_, ?_, ?_⟩
  · rw [c2 th, if_neg hsz, if_pos rfl]
  · rw [c2 h.size, if_pos rfl]; rfl
  · rw [c2 th, if_neg hsz, if_pos rfl, hth]
  · rw [c2 h.size, if_pos rfl]
  · rw [c2 h.size, if_pos rfl, hth]; rfl
  · rw [c2 h.size, if_pos rfl, hth]; exact hmod

/-- Witness of `initRouteSegment_both`: the fresh segment of `heapInterior`,
asked for the negative and then for the positive direction. -/
theorem initRouteSegment_both_witness :
    (initRouteSegment heapInterior 0 false).1 = some 0 ∧
      (initRouteSegment (initRouteSegment heapInterior 0 false).2 0 true).1 = some 1 ∧
      ((initRouteSegment (initRouteSegment heapInterior 0 false).2 0 true).2.cells
        1).oppositeDirection = none :=
  have hw := initRouteSegment_both heapInterior 0 false (by decide) (by decide) (by decide)
    (by decide) (by decide) (by decide)
  ⟨hw.1, hw.2.1, hw.2.2.2.2.1⟩

theorem siblingInvariant_of_fresh (h : SegmentHeap) (hf : h.Fresh) : h.SiblingInvariant := by
  intro a ha
  obtain ⟨hd, ho, hr⟩ := hf a ha
  refine ⟨hr, Or.inr (Or.inl hd), fun o hoo => ?_⟩
  rw [ho] at hoo
  cases hoo

theorem siblingInvariant_step (h : SegmentHeap) (th : Addr) (p : Bool) (hvalid : th < h.size)
    (hinv : h.SiblingInvariant) : (initRouteSegment h th p).2.SiblingInvariant := by
  obtain ⟨b1, b2, inner⟩ := initRouteSegment_heap h th p hvalid
  by_cases h1 : (h.cells th).segmentStart = 0 ∧ p = false
  · rw [b1 h1]; exact hinv
  by_cases h2 : ((h.cells th).segmentStart : Int) =
      ((h.cells th).road.getPointsLength : Int) - 1 ∧ p = true
  · rw [b2 h2]; exact hinv
  obtain ⟨e1, e2, e3, e4⟩ := inner h1 h2
  obtain ⟨hrth, hdth, hoth⟩ := hinv th hvalid
  by_cases h3 : (h.cells th).directionAssgn = 0
  · -- `th` is claimed: it had no sibling and is nobody's sibling
    obtain ⟨_, s1, c1⟩ := e1 h3
    have hnone : (h.cells th).oppositeDirection = none := by
      cases ho : (h.cells th).oppositeDirection with
      | none => rfl
      | some o =>
        rcases (hoth o ho).2.1 with hq | hq <;> rw [h3] at hq <;> exact absurd hq (by decide)
    have hopp : ∀ a, ((initRouteSegment h th p).2.cells a).oppositeDirection =
        (h.cells a).oppositeDirection := by
      intro a
      rw [c1 a]
      by_cases ha : a = th
      · rw [if_pos ha, ha]
      · rw [if_neg ha]
    intro a ha
    rw [s1] at ha
    obtain ⟨hra, hda, hoa⟩ := hinv a ha
    by_cases hath : a = th
    · subst hath
      rw [c1 a, if_pos rfl]
      refine ⟨hra, ?_, fun o ho => ?_⟩
      · rcases dirOf_cases p with hp | hp
        · exact Or.inr (Or.inr hp)
        · exact Or.inl hp
      · rw [hnone] at ho; cases ho
    · rw [c1 a, if_neg hath]
      refine ⟨hra, hda, fun o ho => ?_⟩
      obtain ⟨q1, q2, q3, q4, q5, q6⟩ := hoa o ho
      have hoth' : o ≠ th := by
        intro hoth'
        rw [hoth', h3] at q3
        rcases q2 with hq | hq <;> rw [hq] at q3 <;> exact absurd q3 (by decide)
      rw [s1, c1 o, if_neg hoth']
      refine ⟨q1, q2, q3, q4, q5, fun a' ha' hoa' => ?_⟩
      rw [hopp a'] at hoa'
      exact q6 a' ha' hoa'
  by_cases h4 : p ≠ decide ((h.cells th).directionAssgn = 1)
  · by_cases h5 : (h.cells th).oppositeDirection = none
    · -- a sibling is allocated at the fresh address `h.size`
      obtain ⟨_, s1, c1⟩ := e4 h3 h4 h5
      obtain ⟨hflip, _⟩ := dirOf_flip _ p hdth h3 h4
      have hsz : th ≠ h.size := Nat.ne_of_lt hvalid
      have hmod : ((((h.cells th).segmentStart : Int) % 65536).toNat) =
          (h.cells th).segmentStart := by
        omega
      have hd1 : (h.cells th).directionAssgn = 1 ∨ (h.cells th).directionAssgn = -1 := by
        rcases hdth with hd | hd | hd
        · exact Or.inr hd
        · exact absurd hd h3
        · exact Or.inl hd
      intro a ha
      rw [s1] at ha
      by_cases han : a = h.size
      · subst han
        rw [c1 h.size, if_pos rfl]
        refine ⟨?_, ?_, fun o ho => ?_⟩
        · show ((((h.cells th).segmentStart : Int) % 65536).toNat) < 65536
          omega
        · rcases dirOf_cases p with hp | hp
          · exact Or.inr (Or.inr hp)
          · exact Or.inl hp
        · cases ho
      · have ha' : a < h.size := Nat.lt_of_le_of_ne (Nat.lt_succ_iff.1 ha) han
        obtain ⟨hra, hda, hoa⟩ := hinv a ha'
        by_cases hath : a = th
        · subst hath
          rw [c1 a, if_neg han, if_pos rfl]
          refine ⟨hra, hda, fun o ho => ?_⟩
          simp only [Option.some.injEq] at ho
          subst ho
          rw [s1, c1 h.size, if_pos rfl]
          refine ⟨Nat.lt_succ_self _, hd1, hflip.symm, rfl, hmod, fun a' ha'' hoa' => ?_⟩
          rw [c1 a'] at hoa'
          by_cases han' : a' = h.size
          · rw [if_pos han'] at hoa'; cases hoa'
          · rw [if_neg han'] at hoa'
            by_cases hath' : a' = a
            · exact hath'
            · rw [if_neg hath'] at hoa'
              have hlt : a' < h.size := Nat.lt_of_le_of_ne (Nat.lt_succ_iff.1 ha'') han'
              exact absurd ((hinv a' hlt).2.2 h.size hoa').1 (Nat.lt_irrefl _)
        · rw [c1 a, if_neg han, if_neg hath]
          refine ⟨hra, hda, fun o ho => ?_⟩
          obtain ⟨q1, q2, q3, q4, q5, q6⟩ := hoa o ho
          have hon : o ≠ h.size := Nat.ne_of_lt q1
          have hkeep : ((initRouteSegment h th p).2.cells o).directionAssgn =
                (h.cells o).directionAssgn ∧
              ((initRouteSegment h th p).2.cells o).road = (h.cells o).road ∧
              ((initRouteSegment h th p).2.cells o).segmentStart =
                (h.cells o).segmentStart := by
            rw [c1 o, if_neg hon]
            by_cases hoth' : o = th
            · rw [if_pos hoth', hoth']; exact ⟨rfl, rfl, rfl⟩
            · rw [if_neg hoth']; exact ⟨rfl, rfl, rfl⟩
          rw [s1, hkeep.1, hkeep.2.1, hkeep.2.2]
          refine ⟨Nat.lt_succ_of_lt q1, q2, q3, q4, q5, fun a' ha'' hoa' => ?_⟩
          rw [c1 a'] at hoa'
          by_cases han' : a' = h.size
          · rw [if_pos han'] at hoa'; cases hoa'
          · rw [if_neg han'] at hoa'
            by_cases hath' : a' = th
            · rw [if_pos hath'] at hoa'
              simp only [Option.some.injEq] at hoa'
              exact absurd hoa'.symm hon
            · rw [if_neg hath'] at hoa'
              exact q6 a' (Nat.lt_of_le_of_ne (Nat.lt_succ_iff.1 ha'') han') hoa'
    · rw [e3 h3 h4 h5]; exact hinv
  · rw [e2 h3 h4]; exact hinv

theorem siblingInvariant_of_reachable (h : SegmentHeap) (hr : h.Reachable) :
    h.SiblingInvariant := by
  induction hr with
  | fresh h hf => exact siblingInvariant_of_fresh h hf
  | init h th p _ hvalid ih => exact siblingInvariant_step h th p hvalid ih

theorem initRouteSegment_alert_false (h : SegmentHeap) (th : Addr) (p : Bool)
    (hvalid : th < h.size) (hinv : h.SiblingInvariant) :
    initRouteSegment.alert h th p = false := by
  obtain ⟨_, hdth, hoth⟩ := hinv th hvalid
  unfold initRouteSegment.alert
  by_cases h1 : (h.cells th).segmentStart = 0 ∧ p = false
  · rw [if_pos h1]
  rw [if_neg h1]
  by_cases h2 : ((h.cells th).segmentStart : Int) =
      ((h.cells th).road.getPointsLength : Int) - 1 ∧ p = true
  · rw [if_pos h2]
  rw [if_neg h2]
  by_cases h3 : (h.cells th).directionAssgn = 0
  · rw [if_pos h3]
  rw [if_neg h3]
  by_cases h4 : p ≠ decide ((h.cells th).directionAssgn = 1)
  · rw [if_pos h4]
    obtain ⟨hflip, _⟩ := dirOf_flip _ p hdth h3 h4
    have hsz : h.size ≠ th := Nat.ne_of_gt hvalid
    by_cases h5 : (h.cells th).oppositeDirection = none
    · have hs : (initRouteSegment.siblingHeap h th p).cells th =
          { h.cells th with oppositeDirection := some h.size } := by
        unfold initRouteSegment.siblingHeap
        rw [if_pos h5]
        simp [SegmentHeap.write, SegmentHeap.alloc, Ne.symm hsz,
          Function.update_noteq (Ne.symm hsz)]
      have hn : ((initRouteSegment.siblingHeap h th p).cells h.size).directionAssgn =
          dirOf p := by
        unfold initRouteSegment.siblingHeap
        rw [if_pos h5]
        simp [SegmentHeap.write, SegmentHeap.alloc]
      simp only [hs, hn]
      cases p <;> simp [dirOf]
    · have hs : initRouteSegment.siblingHeap h th p = h := by
        unfold initRouteSegment.siblingHeap
        rw [if_neg h5]
      rw [hs]
      cases ho : (h.cells th).oppositeDirection with
      | none => exact absurd ho h5
      | some o =>
        have hd := (hoth o ho).2.2.1
        rw [hflip] at hd
        simp only [ho, hd]
        cases p <;> simp [dirOf]
  · rw [if_neg h4]

/-- C13 (as stated, refuted): `heapThird` is reachable from the single fresh
segment of `heapInterior` by three `initRouteSegment` calls (on the segment for
both directions, then on the sibling returned); it holds two different sibling
pairs, (0, 1) and (1, 2), for the same road and point. -/
theorem sibling_pair_counterexample :
    heapThird.Reachable ∧
      (heapThird.cells 0).oppositeDirection = some 1 ∧
      (heapThird.cells 1).oppositeDirection = some 2 ∧
      (heapThird.cells 0).road = (heapThird.cells 1).road ∧
      (heapThird.cells 0).segmentStart = (heapThird.cells 1).segmentStart ∧
      ¬ ((0 : Addr) = 1 ∧ (1 : Addr) = 2) ∧ ¬ ((0 : Addr) = 2 ∧ (1 : Addr) = 1) := by
  refine ⟨?_, by decide, by decide, rfl, by decide, by decide, by decide⟩
  have hf : heapInterior.Fresh := by
    intro a ha
    have ha0 : a = 0 := by
      have : a < 1 := ha
      omega
    subst ha0
    decide
  exact SegmentHeap.Reachable.init _ 1 true
    (SegmentHeap.Reachable.init _ 0 false
      (SegmentHeap.Reachable.init _ 0 true (SegmentHeap.Reachable.fresh _ hf) (by decide))
      (by decide))
    (by decide)

/-- C13 (amended): in every state reachable from freshly constructed segments
by `initRouteSegment` calls on allocated segments, whenever the
`oppositeDirection` of a segment is set, the sibling is another allocated
segment, both have an assigned direction, the two directions are opposite (1
and -1), the sibling has the same road and `segmentStart`, and it is the
sibling of no other segment; and no call of `initRouteSegment` takes the
branch `Alert failed - directionAssgn wrongly`. (Several sibling pairs may
exist for one road and point.) -/
theorem sibling_invariant (h : SegmentHeap) (hr : h.Reachable) :
    (∀ a o, a < h.size → (h.cells a).oppositeDirection = some o →
      o < h.size ∧ o ≠ a ∧
      ((h.cells a).directionAssgn = 1 ∨ (h.cells a).directionAssgn = -1) ∧
      (h.cells o).directionAssgn = -(h.cells a).directionAssgn ∧
      (h.cells o).road = (h.cells a).road ∧
      (h.cells o).segmentStart = (h.cells a).segmentStart ∧
      ∀ a', a' < h.size → (h.cells a').oppositeDirection = some o → a' = a) ∧
    ∀ th p, th < h.size → initRouteSegment.alert h th p = false := by
  have hinv := siblingInvariant_of_reachable h hr
  refine ⟨fun a o ha ho => ?_, fun th p hth => initRouteSegment_alert_false h th p hth hinv⟩
  obtain ⟨q1, q2, q3, q4, q5, q6⟩ := (hinv a ha).2.2 o ho
  refine ⟨q1, ?_, q2, q3, q4, q5, q6⟩
  intro hoa
  rw [hoa] at q3
  rcases q2 with hq | hq <;> rw [hq] at q3 <;> exact absurd q3 (by decide)

/-- Witness of `sibling_invariant`: in `heapBoth`, reached by asking the fresh
segment of `heapInterior` for both directions, the segment 0 and its sibling 1
have the directions 1 and -1. -/
theorem sibling_invariant_witness :
    heapBoth.Reachable ∧ (heapBoth.cells 0).oppositeDirection = some 1 ∧
      (heapBoth.cells 1).directionAssgn = -(heapBoth.cells 0).directionAssgn ∧
      initRouteSegment.alert heapBoth 0 false = false := by
  have hf : heapInterior.Fresh := by
    intro a ha
    have ha0 : a = 0 := by
      have : a < 1 := ha
      omega
    subst ha0
    decide
  have hr : heapBoth.Reachable :=
    SegmentHeap.Reachable.init _ 0 false
      (SegmentHeap.Reachable.init _ 0 true (SegmentHeap.Reachable.fresh _ hf) (by decide))
      (by decide)
  have hw := sibling_invariant heapBoth hr
  have ho : (heapBoth.cells 0).oppositeDirection = some 1 := by decide
  exact ⟨hr, ho, (hw.1 0 1 (by decide) ho).2.2.2.1, hw.2 0 false (by decide)⟩

/-! ## Chains of segments -/

theorem isChain_none (h : SegmentHeap) (l : List Addr) :
    h.isChain none l = true ↔ l = [] := by
  cases l <;> simp [SegmentHeap.isChain]

theorem isChain_some (h : SegmentHeap) (a : Addr) (l : List Addr) :
    h.isChain (some a) l = true ↔
      ∃ t, l = a :: t ∧ a < h.size ∧ h.isChain (h.cells a).next t = true := by
  cases l with
  | nil => simp [SegmentHeap.isChain]
  | cons b t =>
    simp only [SegmentHeap.isChain, Bool.and_eq_true, decide_eq_true_eq, List.cons.injEq]
    constructor
    · rintro ⟨⟨rfl, h1⟩, h2⟩
      exact ⟨t, ⟨rfl, rfl⟩, h1, h2⟩
    · rintro ⟨t', ⟨rfl, rfl⟩, h1, h2⟩
      exact ⟨⟨rfl, h1⟩, h2⟩

theorem isChain_cons (h : SegmentHeap) (a b : Addr) (t : List Addr) :
    h.isChain (some a) (b :: t) = true ↔
      a = b ∧ a < h.size ∧ h.isChain (h.cells a).next t = true := by
  simp only [SegmentHeap.isChain, Bool.and_eq_true, decide_eq_true_eq, and_assoc]

theorem isChain_lt (h : SegmentHeap) (p : Option Addr) (l : List Addr)
    (hc : h.isChain p l = true) : ∀ a ∈ l, a < h.size := by
  induction l generalizing p with
  | nil => simp
  | cons b t ih =>
    cases p with
    | none => simp [SegmentHeap.isChain] at hc
    | some a =>
      obtain ⟨hab, hlt, hrest⟩ := (isChain_cons h a _ _).1 hc
      subst hab
      intro x hx
      rcases List.mem_cons.1 hx with rfl | hx
      · exact hlt
      · exact ih _ hrest x hx

theorem isChain_functional (h : SegmentHeap) (p : Option Addr) (l1 l2 : List Addr)
    (h1 : h.isChain p l1 = true) (h2 : h.isChain p l2 = true) : l1 = l2 := by
  induction l1 generalizing p l2 with
  | nil =>
    cases p with
    | none => exact ((isChain_none h l2).1 h2).symm
    | some a => simp [SegmentHeap.isChain] at h1
  | cons b t ih =>
    cases p with
    | none => simp [SegmentHeap.isChain] at h1
    | some a =>
      obtain ⟨hab, _, r1⟩ := (isChain_cons h a _ _).1 h1
      subst hab
      obtain ⟨t2, e2, _, r2⟩ := (isChain_some h a _).1 h2
      subst e2
      rw [ih _ t2 r1 r2]

/-- Every non-empty suffix of a chain is the chain that starts at its first
element. -/
theorem isChain_suffix (h : SegmentHeap) (p : Option Addr) (l1 : List Addr) (a : Addr)
    (l2 : List Addr) (hc : h.isChain p (l1 ++ a :: l2) = true) :
    h.isChain (some a) (a :: l2) = true := by
  induction l1 generalizing p with
  | nil =>
    cases p with
    | none => simp [SegmentHeap.isChain] at hc
    | some b =>
      rw [List.nil_append] at hc
      obtain ⟨hab, _, _⟩ := (isChain_cons h b a l2).1 hc
      subst hab
      exact hc
  | cons b t ih =>
    cases p with
    | none => simp [SegmentHeap.isChain] at hc
    | some c =>
      rw [List.cons_append] at hc
      obtain ⟨_, _, r⟩ := (isChain_cons h c _ _).1 hc
      exact ih _ r

theorem isChain_nodup (h : SegmentHeap) (p : Option Addr) (l : List Addr)
    (hc : h.isChain p l = true) : l.Nodup := by
  induction l generalizing p with
  | nil => exact List.nodup_nil
  | cons b t ih =>
    cases p with
    | none => simp [SegmentHeap.isChain] at hc
    | some a =>
      obtain ⟨hab, _, r⟩ := (isChain_cons h a _ _).1 hc
      subst hab
      refine List.nodup_cons.2 ⟨fun hmem => ?_, ih _ r⟩
      obtain ⟨s1, s2, hs⟩ := List.append_of_mem hmem
      have hsuf : h.isChain (some a) (a :: s2) = true := by
        rw [hs] at r
        exact isChain_suffix h _ s1 a s2 r
      have heq := isChain_functional h _ _ _ hsuf hc
      have hlen := congrArg List.length heq
      rw [hs] at hlen
      simp at hlen
      omega

theorem isChain_length_le (h : SegmentHeap) (p : Option Addr) (l : List Addr)
    (hc : h.isChain p l = true) : l.length ≤ h.size := by
  have hnd := isChain_nodup h p l hc
  have hlt := isChain_lt h p l hc
  have hsub : l.toFinset ⊆ Finset.range h.size := by
    intro x hx
    exact Finset.mem_range.2 (hlt x (List.mem_toFinset.1 hx))
  have := Finset.card_le_card hsub
  rwa [List.toFinset_card_of_nodup hnd, Finset.card_range] at this

theorem isChain_last_next (h : SegmentHeap) (p : Option Addr) (l : List Addr)
    (hc : h.isChain p l = true) : ∀ t, l.getLast? = some t → (h.cells t).next = none := by
  induction l generalizing p with
  | nil => simp
  | cons b t ih =>
    cases p with
    | none => simp [SegmentHeap.isChain] at hc
    | some a =>
      obtain ⟨hab, _, r⟩ := (isChain_cons h a _ _).1 hc
      subst hab
      intro x hx
      cases t with
      | nil =>
        simp only [List.getLast?_singleton, Option.some.injEq] at hx
        subst hx
        cases hn : (h.cells a).next with
        | none => rfl
        | some c => rw [hn] at r; simp [SegmentHeap.isChain] at r
      | cons c t2 =>
        rw [List.getLast?_cons_cons] at hx
        exact ih _ r x hx

/-- A segment of a chain whose `next` is null is the last of the chain. -/
theorem isChain_mem_last (h : SegmentHeap) (p : Option Addr) (l : List Addr)
    (hc : h.isChain p l = true) (x : Addr) (hx : x ∈ l) (hn : (h.cells x).next = none) :
    l.getLast? = some x := by
  induction l generalizing p with
  | nil => simp at hx
  | cons b t ih =>
    cases p with
    | none => simp [SegmentHeap.isChain] at hc
    | some a =>
      obtain ⟨hab, _, r⟩ := (isChain_cons h a _ _).1 hc
      subst hab
      cases t with
      | nil =>
        simp only [List.mem_singleton] at hx
        subst hx
        rfl
      | cons c t2 =>
        rw [List.getLast?_cons_cons]
        rcases List.mem_cons.1 hx with rfl | hx
        · rw [hn] at r
          simp [SegmentHeap.isChain] at r
        · exact ih _ r hx

theorem walkTail_of_isChain (h : SegmentHeap) (a : Addr) (l : List Addr) (fuel : Nat)
    (hc : h.isChain (some a) l = true) (hf : l.length ≤ fuel) :
    ∃ t, h.walkTail fuel a = some t ∧ l.getLast? = some t := by
  induction l generalizing a fuel with
  | nil => simp [SegmentHeap.isChain] at hc
  | cons b t ih =>
    obtain ⟨hab, _, r⟩ := (isChain_cons h a _ _).1 hc
    subst hab
    cases fuel with
    | zero => simp at hf
    | succ fuel =>
      cases hn : (h.cells a).next with
      | none =>
        rw [hn] at r
        have := (isChain_none h t).1 r
        subst this
        exact ⟨a, by simp [SegmentHeap.walkTail, hn], rfl⟩
      | some c =>
        rw [hn] at r
        obtain ⟨t2, e2, _, _⟩ := (isChain_some h c _).1 r
        subst e2
        obtain ⟨x, hx1, hx2⟩ := ih c fuel r (by simpa using hf)
        refine ⟨x, by simp [SegmentHeap.walkTail, hn, hx1], ?_⟩
        rw [List.getLast?_cons_cons]
        exact hx2

/-- A chain stays a chain in a heap that is at least as large and agrees on the
`next` pointers of the segments of the chain. -/
theorem isChain_congr (h h' : SegmentHeap) (p : Option Addr) (l : List Addr)
    (hs : h.size ≤ h'.size) (hn : ∀ a ∈ l, (h'.cells a).next = (h.cells a).next)
    (hc : h.isChain p l = true) : h'.isChain p l = true := by
  induction l generalizing p with
  | nil =>
    cases p with
    | none => rfl
    | some a => simp [SegmentHeap.isChain] at hc
  | cons b t ih =>
    cases p with
    | none => simp [SegmentHeap.isChain] at hc
    | some a =>
      obtain ⟨hab, hlt, r⟩ := (isChain_cons h a _ _).1 hc
      subst hab
      refine (isChain_some h' a _).2 ⟨t, rfl, lt_of_lt_of_le hlt hs, ?_⟩
      rw [hn a (List.mem_cons_self _ _)]
      exact ih _ (fun x hx => hn x (List.mem_cons_of_mem _ hx)) r

/-- Appending at the tail: after `last->next = b` for a segment `b` outside the
chain whose own `next` is null, the chain is the old one followed by `b`. -/
theorem isChain_append (h : SegmentHeap) (p : Option Addr) (l : List Addr) (t b : Addr)
    (hc : h.isChain p l = true) (ht : l.getLast? = some t) (hb : b < h.size) (hbl : b ∉ l)
    (hbn : (h.cells b).next = none) :
    (h.write t { h.cells t with next := some b }).isChain p (l ++ [b]) = true := by
  induction l generalizing p with
  | nil => simp at ht
  | cons x r ih =>
    cases p with
    | none => simp [SegmentHeap.isChain] at hc
    | some a =>
      obtain ⟨hab, hlt, hr⟩ := (isChain_cons h a _ _).1 hc
      subst hab
      have hba : b ≠ a := fun hh => hbl (hh ▸ List.mem_cons_self _ _)
      cases r with
      | nil =>
        simp only [List.getLast?_singleton, Option.some.injEq] at ht
        subst ht
        refine (isChain_some _ a _).2 ⟨[b], rfl, hlt, ?_⟩
        have h1 : ((h.write a { h.cells a with next := some b }).cells a).next = some b := by
          simp [SegmentHeap.write]
        rw [h1]
        refine (isChain_some _ b _).2 ⟨[], rfl, hb, ?_⟩
        have h2 : ((h.write a { h.cells a with next := some b }).cells b).next = none := by
          simp [SegmentHeap.write, Function.update_noteq hba, hbn]
        rw [h2]
        rfl
      | cons c r2 =>
        rw [List.getLast?_cons_cons] at ht
        have hat : a ≠ t := by
          intro hh
          have hnone := isChain_last_next h _ _ hr t ht
          rw [← hh] at hnone
          rw [hnone] at hr
          simp [SegmentHeap.isChain] at hr
        refine (isChain_some _ a _).2 ⟨(c :: r2) ++ [b], rfl, hlt, ?_⟩
        have h1 : ((h.write t { h.cells t with next := some b }).cells a).next =
            (h.cells a).next := by
          simp [SegmentHeap.write, Function.update_noteq hat]
        rw [h1]
        exact ih _ hr ht (fun hh => hbl (List.mem_cons_of_mem _ hh))

/-! ## `RoutingSubregionTile::add` -/

theorem lookup_map_replace {V : Type} (m : List (Int × V)) (k k' : Int) (v : V) :
    (m.map fun e => if e.1 = k then (k, v) else e).lookup k' =
      if k' = k then (m.lookup k).map (fun _ => v) else m.lookup k' := by
  induction m with
  | nil => simp
  | cons e m ih =>
    obtain ⟨ek, ev⟩ := e
    by_cases hek : ek = k <;> by_cases hkk : k' = ek <;> by_cases hk : k' = k <;>
      simp_all [List.lookup_cons, beq_eq_decide]

theorem lookup_mapSet {V : Type} (m : List (Int × V)) (k k' : Int) (v : V) :
    (mapSet m k v).lookup k' = if k' = k then some v else m.lookup k' := by
  unfold mapSet
  by_cases hk : (m.lookup k).isSome = true
  · rw [if_pos hk, lookup_map_replace]
    by_cases hkk : k' = k
    · rw [if_pos hkk, if_pos hkk]
      obtain ⟨x, hx⟩ := Option.isSome_iff_exists.1 hk
      rw [hx]; rfl
    · rw [if_neg hkk, if_neg hkk]
  · rw [if_neg hk, List.lookup_append]
    by_cases hkk : k' = k
    · subst hkk
      have hn : m.lookup k' = none := by
        cases hm : m.lookup k' with
        | none => rfl
        | some x => rw [hm] at hk; simp at hk
      simp [hn, List.lookup_cons]
    · have hb : (k' == k) = false := by simpa using hkk
      rw [if_neg hkk, List.lookup_cons, hb]
      cases m.lookup k' <;> rfl

/-- The effect of one pass of the loop of `add`, for the point index `i` with
key `k`, when the chain stored under `k` is `l0`: the new segment gets the
fresh address `h.size`; it becomes the head when `l0` is empty and is linked
behind the last segment of `l0` otherwise. -/
theorem add_step_spec (o : RouteDataObject) (i : Nat) (routes : List (Int × Option Addr))
    (h : SegmentHeap) (l0 : List Addr)
    (hl0 : h.isChain ((routes.lookup (o.keyAt i)).join) l0 = true) :
    ∃ routes' h', RoutingSubregionTile.add.step o i routes h = some (routes', h') ∧
      h'.size = h.size + 1 ∧
      (∀ k', (routes'.lookup k').join =
        if k' = o.keyAt i ∧ l0 = [] then some h.size
        else (routes.lookup k').join) ∧
      (∀ p l, h.isChain p l = true → (∀ t, l0.getLast? = some t → t ∉ l) →
        h'.isChain p l = true) ∧
      (∀ p l t, h.isChain p l = true → l0.getLast? = some t → t ∈ l →
        h'.isChain p (l ++ [h.size]) = true) ∧
      h'.isChain (some h.size) [h.size] = true ∧
      (∀ a, a < h.size → segData (h'.cells a) = segData (h.cells a)) ∧
      segData (h'.cells h.size) = RouteSegment.new o i := by
  have hnew : ((h.alloc (RouteSegment.new o i)).2.cells h.size) = RouteSegment.new o i := by
    simp [SegmentHeap.alloc]
  have hold : ∀ a, a < h.size → (h.alloc (RouteSegment.new o i)).2.cells a = h.cells a := by
    intro a ha
    simp [SegmentHeap.alloc, Function.update_noteq (Nat.ne_of_lt ha)]
  have hsize : (h.alloc (RouteSegment.new o i)).2.size = h.size + 1 := rfl
  have hfst : (h.alloc (RouteSegment.new o i)).1 = h.size := rfl
  -- chains of `h` are chains of the heap with the new segment
  have halloc : ∀ p l, h.isChain p l = true →
      (h.alloc (RouteSegment.new o i)).2.isChain p l = true := by
    intro p l hc
    refine isChain_congr h _ p l (by rw [hsize]; exact Nat.le_succ _) (fun a ha => ?_) hc
    rw [hold a (isChain_lt h p l hc a ha)]
  have hself : (h.alloc (RouteSegment.new o i)).2.isChain (some h.size) [h.size] = true := by
    refine (isChain_cons _ _ _ _).2 ⟨rfl, by rw [hsize]; exact Nat.lt_succ_self _, ?_⟩
    rw [hnew]; rfl
  unfold RoutingSubregionTile.add.step
  cases hhead : (routes.lookup (o.keyAt i)).join with
  | none =>
    simp only [hhead]
    rw [hhead] at hl0
    have hl0' := (isChain_none h l0).1 hl0
    subst hl0'
    refine ⟨_, _, rfl, hsize, fun k' => ?_, fun p l hc _ => halloc p l hc,
      fun p l t _ ht _ => by simp at ht, hself, fun a ha => by rw [hold a ha], by rw [hnew]; rfl⟩
    rw [lookup_mapSet, hfst]
    by_cases hk : k' = o.keyAt i
    · rw [if_pos hk, if_pos ⟨hk, rfl⟩]; rfl
    · rw [if_neg hk, if_neg (fun hh => hk hh.1)]
  | some orig =>
    simp only [hhead]
    rw [hhead] at hl0
    obtain ⟨tl, hl0e, _, _⟩ := (isChain_some h orig l0).1 hl0
    have hne : l0 ≠ [] := by rw [hl0e]; simp
    have hlen : l0.length ≤ (h.alloc (RouteSegment.new o i)).2.size := by
      rw [hsize]
      exact Nat.le_succ_of_le (isChain_length_le h _ _ hl0)
    obtain ⟨t, hwalk, hlast⟩ := walkTail_of_isChain _ orig l0 _ (halloc _ _ hl0) hlen
    have htl0 : t ∈ l0 := List.mem_of_getLast?_eq_some hlast
    have htlt : t < h.size := isChain_lt h _ _ hl0 t htl0
    have htne : t ≠ h.size := Nat.ne_of_lt htlt
    have htnext : (h.cells t).next = none := isChain_last_next h _ _ hl0 t hlast
    simp only [hwalk, hfst]
    refine ⟨_, _, rfl, hsize, fun k' => ?_, fun p l hc hnot => ?_, fun p l t' hc ht' hmem => ?_,
      ?_, fun a ha => ?_, ?_⟩
    · rw [if_neg (fun hh => hne hh.2)]
    · -- a chain that does not pass through the tail is untouched
      have htl : t ∉ l := hnot t hlast
      refine isChain_congr h _ p l (by show h.size ≤ h.size + 1; exact Nat.le_succ _)
        (fun a ha => ?_) hc
      have hat : a ≠ t := fun hh => htl (hh ▸ ha)
      have halt := isChain_lt h p l hc a ha
      simp [SegmentHeap.write, Function.update_noteq hat, hold a halt]
    · -- a chain through the tail ends there and is extended by the new segment
      rw [hlast] at ht'
      cases ht'
      have hlast' : l.getLast? = some t := isChain_mem_last h p l hc t hmem htnext
      refine isChain_append _ p l t h.size (halloc p l hc) hlast'
        (by rw [hsize]; exact Nat.lt_succ_self _)
        (fun hh => Nat.lt_irrefl _ (isChain_lt h p l hc _ hh)) (by rw [hnew]; rfl)
    · refine (isChain_cons _ _ _ _).2 ⟨rfl, by show h.size < h.size + 1; exact Nat.lt_succ_self _, ?_⟩
      simp [SegmentHeap.write, Function.update_noteq (Ne.symm htne), hnew]
      rfl
    · by_cases hat : a = t
      · subst hat
        simp [SegmentHeap.write, segData, hold a ha]
      · simp [SegmentHeap.write, Function.update_noteq hat, hold a ha]
    · simp [SegmentHeap.write, Function.update_noteq (Ne.symm htne), hnew]
      rfl

theorem add_step_strong (o : RouteDataObject) (i : Nat) (routes : List (Int × Option Addr))
    (h : SegmentHeap) (hwf : RoutingSubregionTile.ChainsWF routes h) :
    ∃ routes' h', RoutingSubregionTile.add.step o i routes h = some (routes', h') ∧
      h'.size = h.size + 1 ∧
      (∀ a, a < h.size → segData (h'.cells a) = segData (h.cells a)) ∧
      segData (h'.cells h.size) = RouteSegment.new o i ∧
      (∀ k l, h.isChain ((routes.lookup k).join) l = true →
        h'.isChain ((routes'.lookup k).join)
          (l ++ if o.keyAt i = k then [h.size] else []) = true) ∧
      RoutingSubregionTile.ChainsWF routes' h' := by
  obtain ⟨hch, hdisj⟩ := hwf
  obtain ⟨l0, hl0⟩ := hch (o.keyAt i)
  obtain ⟨routes', h', hstep, hsize, hhead, hc1, hc2, hself, hframe, hnew⟩ :=
    add_step_spec o i routes h l0 hl0
  have hchain : ∀ k l, h.isChain ((routes.lookup k).join) l = true →
      h'.isChain ((routes'.lookup k).join)
        (l ++ if o.keyAt i = k then [h.size] else []) = true := by
    intro k l hl
    by_cases hk : o.keyAt i = k
    · subst hk
      have hll : l = l0 := isChain_functional h _ _ _ hl hl0
      subst hll
      rw [if_pos rfl, hhead]
      cases hlast : l.getLast? with
      | none =>
        have hnil : l = [] := List.getLast?_eq_none_iff.1 hlast
        subst hnil
        rw [if_pos ⟨rfl, rfl⟩]
        exact hself
      | some t =>
        have hne : l ≠ [] := by rintro rfl; simp at hlast
        rw [if_neg (fun hh => hne hh.2)]
        exact hc2 _ l t hl hlast (List.mem_of_getLast?_eq_some hlast)
    · rw [if_neg hk, List.append_nil, hhead, if_neg (fun hh => hk hh.1.symm)]
      refine hc1 _ l hl (fun t ht hmem => ?_)
      exact hdisj (o.keyAt i) k l0 l hk hl0 hl t (List.mem_of_getLast?_eq_some ht) hmem
  refine ⟨routes', h', hstep, hsize, hframe, hnew, hchain, ⟨fun k => ?_, ?_⟩⟩
  · obtain ⟨l, hl⟩ := hch k
    exact ⟨_, hchain k l hl⟩
  · intro k1 k2 l1' l2' hne h1 h2 a ha1 ha2
    obtain ⟨l1, hl1⟩ := hch k1
    obtain ⟨l2, hl2⟩ := hch k2
    have e1 := isChain_functional h' _ _ _ h1 (hchain k1 l1 hl1)
    have e2 := isChain_functional h' _ _ _ h2 (hchain k2 l2 hl2)
    rw [e1] at ha1
    rw [e2] at ha2
    rcases List.mem_append.1 ha1 with ha1 | ha1
    · rcases List.mem_append.1 ha2 with ha2 | ha2
      · exact hdisj k1 k2 l1 l2 hne hl1 hl2 a ha1 ha2
      · have hlt := isChain_lt h _ _ hl1 a ha1
        split_ifs at ha2 with hk
        · simp only [List.mem_singleton] at ha2
          exact Nat.ne_of_lt hlt ha2
        · simp at ha2
    · split_ifs at ha1 with hk1
      · simp only [List.mem_singleton] at ha1
        rcases List.mem_append.1 ha2 with ha2 | ha2
        · have hlt := isChain_lt h _ _ hl2 a ha2
          exact Nat.ne_of_lt hlt ha1
        · rw [if_neg (fun hk2 => hne (hk1.symm.trans hk2))] at ha2
          simp at ha2
      · simp at ha1

theorem add_loop_strong (o : RouteDataObject) (is : List Nat) :
    ∀ (routes : List (Int × Option Addr)) (h : SegmentHeap),
      RoutingSubregionTile.ChainsWF routes h →
      ∃ routes' h', RoutingSubregionTile.add.loop o is routes h = some (routes', h') ∧
        h'.size = h.size + is.length ∧
        (∀ a, a < h.size → segData (h'.cells a) = segData (h.cells a)) ∧
        (∀ j, ∀ hj : j < is.length,
          segData (h'.cells (h.size + j)) = RouteSegment.new o (is.get ⟨j, hj⟩)) ∧
        (∀ k l, h.isChain ((routes.lookup k).join) l = true →
          h'.isChain ((routes'.lookup k).join)
            (l ++ RoutingSubregionTile.add.newAddrs o k is h.size) = true) ∧
        RoutingSubregionTile.ChainsWF routes' h' := by
  induction is with
  | nil =>
    intro routes h hwf
    refine ⟨routes, h, rfl, rfl, fun _ _ => rfl, fun j hj => absurd hj (Nat.not_lt_zero _),
      fun k l hl => ?_, hwf⟩
    simpa [RoutingSubregionTile.add.newAddrs] using hl
  | cons i is ih =>
    intro routes h hwf
    obtain ⟨r1, h1, hstep, hsize1, hframe1, hnew1, hchain1, hwf1⟩ :=
      add_step_strong o i routes h hwf
    obtain ⟨r2, h2, hloop, hsize2, hframe2, hnew2, hchain2, hwf2⟩ := ih r1 h1 hwf1
    refine ⟨r2, h2, ?_, ?_, fun a ha => ?_, fun j hj => ?_, fun k l hl => ?_, hwf2⟩
    · simp only [RoutingSubregionTile.add.loop, hstep]
      exact hloop
    · rw [hsize2, hsize1, List.length_cons, Nat.add_assoc, Nat.add_comm 1]
    · rw [hframe2 a (by rw [hsize1]; exact Nat.lt_succ_of_lt ha), hframe1 a ha]
    · cases j with
      | zero =>
        rw [Nat.add_zero, hframe2 h.size (by rw [hsize1]; exact Nat.lt_succ_self _)]
        exact hnew1
      | succ j =>
        have hj' : j < is.length := by simpa using hj
        have := hnew2 j hj'
        rw [hsize1] at this
        have e : h.size + (j + 1) = h.size + 1 + j := by
          rw [Nat.add_assoc, Nat.add_comm 1 j]
        rw [e, this]
        rfl
    · have := hchain2 k _ (hchain1 k l hl)
      rw [hsize1] at this
      simpa [RoutingSubregionTile.add.newAddrs, List.append_assoc] using this

theorem map_newAddrs (o : RouteDataObject) (k : Int) (f : Addr → RouteSegment) (is : List Nat) :
    ∀ base : Addr,
      (∀ j, ∀ hj : j < is.length, f (base + j) = RouteSegment.new o (is.get ⟨j, hj⟩)) →
      (RoutingSubregionTile.add.newAddrs o k is base).map f =
        (is.filter fun i => decide (o.keyAt i = k)).map fun i : Nat => RouteSegment.new o (i : Int) := by
  induction is with
  | nil => intro base _; rfl
  | cons i is ih =>
    intro base hf
    have h0 : f base = RouteSegment.new o i := by
      have := hf 0 (by simp)
      simpa using this
    have hrest : ∀ j, ∀ hj : j < is.length,
        f (base + 1 + j) = RouteSegment.new o (is.get ⟨j, hj⟩) := by
      intro j hj
      have := hf (j + 1) (by simpa using hj)
      have e : base + (j + 1) = base + 1 + j := by
        rw [Nat.add_assoc, Nat.add_comm 1 j]
      rw [e] at this
      simpa using this
    simp only [RoutingSubregionTile.add.newAddrs, List.map_append, ih (base + 1) hrest,
      List.filter_cons]
    by_cases hk : o.keyAt i = k
    · simp [hk, h0]
    · simp [hk]

theorem newAddrs_ge (o : RouteDataObject) (k : Int) (is : List Nat) :
    ∀ base x, x ∈ RoutingSubregionTile.add.newAddrs o k is base → base ≤ x := by
  induction is with
  | nil => intro base x hx; simp [RoutingSubregionTile.add.newAddrs] at hx
  | cons i is ih =>
    intro base x hx
    simp only [RoutingSubregionTile.add.newAddrs, List.mem_append] at hx
    rcases hx with hx | hx
    · split_ifs at hx
      · simp only [List.mem_singleton] at hx
        exact Nat.le_of_eq hx.symm
      · simp at hx
    · exact Nat.le_of_succ_le (ih (base + 1) x hx)

theorem isChain_head (h : SegmentHeap) (p : Option Addr) (l : List Addr)
    (hc : h.isChain p l = true) : p = l.head? := by
  cases p with
  | none => rw [(isChain_none h l).1 hc]; rfl
  | some a =>
    obtain ⟨t, e, _, _⟩ := (isChain_some h a l).1 hc
    rw [e]; rfl

theorem chainsWF_nil (h : SegmentHeap) : RoutingSubregionTile.ChainsWF [] h := by
  refine ⟨fun k => ⟨[], rfl⟩, fun k1 k2 l1 l2 _ h1 _ a ha => ?_⟩
  have : l1 = [] := (isChain_none h l1).1 h1
  rw [this] at ha
  simp at ha

theorem routeSegment_new_fields (o : RouteDataObject) (i : Nat) :
    (RouteSegment.new o i).road = o ∧ (RouteSegment.new o i).segmentStart = i % 65536 ∧
      (RouteSegment.new o i).directionAssgn = 0 ∧ (RouteSegment.new o i).parentRoute = none ∧
      (RouteSegment.new o i).oppositeDirection = none ∧ (RouteSegment.new o i).next = none := by
  refine ⟨rfl, ?_, rfl, rfl, rfl, rfl⟩
  show ((i : Int) % 65536).toNat = i % 65536
  omega

/-- C14 (amended): let the chains stored in the tile be well formed (finite
lists of allocated segments, disjoint for different keys). Then `add(o)`
returns, and the chain stored under each key `k` is the chain stored before
(the same segments, in order) followed by one newly allocated segment for each
point index `i` of `o`, in ascending `i`, whose packed key is `k`: a fresh
segment of road `o` with `segmentStart` `i` modulo `2^16`, direction
unassigned, no parent, no sibling. Chains under keys that are no point of `o`
are unchanged, and the `size` field grows by `o.getSize()` plus
`sizeof(RouteSegment)` times the number of points, modulo `2^32`. -/
theorem add_chains (e : Externals) (t : RoutingSubregionTile) (h : SegmentHeap)
    (o : RouteDataObject) (hwf : RoutingSubregionTile.ChainsWF t.routes h) :
    ∃ t' h', t.add e h o = some (t', h') ∧
      t'.size = (t.size + o.size + e.sizeofSegment * o.pointsX.length) % 4294967296 ∧
      t'.subregion = t.subregion ∧ t'.access = t.access ∧ t'.loaded = t.loaded ∧
      (∀ k l, h.isChain (t.head k) l = true →
        ∃ extra, h'.isChain (t'.head k) (l ++ extra) = true ∧ (∀ x ∈ extra, h.size ≤ x) ∧
          (l ++ extra).map (fun a => segData (h'.cells a)) =
            l.map (fun a => segData (h.cells a)) ++
              ((List.range o.pointsX.length).filter fun i => decide (o.keyAt i = k)).map
                fun i : Nat => RouteSegment.new o (i : Int)) ∧
      (∀ k, (∀ i, i < o.pointsX.length → o.keyAt i ≠ k) →
        t'.head k = t.head k ∧ ∀ l, h.isChain (t.head k) l = true →
          h'.isChain (t'.head k) l = true) ∧
      ∀ i : Nat, (RouteSegment.new o i).road = o ∧
        (RouteSegment.new o i).segmentStart = i % 65536 ∧
        (RouteSegment.new o i).directionAssgn = 0 ∧ (RouteSegment.new o i).parentRoute = none ∧
        (RouteSegment.new o i).oppositeDirection = none := by
  obtain ⟨r', h', hloop, hsize, hframe, hnew, hchain, _⟩ :=
    add_loop_strong o (List.range o.pointsX.length) t.routes h hwf
  have hdata : ∀ k l, h.isChain (t.head k) l = true →
      h'.isChain ((r'.lookup k).join)
          (l ++ RoutingSubregionTile.add.newAddrs o k (List.range o.pointsX.length) h.size) =
        true ∧
      (l ++ RoutingSubregionTile.add.newAddrs o k (List.range o.pointsX.length) h.size).map
          (fun a => segData (h'.cells a)) =
        l.map (fun a => segData (h.cells a)) ++
          ((List.range o.pointsX.length).filter fun i => decide (o.keyAt i = k)).map
            fun i : Nat => RouteSegment.new o (i : Int) := by
    intro k l hl
    refine ⟨hchain k l hl, ?_⟩
    rw [List.map_append, map_newAddrs o k _ _ h.size hnew]
    congr 1
    refine List.map_congr_left fun a ha => ?_
    exact hframe a (isChain_lt h _ _ hl a ha)
  refine ⟨{ t with
      size := (t.size + o.size + e.sizeofSegment * o.pointsX.length) % 4294967296,
      routes := r' }, h', ?_, rfl, rfl, rfl, rfl, fun k l hl => ?_, fun k hk => ?_,
    fun i => ?_⟩
  · simp only [RoutingSubregionTile.add, hloop]
  · exact ⟨_, (hdata k l hl).1, newAddrs_ge o k _ h.size, (hdata k l hl).2⟩
  · have hnil : RoutingSubregionTile.add.newAddrs o k (List.range o.pointsX.length) h.size =
        [] := by
      obtain ⟨l, hl⟩ := hwf.1 k
      have h2 := congrArg List.length (hdata k l hl).2
      have hf : ((List.range o.pointsX.length).filter fun i => decide (o.keyAt i = k)) = [] := by
        rw [List.filter_eq_nil_iff]
        intro i hi
        simpa using hk i (List.mem_range.1 hi)
      rw [hf] at h2
      simp only [List.map_append, List.length_append, List.length_map, List.map_nil,
        List.length_nil, Nat.add_zero] at h2
      exact List.length_eq_zero.1 (Nat.add_left_cancel (n := l.length) (by simpa using h2))
    have hsame : ∀ l, h.isChain (t.head k) l = true →
        h'.isChain ((r'.lookup k).join) l = true := by
      intro l hl
      have := (hdata k l hl).1
      rwa [hnil, List.append_nil] at this
    refine ⟨?_, hsame⟩
    obtain ⟨l, hl⟩ := hwf.1 k
    show (r'.lookup k).join = t.head k
    rw [isChain_head h' _ l (hsame l hl)]
    exact (isChain_head h _ l hl).symm
  · obtain ⟨q1, q2, q3, q4, q5, _⟩ := routeSegment_new_fields o i
    exact ⟨q1, q2, q3, q4, q5⟩

theorem getD_replicate_zero (n i : Nat) : (List.replicate n 0).getD i 0 = 0 := by
  induction n generalizing i with
  | zero => rfl
  | succ n ih =>
    cases i with
    | zero => rfl
    | succ i => simp [List.replicate_succ, ih i]

theorem roadMany_keys (n : Nat) :
    (roadMany n).pointsX.length = n + 1 ∧
      (∀ i, i < n → (roadMany n).keyAt i = pointKey 0 0) ∧
      (roadMany n).keyAt n = pointKey 1 0 := by
  refine ⟨by simp [roadMany], fun i hi => ?_, ?_⟩
  · have hx : (List.replicate n 0 ++ [1]).getD i 0 = 0 := by
      rw [List.getD_append _ _ _ _ (by simpa using hi)]
      exact getD_replicate_zero _ _
    simp only [RouteDataObject.keyAt, roadMany]
    rw [hx, getD_replicate_zero]
  · have hx : (List.replicate n 0 ++ [1]).getD n 0 = 1 := by
      rw [List.getD_append_right _ _ _ _ (by simp)]
      simp
    simp only [RouteDataObject.keyAt, roadMany]
    rw [hx, getD_replicate_zero]

theorem roadMany_filter (n : Nat) :
    ((List.range (roadMany n).pointsX.length).filter
      fun i => decide ((roadMany n).keyAt i = pointKey 1 0)) = [n] := by
  obtain ⟨hlen, hlow, hhigh⟩ := roadMany_keys n
  have hne : pointKey 0 0 ≠ pointKey 1 0 := by decide
  rw [hlen, List.range_succ, List.filter_append]
  have h1 : ((List.range n).filter fun i => decide ((roadMany n).keyAt i = pointKey 1 0)) =
      [] := by
    rw [List.filter_eq_nil_iff]
    intro i hi
    rw [hlow i (List.mem_range.1 hi)]
    simpa using hne
  rw [h1]
  simp [hhigh]

/-- C14 (as stated, refuted): the road `roadMany 65536` has 65537 points and
only the point of index 65536 has the key `pointKey 1 0`. After `add` of this
road on a new tile the chain under that key is one segment whose
`segmentStart` is 0, not 65536: the index is stored in a `uint16_t`. -/
theorem add_segmentStart_counterexample :
    ∃ t' h' l,
      (RoutingSubregionTile.new (externalsOf [] []) (subregionOf 0 0)).add
        (externalsOf [] []) heapEmpty (roadMany 65536) = some (t', h') ∧
      h'.isChain (t'.head (pointKey 1 0)) l = true ∧
      l.map (fun a => (h'.cells a).segmentStart) = [0] ∧
      ((List.range (roadMany 65536).pointsX.length).filter
        fun i => decide ((roadMany 65536).keyAt i = pointKey 1 0)) = [65536] := by
  obtain ⟨t', h', hadd, _, _, _, _, hch, _, hfresh⟩ :=
    add_chains (externalsOf [] []) (RoutingSubregionTile.new (externalsOf [] []) (subregionOf 0 0))
      heapEmpty (roadMany 65536) (chainsWF_nil _)
  obtain ⟨extra, hc, _, hdata⟩ := hch (pointKey 1 0) [] rfl
  refine ⟨t', h', [] ++ extra, hadd, hc, ?_, roadMany_filter 65536⟩
  rw [roadMany_filter] at hdata
  have := congrArg (List.map RouteSegment.segmentStart) hdata
  simp only [List.map_map, List.map_nil, List.nil_append, List.map_cons] at this
  rw [List.nil_append]
  rw [show (fun a => (h'.cells a).segmentStart) =
    (RouteSegment.segmentStart ∘ fun a => segData (h'.cells a)) from rfl, this,
    (hfresh 65536).2.1]

/-- Witness of `add_chains`: `add(roadThree)` on a new tile in the empty heap
returns, and the tile's `size` is the initial 96 plus 3 times 96. -/
theorem add_chains_witness :
    RoutingSubregionTile.ChainsWF
        (RoutingSubregionTile.new (externalsOf [] []) (subregionOf 0 0)).routes heapEmpty ∧
      ∃ t' h', (RoutingSubregionTile.new (externalsOf [] []) (subregionOf 0 0)).add
          (externalsOf [] []) heapEmpty roadThree = some (t', h') ∧ t'.size = 384 := by
  refine ⟨chainsWF_nil _, ?_⟩
  obtain ⟨t', h', hadd, hsize, _⟩ :=
    add_chains (externalsOf [] []) (RoutingSubregionTile.new (externalsOf [] []) (subregionOf 0 0))
      heapEmpty roadThree (chainsWF_nil _)
  exact ⟨t', h', hadd, by rw [hsize]; decide⟩

/-! ## The load counter of a tile -/

/-- `add` never fails on a tile whose chains are finite: one pass of its loop
returns, keeps every finite chain of the heap finite, and leaves a finite chain
under every key. -/
theorem add_step_weak (o : RouteDataObject) (i : Nat) (routes : List (Int × Option Addr))
    (h : SegmentHeap) (hch : ∀ k, ∃ l, h.isChain ((routes.lookup k).join) l = true) :
    ∃ routes' h', RoutingSubregionTile.add.step o i routes h = some (routes', h') ∧
      (∀ k, ∃ l, h'.isChain ((routes'.lookup k).join) l = true) ∧
      (∀ p l, h.isChain p l = true → ∃ l', h'.isChain p l' = true) := by
  obtain ⟨l0, hl0⟩ := hch (o.keyAt i)
  obtain ⟨routes', h', hstep, _, hhead, hc1, hc2, hself, _, _⟩ :=
    add_step_spec o i routes h l0 hl0
  have hkeep : ∀ p l, h.isChain p l = true → ∃ l', h'.isChain p l' = true := by
    intro p l hl
    cases hlast : l0.getLast? with
    | none => exact ⟨l, hc1 p l hl (fun t ht => by rw [hlast] at ht; cases ht)⟩
    | some t =>
      by_cases hmem : t ∈ l
      · exact ⟨_, hc2 p l t hl hlast hmem⟩
      · refine ⟨l, hc1 p l hl (fun t' ht' => ?_)⟩
        rw [hlast] at ht'
        cases ht'
        exact hmem
  refine ⟨routes', h', hstep, fun k => ?_, hkeep⟩
  rw [hhead]
  by_cases hk : k = o.keyAt i ∧ l0 = []
  · rw [if_pos hk]; exact ⟨_, hself⟩
  · rw [if_neg hk]
    obtain ⟨l, hl⟩ := hch k
    exact hkeep _ l hl

theorem add_loop_weak (o : RouteDataObject) (is : List Nat) :
    ∀ (routes : List (Int × Option Addr)) (h : SegmentHeap),
      (∀ k, ∃ l, h.isChain ((routes.lookup k).join) l = true) →
      ∃ routes' h', RoutingSubregionTile.add.loop o is routes h = some (routes', h') ∧
        (∀ k, ∃ l, h'.isChain ((routes'.lookup k).join) l = true) ∧
        (∀ p l, h.isChain p l = true → ∃ l', h'.isChain p l' = true) := by
  induction is with
  | nil => intro routes h hch; exact ⟨routes, h, rfl, hch, fun p l hl => ⟨l, hl⟩⟩
  | cons i is ih =>
    intro routes h hch
    obtain ⟨r1, h1, hstep, hch1, hkeep1⟩ := add_step_weak o i routes h hch
    obtain ⟨r2, h2, hloop, hch2, hkeep2⟩ := ih r1 h1 hch1
    refine ⟨r2, h2, ?_, hch2, fun p l hl => ?_⟩
    · simp only [RoutingSubregionTile.add.loop, hstep]
      exact hloop
    · obtain ⟨l1, hl1⟩ := hkeep1 p l hl
      exact hkeep2 p l1 hl1

theorem add_weak (e : Externals) (t : RoutingSubregionTile) (h : SegmentHeap)
    (o : RouteDataObject) (hch : ∀ k, ∃ l, h.isChain (t.head k) l = true) :
    ∃ t' h', t.add e h o = some (t', h') ∧
      (∀ k, ∃ l, h'.isChain (t'.head k) l = true) ∧
      (∀ p l, h.isChain p l = true → ∃ l', h'.isChain p l' = true) ∧
      t'.loaded = t.loaded ∧ t'.access = t.access ∧ t'.subregion = t.subregion := by
  obtain ⟨r', h', hloop, hch', hkeep⟩ :=
    add_loop_weak o (List.range o.pointsX.length) t.routes h hch
  refine ⟨{ t with
      size := (t.size + o.size + e.sizeofSegment * o.pointsX.length) % 4294967296,
      routes := r' }, h', ?_, hch', hkeep, rfl, rfl, rfl⟩
  simp only [RoutingSubregionTile.add, hloop]

theorem tileOp_run_general (e : Externals) (ops : List TileOp) :
    ∀ (t0 : RoutingSubregionTile) (h0 : SegmentHeap),
      (∀ k, ∃ l, h0.isChain (t0.head k) l = true) →
      ∃ t h, TileOp.run e ops (t0, h0) = some (t, h) ∧
        t.getUnloadCount = t0.getUnloadCount + (TileOp.loadCount ops : Int) ∧
        t.isLoaded = TileOp.lastIsLoad t0.isLoaded ops := by
  induction ops with
  | nil => intro t0 h0 _; exact ⟨t0, h0, rfl, by simp [TileOp.loadCount], rfl⟩
  | cons op ops ih =>
    intro t0 h0 hch
    cases op with
    | setLoaded =>
      have hch1 : ∀ k, ∃ l, h0.isChain (t0.setLoaded.head k) l = true := hch
      obtain ⟨t, h, hrun, hcount, hload⟩ := ih t0.setLoaded h0 hch1
      refine ⟨t, h, ?_, ?_, ?_⟩
      · simp only [TileOp.run, TileOp.apply]; exact hrun
      · rw [hcount]
        simp only [RoutingSubregionTile.getUnloadCount, RoutingSubregionTile.setLoaded,
          TileOp.loadCount]
        omega
      · rw [hload]
        have : t0.setLoaded.isLoaded = true := by
          simp only [RoutingSubregionTile.isLoaded, RoutingSubregionTile.setLoaded,
            decide_eq_true_eq]
          omega
        rw [this]; rfl
    | unload =>
      have hch1 : ∀ k, ∃ l, h0.isChain (t0.unload.head k) l = true := fun k => ⟨[], rfl⟩
      obtain ⟨t, h, hrun, hcount, hload⟩ := ih t0.unload h0 hch1
      refine ⟨t, h, ?_, ?_, ?_⟩
      · simp only [TileOp.run, TileOp.apply]; exact hrun
      · rw [hcount]
        simp only [RoutingSubregionTile.getUnloadCount, RoutingSubregionTile.unload,
          TileOp.loadCount]
        omega
      · rw [hload]
        have : t0.unload.isLoaded = false := by
          simp only [RoutingSubregionTile.isLoaded, RoutingSubregionTile.unload,
            decide_eq_false_iff_not]
          omega
        rw [this]; rfl
    | add o =>
      obtain ⟨t1, h1, hadd, hch1, _, hl, _, _⟩ := add_weak e t0 h0 o hch
      obtain ⟨t, h, hrun, hcount, hload⟩ := ih t1 h1 hch1
      refine ⟨t, h, ?_, ?_, ?_⟩
      · simp only [TileOp.run, TileOp.apply, hadd]; exact hrun
      · rw [hcount]
        simp only [RoutingSubregionTile.getUnloadCount, TileOp.loadCount, hl]
      · rw [hload]
        simp only [RoutingSubregionTile.isLoaded, hl, TileOp.lastIsLoad]

/-- C15: starting from a newly created tile, every sequence of `setLoaded`,
`unload` and `add` calls returns, and afterwards `getUnloadCount()` (the
magnitude of `loaded`) is the number of `setLoaded` calls made, `isLoaded()`
is true exactly when the most recent of the `setLoaded`/`unload` calls was
`setLoaded`, and `loaded` is that number when loaded and its negative when
not. `unload()` empties the routes map and sets the counter to minus its
magnitude, so a never-loaded tile (0) differs from one loaded `N >= 1` times
and now unloaded (`-N`). -/
theorem load_counter (e : Externals) (sub : RouteSubregion) (h0 : SegmentHeap)
    (ops : List TileOp) :
    (∃ t h, TileOp.run e ops (RoutingSubregionTile.new e sub, h0) = some (t, h) ∧
      t.getUnloadCount = (TileOp.loadCount ops : Int) ∧
      t.isLoaded = TileOp.lastIsLoad false ops ∧
      t.loaded = if TileOp.lastIsLoad false ops = true then (TileOp.loadCount ops : Int)
        else -(TileOp.loadCount ops : Int)) ∧
    ∀ t0 : RoutingSubregionTile, t0.unload.routes = [] ∧
      t0.unload.loaded = -t0.getUnloadCount ∧
      t0.unload.getUnloadCount = t0.getUnloadCount ∧ t0.unload.isLoaded = false := by
  constructor
  · obtain ⟨t, h, hrun, hcount, hload⟩ :=
      tileOp_run_general e ops (RoutingSubregionTile.new e sub) h0 (fun k => ⟨[], rfl⟩)
    have hcount' : t.getUnloadCount = (TileOp.loadCount ops : Int) := by
      rw [hcount]
      simp [RoutingSubregionTile.getUnloadCount, RoutingSubregionTile.new]
    have hload' : t.isLoaded = TileOp.lastIsLoad false ops := by
      rw [hload]; rfl
    refine ⟨t, h, hrun, hcount', hload', ?_⟩
    rw [← hload', ← hcount']
    simp only [RoutingSubregionTile.isLoaded, RoutingSubregionTile.getUnloadCount,
      decide_eq_true_eq]
    split_ifs with hpos <;> omega
  · intro t0
    refine ⟨rfl, rfl, ?_, ?_⟩
    · simp only [RoutingSubregionTile.getUnloadCount, RoutingSubregionTile.unload]
      omega
    · simp only [RoutingSubregionTile.isLoaded, RoutingSubregionTile.unload,
        decide_eq_false_iff_not]
      omega

/-! ## `RoutingContext::unloadUnusedTiles` -/

open RoutingContext

theorem toInt32_add_left (x y : Int) : toInt32 (toInt32 x + y) = toInt32 (x + y) := by
  unfold toInt32
  omega

theorem toInt32_sub_left (x y : Int) : toInt32 (toInt32 x - y) = toInt32 (x - y) := by
  unfold toInt32
  omega

theorem toInt32_idem (x : Int) : toInt32 (toInt32 x) = toInt32 x := by
  unfold toInt32
  omega

theorem toInt32_range (x : Int) : -2147483648 ≤ toInt32 x ∧ toInt32 x < 2147483648 := by
  unfold toInt32
  omega

theorem toInt32_of_range (x : Int) (h0 : -2147483648 ≤ x) (h1 : x < 2147483648) :
    toInt32 x = x := by
  unfold toInt32
  omega

theorem getSize_foldl (l : List Int) :
    ∀ init : Int, l.foldl (fun sz g => toInt32 (sz + g)) (toInt32 init) =
      toInt32 (init + l.sum) := by
  induction l with
  | nil =>
    intro init
    rw [List.foldl_nil, List.sum_nil, add_zero]
  | cons g l ih =>
    intro init
    rw [List.foldl_cons, toInt32_add_left, ih, List.sum_cons, add_assoc]

/-- The value of `getSize()` is the wrapped sum of the entries and the tile
sizes. -/
theorem getSize_eq (e : Externals) (c : RoutingContext) :
    c.getSize e =
      toInt32 (((c.subregionTiles.length * e.sizeofTilesEntry * 2 : Nat) : Int) +
        ((c.subregionTiles.map Prod.snd).map fun a => (c.tiles a).getSize e).sum) := by
  unfold RoutingContext.getSize
  exact getSize_foldl _ _

theorem getSize_toInt32 (e : Externals) (c : RoutingContext) :
    toInt32 (c.getSize e) = c.getSize e := by
  rw [getSize_eq, toInt32_idem]

theorem float32_le_eq_false (a b : Float32) : Float32.le a b = false ↔ Float32.lt b a = true := by
  unfold Float32.le Float32.lt
  rw [min_comm b.e a.e, decide_eq_false_iff_not, decide_eq_true_iff, not_le]

theorem float32_lt_eq_false (a b : Float32) : Float32.lt a b = false ↔ Float32.le b a = true := by
  unfold Float32.le Float32.lt
  rw [min_comm b.e a.e, decide_eq_false_iff_not, decide_eq_true_iff, not_lt]

/-- The literals `0.9f` and `0.7f` are floats with a significand of 24 bits, at
a distance below half a unit in the last place (`2^-25`) from 9/10 and
7/10. -/
theorem float32_literals :
    Float32.roundNat 15099494 = (15099494, 0) ∧ Float32.roundNat 11744051 = (11744051, 0) ∧
      8388608 ≤ (15099494 : Nat) ∧ 8388608 ≤ (11744051 : Nat) ∧
      |Float32.lit09.toRat - 9 / 10| < 1 / 33554432 ∧
      |Float32.lit07.toRat - 7 / 10| < 1 / 33554432 := by
  refine ⟨by decide, by decide, by decide, by decide, ?_, ?_⟩
  · rw [abs_lt]
    norm_num [Float32.toRat, Float32.lit09]
  · rw [abs_lt]
    norm_num [Float32.toRat, Float32.lit07]

theorem float32_dropBits_spec : ∀ (fuel n : Nat), n < 16777216 * 2 ^ fuel →
    n < 16777216 * 2 ^ (Float32.dropBits fuel n) ∧
    (Float32.dropBits fuel n = 0 ∨ 8388608 * 2 ^ (Float32.dropBits fuel n) ≤ n) := by
  intro fuel
  induction fuel with
  | zero =>
    intro n hn
    exact ⟨hn, Or.inl rfl⟩
  | succ f ih =>
    intro n hn
    by_cases h : n < 16777216
    · have hd : Float32.dropBits (f + 1) n = 0 := by
        rw [Float32.dropBits, if_pos h]
      rw [hd]
      exact ⟨by omega, Or.inl rfl⟩
    · have hd : Float32.dropBits (f + 1) n = Float32.dropBits f (n / 2) + 1 := by
        rw [Float32.dropBits, if_neg h]
      rw [hd]
      rw [pow_succ] at hn
      obtain ⟨h1, h2⟩ := ih (n / 2) (by omega)
      rw [pow_succ]
      refine ⟨by omega, Or.inr ?_⟩
      rcases h2 with h2 | h2
      · rw [h2]
        omega
      · omega

theorem float32_lt_two_pow (n : Nat) : n < 16777216 * 2 ^ n := by
  have := Nat.lt_two_pow n
  omega

/-- The binade of `n`: with `s` the number of dropped bits, `n < 2^24 * 2^s`,
and `2^23 * 2^s <= n` unless `s = 0`. -/
theorem float32_dropBits_bounds (n : Nat) :
    n < 16777216 * 2 ^ (Float32.dropBits n n) ∧
    (Float32.dropBits n n = 0 ∨ 8388608 * 2 ^ (Float32.dropBits n n) ≤ n) :=
  float32_dropBits_spec n n (float32_lt_two_pow n)

theorem float32_dropBits_small (n : Nat) (h : n < 16777216) : Float32.dropBits n n = 0 := by
  cases n with
  | zero => rfl
  | succ k => rw [Float32.dropBits, if_pos h]

theorem float32_dropBits_unique (n t : Nat) (h1 : 8388608 * 2 ^ t ≤ n)
    (h2 : n < 16777216 * 2 ^ t) : Float32.dropBits n n = t := by
  obtain ⟨b1, b2⟩ := float32_dropBits_bounds n
  generalize Float32.dropBits n n = s at b1 b2
  rcases Nat.lt_trichotomy s t with h | h | h
  · have hp : 2 ^ (s + 1) ≤ 2 ^ t := Nat.pow_le_pow_right (by decide) h
    rw [pow_succ] at hp
    omega
  · exact h
  · have hp : 2 ^ (t + 1) ≤ 2 ^ s := Nat.pow_le_pow_right (by decide) h
    rw [pow_succ] at hp
    rcases b2 with b2 | b2
    · omega
    · omega

theorem float32_roundNat_eq (n : Nat) :
    Float32.roundNat n =
      (if 2 * (n % 2 ^ Float32.dropBits n n) < 2 ^ Float32.dropBits n n ∨
          (2 * (n % 2 ^ Float32.dropBits n n) = 2 ^ Float32.dropBits n n ∧
            n / 2 ^ Float32.dropBits n n % 2 = 0) then n / 2 ^ Float32.dropBits n n
        else n / 2 ^ Float32.dropBits n n + 1, Float32.dropBits n n) := by
  unfold Float32.roundNat
  dsimp only
  split_ifs <;> rfl

theorem float32_roundedNat_eq (n : Nat) :
    Float32.roundedNat n =
      (if 2 * (n % 2 ^ Float32.dropBits n n) < 2 ^ Float32.dropBits n n ∨
          (2 * (n % 2 ^ Float32.dropBits n n) = 2 ^ Float32.dropBits n n ∧
            n / 2 ^ Float32.dropBits n n % 2 = 0) then n / 2 ^ Float32.dropBits n n
        else n / 2 ^ Float32.dropBits n n + 1) * 2 ^ Float32.dropBits n n := by
  unfold Float32.roundedNat
  rw [float32_roundNat_eq]

/-- Rounding at a fixed scale `P` is monotone. -/
theorem float32_roundAt_mono (P n n' : Nat) (h : n ≤ n') :
    (if 2 * (n % P) < P ∨ (2 * (n % P) = P ∧ n / P % 2 = 0) then n / P else n / P + 1) ≤
      (if 2 * (n' % P) < P ∨ (2 * (n' % P) = P ∧ n' / P % 2 = 0) then n' / P
        else n' / P + 1) := by
  have hq : n / P ≤ n' / P := Nat.div_le_div_right h
  have e1 := Nat.div_add_mod n P
  have e2 := Nat.div_add_mod n' P
  by_cases hqq : n / P = n' / P
  · rw [← hqq] at e2 ⊢
    have hr : n % P ≤ n' % P := by omega
    split_ifs <;> omega
  · split_ifs <;> omega

theorem float32_roundedNat_mono (n n' : Nat) (h : n ≤ n') :
    Float32.roundedNat n ≤ Float32.roundedNat n' := by
  rw [float32_roundedNat_eq, float32_roundedNat_eq]
  obtain ⟨b1, b2⟩ := float32_dropBits_bounds n
  obtain ⟨b1', b2'⟩ := float32_dropBits_bounds n'
  generalize Float32.dropBits n n = s at b1 b2 ⊢
  generalize Float32.dropBits n' n' = s' at b1' b2' ⊢
  have hP : 0 < 2 ^ s := Nat.two_pow_pos _
  have hP' : 0 < 2 ^ s' := Nat.two_pow_pos _
  rcases Nat.lt_trichotomy s s' with hs | hs | hs
  · -- the binade of `n'` is higher
    have hp : 2 ^ (s + 1) ≤ 2 ^ s' := Nat.pow_le_pow_right (by decide) hs
    rw [pow_succ] at hp
    have hqlt : n / 2 ^ s < 16777216 := Nat.div_lt_of_lt_mul (by rw [Nat.mul_comm]; exact b1)
    have hq' : 8388608 ≤ n' / 2 ^ s' := by
      rw [Nat.le_div_iff_mul_le hP']
      rcases b2' with b2' | b2'
      · omega
      · exact b2'
    have h1 : (if 2 * (n % 2 ^ s) < 2 ^ s ∨ (2 * (n % 2 ^ s) = 2 ^ s ∧ n / 2 ^ s % 2 = 0)
        then n / 2 ^ s else n / 2 ^ s + 1) * 2 ^ s ≤ 16777216 * 2 ^ s := by
      apply Nat.mul_le_mul_right
      split_ifs <;> omega
    have h2 : 8388608 * 2 ^ s' ≤ (if 2 * (n' % 2 ^ s') < 2 ^ s' ∨
        (2 * (n' % 2 ^ s') = 2 ^ s' ∧ n' / 2 ^ s' % 2 = 0)
        then n' / 2 ^ s' else n' / 2 ^ s' + 1) * 2 ^ s' := by
      apply Nat.mul_le_mul_right
      split_ifs <;> omega
    omega
  · subst hs
    exact Nat.mul_le_mul_right _ (float32_roundAt_mono _ n n' h)
  · have hp : 2 ^ (s' + 1) ≤ 2 ^ s := Nat.pow_le_pow_right (by decide) hs
    rw [pow_succ] at hp
    rcases b2 with b2 | b2
    · omega
    · omega

theorem float32_roundedNat_small (n : Nat) (h : n ≤ 16777216) : Float32.roundedNat n = n := by
  rcases Nat.lt_or_ge n 16777216 with h1 | h1
  · rw [float32_roundedNat_eq, float32_dropBits_small n h1]
    simp [Nat.mod_one]
  · have : n = 16777216 := by omega
    subst this
    decide

theorem float32_roundedNat_double (n : Nat) :
    Float32.roundedNat (2 * n) = 2 * Float32.roundedNat n := by
  rcases Nat.lt_or_ge n 8388608 with h1 | h1
  · rw [float32_roundedNat_small n (by omega), float32_roundedNat_small (2 * n) (by omega)]
  · obtain ⟨b1, b2⟩ := float32_dropBits_bounds n
    have hs : Float32.dropBits (2 * n) (2 * n) = Float32.dropBits n n + 1 := by
      apply float32_dropBits_unique
      · rw [pow_succ]
        rcases b2 with b2 | b2
        · rw [b2] at b1 ⊢
          omega
        · omega
      · rw [pow_succ]
        omega
    rw [float32_roundedNat_eq (2 * n), float32_roundedNat_eq n, hs]
    generalize Float32.dropBits n n = s
    have hP : 0 < 2 ^ s := Nat.two_pow_pos _
    have hd : 2 * n / 2 ^ (s + 1) = n / 2 ^ s := by
      rw [pow_succ, Nat.mul_comm (2 ^ s) 2, Nat.mul_div_mul_left _ _ (by decide)]
    have hm : 2 * n % 2 ^ (s + 1) = 2 * (n % 2 ^ s) := by
      rw [pow_succ, Nat.mul_comm (2 ^ s) 2, Nat.mul_mod_mul_left]
    rw [hd, hm, pow_succ]
    generalize n / 2 ^ s = q
    generalize n % 2 ^ s = r
    generalize 2 ^ s = P
    split_ifs with c1 c2 c2
    · ring
    · exfalso; omega
    · exfalso; omega
    · ring

theorem float32_roundedNat_scale (k n : Nat) :
    Float32.roundedNat (2 ^ k * n) = 2 ^ k * Float32.roundedNat n := by
  induction k with
  | zero => simp
  | succ k ih =>
    rw [pow_succ, Nat.mul_comm (2 ^ k) 2, Nat.mul_assoc, float32_roundedNat_double, ih,
      Nat.mul_assoc]

theorem float32_roundNat_fst_le (n : Nat) : (Float32.roundNat n).1 ≤ 16777216 := by
  rw [float32_roundNat_eq]
  obtain ⟨b1, _⟩ := float32_dropBits_bounds n
  have hqlt : n / 2 ^ Float32.dropBits n n < 16777216 :=
    Nat.div_lt_of_lt_mul (by rw [Nat.mul_comm]; exact b1)
  dsimp only
  split_ifs <;> omega

theorem float32_toRat_norm (m e : Int) :
    (Float32.norm m e).toRat = (m.sign : ℚ) * (Float32.roundedNat m.natAbs : ℚ) * 2 ^ e := by
  unfold Float32.norm Float32.toRat Float32.roundedNat
  push_cast
  rw [zpow_add₀ (by norm_num : (2 : ℚ) ≠ 0), zpow_natCast]
  ring

theorem float32_scaled_toRat (a : Float32) (k : Int) (hk : k ≤ a.e) :
    ((a.scaled k : Int) : ℚ) * 2 ^ k = a.toRat := by
  unfold Float32.scaled Float32.toRat
  have h1 : ((2 : ℚ) ^ (a.e - k).toNat) = 2 ^ (a.e - k) := by
    rw [← zpow_natCast, Int.toNat_of_nonneg (by omega)]
  push_cast
  rw [h1, mul_assoc, ← zpow_add₀ (by norm_num : (2 : ℚ) ≠ 0), sub_add_cancel]

/-- The comparison `lt` is the order of the values. -/
theorem float32_lt_iff (a b : Float32) : Float32.lt a b = true ↔ a.toRat < b.toRat := by
  have hpos : (0 : ℚ) < 2 ^ (min a.e b.e) := zpow_pos (by norm_num) _
  unfold Float32.lt
  rw [decide_eq_true_iff, ← float32_scaled_toRat a (min a.e b.e) (min_le_left _ _),
    ← float32_scaled_toRat b (min a.e b.e) (min_le_right _ _), mul_lt_mul_right hpos,
    Int.cast_lt]

/-- The comparison `le` is the order of the values. -/
theorem float32_le_iff (a b : Float32) : Float32.le a b = true ↔ a.toRat ≤ b.toRat := by
  have hpos : (0 : ℚ) < 2 ^ (min a.e b.e) := zpow_pos (by norm_num) _
  unfold Float32.le
  rw [decide_eq_true_iff, ← float32_scaled_toRat a (min a.e b.e) (min_le_left _ _),
    ← float32_scaled_toRat b (min a.e b.e) (min_le_right _ _), mul_le_mul_right hpos,
    Int.cast_le]

theorem float32_ofInt_natCast (n : Nat) :
    (Float32.ofInt (n : Int)).toRat = (Float32.roundedNat n : ℚ) := by
  unfold Float32.ofInt
  rw [float32_toRat_norm, Int.natAbs_ofNat, zpow_zero, mul_one]
  cases n with
  | zero =>
    rw [float32_roundedNat_small 0 (by decide)]
    simp
  | succ k =>
    have : ((k + 1 : Nat) : Int).sign = 1 := Int.sign_eq_one_of_pos (by omega)
    rw [this]
    simp

theorem float32_ofInt_small (n : Nat) (h : n < 16777216) :
    Float32.ofInt (n : Int) = ⟨(n : Int), 0⟩ := by
  unfold Float32.ofInt Float32.norm
  rw [Int.natAbs_ofNat, float32_roundNat_eq, float32_dropBits_small n h]
  have : ((n : Int).sign) * (n : Int) = n := by
    have := Int.sign_mul_natAbs (n : Int)
    rw [Int.natAbs_ofNat] at this
    exact this
  simp [Nat.mod_one, this]

theorem float32_norm_natAbs_le (m e : Int) : (Float32.norm m e).m.natAbs ≤ 16777216 := by
  unfold Float32.norm
  show (m.sign * ((Float32.roundNat m.natAbs).1 : Int)).natAbs ≤ 16777216
  rw [Int.natAbs_mul, Int.natAbs_ofNat, Int.natAbs_sign]
  have := float32_roundNat_fst_le m.natAbs
  split_ifs <;> omega

theorem float32_mul_natAbs_le (a b : Float32) : (a.mul b).m.natAbs ≤ 16777216 :=
  float32_norm_natAbs_le _ _

/-- A product with the float `1024` is exact. -/
theorem float32_mul_1024 (a : Float32) (ha : a.m.natAbs ≤ 16777216) :
    (a.mul (Float32.ofInt 1024)).toRat = a.toRat * 1024 := by
  have hk : Float32.ofInt 1024 = ⟨1024, 0⟩ := by decide
  rw [hk]
  unfold Float32.mul
  rw [float32_toRat_norm]
  show (((a.m * 1024).sign : Int) : ℚ) * (Float32.roundedNat (a.m * 1024).natAbs : ℚ) *
    2 ^ (a.e + 0) = a.toRat * 1024
  have h1 : (a.m * 1024).natAbs = 2 ^ 10 * a.m.natAbs := by
    rw [Int.natAbs_mul]
    show a.m.natAbs * 1024 = 2 ^ 10 * a.m.natAbs
    omega
  have h2 : (a.m * 1024).sign = a.m.sign := by
    rw [Int.sign_mul]
    show a.m.sign * 1 = a.m.sign
    omega
  rw [h1, h2, float32_roundedNat_scale, float32_roundedNat_small _ ha, add_zero]
  unfold Float32.toRat
  have h3 : (a.m : ℚ) = (a.m.sign : ℚ) * (a.m.natAbs : ℚ) := by
    conv_lhs => rw [← Int.sign_mul_natAbs a.m]
    rw [Int.cast_mul, Int.cast_natCast]
  rw [h3]
  push_cast
  ring

/-- The value of `critical` for a limit below `2^24`. -/
theorem float32_critical_toRat (l : Nat) (h : l < 16777216) :
    (unloadUnusedTiles.critical (l : Int)).toRat =
      (Float32.roundedNat (15099494 * l) : ℚ) / 16 := by
  unfold unloadUnusedTiles.critical
  rw [float32_mul_1024 _ (float32_mul_natAbs_le _ _),
    float32_mul_1024 _ (float32_mul_natAbs_le _ _), float32_ofInt_small l h]
  unfold Float32.mul Float32.lit09
  rw [float32_toRat_norm]
  show (((15099494 * (l : Int)).sign : Int) : ℚ) *
    (Float32.roundedNat (15099494 * (l : Int)).natAbs : ℚ) * 2 ^ ((-24 : Int) + 0) * 1024 * 1024 =
      (Float32.roundedNat (15099494 * l) : ℚ) / 16
  have h1 : (15099494 * (l : Int)).natAbs = 15099494 * l := by
    rw [Int.natAbs_mul, Int.natAbs_ofNat]
    rfl
  rw [h1]
  cases l with
  | zero =>
    rw [Nat.mul_zero, float32_roundedNat_small 0 (by decide)]
    simp
  | succ k =>
    have : (15099494 * ((k + 1 : Nat) : Int)).sign = 1 := Int.sign_eq_one_of_pos (by omega)
    rw [this]
    norm_num
    ring

/-- The trigger of the eviction, for a limit that is not negative: a size at
or above 90% of the limit (the limit in MB times 1024*1024) is not below the
`float` value `critical` when both are compared as floats. -/
theorem float32_trigger_of_exact (limit sz : Int) (h0 : 0 ≤ limit) (hsz : toInt32 sz = sz)
    (hex : (9 / 10) * (limit : ℚ) * 1024 * 1024 ≤ (sz : ℚ)) :
    Float32.lt (Float32.ofInt sz) (unloadUnusedTiles.critical limit) = false := by
  have hr := toInt32_range sz
  rw [hsz] at hr
  have hl0 : (0 : ℚ) ≤ (limit : ℚ) := by exact_mod_cast h0
  have hszq : (sz : ℚ) < 2147483648 := by exact_mod_cast hr.2
  have hs0 : 0 ≤ sz := by
    have : (0 : ℚ) ≤ (sz : ℚ) := le_trans (by positivity) hex
    exact_mod_cast this
  have hlim : limit < 16777216 := by
    by_contra hcon
    have : (16777216 : ℚ) ≤ (limit : ℚ) := by exact_mod_cast not_lt.1 hcon
    linarith
  obtain ⟨n, rfl⟩ := Int.eq_ofNat_of_zero_le hs0
  obtain ⟨l, rfl⟩ := Int.eq_ofNat_of_zero_le h0
  have hl : l < 16777216 := by exact_mod_cast hlim
  rw [Bool.eq_false_iff]
  intro hlt
  rw [float32_lt_iff, float32_ofInt_natCast, float32_critical_toRat l hl] at hlt
  have hnat : 15099494 * l ≤ 2 ^ 4 * n := by
    have hq : (15099494 : ℚ) * (l : ℚ) ≤ 16 * (n : ℚ) := by
      have e1 : ((l : Int) : ℚ) = (l : ℚ) := Int.cast_natCast l
      have e2 : ((n : Int) : ℚ) = (n : ℚ) := Int.cast_natCast n
      rw [e1, e2] at hex
      have : (0 : ℚ) ≤ (l : ℚ) := by positivity
      linarith
    have : ((15099494 * l : Nat) : ℚ) ≤ ((2 ^ 4 * n : Nat) : ℚ) := by
      push_cast
      exact hq
    exact_mod_cast this
  have hmono := float32_roundedNat_mono _ _ hnat
  rw [float32_roundedNat_scale] at hmono
  have hq : (Float32.roundedNat (15099494 * l) : ℚ) ≤ 16 * (Float32.roundedNat n : ℚ) := by
    have : ((Float32.roundedNat (15099494 * l) : Nat) : ℚ) ≤
        ((2 ^ 4 * Float32.roundedNat n : Nat) : ℚ) := by exact_mod_cast hmono
    push_cast at this
    exact this
  linarith

/-- Rounding at a fixed scale `P` moves a number by at most half of `P`. -/
theorem float32_roundAt_error (P n : Nat) (hP : 0 < P) :
    2 * ((if 2 * (n % P) < P ∨ (2 * (n % P) = P ∧ n / P % 2 = 0) then n / P else n / P + 1) * P) ≤
        2 * n + P ∧
      2 * n ≤
        2 * ((if 2 * (n % P) < P ∨ (2 * (n % P) = P ∧ n / P % 2 = 0) then n / P
          else n / P + 1) * P) + P := by
  have e1 := Nat.div_add_mod n P
  have e2 := Nat.mod_lt n hP
  split_ifs with c
  · rw [Nat.mul_comm (n / P) P]
    omega
  · rw [Nat.add_mul, Nat.one_mul, Nat.mul_comm (n / P) P]
    omega

/-- The relative error of the rounding is at most `2^-24`. -/
theorem float32_roundedNat_error (n : Nat) :
    16777216 * Float32.roundedNat n ≤ 16777217 * n ∧
      16777215 * n ≤ 16777216 * Float32.roundedNat n := by
  obtain ⟨b1, b2⟩ := float32_dropBits_bounds n
  rcases b2 with b2 | b2
  · rw [b2] at b1
    rw [float32_roundedNat_small n (by omega)]
    omega
  · obtain ⟨h1, h2⟩ := float32_roundAt_error (2 ^ Float32.dropBits n n) n (Nat.two_pow_pos _)
    rw [← float32_roundedNat_eq] at h1 h2
    omega

theorem float32_toRat_norm_natCast (n : Nat) (e : Int) :
    (Float32.norm (n : Int) e).toRat = (Float32.roundedNat n : ℚ) * 2 ^ e := by
  rw [float32_toRat_norm, Int.natAbs_ofNat]
  cases n with
  | zero =>
    rw [float32_roundedNat_small 0 (by decide)]
    simp
  | succ k =>
    have : ((k + 1 : Nat) : Int).sign = 1 := Int.sign_eq_one_of_pos (by omega)
    rw [this]
    simp

theorem float32_ofInt_natCast_fields (l : Nat) :
    (Float32.ofInt (l : Int)).m = ((Float32.roundNat l).1 : Int) ∧
      (Float32.ofInt (l : Int)).e = ((Float32.roundNat l).2 : Int) := by
  unfold Float32.ofInt Float32.norm
  rw [Int.natAbs_ofNat]
  refine ⟨?_, zero_add _⟩
  show (l : Int).sign * ((Float32.roundNat l).1 : Int) = ((Float32.roundNat l).1 : Int)
  cases l with
  | zero =>
    have : Float32.roundNat 0 = (0, 0) := by decide
    rw [this]
    rfl
  | succ k =>
    have : ((k + 1 : Nat) : Int).sign = 1 := Int.sign_eq_one_of_pos (by omega)
    rw [this, one_mul]

/-- The value of the product of a float literal `c * 2^-24` and the float of a
natural number `l`. -/
theorem float32_toRat_mul_ofInt (c l : Nat) :
    (Float32.norm ((c : Int) * (Float32.ofInt (l : Int)).m)
        (-24 + (Float32.ofInt (l : Int)).e)).toRat =
      (Float32.roundedNat (c * Float32.roundedNat l) : ℚ) / 16777216 := by
  obtain ⟨hm, he⟩ := float32_ofInt_natCast_fields l
  rw [hm, he]
  have h1 : (c : Int) * ((Float32.roundNat l).1 : Int) = ((c * (Float32.roundNat l).1 : Nat) : Int) := by
    push_cast
    rfl
  rw [h1, float32_toRat_norm_natCast]
  have h2 : c * Float32.roundedNat l =
      2 ^ (Float32.roundNat l).2 * (c * (Float32.roundNat l).1) := by
    unfold Float32.roundedNat
    ring
  rw [h2, float32_roundedNat_scale, zpow_add₀ (by norm_num : (2 : ℚ) ≠ 0), zpow_natCast]
  push_cast
  norm_num
  ring

/-- The value of `critical`, for a limit that is not negative. -/
theorem float32_critical_value (l : Nat) :
    (unloadUnusedTiles.critical (l : Int)).toRat =
      (Float32.roundedNat (15099494 * Float32.roundedNat l) : ℚ) / 16 := by
  unfold unloadUnusedTiles.critical
  rw [float32_mul_1024 _ (float32_mul_natAbs_le _ _),
    float32_mul_1024 _ (float32_mul_natAbs_le _ _)]
  have := float32_toRat_mul_ofInt 15099494 l
  unfold Float32.mul Float32.lit09
  rw [show ((15099494 : Nat) : Int) = 15099494 from rfl] at this
  rw [this]
  ring

/-- The value of `desirableSize`, for a limit that is not negative. -/
theorem float32_desirable_value (l : Nat) :
    (unloadUnusedTiles.desirableSize (l : Int)).toRat =
      (Float32.roundedNat (11744051 * Float32.roundedNat l) : ℚ) / 16 := by
  unfold unloadUnusedTiles.desirableSize
  rw [float32_mul_1024 _ (float32_mul_natAbs_le _ _),
    float32_mul_1024 _ (float32_mul_natAbs_le _ _)]
  have := float32_toRat_mul_ofInt 11744051 l
  unfold Float32.mul Float32.lit07
  rw [show ((11744051 : Nat) : Int) = 11744051 from rfl, mul_comm (11744051 : Int),
    add_comm (-24 : Int)] at this
  rw [this]
  ring

theorem float32_ofInt_toRat (z : Int) :
    (Float32.ofInt z).toRat = (z.sign : ℚ) * (Float32.roundedNat z.natAbs : ℚ) := by
  unfold Float32.ofInt
  rw [float32_toRat_norm, zpow_zero, mul_one]

theorem float32_ofInt_neg (z : Int) (hz : z < 0) : (Float32.ofInt z).toRat < 0 := by
  rw [float32_ofInt_toRat, Int.sign_eq_neg_one_of_neg hz]
  have h1 := (float32_roundedNat_error z.natAbs).2
  have h2 : 0 < z.natAbs := Int.natAbs_pos.2 (ne_of_lt hz)
  have h3 : 0 < Float32.roundedNat z.natAbs := by omega
  have h4 : (0 : ℚ) < (Float32.roundedNat z.natAbs : ℚ) := by exact_mod_cast h3
  push_cast
  linarith

/-- The error bounds of the rounding, as rational inequalities. -/
theorem float32_roundedNat_error_rat (n : Nat) :
    (16777216 : ℚ) * (Float32.roundedNat n : ℚ) ≤ 16777217 * (n : ℚ) ∧
      (16777215 : ℚ) * (n : ℚ) ≤ 16777216 * (Float32.roundedNat n : ℚ) := by
  obtain ⟨h1, h2⟩ := float32_roundedNat_error n
  constructor
  · exact_mod_cast h1
  · exact_mod_cast h2

/-- For a limit that is not negative, a size below 90% of the limit by the
relative margin `2^-22` is below `critical` when both are compared as
floats. -/
theorem float32_below_of_exact (limit sz : Int) (h0 : 0 ≤ limit)
    (hex : (sz : ℚ) < (1 - 1 / 4194304) * ((9 / 10) * (limit : ℚ) * 1024 * 1024)) :
    Float32.lt (Float32.ofInt sz) (unloadUnusedTiles.critical limit) = true := by
  obtain ⟨l, rfl⟩ := Int.eq_ofNat_of_zero_le h0
  rw [float32_lt_iff, float32_critical_value]
  have e2 := (float32_roundedNat_error_rat (15099494 * Float32.roundedNat l)).2
  have e3 := (float32_roundedNat_error_rat l).2
  have hl : (0 : ℚ) ≤ (l : ℚ) := by positivity
  push_cast at e2
  rw [Int.cast_natCast] at hex
  rcases lt_or_le sz 0 with hneg | hpos
  · have := float32_ofInt_neg sz hneg
    have hB : (0 : ℚ) ≤ (Float32.roundedNat (15099494 * Float32.roundedNat l) : ℚ) := by
      positivity
    linarith
  · obtain ⟨n, rfl⟩ := Int.eq_ofNat_of_zero_le hpos
    rw [float32_ofInt_natCast]
    have e1 := (float32_roundedNat_error_rat n).1
    rw [Int.cast_natCast] at hex
    have hn : (0 : ℚ) ≤ (n : ℚ) := by positivity
    linarith

/-- For a limit that is not negative, a size whose float is at or above
`desirableSize` is at least 70% of the limit up to the relative margin
`2^-22`. -/
theorem float32_exact_of_le (limit x : Int) (h0 : 0 ≤ limit)
    (hle : Float32.le (unloadUnusedTiles.desirableSize limit) (Float32.ofInt x) = true) :
    (1 - 1 / 4194304) * ((limit : ℚ) * (7 / 10) * 1024 * 1024) ≤ (x : ℚ) := by
  obtain ⟨l, rfl⟩ := Int.eq_ofNat_of_zero_le h0
  rw [float32_le_iff, float32_desirable_value] at hle
  have e2 := (float32_roundedNat_error_rat (11744051 * Float32.roundedNat l)).2
  have e3 := (float32_roundedNat_error_rat l).2
  have hl : (0 : ℚ) ≤ (l : ℚ) := by positivity
  push_cast at e2
  rw [Int.cast_natCast]
  rcases lt_or_le x 0 with hneg | hpos
  · have := float32_ofInt_neg x hneg
    have hB : (0 : ℚ) ≤ (Float32.roundedNat (11744051 * Float32.roundedNat l) : ℚ) := by
      positivity
    linarith
  · obtain ⟨n, rfl⟩ := Int.eq_ofNat_of_zero_le hpos
    rw [float32_ofInt_natCast] at hle
    have e1 := (float32_roundedNat_error_rat n).1
    rw [Int.cast_natCast]
    linarith

/-- For a limit that is not negative, a size whose float is below
`desirableSize` is below 70% of the limit up to the relative margin `2^-22`. -/
theorem float32_exact_of_lt (limit x : Int) (h0 : 0 ≤ limit)
    (hlt : Float32.lt (Float32.ofInt x) (unloadUnusedTiles.desirableSize limit) = true) :
    (x : ℚ) < (1 + 1 / 4194304) * ((limit : ℚ) * (7 / 10) * 1024 * 1024) := by
  obtain ⟨l, rfl⟩ := Int.eq_ofNat_of_zero_le h0
  rw [float32_lt_iff, float32_desirable_value] at hlt
  have e2 := (float32_roundedNat_error_rat (11744051 * Float32.roundedNat l)).1
  have e3 := (float32_roundedNat_error_rat l).1
  have hl : (0 : ℚ) ≤ (l : ℚ) := by positivity
  push_cast at e2
  rw [Int.cast_natCast]
  rcases lt_or_le x 0 with hneg | hpos
  · have : (x : ℚ) < 0 := by exact_mod_cast hneg
    linarith
  · obtain ⟨n, rfl⟩ := Int.eq_ofNat_of_zero_le hpos
    rw [float32_ofInt_natCast] at hlt
    have e1 := (float32_roundedNat_error_rat n).2
    rw [Int.cast_natCast]
    linarith

/-- The trigger of the eviction is passed when the `float` of `getSize()` is
not below `critical`; for a limit that is not negative this is the case
whenever `getSize()` is at least 90% of the limit (the limit in MB times
1024*1024). -/
theorem unloadUnusedTiles_trigger (e : Externals) (c : RoutingContext) (memoryLimit : Int)
    (h : Float32.lt (Float32.ofInt (c.getSize e)) (unloadUnusedTiles.critical memoryLimit) =
        false ∨
      (0 ≤ memoryLimit ∧ (9 / 10) * (memoryLimit : ℚ) * 1024 * 1024 ≤ ((c.getSize e : Int) : ℚ))) :
    Float32.lt (Float32.ofInt (c.getSize e)) (unloadUnusedTiles.critical memoryLimit) = false :=
  h.elim id fun h => float32_trigger_of_exact _ _ h.1 (getSize_toInt32 e c) h.2

theorem sum_getSize_update (e : Externals) (tiles : Addr → RoutingSubregionTile) (a : Addr)
    (t : RoutingSubregionTile) (vals : List Addr) (hnd : vals.Nodup) (ha : a ∈ vals) :
    (vals.map fun x => ((Function.update tiles a t) x).getSize e).sum =
      (vals.map fun x => (tiles x).getSize e).sum - (tiles a).getSize e + t.getSize e := by
  induction vals with
  | nil => exact absurd ha (List.not_mem_nil a)
  | cons v vs ih =>
    obtain ⟨hv, hvs⟩ := List.nodup_cons.1 hnd
    rcases List.mem_cons.1 ha with rfl | ha
    · have hrest : (vs.map fun x => ((Function.update tiles a t) x).getSize e) =
          vs.map fun x => (tiles x).getSize e := by
        refine List.map_congr_left fun x hx => ?_
        have : x ≠ a := fun hh => hv (hh ▸ hx)
        rw [Function.update_noteq this]
      rw [List.map_cons, List.sum_cons, List.map_cons, List.sum_cons, hrest,
        Function.update_same]
      generalize (List.map (fun x => (tiles x).getSize e) vs).sum = s
      generalize (tiles a).getSize e = u
      generalize t.getSize e = w
      omega
    · have hva : v ≠ a := fun hh => hv (hh ▸ ha)
      rw [List.map_cons, List.sum_cons, List.map_cons, List.sum_cons,
        Function.update_noteq hva, ih hvs ha]
      generalize (List.map (fun x => (tiles x).getSize e) vs).sum = s
      generalize (tiles a).getSize e = u
      generalize t.getSize e = w
      generalize (tiles v).getSize e = z
      omega

theorem getSize_access (e : Externals) (t : RoutingSubregionTile) (x : Int) :
    ({ t with access := x } : RoutingSubregionTile).getSize e = t.getSize e := by
  unfold RoutingSubregionTile.getSize
  rfl

theorem getSize_unload (e : Externals) (t : RoutingSubregionTile) : t.unload.getSize e = 0 := by
  simp [RoutingSubregionTile.getSize, RoutingSubregionTile.unload, toInt32]

/-- The eviction loop, for a list `l` of distinct tiles of `vals`: it unloads
the first `n` tiles of `l`, where `n` is the first index at which the running
size, as a float, is below `d` (or the length of `l`), and the sizes of the
tiles of `vals` then sum to the old sum minus the sizes of the unloaded
tiles. The running size is the wrapped difference of `sz` and the sizes of the
tiles unloaded so far. -/
theorem unload_loop_spec (e : Externals) (d : Float32) (vals : List Addr) (hvals : vals.Nodup)
    (l : List Addr) :
    ∀ (sz : Int) (tiles : Addr → RoutingSubregionTile), toInt32 sz = sz → l.Nodup →
      (∀ a ∈ l, a ∈ vals) →
      (unloadUnusedTiles.loop e d sz l tiles).2 ≤ l.length ∧
      (∀ a, (unloadUnusedTiles.loop e d sz l tiles).1 a =
        if a ∈ l.take (unloadUnusedTiles.loop e d sz l tiles).2 then (tiles a).unload
        else tiles a) ∧
      (∀ m, m < (unloadUnusedTiles.loop e d sz l tiles).2 →
        Float32.le d (Float32.ofInt
          (toInt32 (sz - ((l.take m).map fun a => (tiles a).getSize e).sum))) = true) ∧
      ((unloadUnusedTiles.loop e d sz l tiles).2 < l.length →
        Float32.le d (Float32.ofInt
          (toInt32 (sz - ((l.take (unloadUnusedTiles.loop e d sz l tiles).2).map
            fun a => (tiles a).getSize e).sum))) = false) ∧
      (vals.map fun x => ((unloadUnusedTiles.loop e d sz l tiles).1 x).getSize e).sum =
        (vals.map fun x => (tiles x).getSize e).sum -
          ((l.take (unloadUnusedTiles.loop e d sz l tiles).2).map
            fun a => (tiles a).getSize e).sum := by
  induction l with
  | nil =>
    intro sz tiles _ _ _
    simp [unloadUnusedTiles.loop]
  | cons a rest ih =>
    intro sz tiles hsz hnd hsub
    obtain ⟨harest, hrest⟩ := List.nodup_cons.1 hnd
    have hzero : toInt32 (sz - (([] : List Addr).map fun a => (tiles a).getSize e).sum) = sz := by
      rw [List.map_nil, List.sum_nil, sub_zero, hsz]
    by_cases hd : Float32.le d (Float32.ofInt sz) = true
    · obtain ⟨i1, i2, i3, i4, i5⟩ := ih (toInt32 (sz - (tiles a).getSize e))
        (Function.update tiles a (tiles a).unload) (toInt32_idem _) hrest
        (fun x hx => hsub x (List.mem_cons_of_mem _ hx))
      have hloop : unloadUnusedTiles.loop e d sz (a :: rest) tiles =
          ((unloadUnusedTiles.loop e d (toInt32 (sz - (tiles a).getSize e)) rest
              (Function.update tiles a (tiles a).unload)).1,
            (unloadUnusedTiles.loop e d (toInt32 (sz - (tiles a).getSize e)) rest
              (Function.update tiles a (tiles a).unload)).2 + 1) := by
        simp only [unloadUnusedTiles.loop, if_pos hd]
      generalize unloadUnusedTiles.loop e d (toInt32 (sz - (tiles a).getSize e)) rest
        (Function.update tiles a (tiles a).unload) = r at *
      rw [hloop]
      have hsame : ∀ (s : List Addr), (∀ x ∈ s, x ∈ rest) →
          (s.map fun x => ((Function.update tiles a (tiles a).unload) x).getSize e) =
            s.map fun x => (tiles x).getSize e := by
        intro s hs
        refine List.map_congr_left fun x hx => ?_
        have : x ≠ a := fun hh => harest (hh ▸ hs x hx)
        rw [Function.update_noteq this]
      have htake : ∀ m, ((rest.take m).map
          fun x => ((Function.update tiles a (tiles a).unload) x).getSize e) =
          (rest.take m).map fun x => (tiles x).getSize e :=
        fun m => hsame _ (fun x hx => List.mem_of_mem_take hx)
      refine ⟨by simpa using i1, fun x => ?_, fun m hm => ?_, fun hlt => ?_, ?_⟩
      · simp only [List.take_succ_cons, List.mem_cons]
        rw [i2 x]
        by_cases hxa : x = a
        · subst hxa
          have hx : x ∉ rest.take r.2 := fun hh => harest (List.mem_of_mem_take hh)
          simp [hx]
        · simp only [hxa, false_or, Function.update_noteq hxa]
      · cases m with
        | zero =>
          rw [List.take_zero, hzero]
          exact hd
        | succ m =>
          have := i3 m (by simpa using hm)
          rw [htake m, toInt32_sub_left] at this
          rw [List.take_succ_cons, List.map_cons, List.sum_cons, ← sub_sub]
          exact this
      · have := i4 (by simpa using hlt)
        rw [htake r.2, toInt32_sub_left] at this
        rw [List.take_succ_cons, List.map_cons, List.sum_cons, ← sub_sub]
        exact this
      · rw [i5, sum_getSize_update e tiles a _ vals hvals (hsub a (List.mem_cons_self _ _)),
          getSize_unload, htake r.2, List.take_succ_cons, List.map_cons, List.sum_cons,
          add_zero, ← sub_sub]
    · have hloop : unloadUnusedTiles.loop e d sz (a :: rest) tiles = (tiles, 0) := by
        simp only [unloadUnusedTiles.loop, if_neg hd]
      rw [hloop]
      refine ⟨Nat.zero_le _, fun x => by simp, fun m hm => absurd hm (Nat.not_lt_zero _),
        fun _ => ?_, by simp⟩
      rw [List.take_zero, hzero]
      exact Bool.eq_false_iff.2 hd

theorem decay_spec (l : List Addr) :
    ∀ (tiles : Addr → RoutingSubregionTile), l.Nodup →
      ∀ a, unloadUnusedTiles.decay l tiles a =
        if a ∈ l then { tiles a with access := Int.tdiv (tiles a).access 3 } else tiles a := by
  induction l with
  | nil => intro tiles _ a; simp [unloadUnusedTiles.decay]
  | cons x rest ih =>
    intro tiles hnd a
    obtain ⟨hx, hrest⟩ := List.nodup_cons.1 hnd
    rw [unloadUnusedTiles.decay, ih _ hrest a]
    by_cases hax : a = x
    · subst hax
      simp [hx]
    · by_cases har : a ∈ rest
      · simp [har, hax, Function.update_noteq hax]
      · simp [har, hax, Function.update_noteq hax]

theorem unloadUnusedTiles_list_nodup (e : Externals) (c : RoutingContext)
    (hnodup : (c.subregionTiles.map Prod.snd).Nodup)
    (hperm : (unloadUnusedTiles.list e c).Perm
      ((c.subregionTiles.map Prod.snd).filter fun a => (c.tiles a).isLoaded))  :
    (unloadUnusedTiles.list e c).Nodup ∧
      ∀ a, a ∈ unloadUnusedTiles.list e c ↔
        a ∈ c.subregionTiles.map Prod.snd ∧ (c.tiles a).isLoaded = true := by
  refine ⟨hperm.nodup_iff.2 (hnodup.filter _), fun a => ?_⟩
  rw [hperm.mem_iff, List.mem_filter]

/-- What `unloadUnusedTiles` does when it passes the trigger, tile by tile and
for the total size. -/
theorem unloadUnusedTiles_spec (e : Externals) (c : RoutingContext) (memoryLimit : Int)
    (hnodup : (c.subregionTiles.map Prod.snd).Nodup)
    (hperm : (unloadUnusedTiles.list e c).Perm
      ((c.subregionTiles.map Prod.snd).filter fun a => (c.tiles a).isLoaded))
    (htrigger : Float32.lt (Float32.ofInt (c.getSize e))
      (unloadUnusedTiles.critical memoryLimit) = false) :
    (∀ a, (c.unloadUnusedTiles e memoryLimit).tiles a =
      if a ∈ unloadUnusedTiles.list e c then
        if a ∈ (unloadUnusedTiles.list e c).take
            (unloadUnusedTiles.unloadedTiles e c memoryLimit) then
          { (c.tiles a).unload with access := Int.tdiv (c.tiles a).access 3 }
        else { c.tiles a with access := Int.tdiv (c.tiles a).access 3 }
      else c.tiles a) ∧
    (c.unloadUnusedTiles e memoryLimit).getSize e =
      toInt32 (c.getSize e - (((unloadUnusedTiles.list e c).take
        (unloadUnusedTiles.unloadedTiles e c memoryLimit)).map
          fun a => (c.tiles a).getSize e).sum) ∧
    (c.unloadUnusedTiles e memoryLimit).subregionTiles = c.subregionTiles ∧
    (c.unloadUnusedTiles e memoryLimit).indexedSubregions = c.indexedSubregions ∧
    (c.unloadUnusedTiles e memoryLimit).tilesSize = c.tilesSize ∧
    (c.unloadUnusedTiles e memoryLimit).segments = c.segments := by
  obtain ⟨hlnd, hlmem⟩ := unloadUnusedTiles_list_nodup e c hnodup hperm
  obtain ⟨_, s2, _, _, s5⟩ := unload_loop_spec e (unloadUnusedTiles.desirableSize memoryLimit)
    (c.subregionTiles.map Prod.snd) hnodup (unloadUnusedTiles.list e c) (c.getSize e) c.tiles
    (getSize_toInt32 e c) hlnd (fun a ha => ((hlmem a).1 ha).1)
  have htr : ¬ Float32.lt (Float32.ofInt (c.getSize e))
      (unloadUnusedTiles.critical memoryLimit) = true := by
    rw [htrigger]
    exact Bool.false_ne_true
  have hc' : c.unloadUnusedTiles e memoryLimit =
      { c with
        tiles :=
          unloadUnusedTiles.decay (unloadUnusedTiles.list e c)
            (unloadUnusedTiles.loop e (unloadUnusedTiles.desirableSize memoryLimit)
              (c.getSize e) (unloadUnusedTiles.list e c) c.tiles).1 } := by
    unfold unloadUnusedTiles
    rw [if_neg htr]
  have htiles : ∀ a, (c.unloadUnusedTiles e memoryLimit).tiles a =
      if a ∈ unloadUnusedTiles.list e c then
        if a ∈ (unloadUnusedTiles.list e c).take
            (unloadUnusedTiles.unloadedTiles e c memoryLimit) then
          { (c.tiles a).unload with access := Int.tdiv (c.tiles a).access 3 }
        else { c.tiles a with access := Int.tdiv (c.tiles a).access 3 }
      else c.tiles a := by
    intro a
    rw [hc']
    show unloadUnusedTiles.decay _ _ a = _
    rw [decay_spec _ _ hlnd a, s2 a]
    by_cases hal : a ∈ unloadUnusedTiles.list e c
    · rw [if_pos hal, if_pos hal]
      by_cases hat : a ∈ (unloadUnusedTiles.list e c).take
          (unloadUnusedTiles.unloadedTiles e c memoryLimit)
      · rw [if_pos hat]
        have hat' : a ∈ (unloadUnusedTiles.list e c).take
            (unloadUnusedTiles.loop e (unloadUnusedTiles.desirableSize memoryLimit)
              (c.getSize e) (unloadUnusedTiles.list e c) c.tiles).2 := hat
        rw [if_pos hat']
        rfl
      · rw [if_neg hat]
        have hat' : a ∉ (unloadUnusedTiles.list e c).take
            (unloadUnusedTiles.loop e (unloadUnusedTiles.desirableSize memoryLimit)
              (c.getSize e) (unloadUnusedTiles.list e c) c.tiles).2 := hat
        rw [if_neg hat']
    · rw [if_neg hal, if_neg hal]
      have hat' : a ∉ (unloadUnusedTiles.list e c).take
          (unloadUnusedTiles.loop e (unloadUnusedTiles.desirableSize memoryLimit)
            (c.getSize e) (unloadUnusedTiles.list e c) c.tiles).2 :=
        fun hh => hal (List.mem_of_mem_take hh)
      rw [if_neg hat']
  refine ⟨htiles, ?_, by rw [hc'], by rw [hc'], by rw [hc'], by rw [hc']⟩
  have hsum : ((c.subregionTiles.map Prod.snd).map
      fun x => ((c.unloadUnusedTiles e memoryLimit).tiles x).getSize e) =
      (c.subregionTiles.map Prod.snd).map fun x =>
        ((unloadUnusedTiles.loop e (unloadUnusedTiles.desirableSize memoryLimit) (c.getSize e)
          (unloadUnusedTiles.list e c) c.tiles).1 x).getSize e := by
    refine List.map_congr_left fun x _ => ?_
    rw [htiles x, s2 x]
    by_cases hxl : x ∈ unloadUnusedTiles.list e c
    · rw [if_pos hxl]
      by_cases hat : x ∈ (unloadUnusedTiles.list e c).take
          (unloadUnusedTiles.unloadedTiles e c memoryLimit)
      · have hat' : x ∈ (unloadUnusedTiles.list e c).take
            (unloadUnusedTiles.loop e (unloadUnusedTiles.desirableSize memoryLimit)
              (c.getSize e) (unloadUnusedTiles.list e c) c.tiles).2 := hat
        rw [if_pos hat, if_pos hat']
        exact getSize_access e _ _
      · have hat' : x ∉ (unloadUnusedTiles.list e c).take
            (unloadUnusedTiles.loop e (unloadUnusedTiles.desirableSize memoryLimit)
              (c.getSize e) (unloadUnusedTiles.list e c) c.tiles).2 := hat
        rw [if_neg hat, if_neg hat']
        exact getSize_access e _ _
    · rw [if_neg hxl]
      have hat' : x ∉ (unloadUnusedTiles.list e c).take
          (unloadUnusedTiles.loop e (unloadUnusedTiles.desirableSize memoryLimit)
            (c.getSize e) (unloadUnusedTiles.list e c) c.tiles).2 :=
        fun hh => hxl (List.mem_of_mem_take hh)
      rw [if_neg hat']
  have hst : (c.unloadUnusedTiles e memoryLimit).subregionTiles = c.subregionTiles := by
    rw [hc']
  have hg := getSize_eq e c
  rw [getSize_eq e (c.unloadUnusedTiles e memoryLimit), hst, hsum, s5]
  unfold unloadUnusedTiles.unloadedTiles
  generalize (((unloadUnusedTiles.list e c).take
    (unloadUnusedTiles.loop e (unloadUnusedTiles.desirableSize memoryLimit) (c.getSize e)
      (unloadUnusedTiles.list e c) c.tiles).2).map fun a => (c.tiles a).getSize e).sum = u
  rw [hg, toInt32_sub_left, add_sub_assoc]

/-- C16 (as stated, refuted): the context `ctxNearCritical` has one loaded
tile and `getSize()` 45298481, below 90% of the limit of 48 MB (45298483.2),
yet `unloadUnusedTiles(48)` unloads the tile: the code compares the `float`
values of the size and of `critical`, both 45298480, so the size is not below
the threshold. -/
theorem unloadUnusedTiles_noop_counterexample :
    ((ctxNearCritical.getSize (externalsOf [] []) : Int) : ℚ) <
        (9 / 10) * ((48 : Int) : ℚ) * 1024 * 1024 ∧
      (ctxNearCritical.tiles 0).isLoaded = true ∧
      ((ctxNearCritical.unloadUnusedTiles (externalsOf [] []) 48).tiles 0).isLoaded = false ∧
      ctxNearCritical.unloadUnusedTiles (externalsOf [] []) 48 ≠ ctxNearCritical := by
  have hsz : ctxNearCritical.getSize (externalsOf [] []) = 45298481 := by decide
  have hun : ((ctxNearCritical.unloadUnusedTiles (externalsOf [] []) 48).tiles 0).isLoaded =
      false := by decide
  refine ⟨?_, by decide, hun, fun h => ?_⟩
  · rw [hsz]
    norm_num
  · rw [h] at hun
    revert hun
    decide

/-- C16 (amended): when `getSize()`, converted to `float`, is below the `float`
value `critical = 0.9f * limit * 1024 * 1024` (each product rounded to
`float`) - which is the case when the limit is not negative and `getSize()` is
below 90% of the limit by the relative margin `2^-22` -,
`unloadUnusedTiles(limit)` is a no-op: the context after it is the context
before it (no tile is unloaded; routes, sizes, loaded and access counters are
the same). -/
theorem unloadUnusedTiles_noop (e : Externals) (c : RoutingContext) (memoryLimit : Int)
    (hlow : Float32.lt (Float32.ofInt (c.getSize e))
        (unloadUnusedTiles.critical memoryLimit) = true ∨
      (0 ≤ memoryLimit ∧ ((c.getSize e : Int) : ℚ) <
        (1 - 1 / 4194304) * ((9 / 10) * (memoryLimit : ℚ) * 1024 * 1024))) :
    c.unloadUnusedTiles e memoryLimit = c := by
  have hlt : Float32.lt (Float32.ofInt (c.getSize e))
      (unloadUnusedTiles.critical memoryLimit) = true :=
    hlow.elim id fun h => float32_below_of_exact _ _ h.1 h.2
  unfold unloadUnusedTiles
  rw [if_pos hlt]

/-- Witness of `unloadUnusedTiles_noop`: the context `ctxThree`, of size
60000144 with two loaded tiles, under a limit of 64 MB (90% of the limit is
60397977.6). -/
theorem unloadUnusedTiles_noop_witness :
    (Float32.lt (Float32.ofInt (ctxThree.getSize (externalsOf [] [])))
          (unloadUnusedTiles.critical 64) = true ∨
        ((0 : Int) ≤ 64 ∧ ((ctxThree.getSize (externalsOf [] []) : Int) : ℚ) <
          (1 - 1 / 4194304) * ((9 / 10) * ((64 : Int) : ℚ) * 1024 * 1024))) ∧
      (ctxThree.tiles 0).isLoaded = true ∧
      ctxThree.unloadUnusedTiles (externalsOf [] []) 64 = ctxThree := by
  have hsz : ctxThree.getSize (externalsOf [] []) = 60000144 := by decide
  have h : (Float32.lt (Float32.ofInt (ctxThree.getSize (externalsOf [] [])))
        (unloadUnusedTiles.critical 64) = true ∨
      ((0 : Int) ≤ 64 ∧ ((ctxThree.getSize (externalsOf [] []) : Int) : ℚ) <
        (1 - 1 / 4194304) * ((9 / 10) * ((64 : Int) : ℚ) * 1024 * 1024))) := by
    refine Or.inr ⟨by decide, ?_⟩
    rw [hsz]
    norm_num
  exact ⟨h, by decide, unloadUnusedTiles_noop (externalsOf [] []) ctxThree 64 h⟩

theorem ctxRound_getSize : ctxRound.getSize (externalsOf [] []) = 50000000 := by decide

theorem ctxRound_list : unloadUnusedTiles.list (externalsOf [] []) ctxRound = [0, 1] := by
  decide

theorem ctxRound_unloadedTiles :
    unloadUnusedTiles.unloadedTiles (externalsOf [] []) ctxRound 48 = 2 := by decide

/-- C17 (as stated, refuted): in `ctxRound` (two loaded tiles, `getSize()`
50000000, above 90% of 48 MB) `unloadUnusedTiles(48)` unloads both tiles,
although after the first unload the resident size, 35232150, was already below
70% of the limit (35232153.6): the `float` value of 35232150 is 35232152, which
is the `float` value of `desirableSize`. -/
theorem unloadUnusedTiles_prefix_counterexample :
    (9 / 10) * ((48 : Int) : ℚ) * 1024 * 1024 ≤
        ((ctxRound.getSize (externalsOf [] []) : Int) : ℚ) ∧
      unloadUnusedTiles.list (externalsOf [] []) ctxRound = [0, 1] ∧
      unloadUnusedTiles.unloadedTiles (externalsOf [] []) ctxRound 48 = 2 ∧
      ((ctxRound.unloadUnusedTiles (externalsOf [] []) 48).tiles 1).isLoaded = false ∧
      ((ctxRound.getSize (externalsOf [] []) -
          (ctxRound.tiles 0).getSize (externalsOf [] []) : Int) : ℚ) <
        ((48 : Int) : ℚ) * (7 / 10) * 1024 * 1024 := by
  have hsz := ctxRound_getSize
  have h0 : (ctxRound.tiles 0).getSize (externalsOf [] []) = 14767850 := by decide
  refine ⟨?_, ctxRound_list, ctxRound_unloadedTiles, by decide, ?_⟩
  · rw [hsz]
    norm_num
  · rw [hsz, h0]
    norm_num

/-- C17 (amended): when the trigger is passed - `getSize()` as a `float` is not
below the `float` value `critical = 0.9f * limit * 1024 * 1024`, which is the
case when the limit is not negative and `getSize()` is at least 90% of it -,
the tiles of `subregionTiles` are distinct and the sort yields a permutation of
the loaded tiles, `unloadUnusedTiles` unloads exactly the first `n` tiles of the
sorted list (`n` is its counter `unloadedTiles`) and no other tile; `n` is the
first index at which the running size (the `int` difference of `getSize()` and
the sizes of the tiles before the index), converted to `float`, is below the
`float` value `desirableSize = limit * 0.7f * 1024 * 1024`, or the length of
the list: before each unload the `float` of the running size was at or above
`desirableSize`. On return `getSize()` is the old size minus the sizes of the
unloaded tiles (as an `int`), and either its `float` is below `desirableSize`
or every tile that was loaded has been unloaded. The maps `subregionTiles` and
`indexedSubregions` are unchanged: tiles are emptied, never removed. For a
limit that is not negative the two `float` tests are the tests of the claim up
to the relative margin `2^-22`: before each unload the running size was at
least `(1 - 2^-22)` times 70% of the limit, and on return `getSize()` is below
`(1 + 2^-22)` times 70% of the limit or every loaded tile has been
unloaded. -/
theorem unloadUnusedTiles_prefix (e : Externals) (c : RoutingContext) (memoryLimit : Int)
    (hnodup : (c.subregionTiles.map Prod.snd).Nodup)
    (hperm : (unloadUnusedTiles.list e c).Perm
      ((c.subregionTiles.map Prod.snd).filter fun a => (c.tiles a).isLoaded))
    (htrigger : Float32.lt (Float32.ofInt (c.getSize e))
        (unloadUnusedTiles.critical memoryLimit) = false ∨
      (0 ≤ memoryLimit ∧
        (9 / 10) * (memoryLimit : ℚ) * 1024 * 1024 ≤ ((c.getSize e : Int) : ℚ))) :
    unloadUnusedTiles.unloadedTiles e c memoryLimit ≤ (unloadUnusedTiles.list e c).length ∧
    (∀ a, a ∈ (unloadUnusedTiles.list e c).take (unloadUnusedTiles.unloadedTiles e c memoryLimit) →
      ((c.unloadUnusedTiles e memoryLimit).tiles a).routes = [] ∧
      ((c.unloadUnusedTiles e memoryLimit).tiles a).size = 0 ∧
      ((c.unloadUnusedTiles e memoryLimit).tiles a).isLoaded = false) ∧
    (∀ a, a ∉ (unloadUnusedTiles.list e c).take (unloadUnusedTiles.unloadedTiles e c memoryLimit) →
      ((c.unloadUnusedTiles e memoryLimit).tiles a).routes = (c.tiles a).routes ∧
      ((c.unloadUnusedTiles e memoryLimit).tiles a).size = (c.tiles a).size ∧
      ((c.unloadUnusedTiles e memoryLimit).tiles a).loaded = (c.tiles a).loaded) ∧
    (∀ m, m < unloadUnusedTiles.unloadedTiles e c memoryLimit →
      Float32.le (unloadUnusedTiles.desirableSize memoryLimit)
        (Float32.ofInt (toInt32 (c.getSize e - (((unloadUnusedTiles.list e c).take m).map
          fun a => (c.tiles a).getSize e).sum))) = true) ∧
    (c.unloadUnusedTiles e memoryLimit).getSize e =
      toInt32 (c.getSize e - (((unloadUnusedTiles.list e c).take
        (unloadUnusedTiles.unloadedTiles e c memoryLimit)).map
          fun a => (c.tiles a).getSize e).sum) ∧
    (Float32.lt (Float32.ofInt ((c.unloadUnusedTiles e memoryLimit).getSize e))
        (unloadUnusedTiles.desirableSize memoryLimit) = true ∨
      ∀ a, a ∈ c.subregionTiles.map Prod.snd → (c.tiles a).isLoaded = true →
        ((c.unloadUnusedTiles e memoryLimit).tiles a).isLoaded = false) ∧
    (c.unloadUnusedTiles e memoryLimit).subregionTiles = c.subregionTiles ∧
    (c.unloadUnusedTiles e memoryLimit).indexedSubregions = c.indexedSubregions ∧
    (0 ≤ memoryLimit →
      (∀ m, m < unloadUnusedTiles.unloadedTiles e c memoryLimit →
        (1 - 1 / 4194304) * ((memoryLimit : ℚ) * (7 / 10) * 1024 * 1024) ≤
          ((toInt32 (c.getSize e - (((unloadUnusedTiles.list e c).take m).map
            fun a => (c.tiles a).getSize e).sum) : Int) : ℚ)) ∧
      ((((c.unloadUnusedTiles e memoryLimit).getSize e : Int) : ℚ) <
          (1 + 1 / 4194304) * ((memoryLimit : ℚ) * (7 / 10) * 1024 * 1024) ∨
        ∀ a, a ∈ c.subregionTiles.map Prod.snd → (c.tiles a).isLoaded = true →
          ((c.unloadUnusedTiles e memoryLimit).tiles a).isLoaded = false)) := by
  have htr := unloadUnusedTiles_trigger e c memoryLimit htrigger
  obtain ⟨hlnd, hlmem⟩ := unloadUnusedTiles_list_nodup e c hnodup hperm
  obtain ⟨s1, _, s3, s4, _⟩ := unload_loop_spec e (unloadUnusedTiles.desirableSize memoryLimit)
    (c.subregionTiles.map Prod.snd) hnodup (unloadUnusedTiles.list e c) (c.getSize e) c.tiles
    (getSize_toInt32 e c) hlnd (fun a ha => ((hlmem a).1 ha).1)
  obtain ⟨htiles, hsize, hst, his, _, _⟩ :=
    unloadUnusedTiles_spec e c memoryLimit hnodup hperm htr
  have hunl : ∀ a, a ∈ (unloadUnusedTiles.list e c).take
      (unloadUnusedTiles.unloadedTiles e c memoryLimit) →
      ((c.unloadUnusedTiles e memoryLimit).tiles a).routes = [] ∧
      ((c.unloadUnusedTiles e memoryLimit).tiles a).size = 0 ∧
      ((c.unloadUnusedTiles e memoryLimit).tiles a).isLoaded = false := by
    intro a ha
    rw [htiles a, if_pos (List.mem_of_mem_take ha), if_pos ha]
    refine ⟨rfl, rfl, ?_⟩
    simp only [RoutingSubregionTile.isLoaded, RoutingSubregionTile.unload,
      decide_eq_false_iff_not]
    omega
  have hend : Float32.lt (Float32.ofInt ((c.unloadUnusedTiles e memoryLimit).getSize e))
        (unloadUnusedTiles.desirableSize memoryLimit) = true ∨
      ∀ a, a ∈ c.subregionTiles.map Prod.snd → (c.tiles a).isLoaded = true →
        ((c.unloadUnusedTiles e memoryLimit).tiles a).isLoaded = false := ?_
  · refine ⟨s1, hunl, fun a ha => ?_, s3, hsize, hend, hst, his, fun h0 =>
      ⟨fun m hm => float32_exact_of_le _ _ h0 (s3 m hm),
        hend.imp (fun h => float32_exact_of_lt _ _ h0 h) id⟩⟩
    rw [htiles a]
    by_cases hal : a ∈ unloadUnusedTiles.list e c
    · rw [if_pos hal, if_neg ha]
      exact ⟨rfl, rfl, rfl⟩
    · rw [if_neg hal]
      exact ⟨rfl, rfl, rfl⟩
  · by_cases hn : unloadUnusedTiles.unloadedTiles e c memoryLimit <
        (unloadUnusedTiles.list e c).length
    · left
      rw [hsize]
      exact (float32_le_eq_false _ _).1 (s4 hn)
    · right
      intro a ha hloaded
      have hal : a ∈ unloadUnusedTiles.list e c := (hlmem a).2 ⟨ha, hloaded⟩
      have hfull : (unloadUnusedTiles.list e c).take
          (unloadUnusedTiles.unloadedTiles e c memoryLimit) = unloadUnusedTiles.list e c :=
        List.take_of_length_le (not_lt.1 hn)
      exact (hunl a (by rw [hfull]; exact hal)).2.2

/-- C18 (as stated, refuted): in `ctxRound` under a limit of 48 MB the eviction
unloads two tiles, the last one of size 35232054, and `getSize()` on return is
96, below 70% of the limit minus the size of the last tile (99.6); no `int`
overflows. -/
theorem unloadUnusedTiles_overshoot_counterexample :
    0 < unloadUnusedTiles.unloadedTiles (externalsOf [] []) ctxRound 48 ∧
      (unloadUnusedTiles.list (externalsOf [] []) ctxRound).get?
        (unloadUnusedTiles.unloadedTiles (externalsOf [] []) ctxRound 48 - 1) = some 1 ∧
      (ctxRound.tiles 1).getSize (externalsOf [] []) = 35232054 ∧
      (ctxRound.unloadUnusedTiles (externalsOf [] []) 48).getSize (externalsOf [] []) = 96 ∧
      (((ctxRound.unloadUnusedTiles (externalsOf [] []) 48).getSize (externalsOf [] []) :
          Int) : ℚ) <
        ((48 : Int) : ℚ) * (7 / 10) * 1024 * 1024 -
          (((ctxRound.tiles 1).getSize (externalsOf [] []) : Int) : ℚ) := by
  have hn := ctxRound_unloadedTiles
  have h1 : (ctxRound.tiles 1).getSize (externalsOf [] []) = 35232054 := by decide
  have h2 : (ctxRound.unloadUnusedTiles (externalsOf [] []) 48).getSize (externalsOf [] []) =
      96 := by decide
  refine ⟨by rw [hn]; decide, by rw [hn, ctxRound_list]; rfl, h1, h2, ?_⟩
  rw [h1, h2]
  norm_num

/-- C18 (amended): when the eviction (trigger passed as in C17) has unloaded at
least one tile, the size before the last unload - `getSize()` on return plus
the size that the last unloaded tile had before the eviction, as an `int` -
has a `float` value at or above the `float` value
`desirableSize = limit * 0.7f * 1024 * 1024`: the eviction does not go on once
the `float` of the size is below `desirableSize`. For a limit that is not
negative, and when that sum does not overflow, `getSize()` on return is at
least `(1 - 2^-22)` times 70% of the limit, minus the size of the last
unloaded tile. -/
theorem unloadUnusedTiles_overshoot (e : Externals) (c : RoutingContext) (memoryLimit : Int)
    (hnodup : (c.subregionTiles.map Prod.snd).Nodup)
    (hperm : (unloadUnusedTiles.list e c).Perm
      ((c.subregionTiles.map Prod.snd).filter fun a => (c.tiles a).isLoaded))
    (htrigger : Float32.lt (Float32.ofInt (c.getSize e))
        (unloadUnusedTiles.critical memoryLimit) = false ∨
      (0 ≤ memoryLimit ∧
        (9 / 10) * (memoryLimit : ℚ) * 1024 * 1024 ≤ ((c.getSize e : Int) : ℚ)))
    (hpos : 0 < unloadUnusedTiles.unloadedTiles e c memoryLimit) :
    ∃ last, (unloadUnusedTiles.list e c).get?
        (unloadUnusedTiles.unloadedTiles e c memoryLimit - 1) = some last ∧
      Float32.le (unloadUnusedTiles.desirableSize memoryLimit)
        (Float32.ofInt (toInt32 ((c.unloadUnusedTiles e memoryLimit).getSize e +
          (c.tiles last).getSize e))) = true ∧
      (0 ≤ memoryLimit →
        toInt32 ((c.unloadUnusedTiles e memoryLimit).getSize e + (c.tiles last).getSize e) =
          (c.unloadUnusedTiles e memoryLimit).getSize e + (c.tiles last).getSize e →
        (1 - 1 / 4194304) * ((memoryLimit : ℚ) * (7 / 10) * 1024 * 1024) -
            (((c.tiles last).getSize e : Int) : ℚ) ≤
          (((c.unloadUnusedTiles e memoryLimit).getSize e : Int) : ℚ)) := by
  have htr := unloadUnusedTiles_trigger e c memoryLimit htrigger
  obtain ⟨hlnd, hlmem⟩ := unloadUnusedTiles_list_nodup e c hnodup hperm
  obtain ⟨s1, _, s3, _, _⟩ := unload_loop_spec e (unloadUnusedTiles.desirableSize memoryLimit)
    (c.subregionTiles.map Prod.snd) hnodup (unloadUnusedTiles.list e c) (c.getSize e) c.tiles
    (getSize_toInt32 e c) hlnd (fun a ha => ((hlmem a).1 ha).1)
  obtain ⟨_, hsize, _⟩ := unloadUnusedTiles_spec e c memoryLimit hnodup hperm htr
  have hn : unloadUnusedTiles.unloadedTiles e c memoryLimit =
      (unloadUnusedTiles.unloadedTiles e c memoryLimit - 1) + 1 := by omega
  have hlt : unloadUnusedTiles.unloadedTiles e c memoryLimit - 1 <
      (unloadUnusedTiles.list e c).length := by
    have : unloadUnusedTiles.unloadedTiles e c memoryLimit ≤
        (unloadUnusedTiles.list e c).length := s1
    omega
  refine ⟨(unloadUnusedTiles.list e c).get ⟨_, hlt⟩, List.get?_eq_get hlt, ?_⟩
  have h3 := s3 (unloadUnusedTiles.unloadedTiles e c memoryLimit - 1) (by
    show _ < unloadUnusedTiles.unloadedTiles e c memoryLimit
    omega)
  have htake : (unloadUnusedTiles.list e c).take
      (unloadUnusedTiles.unloadedTiles e c memoryLimit) =
      (unloadUnusedTiles.list e c).take (unloadUnusedTiles.unloadedTiles e c memoryLimit - 1) ++
        [(unloadUnusedTiles.list e c).get ⟨_, hlt⟩] := by
    conv_lhs => rw [hn]
    rw [List.take_succ, List.getElem?_eq_getElem hlt]
    rfl
  have hle : Float32.le (unloadUnusedTiles.desirableSize memoryLimit)
      (Float32.ofInt (toInt32 ((c.unloadUnusedTiles e memoryLimit).getSize e +
        (c.tiles ((unloadUnusedTiles.list e c).get ⟨_, hlt⟩)).getSize e))) = true := by
    rw [hsize, htake, List.map_append, List.sum_append]
    rw [List.map_cons, List.map_nil, List.sum_cons, List.sum_nil, add_zero, toInt32_add_left,
      ← sub_sub, sub_add_cancel]
    exact h3
  refine ⟨hle, fun h0 hno => ?_⟩
  have hb := float32_exact_of_le _ _ h0 hle
  rw [hno] at hb
  push_cast at hb
  linarith

/-- C19: when the eviction passes the 90% trigger - the `float` of `getSize()`
is not below the `float` value `critical`, which is the case when the limit is
not negative and `getSize()` is at least 90% of the limit (the limit in MB
times 1024*1024) -, every tile of `subregionTiles` that was loaded before it - in particular every tile that is still loaded
after it - has its `access` counter replaced by its previous value divided by
3 (truncating), and every tile that was not loaded keeps its `access`
counter. -/
theorem unloadUnusedTiles_access (e : Externals) (c : RoutingContext) (memoryLimit : Int)
    (hnodup : (c.subregionTiles.map Prod.snd).Nodup)
    (hperm : (unloadUnusedTiles.list e c).Perm
      ((c.subregionTiles.map Prod.snd).filter fun a => (c.tiles a).isLoaded))
    (htrigger : Float32.lt (Float32.ofInt (c.getSize e))
        (unloadUnusedTiles.critical memoryLimit) = false ∨
      (0 ≤ memoryLimit ∧
        (9 / 10) * (memoryLimit : ℚ) * 1024 * 1024 ≤ ((c.getSize e : Int) : ℚ))) :
    (∀ a, a ∈ c.subregionTiles.map Prod.snd → (c.tiles a).isLoaded = true →
      ((c.unloadUnusedTiles e memoryLimit).tiles a).access = Int.tdiv (c.tiles a).access 3) ∧
    (∀ a, (c.tiles a).isLoaded = false →
      ((c.unloadUnusedTiles e memoryLimit).tiles a).access = (c.tiles a).access) := by
  have htr := unloadUnusedTiles_trigger e c memoryLimit htrigger
  obtain ⟨_, hlmem⟩ := unloadUnusedTiles_list_nodup e c hnodup hperm
  obtain ⟨htiles, _⟩ := unloadUnusedTiles_spec e c memoryLimit hnodup hperm htr
  constructor
  · intro a ha hloaded
    rw [htiles a, if_pos ((hlmem a).2 ⟨ha, hloaded⟩)]
    split_ifs <;> rfl
  · intro a hnot
    have hal : a ∉ unloadUnusedTiles.list e c := by
      intro hh
      rw [((hlmem a).1 hh).2] at hnot
      cases hnot
    rw [htiles a, if_neg hal]

theorem ctxThree_getSize : ctxThree.getSize (externalsOf [] []) = 60000144 := by decide

theorem ctxThree_list : unloadUnusedTiles.list (externalsOf [] []) ctxThree = [0, 1] := by decide

theorem ctxThree_hyps :
    (ctxThree.subregionTiles.map Prod.snd).Nodup ∧
      (unloadUnusedTiles.list (externalsOf [] []) ctxThree).Perm
        ((ctxThree.subregionTiles.map Prod.snd).filter fun a => (ctxThree.tiles a).isLoaded) ∧
      (Float32.lt (Float32.ofInt (ctxThree.getSize (externalsOf [] [])))
          (unloadUnusedTiles.critical 48) = false ∨
        ((0 : Int) ≤ 48 ∧ (9 / 10) * ((48 : Int) : ℚ) * 1024 * 1024 ≤
          ((ctxThree.getSize (externalsOf [] []) : Int) : ℚ))) := by
  refine ⟨by decide, List.perm_insertionSort _ _, Or.inr ⟨by decide, ?_⟩⟩
  rw [ctxThree_getSize]
  norm_num

theorem ctxThree_unloadedTiles :
    unloadUnusedTiles.unloadedTiles (externalsOf [] []) ctxThree 48 = 1 := by decide

/-- Witness of `unloadUnusedTiles_prefix`: in `ctxThree` under a limit of 48
MB the eviction unloads tile 0 only, and the size drops from 60000144 to
20000144. -/
theorem unloadUnusedTiles_prefix_witness :
    (Float32.lt (Float32.ofInt (ctxThree.getSize (externalsOf [] [])))
          (unloadUnusedTiles.critical 48) = false ∨
        ((0 : Int) ≤ 48 ∧ (9 / 10) * ((48 : Int) : ℚ) * 1024 * 1024 ≤
          ((ctxThree.getSize (externalsOf [] []) : Int) : ℚ))) ∧
      ((ctxThree.unloadUnusedTiles (externalsOf [] []) 48).tiles 0).isLoaded = false ∧
      ((ctxThree.unloadUnusedTiles (externalsOf [] []) 48).tiles 1).loaded = 2 ∧
      (ctxThree.unloadUnusedTiles (externalsOf [] []) 48).getSize (externalsOf [] []) =
        20000144 := by
  obtain ⟨h1, h2, h3⟩ := ctxThree_hyps
  have hw := unloadUnusedTiles_prefix (externalsOf [] []) ctxThree 48 h1 h2 h3
  rw [ctxThree_unloadedTiles, ctxThree_list] at hw
  refine ⟨h3, (hw.2.1 0 (by decide)).2.2, ?_, ?_⟩
  · rw [(hw.2.2.1 1 (by decide)).2.2]; decide
  · rw [hw.2.2.2.2.1, ctxThree_getSize]; decide

/-- Witness of `unloadUnusedTiles_overshoot`: in `ctxThree` the eviction
unloads one tile, of size 40000000; the size on return is 20000144, and the
size before the unload, 60000144, is above `desirableSize` as a `float`. -/
theorem unloadUnusedTiles_overshoot_witness :
    0 < unloadUnusedTiles.unloadedTiles (externalsOf [] []) ctxThree 48 ∧
      ∃ last, (unloadUnusedTiles.list (externalsOf [] []) ctxThree).get?
          (unloadUnusedTiles.unloadedTiles (externalsOf [] []) ctxThree 48 - 1) = some last ∧
        Float32.le (unloadUnusedTiles.desirableSize 48)
          (Float32.ofInt (toInt32
            ((ctxThree.unloadUnusedTiles (externalsOf [] []) 48).getSize (externalsOf [] []) +
              (ctxThree.tiles last).getSize (externalsOf [] [])))) = true ∧
        ((0 : Int) ≤ 48 →
          toInt32
              ((ctxThree.unloadUnusedTiles (externalsOf [] []) 48).getSize (externalsOf [] []) +
                (ctxThree.tiles last).getSize (externalsOf [] [])) =
            (ctxThree.unloadUnusedTiles (externalsOf [] []) 48).getSize (externalsOf [] []) +
              (ctxThree.tiles last).getSize (externalsOf [] []) →
          (1 - 1 / 4194304) * (((48 : Int) : ℚ) * (7 / 10) * 1024 * 1024) -
              (((ctxThree.tiles last).getSize (externalsOf [] []) : Int) : ℚ) ≤
            (((ctxThree.unloadUnusedTiles (externalsOf [] []) 48).getSize (externalsOf [] []) :
              Int) : ℚ)) := by
  obtain ⟨h1, h2, h3⟩ := ctxThree_hyps
  have hpos : 0 < unloadUnusedTiles.unloadedTiles (externalsOf [] []) ctxThree 48 := by
    rw [ctxThree_unloadedTiles]; decide
  exact ⟨hpos, unloadUnusedTiles_overshoot (externalsOf [] []) ctxThree 48 h1 h2 h3 hpos⟩

/-- Witness of `unloadUnusedTiles_access`: in `ctxThree` the surviving tile 1
goes from `access` 9 to 3 and the tile 2, not loaded, keeps its `access` 5. -/
theorem unloadUnusedTiles_access_witness :
    ((ctxThree.unloadUnusedTiles (externalsOf [] []) 48).tiles 1).access = 3 ∧
      ((ctxThree.unloadUnusedTiles (externalsOf [] []) 48).tiles 2).access = 5 := by
  obtain ⟨h1, h2, h3⟩ := ctxThree_hyps
  have hw := unloadUnusedTiles_access (externalsOf [] []) ctxThree 48 h1 h2 h3
  refine ⟨?_, ?_⟩
  · rw [hw.1 1 (by decide) (by decide)]; decide
  · rw [hw.2 2 (by decide)]; decide

/-! ## Key packing: point keys and coarse tile ids -/

theorem toInt64_of_lt (n : Int) (h0 : 0 ≤ n) (h1 : n < 9223372036854775808) : toInt64 n = n := by
  unfold toInt64
  omega

theorem pointKey_eq (x y : Nat) (hx : x < 2147483648) (hy : y < 2147483648) :
    pointKey x y = ((x * 2147483648 + y : Nat) : Int) := by
  unfold pointKey
  rw [toInt64_of_lt _ (by omega) (by omega)]
  congr 1
  omega

/-- C28: for coordinates in the 31-bit range, the packed key `(x << 31) + y`
that `RoutingSubregionTile::add` and `loadRouteSegment` compute in 64-bit
arithmetic is `(x << 31) | y`, lies in `[0, 2^62)`, and is the key of
`(x', y')` exactly when `x = x'` and `y = y'`; `loadRouteSegment` computes for
`(x, y)` the key under which `add` stores a point `(x, y)` of a road. -/
theorem pointKey_unique (x y x' y' : Nat) (hx : x < 2 ^ 31) (hy : y < 2 ^ 31)
    (hx' : x' < 2 ^ 31) (hy' : y' < 2 ^ 31) :
    pointKey x y = (((x <<< 31) ||| y : Nat) : Int) ∧
      0 ≤ pointKey x y ∧ pointKey x y < 2 ^ 62 ∧
      (pointKey x y = pointKey x' y' ↔ x = x' ∧ y = y') ∧
      RoutingContext.loadRouteSegment.key (x : Int) (y : Int) = pointKey x y ∧
      ∀ (o : RouteDataObject) (i : Nat), o.pointsX.getD i 0 = x → o.pointsY.getD i 0 = y →
        o.keyAt i = RoutingContext.loadRouteSegment.key (x : Int) (y : Int) := by
  have hx2 : x < 2147483648 := by simpa using hx
  have hy2 : y < 2147483648 := by simpa using hy
  have hx2' : x' < 2147483648 := by simpa using hx'
  have hy2' : y' < 2147483648 := by simpa using hy'
  have hkey : RoutingContext.loadRouteSegment.key (x : Int) (y : Int) = pointKey x y := by
    unfold RoutingContext.loadRouteSegment.key
    have e1 : ((x : Int) % 18446744073709551616).toNat = x := by omega
    have e2 : ((y : Int) % 18446744073709551616).toNat = y := by omega
    rw [e1, e2]
  refine ⟨?_, ?_, ?_, ?_, hkey, fun o i h1 h2 => ?_⟩
  · rw [pointKey_eq x y hx2 hy2, Nat.shiftLeft_eq, Nat.mul_comm x,
      Nat.mul_add_lt_is_or hy x]
  · rw [pointKey_eq x y hx2 hy2]; omega
  · rw [pointKey_eq x y hx2 hy2]
    have : (2 : Int) ^ 62 = 4611686018427387904 := by norm_num
    rw [this]
    omega
  · rw [pointKey_eq x y hx2 hy2, pointKey_eq x' y' hx2' hy2']
    constructor
    · intro h
      have h' : x * 2147483648 + y = x' * 2147483648 + y' := by exact_mod_cast h
      omega
    · rintro ⟨rfl, rfl⟩; rfl
  · rw [hkey]
    unfold RouteDataObject.keyAt
    rw [h1, h2]

/-- Witness of `pointKey_unique`: the points (3, 5) and (5, 3). -/
theorem pointKey_unique_witness :
    pointKey 3 5 = (((3 <<< 31) ||| 5 : Nat) : Int) ∧
      0 ≤ pointKey 3 5 ∧ pointKey 3 5 < 2 ^ 62 ∧
      (pointKey 3 5 = pointKey 5 3 ↔ 3 = 5 ∧ 5 = 3) ∧
      RoutingContext.loadRouteSegment.key ((3 : Nat) : Int) ((5 : Nat) : Int) = pointKey 3 5 ∧
      ∀ (o : RouteDataObject) (i : Nat), o.pointsX.getD i 0 = 3 → o.pointsY.getD i 0 = 5 →
        o.keyAt i = RoutingContext.loadRouteSegment.key ((3 : Nat) : Int) ((5 : Nat) : Int) :=
  pointKey_unique 3 5 5 3 (by decide) (by decide) (by decide) (by decide)
theorem tileId_agreement_aux (z : Int) (hz1 : 1 ≤ z) (hz16 : z ≤ 16) (x31 y31 : Nat)
    (hx : x31 < 2147483648) (hy : y31 < 2147483648) :
    0 ≤ loadRouteSegment.loc z x31 ∧ loadRouteSegment.loc z x31 < 2 ^ z.toNat ∧
    0 ≤ loadRouteSegment.loc z y31 ∧ loadRouteSegment.loc z y31 < 2 ^ z.toNat ∧
    loadRouteSegment.tileId z x31 y31 =
      loadRouteSegment.loc z x31 * 2 ^ z.toNat + loadRouteSegment.loc z y31 ∧
    loadRouteSegment.tileId z x31 y31 =
      tileIdOf z (loadRouteSegment.loc z x31 % 4294967296).toNat
        (loadRouteSegment.loc z y31 % 4294967296).toNat := by
  obtain ⟨n, rfl⟩ : ∃ n : Nat, z = (n : Int) := ⟨z.toNat, by omega⟩
  have hn1 : 1 ≤ n := by omega
  have hn16 : n ≤ 16 := by omega
  have e1 : (31 - (n : Int)).toNat = 31 - n := by omega
  unfold loadRouteSegment.tileId tileIdOf shl32 loadRouteSegment.loc toInt64
  rw [e1, Int.toNat_ofNat]
  interval_cases n <;> norm_num <;> omega

/-- C30: for coordinates in `[0, 2^31)` and `1 <= z <= 16`, the tile id
`(xloc << z) + yloc` that `loadRouteSegment` computes in `int64_t` is the id
that `loadHeaders` (and `loadTileData`, which uses the same `uint32_t`
expression) computes from the same `xloc`, `yloc` in 32-bit unsigned
arithmetic; and the ids of two coordinates agree only when both `xloc` and
`yloc` agree. -/
theorem tileId_agreement (z : Int) (hz1 : 1 ≤ z) (hz16 : z ≤ 16) (x31 y31 : Nat)
    (hx : x31 < 2 ^ 31) (hy : y31 < 2 ^ 31) :
    loadRouteSegment.tileId z x31 y31 =
      tileIdOf z (loadRouteSegment.loc z x31 % 4294967296).toNat
        (loadRouteSegment.loc z y31 % 4294967296).toNat ∧
    ∀ x31' y31' : Nat, x31' < 2 ^ 31 → y31' < 2 ^ 31 →
      (loadRouteSegment.tileId z x31 y31 = loadRouteSegment.tileId z x31' y31' ↔
        loadRouteSegment.loc z x31 = loadRouteSegment.loc z x31' ∧
          loadRouteSegment.loc z y31 = loadRouteSegment.loc z y31') := by
  have hx2 : x31 < 2147483648 := by simpa using hx
  have hy2 : y31 < 2147483648 := by simpa using hy
  obtain ⟨_, _, hy0, hylt, hid, hagree⟩ := tileId_agreement_aux z hz1 hz16 x31 y31 hx2 hy2
  refine ⟨hagree, fun x31' y31' hx' hy' => ?_⟩
  have hx2' : x31' < 2147483648 := by simpa using hx'
  have hy2' : y31' < 2147483648 := by simpa using hy'
  obtain ⟨_, _, hy0', hylt', hid', _⟩ := tileId_agreement_aux z hz1 hz16 x31' y31' hx2' hy2'
  rw [hid, hid']
  constructor
  · intro h
    have hpos : (0 : Int) < 2 ^ z.toNat := by positivity
    have hmod := congrArg (fun v : Int => v % 2 ^ z.toNat) h
    simp only [] at hmod
    rw [add_comm (loadRouteSegment.loc z x31 * _), add_comm (loadRouteSegment.loc z x31' * _),
      Int.add_mul_emod_self, Int.add_mul_emod_self, Int.emod_eq_of_lt hy0 hylt,
      Int.emod_eq_of_lt hy0' hylt'] at hmod
    refine ⟨?_, hmod⟩
    rw [hmod] at h
    exact mul_right_cancel₀ (ne_of_gt hpos) (add_right_cancel h)
  · rintro ⟨h1, h2⟩
    rw [h1, h2]

/-- Witness of `tileId_agreement`: the default zoom 16 and the point
(98304, 163840), whose coarse tile is (3, 5). -/
theorem tileId_agreement_witness :
    loadRouteSegment.tileId 16 ((98304 : Nat) : Int) ((163840 : Nat) : Int) =
      tileIdOf 16 (loadRouteSegment.loc 16 ((98304 : Nat) : Int) % 4294967296).toNat
        (loadRouteSegment.loc 16 ((163840 : Nat) : Int) % 4294967296).toNat ∧
    ∀ x31' y31' : Nat, x31' < 2 ^ 31 → y31' < 2 ^ 31 →
      (loadRouteSegment.tileId 16 ((98304 : Nat) : Int) ((163840 : Nat) : Int) =
          loadRouteSegment.tileId 16 x31' y31' ↔
        loadRouteSegment.loc 16 ((98304 : Nat) : Int) = loadRouteSegment.loc 16 x31' ∧
          loadRouteSegment.loc 16 ((163840 : Nat) : Int) = loadRouteSegment.loc 16 y31') :=
  tileId_agreement 16 (by decide) (by decide) 98304 163840 (by decide) (by decide)

/-! ## `loadRouteSegment` and `loadTileData` on concrete contexts -/

/-- C22: in `ctxLowHigh` the road 7 is stored at the point (98304, 163840) in
two loaded subregions of the coarse tile, with 2 points in the first and 3
points in the second. `loadRouteSegment` returns a chain of two segments for
the pair (7, 0): the copy with 3 points and, behind it, the copy with 2
points. With the subregions in the other order (`ctxHighLow`) the chain holds
the copy with 3 points only. -/
theorem loadRouteSegment_keeps_lower_detail :
    storedPairs ctxLowHigh 0 98304 163840 = [(7, 0)] ∧
    storedPairs ctxLowHigh 1 98304 163840 = [(7, 0)] ∧
    (ctxLowHigh.loadRouteSegment (externalsOf [] []) 98304 163840).map returnedPairs =
      some [(7, 0, 3), (7, 0, 2)] ∧
    (ctxHighLow.loadRouteSegment (externalsOf [] []) 98304 163840).map returnedPairs =
      some [(7, 0, 3)] := by
  decide

set_option maxRecDepth 100000 in
/-- C23: in `ctxLong` the chain stored under the key of (98304, 163840) holds a
segment of the road 0 at the point index 1024 and a segment of the road 1 at
the point index 0; `calcRouteId` is 1024 for both, and the chain that
`loadRouteSegment` returns holds the pair (0, 1024) only: the pair (1, 0) is
dropped. -/
theorem loadRouteSegment_drops_pair :
    storedPairs ctxLong 0 98304 163840 = [(0, 1024), (1, 0)] ∧
    calcRouteId roadLong 1024 = calcRouteId roadFirst 0 ∧
    (ctxLong.loadRouteSegment (externalsOf [] []) 98304 163840).map returnedPairs =
      some [(0, 1024, 1025)] := by
  decide

/-- C26: in `ctxTwoRoads` the loaded subregion of the coarse tile (3, 5) stores
segments of the roads 1 and 2 under the key of (98304, 163840) (and of
(98400, 163900)); `loadTileData` around (98304, 163840), called with an empty
list, returns the road 1 only. -/
theorem loadTileData_misses_road :
    (ctxTwoRoads.tiles 0).isLoaded = true ∧
    storedPairs ctxTwoRoads 0 98304 163840 = [(1, 0), (2, 0)] ∧
    storedPairs ctxTwoRoads 0 98400 163900 = [(1, 1), (2, 1)] ∧
    ((ctxTwoRoads.loadTileData (externalsOf [] []) 98304 163840 16 []).map
      fun r => r.2.map fun o => o.id) = some [1] := by
  decide

/-- C27: in `ctxLoadedEmpty` the coarse tile of (98304, 163840) is indexed and
its only subregion is loaded, with an empty routes map and `getSize()` 96.
`loadRouteSegment(98304, 163840)` returns null and leaves a routes map with
one (null) entry under the key of the point, and `getSize()` 120. -/
theorem loadRouteSegment_inserts_entry :
    ctxLoadedEmpty.indexedSubregions.lookup
        (loadRouteSegment.tileId ctxLoadedEmpty.config.zoomToLoad 98304 163840) = some [0] ∧
    (ctxLoadedEmpty.tiles 0).isLoaded = true ∧
    (ctxLoadedEmpty.tiles 0).routes = [] ∧
    (ctxLoadedEmpty.tiles 0).getSize (externalsOf [] []) = 96 ∧
    ((ctxLoadedEmpty.loadRouteSegment (externalsOf [] []) 98304 163840).map fun r =>
        (r.1, (r.2.tiles 0).routes, (r.2.tiles 0).getSize (externalsOf [] []),
          (r.2.tiles 0).access)) =
      some (none, [(pointKey 98304 163840, none)], 120, 1) := by
  decide

/-! ## Frame properties of the eviction and of `add` -/

theorem unload_loop_frame (e : Externals) (d : Float32) (l : List Addr) :
    ∀ (sz : Int) (tiles : Addr → RoutingSubregionTile) (a : Addr),
      ((unloadUnusedTiles.loop e d sz l tiles).1 a).subregion = (tiles a).subregion ∧
      (((unloadUnusedTiles.loop e d sz l tiles).1 a).routes = (tiles a).routes ∨
        ((unloadUnusedTiles.loop e d sz l tiles).1 a).routes = []) := by
  induction l with
  | nil => intro sz tiles a; exact ⟨rfl, Or.inl rfl⟩
  | cons x rest ih =>
    intro sz tiles a
    by_cases hd : Float32.le d (Float32.ofInt sz) = true
    · have hloop : unloadUnusedTiles.loop e d sz (x :: rest) tiles =
          ((unloadUnusedTiles.loop e d (toInt32 (sz - (tiles x).getSize e)) rest
              (Function.update tiles x (tiles x).unload)).1,
            (unloadUnusedTiles.loop e d (toInt32 (sz - (tiles x).getSize e)) rest
              (Function.update tiles x (tiles x).unload)).2 + 1) := by
        simp only [unloadUnusedTiles.loop, if_pos hd]
      rw [hloop]
      obtain ⟨h1, h2⟩ := ih (toInt32 (sz - (tiles x).getSize e))
        (Function.update tiles x (tiles x).unload) a
      by_cases hax : a = x
      · subst hax
        rw [Function.update_same] at h1 h2
        refine ⟨h1, Or.inr ?_⟩
        rcases h2 with h2 | h2
        · rw [h2]; rfl
        · exact h2
      · rw [Function.update_noteq hax] at h1 h2
        exact ⟨h1, h2⟩
    · have hloop : unloadUnusedTiles.loop e d sz (x :: rest) tiles = (tiles, 0) := by
        simp only [unloadUnusedTiles.loop, if_neg hd]
      rw [hloop]
      exact ⟨rfl, Or.inl rfl⟩

theorem decay_frame (l : List Addr) :
    ∀ (tiles : Addr → RoutingSubregionTile) (a : Addr),
      (unloadUnusedTiles.decay l tiles a).subregion = (tiles a).subregion ∧
      (unloadUnusedTiles.decay l tiles a).routes = (tiles a).routes ∧
      (unloadUnusedTiles.decay l tiles a).loaded = (tiles a).loaded ∧
      (unloadUnusedTiles.decay l tiles a).size = (tiles a).size := by
  induction l with
  | nil => intro tiles a; exact ⟨rfl, rfl, rfl, rfl⟩
  | cons x rest ih =>
    intro tiles a
    rw [unloadUnusedTiles.decay]
    obtain ⟨h1, h2, h3, h4⟩ := ih
      (Function.update tiles x { tiles x with access := Int.tdiv (tiles x).access 3 }) a
    by_cases hax : a = x
    · subst hax
      rw [Function.update_same] at h1 h2 h3 h4
      exact ⟨h1, h2, h3, h4⟩
    · rw [Function.update_noteq hax] at h1 h2 h3 h4
      exact ⟨h1, h2, h3, h4⟩

theorem unloadUnusedTiles_eq (e : Externals) (c : RoutingContext) (memoryLimit : Int)
    (htr : ¬ Float32.lt (Float32.ofInt (c.getSize e))
      (unloadUnusedTiles.critical memoryLimit) = true) :
    c.unloadUnusedTiles e memoryLimit =
      { c with
        tiles :=
          unloadUnusedTiles.decay (unloadUnusedTiles.list e c)
            (unloadUnusedTiles.loop e (unloadUnusedTiles.desirableSize memoryLimit)
              (c.getSize e) (unloadUnusedTiles.list e c) c.tiles).1 } := by
  unfold unloadUnusedTiles
  rw [if_neg htr]

/-- What `unloadUnusedTiles` leaves alone: the maps, the heap of segments, the
configuration and the subregion of every tile; the routes map of a tile is
kept or emptied. -/
theorem unloadUnusedTiles_frame (e : Externals) (c : RoutingContext) (memoryLimit : Int) :
    (c.unloadUnusedTiles e memoryLimit).subregionTiles = c.subregionTiles ∧
    (c.unloadUnusedTiles e memoryLimit).indexedSubregions = c.indexedSubregions ∧
    (c.unloadUnusedTiles e memoryLimit).tilesSize = c.tilesSize ∧
    (c.unloadUnusedTiles e memoryLimit).segments = c.segments ∧
    (c.unloadUnusedTiles e memoryLimit).config = c.config ∧
    (c.unloadUnusedTiles e memoryLimit).basemap = c.basemap ∧
    (c.unloadUnusedTiles e memoryLimit).loadedTiles = c.loadedTiles ∧
    ∀ a, ((c.unloadUnusedTiles e memoryLimit).tiles a).subregion = (c.tiles a).subregion ∧
      (((c.unloadUnusedTiles e memoryLimit).tiles a).routes = (c.tiles a).routes ∨
        ((c.unloadUnusedTiles e memoryLimit).tiles a).routes = []) := by
  by_cases htr : Float32.lt (Float32.ofInt (c.getSize e))
      (unloadUnusedTiles.critical memoryLimit) = true
  · have hc' : c.unloadUnusedTiles e memoryLimit = c := by
      unfold unloadUnusedTiles
      rw [if_pos htr]
    rw [hc']
    exact ⟨rfl, rfl, rfl, rfl, rfl, rfl, rfl, fun a => ⟨rfl, Or.inl rfl⟩⟩
  · rw [unloadUnusedTiles_eq e c memoryLimit htr]
    refine ⟨rfl, rfl, rfl, rfl, rfl, rfl, rfl, fun a => ?_⟩
    show (unloadUnusedTiles.decay _ _ a).subregion = _ ∧
      ((unloadUnusedTiles.decay _ _ a).routes = _ ∨ (unloadUnusedTiles.decay _ _ a).routes = _)
    obtain ⟨d1, d2, _, _⟩ := decay_frame (unloadUnusedTiles.list e c)
      (unloadUnusedTiles.loop e (unloadUnusedTiles.desirableSize memoryLimit) (c.getSize e)
        (unloadUnusedTiles.list e c) c.tiles).1 a
    obtain ⟨l1, l2⟩ := unload_loop_frame e (unloadUnusedTiles.desirableSize memoryLimit)
      (unloadUnusedTiles.list e c) (c.getSize e) c.tiles a
    rw [d1, d2]
    exact ⟨l1, l2⟩
theorem segData_road (s : RouteSegment) : (segData s).road = s.road := rfl

/-- One pass of the loop of `add` on a tile whose chains are finite: it
returns, keeps every finite chain of the heap finite, allocates one segment,
of the road `o`, and changes no other field than `next` of older segments. -/
theorem add_step_total (o : RouteDataObject) (i : Nat) (routes : List (Int × Option Addr))
    (h : SegmentHeap) (hch : ∀ k, ∃ l, h.isChain ((routes.lookup k).join) l = true) :
    ∃ routes' h', RoutingSubregionTile.add.step o i routes h = some (routes', h') ∧
      (∀ k, ∃ l, h'.isChain ((routes'.lookup k).join) l = true) ∧
      (∀ p l, h.isChain p l = true → ∃ l', h'.isChain p l' = true) ∧
      h'.size = h.size + 1 ∧
      (∀ a, a < h.size → segData (h'.cells a) = segData (h.cells a)) ∧
      (h'.cells h.size).road = o := by
  obtain ⟨l0, hl0⟩ := hch (o.keyAt i)
  obtain ⟨routes', h', hstep, hsize, hhead, hc1, hc2, hself, hframe, hnew⟩ :=
    add_step_spec o i routes h l0 hl0
  have hkeep : ∀ p l, h.isChain p l = true → ∃ l', h'.isChain p l' = true := by
    intro p l hl
    cases hlast : l0.getLast? with
    | none => exact ⟨l, hc1 p l hl (fun t ht => by rw [hlast] at ht; cases ht)⟩
    | some t =>
      by_cases hmem : t ∈ l
      · exact ⟨_, hc2 p l t hl hlast hmem⟩
      · refine ⟨l, hc1 p l hl (fun t' ht' => ?_)⟩
        rw [hlast] at ht'
        cases ht'
        exact hmem
  refine ⟨routes', h', hstep, fun k => ?_, hkeep, hsize, hframe, ?_⟩
  · rw [hhead]
    by_cases hk : k = o.keyAt i ∧ l0 = []
    · rw [if_pos hk]; exact ⟨_, hself⟩
    · rw [if_neg hk]
      obtain ⟨l, hl⟩ := hch k
      exact hkeep _ l hl
  · rw [← segData_road, hnew]
    rfl

theorem add_loop_total (o : RouteDataObject) (is : List Nat) :
    ∀ (routes : List (Int × Option Addr)) (h : SegmentHeap),
      (∀ k, ∃ l, h.isChain ((routes.lookup k).join) l = true) →
      ∃ routes' h', RoutingSubregionTile.add.loop o is routes h = some (routes', h') ∧
        (∀ k, ∃ l, h'.isChain ((routes'.lookup k).join) l = true) ∧
        (∀ p l, h.isChain p l = true → ∃ l', h'.isChain p l' = true) ∧
        h.size ≤ h'.size ∧
        (∀ a, a < h.size → segData (h'.cells a) = segData (h.cells a)) ∧
        (∀ a, h.size ≤ a → a < h'.size → (h'.cells a).road = o) := by
  induction is with
  | nil =>
    intro routes h hch
    exact ⟨routes, h, rfl, hch, fun p l hl => ⟨l, hl⟩, Nat.le_refl _, fun _ _ => rfl,
      fun a h1 h2 => absurd h2 (Nat.not_lt.2 h1)⟩
  | cons i is ih =>
    intro routes h hch
    obtain ⟨r1, h1, hstep, hch1, hkeep1, hsize1, hframe1, hnew1⟩ :=
      add_step_total o i routes h hch
    obtain ⟨r2, h2, hloop, hch2, hkeep2, hsize2, hframe2, hnew2⟩ := ih r1 h1 hch1
    have hlt : h.size < h1.size := by rw [hsize1]; exact Nat.lt_succ_self _
    refine ⟨r2, h2, ?_, hch2, fun p l hl => ?_, Nat.le_trans (Nat.le_of_lt hlt) hsize2,
      fun a ha => ?_, fun a ha1 ha2 => ?_⟩
    · simp only [RoutingSubregionTile.add.loop, hstep]
      exact hloop
    · obtain ⟨l1, hl1⟩ := hkeep1 p l hl
      exact hkeep2 p l1 hl1
    · rw [hframe2 a (Nat.lt_trans ha hlt), hframe1 a ha]
    · by_cases hah : a = h.size
      · subst hah
        rw [← segData_road, hframe2 _ hlt, segData_road]
        exact hnew1
      · refine hnew2 a ?_ ha2
        rw [hsize1]
        exact Nat.succ_le_of_lt (Nat.lt_of_le_of_ne ha1 (Ne.symm hah))

/-- `add(o)` on a tile whose chains are finite: it returns, all finite chains
stay finite, the counters and the subregion of the tile are kept, the heap
grows by segments of the road `o` and no older segment changes but in `next`. -/
theorem add_total (e : Externals) (t : RoutingSubregionTile) (h : SegmentHeap)
    (o : RouteDataObject) (hch : ∀ k, ∃ l, h.isChain (t.head k) l = true) :
    ∃ t' h', t.add e h o = some (t', h') ∧
      (∀ k, ∃ l, h'.isChain (t'.head k) l = true) ∧
      (∀ p l, h.isChain p l = true → ∃ l', h'.isChain p l' = true) ∧
      t'.loaded = t.loaded ∧ t'.access = t.access ∧ t'.subregion = t.subregion ∧
      h.size ≤ h'.size ∧
      (∀ a, a < h.size → segData (h'.cells a) = segData (h.cells a)) ∧
      (∀ a, h.size ≤ a → a < h'.size → (h'.cells a).road = o) := by
  obtain ⟨r', h', hloop, hch', hkeep, hsize, hframe, hnew⟩ :=
    add_loop_total o (List.range o.pointsX.length) t.routes h hch
  refine ⟨{ t with
      size := (t.size + o.size + e.sizeofSegment * o.pointsX.length) % 4294967296,
      routes := r' }, h', ?_, hch', hkeep, rfl, rfl, rfl, hsize, hframe, hnew⟩
  simp only [RoutingSubregionTile.add, hloop]

/-- The inner loop of `loadHeaderObjects` on a tile whose chains are finite: it
returns, and every segment it allocates belongs to a road that `acceptLine`
accepts. -/
theorem addAll_total (e : Externals) (config : RoutingConfiguration)
    (res : List (Option RouteDataObject)) :
    ∀ (t : RoutingSubregionTile) (h : SegmentHeap),
      (∀ k, ∃ l, h.isChain (t.head k) l = true) →
      ∃ t' h', loadHeaderObjects.addAll e config res t h = some (t', h') ∧
        (∀ k, ∃ l, h'.isChain (t'.head k) l = true) ∧
        (∀ p l, h.isChain p l = true → ∃ l', h'.isChain p l' = true) ∧
        t'.loaded = t.loaded ∧ t'.access = t.access ∧ t'.subregion = t.subregion ∧
        h.size ≤ h'.size ∧
        (∀ a, a < h.size → segData (h'.cells a) = segData (h.cells a)) ∧
        (∀ a, h.size ≤ a → a < h'.size → config.acceptLine (h'.cells a).road = true) := by
  induction res with
  | nil =>
    intro t h hch
    exact ⟨t, h, rfl, hch, fun p l hl => ⟨l, hl⟩, rfl, rfl, rfl, Nat.le_refl _, fun _ _ => rfl,
      fun a h1 h2 => absurd h2 (Nat.not_lt.2 h1)⟩
  | cons r rest ih =>
    intro t h hch
    cases r with
    | none =>
      obtain ⟨t', h', hrun, hrest⟩ := ih t h hch
      exact ⟨t', h', by simp only [loadHeaderObjects.addAll]; exact hrun, hrest⟩
    | some o =>
      by_cases hacc : config.acceptLine o = true
      · obtain ⟨t1, h1, hadd, hch1, hkeep1, hl1, ha1, hs1, hsize1, hframe1, hnew1⟩ :=
          add_total e t h o hch
        obtain ⟨t2, h2, hrun, hch2, hkeep2, hl2, ha2, hs2, hsize2, hframe2, hnew2⟩ :=
          ih t1 h1 hch1
        refine ⟨t2, h2, ?_, hch2, fun p l hl => ?_, hl2.trans hl1, ha2.trans ha1,
          hs2.trans hs1, Nat.le_trans hsize1 hsize2, fun a ha => ?_, fun a hlo hhi => ?_⟩
        · simp only [loadHeaderObjects.addAll, if_pos hacc, hadd]
          exact hrun
        · obtain ⟨l1, hl1'⟩ := hkeep1 p l hl
          exact hkeep2 p l1 hl1'
        · rw [hframe2 a (Nat.lt_of_lt_of_le ha hsize1), hframe1 a ha]
        · by_cases hmid : a < h1.size
          · rw [← segData_road, hframe2 a hmid, segData_road, hnew1 a hlo hmid]
            exact hacc
          · exact hnew2 a (Nat.not_lt.1 hmid) hhi
      · obtain ⟨t', h', hrun, hrest⟩ := ih t h hch
        exact ⟨t', h', by simp only [loadHeaderObjects.addAll, if_neg hacc]; exact hrun, hrest⟩
theorem isLoaded_of_setLoaded (t t' : RoutingSubregionTile) (h : t'.loaded = t.setLoaded.loaded) :
    t'.isLoaded = true := by
  unfold RoutingSubregionTile.isLoaded
  rw [h]
  simp only [RoutingSubregionTile.setLoaded, decide_eq_true_eq]
  omega

/-- The loading loop of `loadHeaderObjects` in a context whose chains are
finite: it returns; on return every listed tile is loaded, the tiles that were
loaded and the tiles that are not listed are untouched, the maps are the same,
and every allocated segment belongs to a road that `acceptLine` accepts. -/
theorem loadHeaderObjects_loop_spec (e : Externals) (subs : List Addr) :
    ∀ c : RoutingContext, c.FiniteChains →
      ∃ c', loadHeaderObjects.loop e subs c = some c' ∧ c'.FiniteChains ∧
        c'.subregionTiles = c.subregionTiles ∧ c'.indexedSubregions = c.indexedSubregions ∧
        c'.tilesSize = c.tilesSize ∧ c'.config = c.config ∧ c'.basemap = c.basemap ∧
        (∀ a, (c'.tiles a).subregion = (c.tiles a).subregion) ∧
        (∀ a, (c.tiles a).isLoaded = true → c'.tiles a = c.tiles a) ∧
        (∀ a, a ∈ subs → (c'.tiles a).isLoaded = true) ∧
        (∀ a, a ∉ subs → c'.tiles a = c.tiles a) ∧
        c.segments.size ≤ c'.segments.size ∧
        (∀ x, x < c.segments.size →
          segData (c'.segments.cells x) = segData (c.segments.cells x)) ∧
        (∀ x, c.segments.size ≤ x → x < c'.segments.size →
          c.config.acceptLine (c'.segments.cells x).road = true) ∧
        (∀ p l, c.segments.isChain p l = true → ∃ l', c'.segments.isChain p l' = true) := by
  induction subs with
  | nil =>
    intro c hfin
    exact ⟨c, rfl, hfin, rfl, rfl, rfl, rfl, rfl, fun _ => rfl, fun _ _ => rfl,
      fun a ha => absurd ha (List.not_mem_nil a), fun _ _ => rfl, Nat.le_refl _,
      fun _ _ => rfl, fun x h1 h2 => absurd h2 (Nat.not_lt.2 h1), fun p l hl => ⟨l, hl⟩⟩
  | cons a rest ih =>
    intro c hfin
    by_cases hload : (c.tiles a).isLoaded = true
    · obtain ⟨c', hrun, hfin', h1, h2, h3, h4, h5, hsub, hkeepT, hall, hout, hsz, hfr, hacc,
        hkeep⟩ := ih c hfin
      refine ⟨c', ?_, hfin', h1, h2, h3, h4, h5, hsub, hkeepT, fun x hx => ?_, fun x hx => ?_,
        hsz, hfr, hacc, hkeep⟩
      · simp only [loadHeaderObjects.loop, if_pos hload]
        exact hrun
      · rcases List.mem_cons.1 hx with rfl | hx
        · rw [hkeepT x hload]; exact hload
        · exact hall x hx
      · exact hout x (fun hh => hx (List.mem_cons_of_mem _ hh))
    · obtain ⟨t1, h1, hadd, hch1, hkeep1, hl1, _, hs1, hsize1, hframe1, hnew1⟩ :=
        addAll_total e c.config (e.searchRouteDataForSubRegion (c.tiles a).subregion)
          (c.tiles a).setLoaded c.segments (hfin a)
      have hfin1 : RoutingContext.FiniteChains
          { c with
            loadedTiles := c.loadedTiles + 1,
            tiles := Function.update c.tiles a t1,
            segments := h1 } := by
        intro b k
        show ∃ l, h1.isChain ((Function.update c.tiles a t1 b).head k) l = true
        by_cases hba : b = a
        · subst hba
          rw [Function.update_same]
          exact hch1 k
        · rw [Function.update_noteq hba]
          obtain ⟨l, hl⟩ := hfin b k
          exact hkeep1 _ l hl
      obtain ⟨c', hrun, hfin', g1, g2, g3, g4, g5, hsub, hkeepT, hall, hout, hsz, hfr, hacc,
        hkeep⟩ := ih _ hfin1
      have ht1 : t1.isLoaded = true := isLoaded_of_setLoaded (c.tiles a) t1 hl1
      refine ⟨c', ?_, hfin', g1, g2, g3, g4, g5, fun x => ?_, fun x hx => ?_, fun x hx => ?_,
        fun x hx => ?_, Nat.le_trans hsize1 hsz, fun x hx => ?_, fun x hlo hhi => ?_,
        fun p l hl => ?_⟩
      · simp only [loadHeaderObjects.loop, if_neg hload, hadd]
        exact hrun
      · rw [hsub x]
        show (Function.update c.tiles a t1 x).subregion = _
        by_cases hxa : x = a
        · subst hxa
          rw [Function.update_same, hs1]
          rfl
        · rw [Function.update_noteq hxa]
      · have hxa : x ≠ a := fun hh => hload (hh ▸ hx)
        have e1 : Function.update c.tiles a t1 x = c.tiles x := Function.update_noteq hxa _ _
        have := hkeepT x (by show (Function.update c.tiles a t1 x).isLoaded = true
                             rw [e1]; exact hx)
        rw [this]
        exact e1
      · rcases List.mem_cons.1 hx with rfl | hx
        · have e1 : Function.update c.tiles x t1 x = t1 := Function.update_same _ _ _
          have := hkeepT x (by show (Function.update c.tiles x t1 x).isLoaded = true
                               rw [e1]; exact ht1)
          rw [this]
          show (Function.update c.tiles x t1 x).isLoaded = true
          rw [e1]; exact ht1
        · exact hall x hx
      · have hxa : x ≠ a := fun hh => hx (hh ▸ List.mem_cons_self _ _)
        rw [hout x (fun hh => hx (List.mem_cons_of_mem _ hh))]
        exact Function.update_noteq hxa _ _
      · have := hfr x (Nat.lt_of_lt_of_le hx hsize1)
        rw [this]
        exact hframe1 x hx
      · by_cases hmid : x < h1.size
        · have := hfr x hmid
          rw [← segData_road, this, segData_road]
          exact hnew1 x hlo hmid
        · exact hacc x (Nat.not_lt.1 hmid) hhi
      · obtain ⟨l1, hl1'⟩ := hkeep1 p l hl
        exact hkeep p l1 hl1'
/-! ## `loadHeaders`: the maps of the context -/

theorem mapSet_of_none {V : Type} (m : List (Int × V)) (k : Int) (v : V)
    (h : m.lookup k = none) : mapSet m k v = m ++ [(k, v)] := by
  unfold mapSet
  rw [h]
  rfl

theorem not_mem_keys_of_lookup_none {V : Type} (m : List (Int × V)) (k : Int)
    (h : m.lookup k = none) : k ∉ m.map Prod.fst := by
  intro hk
  obtain ⟨p, hp, hpk⟩ := List.mem_map.1 hk
  have := List.lookup_eq_none_iff.1 h p hp
  rw [hpk] at this
  simp at this

theorem loadHeaders_collect_cons_some (e : Externals) (rs : RouteSubregion)
    (rest : List RouteSubregion) (c : RoutingContext) (coll : List Addr) (a : Addr)
    (h : c.subregionTiles.lookup (subregionKey rs) = some a) :
    loadHeaders.collect e (rs :: rest) c coll = loadHeaders.collect e rest c (coll ++ [a]) := by
  simp only [loadHeaders.collect, h]

theorem loadHeaders_collect_cons_none (e : Externals) (rs : RouteSubregion)
    (rest : List RouteSubregion) (c : RoutingContext) (coll : List Addr)
    (h : c.subregionTiles.lookup (subregionKey rs) = none) :
    loadHeaders.collect e (rs :: rest) c coll =
      loadHeaders.collect e rest
        { c with
          subregionTiles := mapSet c.subregionTiles (subregionKey rs) c.tilesSize,
          tiles := Function.update c.tiles c.tilesSize (RoutingSubregionTile.new e rs),
          tilesSize := c.tilesSize + 1 }
        (coll ++ [c.tilesSize]) := by
  simp only [loadHeaders.collect, h]

/-- The loop of `loadHeaders` over the query result keeps the maps consistent:
a subregion whose key is known gets the tile stored under the key, an unknown
one gets a new tile (with an empty routes map) stored under its key. -/
theorem loadHeaders_collect_spec (e : Externals) (rss : List RouteSubregion) :
    ∀ (c : RoutingContext) (coll : List Addr), c.MapsWF → (∀ a ∈ coll, a < c.tilesSize) →
      (loadHeaders.collect e rss c coll).1.MapsWF ∧
      (∀ a ∈ (loadHeaders.collect e rss c coll).2,
        a < (loadHeaders.collect e rss c coll).1.tilesSize) ∧
      (loadHeaders.collect e rss c coll).1.indexedSubregions = c.indexedSubregions ∧
      (loadHeaders.collect e rss c coll).1.segments = c.segments ∧
      (loadHeaders.collect e rss c coll).1.config = c.config ∧
      (loadHeaders.collect e rss c coll).1.basemap = c.basemap ∧
      (∀ a, (loadHeaders.collect e rss c coll).1.tiles a = c.tiles a ∨
        ((loadHeaders.collect e rss c coll).1.tiles a).routes = []) := by
  induction rss with
  | nil =>
    intro c coll hm hcoll
    exact ⟨hm, hcoll, rfl, rfl, rfl, rfl, fun a => Or.inl rfl⟩
  | cons rs rest ih =>
    intro c coll hm hcoll
    obtain ⟨hN, hM1, hM2, hI⟩ := hm
    cases hlook : c.subregionTiles.lookup (subregionKey rs) with
    | some a =>
      rw [loadHeaders_collect_cons_some e rs rest c coll a hlook]
      refine ih c (coll ++ [a]) ⟨hN, hM1, hM2, hI⟩ (fun x hx => ?_)
      rcases List.mem_append.1 hx with hx | hx
      · exact hcoll x hx
      · rw [List.mem_singleton.1 hx]
        exact (hM1 _ _ hlook).1
    | none =>
      rw [loadHeaders_collect_cons_none e rs rest c coll hlook]
      have hm1 : RoutingContext.MapsWF
          { c with
            subregionTiles := mapSet c.subregionTiles (subregionKey rs) c.tilesSize,
            tiles := Function.update c.tiles c.tilesSize (RoutingSubregionTile.new e rs),
            tilesSize := c.tilesSize + 1 } := by
        refine ⟨?_, fun k a hka => ?_, fun a ha => ?_, fun t l htl a ha => ?_⟩
        · show ((mapSet c.subregionTiles (subregionKey rs) c.tilesSize).map Prod.fst).Nodup
          rw [mapSet_of_none _ _ _ hlook, List.map_append]
          refine List.Nodup.append hN (List.nodup_singleton _) ?_
          intro x hx1 hx2
          rw [List.map_cons, List.map_nil, List.mem_singleton] at hx2
          subst hx2
          exact not_mem_keys_of_lookup_none _ _ hlook hx1
        · have hka' : (mapSet c.subregionTiles (subregionKey rs) c.tilesSize).lookup k =
              some a := hka
          rw [lookup_mapSet] at hka'
          show a < c.tilesSize + 1 ∧
            subregionKey (Function.update c.tiles c.tilesSize (RoutingSubregionTile.new e rs)
              a).subregion = k
          by_cases hk : k = subregionKey rs
          · rw [if_pos hk] at hka'
            cases hka'
            rw [Function.update_same, hk]
            exact ⟨Nat.lt_succ_self _, rfl⟩
          · rw [if_neg hk] at hka'
            obtain ⟨h1, h2⟩ := hM1 k a hka'
            rw [Function.update_noteq (Nat.ne_of_lt h1)]
            exact ⟨Nat.lt_succ_of_lt h1, h2⟩
        · have ha' : a < c.tilesSize + 1 := ha
          show (mapSet c.subregionTiles (subregionKey rs) c.tilesSize).lookup
            (subregionKey (Function.update c.tiles c.tilesSize (RoutingSubregionTile.new e rs)
              a).subregion) = some a
          rw [lookup_mapSet]
          by_cases hat : a = c.tilesSize
          · subst hat
            rw [Function.update_same]
            exact if_pos rfl
          · have halt : a < c.tilesSize := Nat.lt_of_le_of_ne (Nat.lt_succ_iff.1 ha') hat
            rw [Function.update_noteq hat]
            have h2 := hM2 a halt
            have hne : subregionKey (c.tiles a).subregion ≠ subregionKey rs := by
              intro hh
              rw [hh, hlook] at h2
              cases h2
            rw [if_neg hne]
            exact h2
        · exact Nat.lt_succ_of_lt (hI t l htl a ha)
      obtain ⟨r1, r2, r3, r4, r5, r6, r7⟩ := ih _ (coll ++ [c.tilesSize]) hm1 (fun x hx => by
        show x < c.tilesSize + 1
        rcases List.mem_append.1 hx with hx | hx
        · exact Nat.lt_succ_of_lt (hcoll x hx)
        · rw [List.mem_singleton.1 hx]
          exact Nat.lt_succ_self _)
      refine ⟨r1, r2, r3, r4, r5, r6, fun a => ?_⟩
      rcases r7 a with h | h
      · by_cases hat : a = c.tilesSize
        · right
          rw [h]
          show (Function.update c.tiles c.tilesSize (RoutingSubregionTile.new e rs) a).routes = []
          rw [hat, Function.update_same]
          rfl
        · left
          rw [h]
          exact Function.update_noteq hat _ _
      · exact Or.inr h
theorem loadHeaderObjects_of_none (e : Externals) (c : RoutingContext) (tileId : Int)
    (h : c.indexedSubregions.lookup tileId = none) :
    c.loadHeaderObjects e tileId =
      some { c with indexedSubregions := c.indexedSubregions ++ [(tileId, [])] } := by
  unfold loadHeaderObjects
  simp only [h, Option.getD_none, Option.isNone_none, if_true, List.any_nil, Bool.false_eq_true,
    if_false, loadHeaderObjects.loop]

theorem loadHeaderObjects_of_some (e : Externals) (c : RoutingContext) (tileId : Int)
    (l : List Addr) (h : c.indexedSubregions.lookup tileId = some l) :
    c.loadHeaderObjects e tileId =
      loadHeaderObjects.loop e l
        (if (l.any fun a => !(c.tiles a).isLoaded) = true then
          c.unloadUnusedTiles e c.config.memoryLimitation
        else c) := by
  unfold loadHeaderObjects
  simp only [h, Option.getD_some, Option.isNone_some, Bool.false_eq_true, if_false]

theorem finiteChains_unloadUnusedTiles (e : Externals) (c : RoutingContext) (memoryLimit : Int)
    (hfin : c.FiniteChains) : (c.unloadUnusedTiles e memoryLimit).FiniteChains := by
  obtain ⟨_, _, _, hseg, _, _, _, htiles⟩ := unloadUnusedTiles_frame e c memoryLimit
  intro a k
  rw [hseg]
  rcases (htiles a).2 with h | h
  · obtain ⟨l, hl⟩ := hfin a k
    refine ⟨l, ?_⟩
    unfold RoutingSubregionTile.head at hl ⊢
    rw [h]
    exact hl
  · refine ⟨[], ?_⟩
    unfold RoutingSubregionTile.head
    rw [h]
    rfl

theorem mapsWF_unloadUnusedTiles (e : Externals) (c : RoutingContext) (memoryLimit : Int)
    (hm : c.MapsWF) : (c.unloadUnusedTiles e memoryLimit).MapsWF := by
  obtain ⟨h1, h2, h3, _, _, _, _, htiles⟩ := unloadUnusedTiles_frame e c memoryLimit
  obtain ⟨hN, hM1, hM2, hI⟩ := hm
  unfold RoutingContext.MapsWF
  rw [h1, h2, h3]
  refine ⟨hN, fun k a hka => ?_, fun a ha => ?_, hI⟩
  · rw [(htiles a).1]
    exact hM1 k a hka
  · rw [(htiles a).1]
    exact hM2 a ha

/-- `loadHeaderObjects(tileId)` in a consistent context whose chains are
finite: it returns a context of the same kind, with the same `subregionTiles`
and tiles of the same subregions; the lists of `indexedSubregions` are the
same (an empty list is inserted for an unknown id), and every tile listed
under `tileId` is loaded. -/
theorem loadHeaderObjects_spec (e : Externals) (c : RoutingContext) (tileId : Int)
    (hfin : c.FiniteChains) (hm : c.MapsWF) :
    ∃ c', c.loadHeaderObjects e tileId = some c' ∧ c'.FiniteChains ∧ c'.MapsWF ∧
      c'.subregionTiles = c.subregionTiles ∧ c'.tilesSize = c.tilesSize ∧
      c'.config = c.config ∧ c'.basemap = c.basemap ∧
      (∀ a, (c'.tiles a).subregion = (c.tiles a).subregion) ∧
      (∀ l, c.indexedSubregions.lookup tileId = some l →
        c'.indexedSubregions = c.indexedSubregions ∧
        ∀ a ∈ l, (c'.tiles a).isLoaded = true) ∧
      (c.indexedSubregions.lookup tileId = none →
        c'.indexedSubregions = c.indexedSubregions ++ [(tileId, [])]) := by
  cases hlook : c.indexedSubregions.lookup tileId with
  | none =>
    rw [loadHeaderObjects_of_none e c tileId hlook]
    obtain ⟨hN, hM1, hM2, hI⟩ := hm
    refine ⟨_, rfl, hfin, ⟨hN, hM1, hM2, fun t l htl a ha => ?_⟩, rfl, rfl, rfl, rfl,
      fun _ => rfl, (fun l hl => by cases hl), fun _ => rfl⟩
    have htl' : (c.indexedSubregions ++ [(tileId, [])]).lookup t = some l := htl
    rw [List.lookup_append] at htl'
    cases hct : c.indexedSubregions.lookup t with
    | some l' =>
      rw [hct] at htl'
      cases htl'
      exact hI t _ hct a ha
    | none =>
      rw [hct] at htl'
      have hnil : l = [] := by
        by_cases htt : t = tileId
        · subst htt
          simp [List.lookup_cons] at htl'
          exact htl'
        · have hb : (t == tileId) = false := by simpa using htt
          simp [List.lookup_cons, hb] at htl'
      rw [hnil] at ha
      exact absurd ha (List.not_mem_nil a)
  | some l =>
    rw [loadHeaderObjects_of_some e c tileId l hlook]
    have hpre : ∃ c1 : RoutingContext,
        (if (l.any fun a => !(c.tiles a).isLoaded) = true then
          c.unloadUnusedTiles e c.config.memoryLimitation else c) = c1 ∧
        c1.FiniteChains ∧ c1.MapsWF ∧ c1.subregionTiles = c.subregionTiles ∧
        c1.indexedSubregions = c.indexedSubregions ∧ c1.tilesSize = c.tilesSize ∧
        c1.config = c.config ∧ c1.basemap = c.basemap ∧
        ∀ a, (c1.tiles a).subregion = (c.tiles a).subregion := by
      by_cases hgc : (l.any fun a => !(c.tiles a).isLoaded) = true
      · rw [if_pos hgc]
        obtain ⟨h1, h2, h3, _, h5, h6, _, htiles⟩ :=
          unloadUnusedTiles_frame e c c.config.memoryLimitation
        exact ⟨_, rfl, finiteChains_unloadUnusedTiles e c _ hfin,
          mapsWF_unloadUnusedTiles e c _ hm, h1, h2, h3, h5, h6, fun a => (htiles a).1⟩
      · rw [if_neg hgc]
        exact ⟨c, rfl, hfin, hm, rfl, rfl, rfl, rfl, rfl, fun _ => rfl⟩
    obtain ⟨c1, hc1, hfin1, hm1, p1, p2, p3, p4, p5, p6⟩ := hpre
    rw [hc1]
    obtain ⟨c', hrun, hfin', g1, g2, g3, g4, g5, hsub, _, hall, _, _, _, _, _⟩ :=
      loadHeaderObjects_loop_spec e l c1 hfin1
    obtain ⟨hN, hM1, hM2, hI⟩ := hm1
    refine ⟨c', hrun, hfin', ?_, g1.trans p1, g3.trans p3, g4.trans p4, g5.trans p5,
      fun a => (hsub a).trans (p6 a), fun l' hl' => ?_, (fun hh => by cases hh)⟩
    · unfold RoutingContext.MapsWF
      rw [g1, g2, g3]
      refine ⟨hN, fun k a hka => ?_, fun a ha => ?_, hI⟩
      · rw [hsub a]
        exact hM1 k a hka
      · rw [hsub a]
        exact hM2 a ha
    · cases hl'
      exact ⟨g2.trans p2, hall⟩
theorem loadHeaders_of_indexed (e : Externals) (c : RoutingContext) (xloc yloc : Nat)
    (l : List Addr)
    (h : c.indexedSubregions.lookup (tileIdOf c.config.zoomToLoad xloc yloc) = some l) :
    c.loadHeaders e xloc yloc =
      c.loadHeaderObjects e (tileIdOf c.config.zoomToLoad xloc yloc) := by
  unfold loadHeaders
  simp only [h, Option.isNone_some, Bool.false_eq_true, if_false]

theorem loadHeaders_of_new (e : Externals) (c : RoutingContext) (xloc yloc : Nat)
    (h : c.indexedSubregions.lookup (tileIdOf c.config.zoomToLoad xloc yloc) = none) :
    c.loadHeaders e xloc yloc =
      loadHeaderObjects e
        { (loadHeaders.collect e
            (e.searchRouteSubregions
              ⟨shl32 xloc (31 - c.config.zoomToLoad), shl32 (xloc + 1) (31 - c.config.zoomToLoad),
                shl32 yloc (31 - c.config.zoomToLoad),
                shl32 (yloc + 1) (31 - c.config.zoomToLoad)⟩ c.basemap) c []).1 with
          indexedSubregions :=
            mapSet
              (loadHeaders.collect e
                (e.searchRouteSubregions
                  ⟨shl32 xloc (31 - c.config.zoomToLoad),
                    shl32 (xloc + 1) (31 - c.config.zoomToLoad),
                    shl32 yloc (31 - c.config.zoomToLoad),
                    shl32 (yloc + 1) (31 - c.config.zoomToLoad)⟩ c.basemap) c
                []).1.indexedSubregions
              (tileIdOf c.config.zoomToLoad xloc yloc)
              (loadHeaders.collect e
                (e.searchRouteSubregions
                  ⟨shl32 xloc (31 - c.config.zoomToLoad),
                    shl32 (xloc + 1) (31 - c.config.zoomToLoad),
                    shl32 yloc (31 - c.config.zoomToLoad),
                    shl32 (yloc + 1) (31 - c.config.zoomToLoad)⟩ c.basemap) c []).2 }
        (tileIdOf c.config.zoomToLoad xloc yloc) := by
  unfold loadHeaders
  simp only [h, Option.isNone_none, if_true]

/-- `loadHeaders(xloc, yloc)` in a consistent context whose chains are finite:
it returns a context of the same kind in which the coarse tile is indexed and
all its subregions are loaded; when the coarse tile was indexed already, the
two maps are left as they were. -/
theorem loadHeaders_spec (e : Externals) (c : RoutingContext) (xloc yloc : Nat)
    (hfin : c.FiniteChains) (hm : c.MapsWF) :
    ∃ c', c.loadHeaders e xloc yloc = some c' ∧ c'.FiniteChains ∧ c'.MapsWF ∧
      c'.config = c.config ∧ c'.basemap = c.basemap ∧
      (∃ l, c'.indexedSubregions.lookup (tileIdOf c.config.zoomToLoad xloc yloc) = some l ∧
        ∀ a ∈ l, (c'.tiles a).isLoaded = true) ∧
      (∀ l, c.indexedSubregions.lookup (tileIdOf c.config.zoomToLoad xloc yloc) = some l →
        c'.indexedSubregions = c.indexedSubregions ∧ c'.subregionTiles = c.subregionTiles ∧
        c'.tilesSize = c.tilesSize) := by
  cases hlook : c.indexedSubregions.lookup (tileIdOf c.config.zoomToLoad xloc yloc) with
  | some l =>
    rw [loadHeaders_of_indexed e c xloc yloc l hlook]
    obtain ⟨c', hrun, hfin', hm', g1, g2, g3, g4, _, hsome, _⟩ :=
      loadHeaderObjects_spec e c (tileIdOf c.config.zoomToLoad xloc yloc) hfin hm
    obtain ⟨hidx, hall⟩ := hsome l hlook
    refine ⟨c', hrun, hfin', hm', g3, g4, ⟨l, ?_, hall⟩, fun l' hl' => ⟨hidx, g1, g2⟩⟩
    rw [hidx]
    exact hlook
  | none =>
    rw [loadHeaders_of_new e c xloc yloc hlook]
    obtain ⟨r1, r2, r3, r4, r5, r6, r7⟩ := loadHeaders_collect_spec e
      (e.searchRouteSubregions
        ⟨shl32 xloc (31 - c.config.zoomToLoad), shl32 (xloc + 1) (31 - c.config.zoomToLoad),
          shl32 yloc (31 - c.config.zoomToLoad), shl32 (yloc + 1) (31 - c.config.zoomToLoad)⟩
        c.basemap) c [] hm (fun a ha => absurd ha (List.not_mem_nil a))
    generalize loadHeaders.collect e
      (e.searchRouteSubregions
        ⟨shl32 xloc (31 - c.config.zoomToLoad), shl32 (xloc + 1) (31 - c.config.zoomToLoad),
          shl32 yloc (31 - c.config.zoomToLoad), shl32 (yloc + 1) (31 - c.config.zoomToLoad)⟩
        c.basemap) c [] = r at *
    obtain ⟨hN, hM1, hM2, hI⟩ := r1
    have hfin1 : RoutingContext.FiniteChains
        { r.1 with
          indexedSubregions :=
            mapSet r.1.indexedSubregions (tileIdOf c.config.zoomToLoad xloc yloc) r.2 } := by
      intro a k
      show ∃ l, r.1.segments.isChain ((r.1.tiles a).head k) l = true
      rw [r4]
      rcases r7 a with h | h
      · rw [h]
        exact hfin a k
      · refine ⟨[], ?_⟩
        unfold RoutingSubregionTile.head
        rw [h]
        rfl
    have hlook1 : (mapSet r.1.indexedSubregions (tileIdOf c.config.zoomToLoad xloc yloc)
        r.2).lookup (tileIdOf c.config.zoomToLoad xloc yloc) = some r.2 := by
      rw [lookup_mapSet, if_pos rfl]
    have hm1 : RoutingContext.MapsWF
        { r.1 with
          indexedSubregions :=
            mapSet r.1.indexedSubregions (tileIdOf c.config.zoomToLoad xloc yloc) r.2 } := by
      refine ⟨hN, hM1, hM2, fun t l htl a ha => ?_⟩
      have htl' : (mapSet r.1.indexedSubregions (tileIdOf c.config.zoomToLoad xloc yloc)
          r.2).lookup t = some l := htl
      rw [lookup_mapSet] at htl'
      by_cases ht : t = tileIdOf c.config.zoomToLoad xloc yloc
      · rw [if_pos ht] at htl'
        cases htl'
        exact r2 a ha
      · rw [if_neg ht] at htl'
        exact hI t l htl' a ha
    obtain ⟨c', hrun, hfin', hm', _, _, g3, g4, _, hsome, _⟩ :=
      loadHeaderObjects_spec e _ (tileIdOf c.config.zoomToLoad xloc yloc) hfin1 hm1
    obtain ⟨hidx, hall⟩ := hsome r.2 hlook1
    refine ⟨c', hrun, hfin', hm', g3.trans r5, g4.trans r6, ⟨r.2, ?_, hall⟩,
      (fun l' hl' => by cases hl')⟩
    rw [hidx]
    exact hlook1
/-! ## `loadHeaderObjects` does not consult the index -/

theorem tile_getSize_congr (e1 e2 : Externals) (h : e1.sizeofRoutesEntry = e2.sizeofRoutesEntry)
    (t : RoutingSubregionTile) : t.getSize e1 = t.getSize e2 := by
  unfold RoutingSubregionTile.getSize
  rw [h]

theorem context_getSize_congr (e1 e2 : Externals) (hs : e1.sameButQuery e2)
    (c : RoutingContext) : c.getSize e1 = c.getSize e2 := by
  obtain ⟨_, _, h3, h4, _, _⟩ := hs
  unfold RoutingContext.getSize
  rw [h4]
  have : (fun a => (c.tiles a).getSize e1) = fun a => (c.tiles a).getSize e2 :=
    funext fun a => tile_getSize_congr e1 e2 h3 _
  rw [this]

theorem unload_loop_congr (e1 e2 : Externals) (hs : e1.sameButQuery e2) (d : Float32)
    (l : List Addr) :
    ∀ (sz : Int) (tiles : Addr → RoutingSubregionTile),
      unloadUnusedTiles.loop e1 d sz l tiles = unloadUnusedTiles.loop e2 d sz l tiles := by
  induction l with
  | nil => intro sz tiles; rfl
  | cons a rest ih =>
    intro sz tiles
    rw [unloadUnusedTiles.loop, unloadUnusedTiles.loop, tile_getSize_congr e1 e2 hs.2.2.1, ih]

theorem unloadUnusedTiles_congr (e1 e2 : Externals) (hs : e1.sameButQuery e2)
    (c : RoutingContext) (memoryLimit : Int) :
    c.unloadUnusedTiles e1 memoryLimit = c.unloadUnusedTiles e2 memoryLimit := by
  have hl : unloadUnusedTiles.list e1 c = unloadUnusedTiles.list e2 c := by
    unfold unloadUnusedTiles.list
    rw [hs.2.2.2.2.1]
  have hloop : unloadUnusedTiles.loop e1 = unloadUnusedTiles.loop e2 :=
    funext fun d => funext fun sz => funext fun l => funext fun tiles =>
      unload_loop_congr e1 e2 hs d l sz tiles
  unfold unloadUnusedTiles
  rw [context_getSize_congr e1 e2 hs, hl, hloop]

theorem add_congr (e1 e2 : Externals) (hs : e1.sameButQuery e2) (t : RoutingSubregionTile)
    (h : SegmentHeap) (o : RouteDataObject) : t.add e1 h o = t.add e2 h o := by
  unfold RoutingSubregionTile.add
  rw [hs.2.1]

theorem addAll_congr (e1 e2 : Externals) (hs : e1.sameButQuery e2)
    (config : RoutingConfiguration) (res : List (Option RouteDataObject)) :
    ∀ (t : RoutingSubregionTile) (h : SegmentHeap),
      loadHeaderObjects.addAll e1 config res t h = loadHeaderObjects.addAll e2 config res t h := by
  induction res with
  | nil => intro t h; rfl
  | cons r rest ih =>
    intro t h
    cases r with
    | none =>
      rw [loadHeaderObjects.addAll, loadHeaderObjects.addAll]
      exact ih t h
    | some o =>
      rw [loadHeaderObjects.addAll, loadHeaderObjects.addAll, add_congr e1 e2 hs]
      by_cases hacc : config.acceptLine o = true
      · rw [if_pos hacc, if_pos hacc]
        cases t.add e2 h o with
        | none => rfl
        | some r => exact ih r.1 r.2
      · rw [if_neg hacc, if_neg hacc]
        exact ih t h

theorem loadHeaderObjects_loop_congr (e1 e2 : Externals) (hs : e1.sameButQuery e2)
    (subs : List Addr) :
    ∀ c : RoutingContext, loadHeaderObjects.loop e1 subs c = loadHeaderObjects.loop e2 subs c := by
  induction subs with
  | nil => intro c; rfl
  | cons a rest ih =>
    intro c
    rw [loadHeaderObjects.loop, loadHeaderObjects.loop, hs.2.2.2.2.2, addAll_congr e1 e2 hs]
    by_cases hload : (c.tiles a).isLoaded = true
    · rw [if_pos hload, if_pos hload]
      exact ih c
    · rw [if_neg hload, if_neg hload]
      cases loadHeaderObjects.addAll e2 c.config
          (e2.searchRouteDataForSubRegion (c.tiles a).subregion) (c.tiles a).setLoaded
          c.segments with
      | none => rfl
      | some r => exact ih _

/-- `loadHeaderObjects` gives the same result whatever the index query
`searchRouteSubregions` would answer. -/
theorem loadHeaderObjects_congr (e1 e2 : Externals) (hs : e1.sameButQuery e2)
    (c : RoutingContext) (tileId : Int) :
    c.loadHeaderObjects e1 tileId = c.loadHeaderObjects e2 tileId := by
  have h1 : unloadUnusedTiles e1 = unloadUnusedTiles e2 :=
    funext fun c => funext fun m => unloadUnusedTiles_congr e1 e2 hs c m
  have h2 : loadHeaderObjects.loop e1 = loadHeaderObjects.loop e2 :=
    funext fun subs => funext fun c => loadHeaderObjects_loop_congr e1 e2 hs subs c
  unfold loadHeaderObjects
  rw [h1, h2]

/-! ## The de-duplication invariant of `loadHeaders` -/

/-- Every sequence of `loadHeaders` calls on a consistent context whose chains
are finite returns such a context. -/
theorem runLoadHeaders_spec (e : Externals) (calls : List (Nat × Nat)) :
    ∀ c : RoutingContext, c.FiniteChains → c.MapsWF →
      ∃ c', runLoadHeaders e calls c = some c' ∧ c'.FiniteChains ∧ c'.MapsWF ∧
        c'.config = c.config := by
  induction calls with
  | nil => intro c hfin hm; exact ⟨c, rfl, hfin, hm, rfl⟩
  | cons xy rest ih =>
    intro c hfin hm
    obtain ⟨c1, hrun1, hfin1, hm1, hc1, _, _, _⟩ := loadHeaders_spec e c xy.1 xy.2 hfin hm
    obtain ⟨c', hrun, hfin', hm', hc'⟩ := ih c1 hfin1 hm1
    refine ⟨c', ?_, hfin', hm', hc'.trans hc1⟩
    simp only [runLoadHeaders, hrun1]
    exact hrun

theorem finiteChains_new (config : RoutingConfiguration) (basemap : Bool) (h : SegmentHeap) :
    (RoutingContext.new config basemap h).FiniteChains :=
  fun _ _ => ⟨[], rfl⟩

theorem mapsWF_new (config : RoutingConfiguration) (basemap : Bool) (h : SegmentHeap) :
    (RoutingContext.new config basemap h).MapsWF :=
  ⟨List.nodup_nil, (fun k a hka => by cases hka), fun a ha => absurd ha (Nat.not_lt_zero a),
    (fun t l htl => by cases htl)⟩

theorem lookup_of_mem_nodup {V : Type} (m : List (Int × V)) :
    (m.map Prod.fst).Nodup → ∀ k v, (k, v) ∈ m → m.lookup k = some v := by
  induction m with
  | nil => intro _ k v hp; exact absurd hp (List.not_mem_nil _)
  | cons q m ih =>
    intro hnd k v hp
    obtain ⟨qk, qv⟩ := q
    rw [List.map_cons, List.nodup_cons] at hnd
    rw [List.lookup_cons]
    rcases List.mem_cons.1 hp with heq | hp'
    · cases heq
      simp
    · have hne : k ≠ qk := by
        intro hh
        subst hh
        exact hnd.1 (List.mem_map.2 ⟨(k, v), hp', rfl⟩)
      have hb : (k == qk) = false := by simpa using hne
      rw [hb]
      exact ih hnd.2 k v hp'

theorem nodup_values_of_mapsWF (c : RoutingContext) (hm : c.MapsWF) :
    (c.subregionTiles.map Prod.snd).Nodup := by
  obtain ⟨hN, hM1, _, _⟩ := hm
  have hinj : ∀ p ∈ c.subregionTiles, ∀ q ∈ c.subregionTiles, p.2 = q.2 → p = q := by
    intro p hp q hq hpq
    have h1 := (hM1 p.1 p.2 (lookup_of_mem_nodup _ hN p.1 p.2 hp)).2
    have h2 := (hM1 q.1 q.2 (lookup_of_mem_nodup _ hN q.1 q.2 hq)).2
    rw [hpq] at h1
    exact Prod.ext (h1.symm.trans h2) hpq
  have hnd : c.subregionTiles.Nodup := List.Nodup.of_map Prod.fst hN
  exact List.Nodup.map_on hinj hnd
/-- C20: after any sequence of `loadHeaders` calls on a new context (the calls
return), every tile listed under a coarse tile id in `indexedSubregions` is the
tile stored in `subregionTiles` under the key `(left << 31) + filePointer` of
its subregion; two listed tiles with the same key are one and the same tile;
`subregionTiles` has one entry per key and holds every tile once; and
`loadHeaders` for a coarse tile that is indexed already gives the same result
whatever the index query would answer (it is not consulted), returns, and
leaves both maps as they were. -/
theorem loadHeaders_dedup (e : Externals) (config : RoutingConfiguration) (basemap : Bool)
    (segments : SegmentHeap) (calls : List (Nat × Nat)) :
    ∃ c, runLoadHeaders e calls (RoutingContext.new config basemap segments) = some c ∧
      (∀ t l, c.indexedSubregions.lookup t = some l → ∀ a ∈ l,
        c.subregionTiles.lookup (subregionKey (c.tiles a).subregion) = some a) ∧
      (∀ t1 l1 t2 l2 a1 a2, c.indexedSubregions.lookup t1 = some l1 →
        c.indexedSubregions.lookup t2 = some l2 → a1 ∈ l1 → a2 ∈ l2 →
        subregionKey (c.tiles a1).subregion = subregionKey (c.tiles a2).subregion → a1 = a2) ∧
      (c.subregionTiles.map Prod.fst).Nodup ∧ (c.subregionTiles.map Prod.snd).Nodup ∧
      ∀ xloc yloc l,
        c.indexedSubregions.lookup (tileIdOf c.config.zoomToLoad xloc yloc) = some l →
        (∀ e2 : Externals, e2.sameButQuery e →
          c.loadHeaders e2 xloc yloc = c.loadHeaders e xloc yloc) ∧
        ∃ c', c.loadHeaders e xloc yloc = some c' ∧
          c'.indexedSubregions = c.indexedSubregions ∧
          c'.subregionTiles = c.subregionTiles := by
  obtain ⟨c, hrun, hfin, hm, _⟩ := runLoadHeaders_spec e calls
    (RoutingContext.new config basemap segments) (finiteChains_new _ _ _) (mapsWF_new _ _ _)
  have hvals := nodup_values_of_mapsWF c hm
  have hm' := hm
  obtain ⟨hN, hM1, hM2, hI⟩ := hm
  have hlisted : ∀ t l, c.indexedSubregions.lookup t = some l → ∀ a ∈ l,
      c.subregionTiles.lookup (subregionKey (c.tiles a).subregion) = some a :=
    fun t l htl a ha => hM2 a (hI t l htl a ha)
  refine ⟨c, hrun, hlisted, fun t1 l1 t2 l2 a1 a2 h1 h2 ha1 ha2 hkey => ?_, hN, hvals,
    fun xloc yloc l hl => ⟨fun e2 hs => ?_, ?_⟩⟩
  · have e1 := hlisted t1 l1 h1 a1 ha1
    have e2 := hlisted t2 l2 h2 a2 ha2
    rw [hkey, e2] at e1
    cases e1
    rfl
  · rw [loadHeaders_of_indexed e2 c xloc yloc l hl, loadHeaders_of_indexed e c xloc yloc l hl]
    exact loadHeaderObjects_congr e2 e hs c _
  · obtain ⟨c', hrun', _, _, _, _, _, hkeep⟩ := loadHeaders_spec e c xloc yloc hfin hm'
    obtain ⟨k1, k2, _⟩ := hkeep l hl
    exact ⟨c', hrun', k1, k2⟩

theorem loadHeaderObjects_loop_loaded (e : Externals) (subs : List Addr) (c : RoutingContext)
    (h : ∀ a ∈ subs, (c.tiles a).isLoaded = true) : loadHeaderObjects.loop e subs c = some c := by
  induction subs with
  | nil => rfl
  | cons a rest ih =>
    rw [loadHeaderObjects.loop, if_pos (h a (List.mem_cons_self _ _))]
    exact ih fun x hx => h x (List.mem_cons_of_mem _ hx)

/-- C21: in a context whose stored chains are finite, `loadHeaderObjects(tileId)`
returns, and on return every subregion listed under `tileId` is loaded. When
all of them were loaded on entry, no tile and no segment changes (no eviction
runs). Otherwise the eviction runs once, before the loading loop: every tile
that is not listed, or that the eviction left loaded, is as one call of
`unloadUnusedTiles` left it, and every listed tile - the ones the eviction
unloaded included - is loaded again. Every segment allocated by the call
belongs to a road that `acceptLine` accepts. -/
theorem loadHeaderObjects_loads (e : Externals) (c : RoutingContext) (tileId : Int)
    (hfin : c.FiniteChains) :
    ∃ c', c.loadHeaderObjects e tileId = some c' ∧
      (∀ l, c.indexedSubregions.lookup tileId = some l →
        ∀ a ∈ l, (c'.tiles a).isLoaded = true) ∧
      ((∀ l, c.indexedSubregions.lookup tileId = some l →
          ∀ a ∈ l, (c.tiles a).isLoaded = true) →
        c'.tiles = c.tiles ∧ c'.segments = c.segments ∧ c'.loadedTiles = c.loadedTiles) ∧
      (∀ l, c.indexedSubregions.lookup tileId = some l →
        (∃ a ∈ l, (c.tiles a).isLoaded = false) →
        ∀ a, a ∉ l ∨
            ((c.unloadUnusedTiles e c.config.memoryLimitation).tiles a).isLoaded = true →
          c'.tiles a = (c.unloadUnusedTiles e c.config.memoryLimitation).tiles a) ∧
      ∀ x, c.segments.size ≤ x → x < c'.segments.size →
        c.acceptLine (c'.segments.cells x).road = true := by
  cases hlook : c.indexedSubregions.lookup tileId with
  | none =>
    rw [loadHeaderObjects_of_none e c tileId hlook]
    exact ⟨_, rfl, (fun l hl => by cases hl), fun _ => ⟨rfl, rfl, rfl⟩,
      (fun l hl => by cases hl), fun x h1 h2 => absurd h2 (Nat.not_lt.2 h1)⟩
  | some l =>
    rw [loadHeaderObjects_of_some e c tileId l hlook]
    by_cases hgc : (l.any fun a => !(c.tiles a).isLoaded) = true
    · rw [if_pos hgc]
      obtain ⟨_, _, _, hseg, hcfg, _, _, _⟩ :=
        unloadUnusedTiles_frame e c c.config.memoryLimitation
      obtain ⟨c', hrun, _, _, _, _, _, _, _, hkeepT, hall, hout, _, _, hacc, _⟩ :=
        loadHeaderObjects_loop_spec e l _
          (finiteChains_unloadUnusedTiles e c c.config.memoryLimitation hfin)
      obtain ⟨b, hb, hbl⟩ := List.any_eq_true.1 hgc
      have hbl' : (c.tiles b).isLoaded = false := by simpa using hbl
      refine ⟨c', hrun, fun l' hl' => ?_, fun hallc => ?_, fun l' hl' _ a ha => ?_,
        fun x h1 h2 => ?_⟩
      · cases hl'
        exact hall
      · have := hallc l rfl b hb
        rw [hbl'] at this
        cases this
      · cases hl'
        rcases ha with ha | ha
        · exact hout a ha
        · exact hkeepT a ha
      · rw [hseg] at hacc
        have := hacc x h1 h2
        rw [hcfg] at this
        exact this
    · rw [if_neg hgc]
      have hallc : ∀ a ∈ l, (c.tiles a).isLoaded = true := by
        intro a ha
        by_contra hn
        exact hgc (List.any_eq_true.2 ⟨a, ha, by simpa using hn⟩)
      rw [loadHeaderObjects_loop_loaded e l c hallc]
      refine ⟨c, rfl, fun l' hl' => ?_, fun _ => ⟨rfl, rfl, rfl⟩, fun l' hl' hex => ?_,
        fun x h1 h2 => absurd h2 (Nat.not_lt.2 h1)⟩
      · cases hl'
        exact hallc
      · cases hl'
        obtain ⟨a, ha, hal⟩ := hex
        rw [hallc a ha] at hal
        cases hal

theorem finiteChains_ctxIndexed : ctxIndexed.FiniteChains := by
  intro a k
  refine ⟨[], ?_⟩
  show SegmentHeap.isChain _ ((tilesThree a).head k) [] = true
  unfold tilesThree
  split_ifs <;> rfl

/-- Witness of `loadHeaderObjects_loads`: the context `ctxIndexed`, in which the
tile 2, listed under the coarse tile 196613, is not loaded. -/
theorem loadHeaderObjects_loads_witness :
    ctxIndexed.FiniteChains ∧
    ∃ c', ctxIndexed.loadHeaderObjects (externalsOf [] []) 196613 = some c' ∧
      (∀ l, ctxIndexed.indexedSubregions.lookup 196613 = some l →
        ∀ a ∈ l, (c'.tiles a).isLoaded = true) ∧
      ((∀ l, ctxIndexed.indexedSubregions.lookup 196613 = some l →
          ∀ a ∈ l, (ctxIndexed.tiles a).isLoaded = true) →
        c'.tiles = ctxIndexed.tiles ∧ c'.segments = ctxIndexed.segments ∧
          c'.loadedTiles = ctxIndexed.loadedTiles) ∧
      (∀ l, ctxIndexed.indexedSubregions.lookup 196613 = some l →
        (∃ a ∈ l, (ctxIndexed.tiles a).isLoaded = false) →
        ∀ a, a ∉ l ∨
            ((ctxIndexed.unloadUnusedTiles (externalsOf [] [])
              ctxIndexed.config.memoryLimitation).tiles a).isLoaded = true →
          c'.tiles a = (ctxIndexed.unloadUnusedTiles (externalsOf [] [])
            ctxIndexed.config.memoryLimitation).tiles a) ∧
      ∀ x, ctxIndexed.segments.size ≤ x → x < c'.segments.size →
        ctxIndexed.acceptLine (c'.segments.cells x).road = true :=
  ⟨finiteChains_ctxIndexed,
    loadHeaderObjects_loads (externalsOf [] []) ctxIndexed 196613 finiteChains_ctxIndexed⟩

/-! ## The walk of `loadRouteSegment` along one chain -/

theorem chainFrom_of_isChain (h : SegmentHeap) (l : List Addr) :
    ∀ (p : Option Addr) (fuel : Nat), h.isChain p l = true → l.length ≤ fuel →
      h.chainFrom fuel p = l := by
  induction l with
  | nil =>
    intro p fuel hc _
    have hp : p = none := isChain_head h p [] hc
    subst hp
    cases fuel <;> rfl
  | cons a t ih =>
    intro p fuel hc hlen
    have hp : p = some a := isChain_head h p (a :: t) hc
    subst hp
    obtain ⟨t', e, _, hnext⟩ := (isChain_some h a (a :: t)).1 hc
    cases e
    cases fuel with
    | zero => exact absurd hlen (Nat.not_succ_le_zero _)
    | succ f =>
      rw [SegmentHeap.chainFrom, ih _ f hnext (Nat.le_of_succ_le_succ hlen)]

theorem isChain_grow (h h' : SegmentHeap) (hs : h.size ≤ h'.size)
    (hcells : ∀ x, x < h.size → h'.cells x = h.cells x) (p : Option Addr) (l : List Addr)
    (hc : h.isChain p l = true) : h'.isChain p l = true :=
  isChain_congr h h' p l hs (fun a ha => by rw [hcells a (isChain_lt h p l hc a ha)]) hc

theorem items_grow (h h' : SegmentHeap) (hcells : ∀ x, x < h.size → h'.cells x = h.cells x)
    (l : List Addr) (hl : ∀ x ∈ l, x < h.size) : h'.items l = h.items l := by
  unfold SegmentHeap.items
  refine List.map_congr_left fun x hx => ?_
  rw [hcells x (hl x hx)]

theorem walk_none (fuel : Nat) (excl : List (Int × RouteDataObject)) (orig : Option Addr)
    (h : SegmentHeap) : loadRouteSegment.walk fuel none excl orig h = some (excl, orig, h) := by
  cases fuel <;> rfl

theorem walk_accept (fuel : Nat) (a : Addr) (excl : List (Int × RouteDataObject))
    (orig : Option Addr) (h : SegmentHeap)
    (hacc : loadRouteSegment.accepts excl (h.cells a).road (h.cells a).segmentStart = true) :
    loadRouteSegment.walk (fuel + 1) (some a) excl orig h =
      loadRouteSegment.walk fuel
        ((h.alloc { RouteSegment.new (h.cells a).road (h.cells a).segmentStart with
          next := orig }).2.cells a).next
        (mapSet excl (calcRouteId (h.cells a).road (h.cells a).segmentStart) (h.cells a).road)
        (some h.size)
        (h.alloc { RouteSegment.new (h.cells a).road (h.cells a).segmentStart with
          next := orig }).2 := by
  rw [loadRouteSegment.walk]
  simp only [RouteSegment.getSegmentStart, hacc, if_true]
  rfl

theorem walk_reject (fuel : Nat) (a : Addr) (excl : List (Int × RouteDataObject))
    (orig : Option Addr) (h : SegmentHeap)
    (hacc : loadRouteSegment.accepts excl (h.cells a).road (h.cells a).segmentStart = false) :
    loadRouteSegment.walk (fuel + 1) (some a) excl orig h =
      loadRouteSegment.walk fuel (h.cells a).next excl orig h := by
  rw [loadRouteSegment.walk]
  simp only [RouteSegment.getSegmentStart, hacc, Bool.false_eq_true, if_false]
theorem segData_fresh (ro : RouteDataObject) (start : Nat) (orig : Option Addr) :
    segData { RouteSegment.new ro start with next := orig } = RouteSegment.new ro start := rfl

/-- The walk of `loadRouteSegment` along a finite chain `lc`, with fuel for
its length: it returns; the segments it allocates are one per visited pair
that passes the duplicate filter, the latest in front, linked before the chain
`origL` of `original`; no older segment changes. -/
theorem walk_spec (lc : List Addr) :
    ∀ (fuel : Nat) (p : Option Addr) (excl : List (Int × RouteDataObject))
      (orig : Option Addr) (origL : List Addr) (h : SegmentHeap),
      h.isChain p lc = true → lc.length ≤ fuel → h.isChain orig origL = true →
      ∃ orig' h' l',
        loadRouteSegment.walk fuel p excl orig h =
          some ((loadRouteSegment.select (h.items lc) excl).1, orig', h') ∧
        h.size ≤ h'.size ∧
        (∀ x, x < h.size → h'.cells x = h.cells x) ∧
        h'.isChain orig' (l' ++ origL) = true ∧
        (∀ x ∈ l', h.size ≤ x) ∧
        l'.map (fun x => segData (h'.cells x)) =
          (loadRouteSegment.select (h.items lc) excl).2.reverse.map
            fun it => RouteSegment.new it.1 it.2 := by
  induction lc with
  | nil =>
    intro fuel p excl orig origL h hc _ horig
    have hp : p = none := isChain_head h p [] hc
    subst hp
    refine ⟨orig, h, [], ?_, Nat.le_refl _, fun _ _ => rfl, horig, fun x hx => ?_, rfl⟩
    · rw [walk_none]
      rfl
    · exact absurd hx (List.not_mem_nil x)
  | cons a t ih =>
    intro fuel p excl orig origL h hc hlen horig
    have hp : p = some a := isChain_head h p (a :: t) hc
    subst hp
    obtain ⟨t', e, ha, hnext⟩ := (isChain_some h a (a :: t)).1 hc
    cases e
    cases fuel with
    | zero => exact absurd hlen (Nat.not_succ_le_zero _)
    | succ f =>
      have hlen' : t.length ≤ f := Nat.le_of_succ_le_succ hlen
      have hitems : h.items (a :: t) =
          ((h.cells a).road, (h.cells a).segmentStart) :: h.items t := rfl
      by_cases hacc :
          loadRouteSegment.accepts excl (h.cells a).road (h.cells a).segmentStart = true
      · -- the segment is accepted: a new segment is allocated in front of `orig`
        have hsz : (h.alloc { RouteSegment.new (h.cells a).road (h.cells a).segmentStart with
            next := orig }).2.size = h.size + 1 := rfl
        have hold : ∀ x, x < h.size →
            (h.alloc { RouteSegment.new (h.cells a).road (h.cells a).segmentStart with
              next := orig }).2.cells x = h.cells x := by
          intro x hx
          show Function.update h.cells h.size _ x = h.cells x
          rw [Function.update_noteq (Nat.ne_of_lt hx)]
        have hnew : (h.alloc { RouteSegment.new (h.cells a).road (h.cells a).segmentStart with
            next := orig }).2.cells h.size =
            { RouteSegment.new (h.cells a).road (h.cells a).segmentStart with next := orig } := by
          show Function.update h.cells h.size _ h.size = _
          rw [Function.update_same]
        rw [walk_accept f a excl orig h hacc, hold a ha]
        generalize hh1 : (h.alloc { RouteSegment.new (h.cells a).road (h.cells a).segmentStart
          with next := orig }).2 = h1 at hsz hold hnew
        have hle : h.size ≤ h1.size := by rw [hsz]; exact Nat.le_succ _
        have hlt : h.size < h1.size := by rw [hsz]; exact Nat.lt_succ_self _
        have hc1 : h1.isChain (h.cells a).next t = true :=
          isChain_grow h h1 hle hold _ t hnext
        have horig1 : h1.isChain (some h.size) (h.size :: origL) = true := by
          refine (isChain_cons h1 _ _ _).2 ⟨rfl, hlt, ?_⟩
          rw [hnew]
          exact isChain_grow h h1 hle hold _ origL horig
        obtain ⟨orig', h', l1, hwalk, hsize', hcells', hchain', hfresh', hdata'⟩ :=
          ih f (h.cells a).next
            (mapSet excl (calcRouteId (h.cells a).road (h.cells a).segmentStart)
              (h.cells a).road)
            (some h.size) (h.size :: origL) h1 hc1 hlen' horig1
        have hit : h1.items t = h.items t :=
          items_grow h h1 hold t (isChain_lt h _ t hnext)
        rw [hit] at hwalk hdata'
        have hsel : loadRouteSegment.select (h.items (a :: t)) excl =
            ((loadRouteSegment.select (h.items t)
                (mapSet excl (calcRouteId (h.cells a).road (h.cells a).segmentStart)
                  (h.cells a).road)).1,
              ((h.cells a).road, (h.cells a).segmentStart) ::
                (loadRouteSegment.select (h.items t)
                  (mapSet excl (calcRouteId (h.cells a).road (h.cells a).segmentStart)
                    (h.cells a).road)).2) := by
          rw [hitems, loadRouteSegment.select, if_pos hacc]
        rw [hsel]
        refine ⟨orig', h', l1 ++ [h.size], hwalk, Nat.le_trans hle hsize',
          fun x hx => ?_, ?_, fun x hx => ?_, ?_⟩
        · rw [hcells' x (Nat.lt_of_lt_of_le hx hle), hold x hx]
        · rw [List.append_assoc]
          exact hchain'
        · rcases List.mem_append.1 hx with hx | hx
          · exact Nat.le_trans hle (hfresh' x hx)
          · rw [List.mem_singleton.1 hx]
        · rw [List.map_append, hdata', List.reverse_cons, List.map_append, List.map_cons,
            List.map_nil, List.map_cons, List.map_nil, hcells' h.size hlt, hnew, segData_fresh]
      · -- the segment is a duplicate: nothing is allocated
        have hacc' : loadRouteSegment.accepts excl (h.cells a).road (h.cells a).segmentStart =
            false := by
          cases hb : loadRouteSegment.accepts excl (h.cells a).road (h.cells a).segmentStart with
          | true => exact absurd hb hacc
          | false => rfl
        rw [walk_reject f a excl orig h hacc']
        have hsel : loadRouteSegment.select (h.items (a :: t)) excl =
            loadRouteSegment.select (h.items t) excl := by
          rw [hitems, loadRouteSegment.select, if_neg hacc]
        rw [hsel]
        exact ih f (h.cells a).next excl orig origL h hnext hlen' horig
/-! ## The loop of `loadRouteSegment` over the subregions -/

theorem head_touch (l : Int) (t : RoutingSubregionTile) (k : Int) :
    (loadRouteSegment.touch l t).head k = t.head k := by
  unfold RoutingSubregionTile.head loadRouteSegment.touch
  by_cases hnone : (t.routes.lookup l).isNone = true
  · show ((if (t.routes.lookup l).isNone = true then t.routes ++ [(l, none)]
        else t.routes).lookup k).join = _
    rw [if_pos hnone, List.lookup_append]
    cases hk : t.routes.lookup k with
    | some v => rfl
    | none =>
      by_cases hkl : k = l
      · subst hkl
        simp [List.lookup_cons]
      · have hb : (k == l) = false := by simpa using hkl
        simp [List.lookup_cons, hb]
  · show ((if (t.routes.lookup l).isNone = true then t.routes ++ [(l, none)]
        else t.routes).lookup k).join = _
    rw [if_neg hnone]

theorem select_append (xs ys : List (RouteDataObject × Nat)) :
    ∀ excl : List (Int × RouteDataObject),
      loadRouteSegment.select (xs ++ ys) excl =
        ((loadRouteSegment.select ys (loadRouteSegment.select xs excl).1).1,
          (loadRouteSegment.select xs excl).2 ++
            (loadRouteSegment.select ys (loadRouteSegment.select xs excl).1).2) := by
  induction xs with
  | nil => intro excl; rfl
  | cons it rest ih =>
    intro excl
    rw [List.cons_append, loadRouteSegment.select, loadRouteSegment.select]
    by_cases hacc : loadRouteSegment.accepts excl it.1 it.2 = true
    · rw [if_pos hacc, if_pos hacc, ih]
      rfl
    · rw [if_neg hacc, if_neg hacc, ih]

theorem isLoaded_congr (t t' : RoutingSubregionTile) (h : t'.loaded = t.loaded) :
    t'.isLoaded = t.isLoaded := by
  unfold RoutingSubregionTile.isLoaded
  rw [h]

/-- The pairs that `loadRouteSegment` visits depend on the heads stored under
the key, on which tiles are loaded and on the segments allocated so far. -/
theorem visited_congr (c c' : RoutingContext) (l : Int) (subs : List Addr)
    (hfin : c.FiniteChains) (hs : c.segments.size ≤ c'.segments.size)
    (hcells : ∀ x, x < c.segments.size → c'.segments.cells x = c.segments.cells x)
    (hhead : ∀ a, (c'.tiles a).head l = (c.tiles a).head l)
    (hload : ∀ a, (c'.tiles a).isLoaded = (c.tiles a).isLoaded) :
    loadRouteSegment.visited c' l subs = loadRouteSegment.visited c l subs := by
  unfold loadRouteSegment.visited
  induction subs with
  | nil => rfl
  | cons a rest ih =>
    rw [List.flatMap_cons, List.flatMap_cons, ih, hload a, hhead a]
    congr 1
    by_cases hl : (c.tiles a).isLoaded = true
    · rw [if_pos hl, if_pos hl]
      obtain ⟨la, hla⟩ := hfin a l
      have hla' := isChain_grow c.segments c'.segments hs hcells _ la hla
      rw [chainFrom_of_isChain c.segments la _ _ hla (isChain_length_le _ _ _ hla),
        chainFrom_of_isChain c'.segments la _ _ hla' (isChain_length_le _ _ _ hla')]
      exact items_grow c.segments c'.segments hcells la (isChain_lt _ _ _ hla)
    · rw [if_neg hl, if_neg hl]

theorem loadRouteSegment_loop_skip (l : Int) (a : Addr) (rest : List Addr) (c : RoutingContext)
    (excl : List (Int × RouteDataObject)) (orig : Option Addr)
    (h : ¬ (c.tiles a).isLoaded = true) :
    loadRouteSegment.loop l (a :: rest) c excl orig = loadRouteSegment.loop l rest c excl orig := by
  rw [loadRouteSegment.loop, if_neg h]

theorem loadRouteSegment_loop_visit (l : Int) (a : Addr) (rest : List Addr) (c : RoutingContext)
    (excl : List (Int × RouteDataObject)) (orig : Option Addr)
    (h : (c.tiles a).isLoaded = true) (excl1 : List (Int × RouteDataObject))
    (orig1 : Option Addr) (h1 : SegmentHeap)
    (hwalk : loadRouteSegment.walk c.segments.size ((c.tiles a).head l) excl orig c.segments =
      some (excl1, orig1, h1)) :
    loadRouteSegment.loop l (a :: rest) c excl orig =
      loadRouteSegment.loop l rest
        { c with
          tiles := Function.update c.tiles a (loadRouteSegment.touch l (c.tiles a)),
          segments := h1 }
        excl1 orig1 := by
  rw [loadRouteSegment.loop, if_pos h, hwalk]

/-- The loop of `loadRouteSegment` in a context whose chains are finite: it
returns; the returned chain holds, in front of the chain of `original`, one
new segment per visited pair that passes the duplicate filter, the latest in
front; the heads of the stored chains, the counters `loaded`, the maps and all
older segments are unchanged. -/
theorem loadRouteSegment_loop_spec (l : Int) (subs : List Addr) :
    ∀ (c : RoutingContext) (excl : List (Int × RouteDataObject)) (orig : Option Addr)
      (origL : List Addr), c.FiniteChains → c.segments.isChain orig origL = true →
      ∃ orig' c' l',
        loadRouteSegment.loop l subs c excl orig = some (orig', c') ∧
        c'.FiniteChains ∧
        c'.subregionTiles = c.subregionTiles ∧ c'.indexedSubregions = c.indexedSubregions ∧
        c'.tilesSize = c.tilesSize ∧ c'.config = c.config ∧ c'.basemap = c.basemap ∧
        (∀ a k, (c'.tiles a).head k = (c.tiles a).head k) ∧
        (∀ a, (c'.tiles a).loaded = (c.tiles a).loaded ∧
          (c'.tiles a).subregion = (c.tiles a).subregion) ∧
        c.segments.size ≤ c'.segments.size ∧
        (∀ x, x < c.segments.size → c'.segments.cells x = c.segments.cells x) ∧
        c'.segments.isChain orig' (l' ++ origL) = true ∧
        (∀ x ∈ l', c.segments.size ≤ x) ∧
        l'.map (fun x => segData (c'.segments.cells x)) =
          (loadRouteSegment.select (loadRouteSegment.visited c l subs) excl).2.reverse.map
            fun it => RouteSegment.new it.1 it.2 := by
  induction subs with
  | nil =>
    intro c excl orig origL hfin horig
    exact ⟨orig, c, [], rfl, hfin, rfl, rfl, rfl, rfl, rfl, fun _ _ => rfl,
      fun _ => ⟨rfl, rfl⟩, Nat.le_refl _, fun _ _ => rfl, horig,
      fun x hx => absurd hx (List.not_mem_nil x), rfl⟩
  | cons a rest ih =>
    intro c excl orig origL hfin horig
    by_cases hload : (c.tiles a).isLoaded = true
    · obtain ⟨la, hla⟩ := hfin a l
      obtain ⟨orig1, h1, l1, hwalk, hsz1, hcells1, hchain1, hfresh1, hdata1⟩ :=
        walk_spec la c.segments.size _ excl orig origL c.segments hla
          (isChain_length_le _ _ _ hla) horig
      rw [loadRouteSegment_loop_visit l a rest c excl orig hload _ orig1 h1 hwalk]
      have hheads : ∀ b k,
          (Function.update c.tiles a (loadRouteSegment.touch l (c.tiles a)) b).head k =
            (c.tiles b).head k := by
        intro b k
        by_cases hba : b = a
        · subst hba
          rw [Function.update_same, head_touch]
        · rw [Function.update_noteq hba]
      have hfields : ∀ b,
          (Function.update c.tiles a (loadRouteSegment.touch l (c.tiles a)) b).loaded =
              (c.tiles b).loaded ∧
            (Function.update c.tiles a (loadRouteSegment.touch l (c.tiles a)) b).subregion =
              (c.tiles b).subregion := by
        intro b
        by_cases hba : b = a
        · subst hba
          rw [Function.update_same]
          exact ⟨rfl, rfl⟩
        · rw [Function.update_noteq hba]
          exact ⟨rfl, rfl⟩
      have hfin1 : RoutingContext.FiniteChains
          { c with
            tiles := Function.update c.tiles a (loadRouteSegment.touch l (c.tiles a)),
            segments := h1 } := by
        intro b k
        show ∃ lb, h1.isChain
          ((Function.update c.tiles a (loadRouteSegment.touch l (c.tiles a)) b).head k) lb = true
        rw [hheads b k]
        obtain ⟨lb, hlb⟩ := hfin b k
        exact ⟨lb, isChain_grow c.segments h1 hsz1 hcells1 _ lb hlb⟩
      obtain ⟨orig', c', l2, hrun, hfin', g1, g2, g3, g4, g5, hhd, hfl, hsz2, hcells2, hchain2,
        hfresh2, hdata2⟩ := ih _ (loadRouteSegment.select (c.segments.items la) excl).1 orig1
          (l1 ++ origL) hfin1 hchain1
      have hvis1 : loadRouteSegment.visited
          { c with
            tiles := Function.update c.tiles a (loadRouteSegment.touch l (c.tiles a)),
            segments := h1 } l rest = loadRouteSegment.visited c l rest :=
        visited_congr c _ l rest hfin hsz1 hcells1 (fun b => hheads b l)
          (fun b => isLoaded_congr _ _ (hfields b).1)
      have hvis : loadRouteSegment.visited c l (a :: rest) =
          c.segments.items la ++ loadRouteSegment.visited c l rest := by
        unfold loadRouteSegment.visited
        rw [List.flatMap_cons, if_pos hload,
          chainFrom_of_isChain c.segments la _ _ hla (isChain_length_le _ _ _ hla)]
      rw [hvis1] at hdata2
      rw [hvis, select_append]
      refine ⟨orig', c', l2 ++ l1, hrun, hfin', g1, g2, g3, g4, g5,
        fun b k => (hhd b k).trans (hheads b k),
        fun b => ⟨(hfl b).1.trans (hfields b).1, (hfl b).2.trans (hfields b).2⟩,
        Nat.le_trans hsz1 hsz2, fun x hx => ?_, ?_, fun x hx => ?_, ?_⟩
      · have := hcells2 x (Nat.lt_of_lt_of_le hx hsz1)
        rw [this]
        exact hcells1 x hx
      · rw [List.append_assoc]
        exact hchain2
      · rcases List.mem_append.1 hx with hx | hx
        · exact Nat.le_trans hsz1 (hfresh2 x hx)
        · exact hfresh1 x hx
      · have hl1lt : ∀ x ∈ l1, x < h1.size := fun x hx =>
          isChain_lt h1 _ _ hchain1 x (List.mem_append_left _ hx)
        have hl1 : l1.map (fun x => segData (c'.segments.cells x)) =
            l1.map fun x => segData (h1.cells x) := by
          refine List.map_congr_left fun x hx => ?_
          have := hcells2 x (hl1lt x hx)
          rw [this]
        rw [List.map_append, hdata2, hl1, hdata1, List.reverse_append, List.map_append]
    · rw [loadRouteSegment_loop_skip l a rest c excl orig hload]
      have hvis : loadRouteSegment.visited c l (a :: rest) =
          loadRouteSegment.visited c l rest := by
        unfold loadRouteSegment.visited
        rw [List.flatMap_cons, if_neg hload, List.nil_append]
      rw [hvis]
      exact ih c excl orig origL hfin horig
/-! ## `loadRouteSegment` as a whole -/

theorem lookup_append_entry (m : List (Int × List Addr)) (t k : Int) (l : List Addr)
    (h : (m ++ [(t, [])]).lookup k = some l) : m.lookup k = some l ∨ (m.lookup k = none ∧ l = []) := by
  rw [List.lookup_append] at h
  cases hm : m.lookup k with
  | some l' =>
    rw [hm] at h
    exact Or.inl h
  | none =>
    rw [hm] at h
    refine Or.inr ⟨rfl, ?_⟩
    by_cases hkt : k = t
    · subst hkt
      simp [List.lookup_cons] at h
      exact h
    · have hb : (k == t) = false := by simpa using hkt
      simp [List.lookup_cons, hb] at h

theorem mapsWF_append_index (c : RoutingContext) (t : Int) (hm : c.MapsWF) :
    RoutingContext.MapsWF { c with indexedSubregions := c.indexedSubregions ++ [(t, [])] } := by
  obtain ⟨hN, hM1, hM2, hI⟩ := hm
  refine ⟨hN, hM1, hM2, fun k l hkl a ha => ?_⟩
  rcases lookup_append_entry c.indexedSubregions t k l hkl with h | ⟨_, h⟩
  · exact hI k l h a ha
  · rw [h] at ha
    exact absurd ha (List.not_mem_nil a)

theorem loadHeaderObjects_size (e : Externals) (c c' : RoutingContext) (tileId : Int)
    (hfin : c.FiniteChains) (hrun : c.loadHeaderObjects e tileId = some c') :
    c.segments.size ≤ c'.segments.size := by
  cases hlook : c.indexedSubregions.lookup tileId with
  | none =>
    rw [loadHeaderObjects_of_none e c tileId hlook] at hrun
    cases hrun
    exact Nat.le_refl _
  | some l =>
    rw [loadHeaderObjects_of_some e c tileId l hlook] at hrun
    by_cases hgc : (l.any fun a => !(c.tiles a).isLoaded) = true
    · rw [if_pos hgc] at hrun
      obtain ⟨_, _, _, hseg, _, _, _, _⟩ := unloadUnusedTiles_frame e c c.config.memoryLimitation
      obtain ⟨c'', hrun', _, _, _, _, _, _, _, _, _, _, hsz, _⟩ :=
        loadHeaderObjects_loop_spec e l _
          (finiteChains_unloadUnusedTiles e c c.config.memoryLimitation hfin)
      rw [hrun] at hrun'
      cases hrun'
      rw [hseg] at hsz
      exact hsz
    · rw [if_neg hgc] at hrun
      obtain ⟨c'', hrun', _, _, _, _, _, _, _, _, _, _, hsz, _⟩ :=
        loadHeaderObjects_loop_spec e l c hfin
      rw [hrun] at hrun'
      cases hrun'
      exact hsz

theorem loadHeaders_size (e : Externals) (c c' : RoutingContext) (xloc yloc : Nat)
    (hfin : c.FiniteChains) (hm : c.MapsWF) (hrun : c.loadHeaders e xloc yloc = some c') :
    c.segments.size ≤ c'.segments.size := by
  cases hlook : c.indexedSubregions.lookup (tileIdOf c.config.zoomToLoad xloc yloc) with
  | some l =>
    rw [loadHeaders_of_indexed e c xloc yloc l hlook] at hrun
    exact loadHeaderObjects_size e c c' _ hfin hrun
  | none =>
    rw [loadHeaders_of_new e c xloc yloc hlook] at hrun
    obtain ⟨_, _, _, r4, _, _, r7⟩ := loadHeaders_collect_spec e
      (e.searchRouteSubregions
        ⟨shl32 xloc (31 - c.config.zoomToLoad), shl32 (xloc + 1) (31 - c.config.zoomToLoad),
          shl32 yloc (31 - c.config.zoomToLoad), shl32 (yloc + 1) (31 - c.config.zoomToLoad)⟩
        c.basemap) c [] hm (fun a ha => absurd ha (List.not_mem_nil a))
    generalize loadHeaders.collect e
      (e.searchRouteSubregions
        ⟨shl32 xloc (31 - c.config.zoomToLoad), shl32 (xloc + 1) (31 - c.config.zoomToLoad),
          shl32 yloc (31 - c.config.zoomToLoad), shl32 (yloc + 1) (31 - c.config.zoomToLoad)⟩
        c.basemap) c [] = r at *
    have hfin1 : RoutingContext.FiniteChains
        { r.1 with
          indexedSubregions :=
            mapSet r.1.indexedSubregions (tileIdOf c.config.zoomToLoad xloc yloc) r.2 } := by
      intro a k
      show ∃ l, r.1.segments.isChain ((r.1.tiles a).head k) l = true
      rw [r4]
      rcases r7 a with h | h
      · rw [h]
        exact hfin a k
      · refine ⟨[], ?_⟩
        unfold RoutingSubregionTile.head
        rw [h]
        rfl
    have := loadHeaderObjects_size e _ c' _ hfin1 hrun
    have hr4 : ({ r.1 with
          indexedSubregions :=
            mapSet r.1.indexedSubregions (tileIdOf c.config.zoomToLoad xloc yloc) r.2 } :
        RoutingContext).segments = c.segments := r4
    rw [hr4] at this
    exact this

theorem loadRouteSegment_eq (e : Externals) (c cA : RoutingContext) (x31 y31 : Int)
    (h : c.loadHeaders e
      (loadRouteSegment.loc c.config.zoomToLoad x31 % 4294967296).toNat
      (loadRouteSegment.loc c.config.zoomToLoad y31 % 4294967296).toNat = some cA) :
    c.loadRouteSegment e x31 y31 =
      loadRouteSegment.loop (loadRouteSegment.key x31 y31)
        ((cA.indexedSubregions.lookup
          (loadRouteSegment.tileId c.config.zoomToLoad x31 y31)).getD [])
        (if (cA.indexedSubregions.lookup
            (loadRouteSegment.tileId c.config.zoomToLoad x31 y31)).isNone = true then
          { cA with
            indexedSubregions := cA.indexedSubregions ++
              [(loadRouteSegment.tileId c.config.zoomToLoad x31 y31, [])] }
        else cA) [] none := by
  unfold loadRouteSegment
  simp only [h]
theorem mapsWF_of_frame (c c' : RoutingContext) (hm : c.MapsWF)
    (h1 : c'.subregionTiles = c.subregionTiles) (h2 : c'.indexedSubregions = c.indexedSubregions)
    (h3 : c'.tilesSize = c.tilesSize)
    (h4 : ∀ a, (c'.tiles a).subregion = (c.tiles a).subregion) : c'.MapsWF := by
  obtain ⟨hN, hM1, hM2, hI⟩ := hm
  unfold RoutingContext.MapsWF
  rw [h1, h2, h3]
  refine ⟨hN, fun k a hka => ?_, fun a ha => ?_, hI⟩
  · rw [h4 a]
    exact hM1 k a hka
  · rw [h4 a]
    exact hM2 a ha

/-- `loadRouteSegment(x31, y31)` in a consistent context whose chains are
finite, with `cA` the context after its `loadHeaders` call: it returns a chain
of new segments, one per visited pair that passes the duplicate filter, the
latest in front; the stored chains and all segments allocated before the walk
are unchanged. -/
theorem loadRouteSegment_run (e : Externals) (c : RoutingContext) (x31 y31 : Int)
    (xloc yloc : Nat) (tileId : Int)
    (hX : xloc = (loadRouteSegment.loc c.config.zoomToLoad x31 % 4294967296).toNat)
    (hY : yloc = (loadRouteSegment.loc c.config.zoomToLoad y31 % 4294967296).toNat)
    (hT : tileId = loadRouteSegment.tileId c.config.zoomToLoad x31 y31)
    (hfin : c.FiniteChains) (hm : c.MapsWF) :
    ∃ cA p c' l',
      c.loadHeaders e xloc yloc = some cA ∧ cA.FiniteChains ∧ cA.MapsWF ∧
      cA.config = c.config ∧ c.segments.size ≤ cA.segments.size ∧
      (∃ lA, cA.indexedSubregions.lookup (tileIdOf c.config.zoomToLoad xloc yloc) = some lA ∧
        ∀ a ∈ lA, (cA.tiles a).isLoaded = true) ∧
      c.loadRouteSegment e x31 y31 = some (p, c') ∧
      c'.FiniteChains ∧ c'.MapsWF ∧ c'.config = c.config ∧
      c'.indexedSubregions =
        (if (cA.indexedSubregions.lookup tileId).isNone = true then
          cA.indexedSubregions ++ [(tileId, [])]
        else cA.indexedSubregions) ∧
      (∀ a k, (c'.tiles a).head k = (cA.tiles a).head k) ∧
      (∀ a, (c'.tiles a).loaded = (cA.tiles a).loaded) ∧
      cA.segments.size ≤ c'.segments.size ∧
      (∀ x, x < cA.segments.size → c'.segments.cells x = cA.segments.cells x) ∧
      c'.segments.isChain p l' = true ∧
      (∀ x ∈ l', cA.segments.size ≤ x) ∧
      l'.map (fun x => segData (c'.segments.cells x)) =
        (loadRouteSegment.select
          (loadRouteSegment.visited cA (loadRouteSegment.key x31 y31)
            ((cA.indexedSubregions.lookup tileId).getD [])) []).2.reverse.map
          fun it => RouteSegment.new it.1 it.2 := by
  subst hX hY hT
  obtain ⟨cA, hlh, hfinA, hmA, hcfgA, _, hidxA, _⟩ := loadHeaders_spec e c _ _ hfin hm
  have hszA := loadHeaders_size e c cA _ _ hfin hm hlh
  rw [loadRouteSegment_eq e c cA x31 y31 hlh]
  by_cases hnone : (cA.indexedSubregions.lookup
      (loadRouteSegment.tileId c.config.zoomToLoad x31 y31)).isNone = true
  · rw [if_pos hnone]
    have hfinB : RoutingContext.FiniteChains
        { cA with
          indexedSubregions := cA.indexedSubregions ++
            [(loadRouteSegment.tileId c.config.zoomToLoad x31 y31, [])] } :=
      fun a k => hfinA a k
    have hmB := mapsWF_append_index cA (loadRouteSegment.tileId c.config.zoomToLoad x31 y31) hmA
    obtain ⟨p, c', l', hrun, hfin', g1, g2, g3, g4, _, hhd, hfl, hsz, hcells, hchain, hfresh,
      hdata⟩ := loadRouteSegment_loop_spec (loadRouteSegment.key x31 y31)
        ((cA.indexedSubregions.lookup
          (loadRouteSegment.tileId c.config.zoomToLoad x31 y31)).getD [])
        _ [] none [] hfinB rfl
    rw [List.append_nil] at hchain
    exact ⟨cA, p, c', l', hlh, hfinA, hmA, hcfgA, hszA, hidxA, hrun, hfin',
      mapsWF_of_frame _ c' hmB g1 g2 g3 (fun a => (hfl a).2), g4.trans hcfgA,
      g2.trans (if_pos hnone).symm, hhd, fun a => (hfl a).1, hsz, hcells, hchain, hfresh, hdata⟩
  · rw [if_neg hnone]
    obtain ⟨p, c', l', hrun, hfin', g1, g2, g3, g4, _, hhd, hfl, hsz, hcells, hchain, hfresh,
      hdata⟩ := loadRouteSegment_loop_spec (loadRouteSegment.key x31 y31)
        ((cA.indexedSubregions.lookup
          (loadRouteSegment.tileId c.config.zoomToLoad x31 y31)).getD [])
        cA [] none [] hfinA rfl
    rw [List.append_nil] at hchain
    exact ⟨cA, p, c', l', hlh, hfinA, hmA, hcfgA, hszA, hidxA, hrun, hfin',
      mapsWF_of_frame _ c' hmA g1 g2 g3 (fun a => (hfl a).2), g4.trans hcfgA,
      g2.trans (if_neg hnone).symm, hhd, fun a => (hfl a).1, hsz, hcells, hchain, hfresh, hdata⟩
/-! ## The segments that `loadRouteSegment` returns -/

theorem initRouteSegment_frame (h : SegmentHeap) (th : Addr) (p : Bool) (hvalid : th < h.size) :
    h.size ≤ (initRouteSegment h th p).2.size ∧
      ∀ y, y < h.size → y ≠ th → (initRouteSegment h th p).2.cells y = h.cells y := by
  obtain ⟨b1, b2, inner⟩ := initRouteSegment_heap h th p hvalid
  by_cases h1 : (h.cells th).segmentStart = 0 ∧ p = false
  · rw [b1 h1]
    exact ⟨Nat.le_refl _, fun _ _ _ => rfl⟩
  by_cases h2 : ((h.cells th).segmentStart : Int) =
      ((h.cells th).road.getPointsLength : Int) - 1 ∧ p = true
  · rw [b2 h2]
    exact ⟨Nat.le_refl _, fun _ _ _ => rfl⟩
  obtain ⟨c1, c2, c3, c4⟩ := inner h1 h2
  by_cases h3 : (h.cells th).directionAssgn = 0
  · obtain ⟨_, hs, hc⟩ := c1 h3
    refine ⟨Nat.le_of_eq hs.symm, fun y _ hy => ?_⟩
    rw [hc y, if_neg hy]
  by_cases h4 : p ≠ decide ((h.cells th).directionAssgn = 1)
  · by_cases h5 : (h.cells th).oppositeDirection = none
    · obtain ⟨_, hs, hc⟩ := c4 h3 h4 h5
      refine ⟨by rw [hs]; exact Nat.le_succ _, fun y hy hyt => ?_⟩
      rw [hc y, if_neg (Nat.ne_of_lt hy), if_neg hyt]
    · rw [c3 h3 h4 h5]
      exact ⟨Nat.le_refl _, fun _ _ _ => rfl⟩
  · rw [c2 h3 h4]
    exact ⟨Nat.le_refl _, fun _ _ _ => rfl⟩

theorem new_fields_of_segData (s : RouteSegment) (ro : RouteDataObject) (start : Int)
    (h : segData s = RouteSegment.new ro start) :
    s.directionAssgn = 0 ∧ s.parentRoute = none ∧ s.oppositeDirection = none ∧
      s.reverseWaySearch = 0 ∧ s.distanceFromStart = 0 ∧ s.distanceToEnd = 0 := by
  have e1 : s.directionAssgn = (segData s).directionAssgn := rfl
  have e2 : s.parentRoute = (segData s).parentRoute := rfl
  have e3 : s.oppositeDirection = (segData s).oppositeDirection := rfl
  have e4 : s.reverseWaySearch = (segData s).reverseWaySearch := rfl
  have e5 : s.distanceFromStart = (segData s).distanceFromStart := rfl
  have e6 : s.distanceToEnd = (segData s).distanceToEnd := rfl
  rw [e1, e2, e3, e4, e5, e6, h]
  exact ⟨rfl, rfl, rfl, rfl, rfl, rfl⟩

/-- C24: in a consistent context whose stored chains are finite,
`loadRouteSegment` returns a chain all of whose segments are allocated by this
very call and are as the constructor leaves them: direction unassigned,
`parentRoute` null, `oppositeDirection` null, `reverseWaySearch` 0, both
distances 0. None of them is a segment of a chain stored in a tile; and every
stored chain is the same chain, with the same roads and point indices, in any
heap that differs from the heap on return only in returned segments or in
later allocations - in particular in the heap after `initRouteSegment` on a
returned segment. -/
theorem loadRouteSegment_fresh (e : Externals) (c : RoutingContext) (x31 y31 : Int)
    (hfin : c.FiniteChains) (hm : c.MapsWF) :
    ∃ p c' l', c.loadRouteSegment e x31 y31 = some (p, c') ∧
      c'.segments.isChain p l' = true ∧
      (∀ x ∈ l', c.segments.size ≤ x ∧
        (c'.segments.cells x).directionAssgn = 0 ∧ (c'.segments.cells x).parentRoute = none ∧
        (c'.segments.cells x).oppositeDirection = none ∧
        (c'.segments.cells x).reverseWaySearch = 0 ∧
        (c'.segments.cells x).distanceFromStart = 0 ∧
        (c'.segments.cells x).distanceToEnd = 0) ∧
      ∀ a k l, c'.segments.isChain ((c'.tiles a).head k) l = true →
        (∀ x ∈ l', x ∉ l) ∧
        (∀ h2 : SegmentHeap, c'.segments.size ≤ h2.size →
          (∀ y, y < c'.segments.size → y ∉ l' → h2.cells y = c'.segments.cells y) →
          h2.isChain ((c'.tiles a).head k) l = true ∧ h2.items l = c'.segments.items l) ∧
        ∀ x ∈ l', ∀ dir,
          (initRouteSegment c'.segments x dir).2.isChain ((c'.tiles a).head k) l = true ∧
            (initRouteSegment c'.segments x dir).2.items l = c'.segments.items l := by
  obtain ⟨cA, p, c', l', _, hfinA, _, _, hszA, _, hrun, _, _, _, _, hhd, _, hsz, hcells, hchain,
    hfresh, hdata⟩ := loadRouteSegment_run e c x31 y31 _ _ _ rfl rfl rfl hfin hm
  have hstored : ∀ a k l, c'.segments.isChain ((c'.tiles a).head k) l = true →
      ∀ y ∈ l, y < cA.segments.size := by
    intro a k l hl y hy
    obtain ⟨lA, hlA⟩ := hfinA a k
    have hlA' := isChain_grow cA.segments c'.segments hsz hcells _ lA hlA
    rw [← hhd a k] at hlA'
    have : l = lA := isChain_functional c'.segments _ _ _ hl hlA'
    rw [this] at hy
    exact isChain_lt cA.segments _ lA hlA y hy
  have hdisj : ∀ a k l, c'.segments.isChain ((c'.tiles a).head k) l = true →
      ∀ x ∈ l', x ∉ l := by
    intro a k l hl x hx hxl
    exact Nat.lt_irrefl x (Nat.lt_of_lt_of_le (hstored a k l hl x hxl) (hfresh x hx))
  have hframe : ∀ a k l, c'.segments.isChain ((c'.tiles a).head k) l = true →
      ∀ h2 : SegmentHeap, c'.segments.size ≤ h2.size →
        (∀ y, y < c'.segments.size → y ∉ l' → h2.cells y = c'.segments.cells y) →
        h2.isChain ((c'.tiles a).head k) l = true ∧ h2.items l = c'.segments.items l := by
    intro a k l hl h2 hs2 hc2
    have hsame : ∀ y ∈ l, h2.cells y = c'.segments.cells y := by
      intro y hy
      refine hc2 y (isChain_lt _ _ _ hl y hy) (fun hyl' => ?_)
      exact hdisj a k l hl y hyl' hy
    refine ⟨isChain_congr c'.segments h2 _ l hs2 (fun y hy => by rw [hsame y hy]) hl, ?_⟩
    unfold SegmentHeap.items
    exact List.map_congr_left fun y hy => by rw [hsame y hy]
  refine ⟨p, c', l', hrun, hchain, fun x hx => ?_, fun a k l hl =>
    ⟨hdisj a k l hl, hframe a k l hl, fun x hx dir => ?_⟩⟩
  · have hmem : segData (c'.segments.cells x) ∈
        l'.map (fun x => segData (c'.segments.cells x)) := List.mem_map.2 ⟨x, hx, rfl⟩
    rw [hdata] at hmem
    obtain ⟨it, _, hit⟩ := List.mem_map.1 hmem
    exact ⟨Nat.le_trans hszA (hfresh x hx), new_fields_of_segData _ _ _ hit.symm⟩
  · have hxlt : x < c'.segments.size := isChain_lt _ _ _ hchain x hx
    obtain ⟨f1, f2⟩ := initRouteSegment_frame c'.segments x dir hxlt
    exact hframe a k l hl _ f1 (fun y hy hyl' => f2 y hy (fun hyx => hyl' (hyx ▸ hx)))

/-- Witness of `loadRouteSegment_fresh`: a new context with an index of one
subregion that holds the road `roadFirst`. -/
theorem loadRouteSegment_fresh_witness :
    (RoutingContext.new cfgPrimary90 false heapEmpty).FiniteChains ∧
    (RoutingContext.new cfgPrimary90 false heapEmpty).MapsWF ∧
    ∃ p c' l',
      (RoutingContext.new cfgPrimary90 false heapEmpty).loadRouteSegment
        (externalsOf [subregionOf 0 10] [some roadFirst]) 98304 163840 = some (p, c') ∧
      c'.segments.isChain p l' = true ∧
      (∀ x ∈ l', (RoutingContext.new cfgPrimary90 false heapEmpty).segments.size ≤ x ∧
        (c'.segments.cells x).directionAssgn = 0 ∧ (c'.segments.cells x).parentRoute = none ∧
        (c'.segments.cells x).oppositeDirection = none ∧
        (c'.segments.cells x).reverseWaySearch = 0 ∧
        (c'.segments.cells x).distanceFromStart = 0 ∧
        (c'.segments.cells x).distanceToEnd = 0) ∧
      ∀ a k l, c'.segments.isChain ((c'.tiles a).head k) l = true →
        (∀ x ∈ l', x ∉ l) ∧
        (∀ h2 : SegmentHeap, c'.segments.size ≤ h2.size →
          (∀ y, y < c'.segments.size → y ∉ l' → h2.cells y = c'.segments.cells y) →
          h2.isChain ((c'.tiles a).head k) l = true ∧ h2.items l = c'.segments.items l) ∧
        ∀ x ∈ l', ∀ dir,
          (initRouteSegment c'.segments x dir).2.isChain ((c'.tiles a).head k) l = true ∧
            (initRouteSegment c'.segments x dir).2.items l = c'.segments.items l :=
  ⟨finiteChains_new _ _ _, mapsWF_new _ _ _,
    loadRouteSegment_fresh (externalsOf [subregionOf 0 10] [some roadFirst])
      (RoutingContext.new cfgPrimary90 false heapEmpty) 98304 163840
      (finiteChains_new _ _ _) (mapsWF_new _ _ _)⟩
theorem returnedPairs_of_chain (p : Option Addr) (c : RoutingContext) (l : List Addr)
    (h : c.segments.isChain p l = true) :
    returnedPairs (p, c) =
      (l.map fun x => segData (c.segments.cells x)).map
        fun s => (s.road.id, s.segmentStart, s.road.pointsX.length) := by
  unfold returnedPairs
  show (c.segments.chainFrom c.segments.size p).map _ = _
  rw [chainFrom_of_isChain c.segments l p _ h (isChain_length_le _ _ _ h), List.map_map]
  rfl

theorem loadHeaders_of_loaded (e : Externals) (c : RoutingContext) (xloc yloc : Nat)
    (l : List Addr)
    (hl : c.indexedSubregions.lookup (tileIdOf c.config.zoomToLoad xloc yloc) = some l)
    (hall : ∀ a ∈ l, (c.tiles a).isLoaded = true) : c.loadHeaders e xloc yloc = some c := by
  rw [loadHeaders_of_indexed e c xloc yloc l hl, loadHeaderObjects_of_some e c _ l hl]
  have hgc : ¬ (l.any fun a => !(c.tiles a).isLoaded) = true := by
    intro hgc
    obtain ⟨b, hb, hbl⟩ := List.any_eq_true.1 hgc
    rw [hall b hb] at hbl
    cases hbl
  rw [if_neg hgc]
  exact loadHeaderObjects_loop_loaded e l c hall

/-- C25: in a consistent context whose stored chains are finite, two calls of
`loadRouteSegment` in a row for the same coordinate both return, and the two
returned chains carry the same sequence of (road id, point index, point
count), although the first call has changed the context. The second call
loads and evicts nothing (its `loadHeaders` call leaves the context as it is),
and it allocates its segments anew: no segment of the second chain is a segment
of the first. -/
theorem loadRouteSegment_stable (e : Externals) (c : RoutingContext) (x31 y31 : Int)
    (hfin : c.FiniteChains) (hm : c.MapsWF) :
    ∃ p1 c1 p2 c2 l1 l2,
      c.loadRouteSegment e x31 y31 = some (p1, c1) ∧
      c1.loadRouteSegment e x31 y31 = some (p2, c2) ∧
      returnedPairs (p2, c2) = returnedPairs (p1, c1) ∧
      c1.loadHeaders e (loadRouteSegment.loc c1.config.zoomToLoad x31 % 4294967296).toNat
        (loadRouteSegment.loc c1.config.zoomToLoad y31 % 4294967296).toNat = some c1 ∧
      c1.segments.isChain p1 l1 = true ∧ c2.segments.isChain p2 l2 = true ∧
      ∀ x ∈ l2, x ∉ l1 := by
  obtain ⟨cA, p1, c1, l1, _, hfinA, _, hcfgA, _, ⟨lA, hlA, hallA⟩, hrun1, hfin1, hm1, hcfg1,
    hidx1, hhd1, hld1, hsz1, hcells1, hchain1, _, hdata1⟩ :=
    loadRouteSegment_run e c x31 y31 _ _ _ rfl rfl rfl hfin hm
  -- the coarse tile is indexed in `c1`, with all its subregions loaded
  have hl1 : c1.indexedSubregions.lookup
      (tileIdOf c1.config.zoomToLoad
        (loadRouteSegment.loc c1.config.zoomToLoad x31 % 4294967296).toNat
        (loadRouteSegment.loc c1.config.zoomToLoad y31 % 4294967296).toNat) = some lA := by
    rw [hcfg1, hidx1]
    by_cases hnone : (cA.indexedSubregions.lookup
        (loadRouteSegment.tileId c.config.zoomToLoad x31 y31)).isNone = true
    · rw [if_pos hnone, List.lookup_append, hlA]
      rfl
    · rw [if_neg hnone]
      exact hlA
  have hall1 : ∀ a ∈ lA, (c1.tiles a).isLoaded = true := by
    intro a ha
    rw [isLoaded_congr _ _ (hld1 a)]
    exact hallA a ha
  have hlh1 := loadHeaders_of_loaded e c1 _ _ lA hl1 hall1
  obtain ⟨cA2, p2, c2, l2, hlh2, _, _, _, _, _, hrun2, _, _, _, _, _, _, _, _, hchain2, hfresh2,
    hdata2⟩ := loadRouteSegment_run e c1 x31 y31 _ _ _ rfl rfl rfl hfin1 hm1
  rw [hlh1] at hlh2
  cases hlh2
  -- the second call visits the same subregions, with the same stored chains
  have hsubs : (c1.indexedSubregions.lookup
      (loadRouteSegment.tileId c1.config.zoomToLoad x31 y31)).getD [] =
      (cA.indexedSubregions.lookup
        (loadRouteSegment.tileId c.config.zoomToLoad x31 y31)).getD [] := by
    rw [hcfg1, hidx1]
    by_cases hnone : (cA.indexedSubregions.lookup
        (loadRouteSegment.tileId c.config.zoomToLoad x31 y31)).isNone = true
    · rw [if_pos hnone, List.lookup_append]
      have hn : cA.indexedSubregions.lookup
          (loadRouteSegment.tileId c.config.zoomToLoad x31 y31) = none := by
        cases hh : cA.indexedSubregions.lookup
            (loadRouteSegment.tileId c.config.zoomToLoad x31 y31) with
        | none => rfl
        | some v => rw [hh] at hnone; cases hnone
      rw [hn]
      simp [List.lookup_cons]
    · rw [if_neg hnone]
  have hvis : loadRouteSegment.visited c1 (loadRouteSegment.key x31 y31)
      ((cA.indexedSubregions.lookup
        (loadRouteSegment.tileId c.config.zoomToLoad x31 y31)).getD []) =
      loadRouteSegment.visited cA (loadRouteSegment.key x31 y31)
        ((cA.indexedSubregions.lookup
          (loadRouteSegment.tileId c.config.zoomToLoad x31 y31)).getD []) :=
    visited_congr cA c1 _ _ hfinA hsz1 hcells1 (fun a => hhd1 a _)
      (fun a => isLoaded_congr _ _ (hld1 a))
  rw [hsubs, hvis, ← hdata1] at hdata2
  refine ⟨p1, c1, p2, c2, l1, l2, hrun1, hrun2, ?_, hlh1, hchain1, hchain2, fun x hx hxl => ?_⟩
  · rw [returnedPairs_of_chain p2 c2 l2 hchain2, returnedPairs_of_chain p1 c1 l1 hchain1, hdata2]
  · exact Nat.lt_irrefl x
      (Nat.lt_of_lt_of_le (isChain_lt _ _ _ hchain1 x hxl) (hfresh2 x hx))

/-- Witness of `loadRouteSegment_stable`: a new context with an index of one
subregion that holds the road `roadFirst`. -/
theorem loadRouteSegment_stable_witness :
    (RoutingContext.new cfgPrimary90 false heapEmpty).FiniteChains ∧
    (RoutingContext.new cfgPrimary90 false heapEmpty).MapsWF ∧
    ∃ p1 c1 p2 c2 l1 l2,
      (RoutingContext.new cfgPrimary90 false heapEmpty).loadRouteSegment
        (externalsOf [subregionOf 0 10] [some roadFirst]) 98304 163840 = some (p1, c1) ∧
      c1.loadRouteSegment (externalsOf [subregionOf 0 10] [some roadFirst]) 98304 163840 =
        some (p2, c2) ∧
      returnedPairs (p2, c2) = returnedPairs (p1, c1) ∧
      c1.loadHeaders (externalsOf [subregionOf 0 10] [some roadFirst])
        (loadRouteSegment.loc c1.config.zoomToLoad 98304 % 4294967296).toNat
        (loadRouteSegment.loc c1.config.zoomToLoad 163840 % 4294967296).toNat = some c1 ∧
      c1.segments.isChain p1 l1 = true ∧ c2.segments.isChain p2 l2 = true ∧
      ∀ x ∈ l2, x ∉ l1 :=
  ⟨finiteChains_new _ _ _, mapsWF_new _ _ _,
    loadRouteSegment_stable (externalsOf [subregionOf 0 10] [some roadFirst])
      (RoutingContext.new cfgPrimary90 false heapEmpty) 98304 163840
      (finiteChains_new _ _ _) (mapsWF_new _ _ _)⟩

/-! ## The chain-position invariant -/

theorem atKey_of_segData (s s' : RouteSegment) (k : Int) (h : segData s' = segData s)
    (hs : s.atKey k) : s'.atKey k := by
  have e1 : s'.segmentStart = s.segmentStart :=
    show (segData s').segmentStart = (segData s).segmentStart from
      congrArg RouteSegment.segmentStart h
  have e2 : s'.road = s.road :=
    show (segData s').road = (segData s).road from congrArg RouteSegment.road h
  unfold RouteSegment.atKey at hs ⊢
  rw [e1, e2]
  exact hs

theorem atKey_new (o : RouteDataObject) (i : Nat) (hi : i < o.pointsX.length)
    (hlen : o.pointsX.length ≤ 65536) (s : RouteSegment)
    (hs : segData s = RouteSegment.new o i) : s.atKey (o.keyAt i) := by
  have e1 : s.segmentStart = (RouteSegment.new o i).segmentStart :=
    show (segData s).segmentStart = _ from congrArg RouteSegment.segmentStart hs
  have e2 : s.road = o :=
    show (segData s).road = (RouteSegment.new o i).road from congrArg RouteSegment.road hs
  have e3 : (RouteSegment.new o i).segmentStart = i := by
    rw [(routeSegment_new_fields o i).2.1]
    exact Nat.mod_eq_of_lt (Nat.lt_of_lt_of_le hi hlen)
  unfold RouteSegment.atKey
  rw [e1, e2, e3]
  exact ⟨Nat.lt_of_lt_of_le hi hlen, hi, rfl⟩

/-- One pass of the loop of `add`, for a point index inside a road of at most
65536 points, keeps the position invariant: of the chains of the tile and of
every other chain of the heap. -/
theorem tile_add_step_pos (o : RouteDataObject) (i : Nat) (hi : i < o.pointsX.length)
    (hlen : o.pointsX.length ≤ 65536) (routes : List (Int × Option Addr)) (h : SegmentHeap)
    (hpos : ∀ k, h.PosChain ((routes.lookup k).join) k)
    (routes' : List (Int × Option Addr)) (h' : SegmentHeap)
    (hrun : RoutingSubregionTile.add.step o i routes h = some (routes', h')) :
    (∀ k, h'.PosChain ((routes'.lookup k).join) k) ∧
      ∀ p k, h.PosChain p k → h'.PosChain p k := by
  obtain ⟨l0, hl0, hp0⟩ := hpos (o.keyAt i)
  obtain ⟨r1, h1, hstep, hsize, hhead, hc1, hc2, hself, hframe, hnew⟩ :=
    add_step_spec o i routes h l0 hl0
  rw [hrun] at hstep
  cases hstep
  have hnewpos : (h'.cells h.size).atKey (o.keyAt i) := atKey_new o i hi hlen _ hnew
  have hold : ∀ p l k, h.isChain p l = true → (∀ x ∈ l, (h.cells x).atKey k) →
      ∀ x ∈ l, (h'.cells x).atKey k := by
    intro p l k hl hp x hx
    exact atKey_of_segData _ _ k (hframe x (isChain_lt h p l hl x hx)) (hp x hx)
  have hkeep : ∀ p k, h.PosChain p k → h'.PosChain p k := by
    rintro p k ⟨l, hl, hp⟩
    cases hlast : l0.getLast? with
    | none =>
      exact ⟨l, hc1 p l hl (fun t ht => by rw [hlast] at ht; cases ht), hold p l k hl hp⟩
    | some t =>
      by_cases hmem : t ∈ l
      · have ht0 : t ∈ l0 := List.mem_of_getLast?_eq_some hlast
        have hk : k = o.keyAt i := (hp t hmem).2.2.symm.trans (hp0 t ht0).2.2
        refine ⟨l ++ [h.size], hc2 p l t hl hlast hmem, fun x hx => ?_⟩
        rcases List.mem_append.1 hx with hx | hx
        · exact hold p l k hl hp x hx
        · rw [List.mem_singleton.1 hx, hk]
          exact hnewpos
      · refine ⟨l, hc1 p l hl (fun t' ht' => ?_), hold p l k hl hp⟩
        rw [hlast] at ht'
        cases ht'
        exact hmem
  refine ⟨fun k => ?_, hkeep⟩
  rw [hhead]
  by_cases hk : k = o.keyAt i ∧ l0 = []
  · rw [if_pos hk]
    refine ⟨[h.size], hself, fun x hx => ?_⟩
    rw [List.mem_singleton.1 hx, hk.1]
    exact hnewpos
  · rw [if_neg hk]
    exact hkeep _ k (hpos k)

theorem tile_add_loop_pos (o : RouteDataObject) (hlen : o.pointsX.length ≤ 65536) (is : List Nat) :
    ∀ (routes : List (Int × Option Addr)) (h : SegmentHeap),
      (∀ i ∈ is, i < o.pointsX.length) →
      (∀ k, h.PosChain ((routes.lookup k).join) k) →
      ∀ (routes' : List (Int × Option Addr)) (h' : SegmentHeap),
        RoutingSubregionTile.add.loop o is routes h = some (routes', h') →
        (∀ k, h'.PosChain ((routes'.lookup k).join) k) ∧
          ∀ p k, h.PosChain p k → h'.PosChain p k := by
  induction is with
  | nil =>
    intro routes h _ hpos routes' h' hrun
    rw [RoutingSubregionTile.add.loop] at hrun
    cases hrun
    exact ⟨hpos, fun _ _ hp => hp⟩
  | cons i is ih =>
    intro routes h his hpos routes' h' hrun
    rw [RoutingSubregionTile.add.loop] at hrun
    cases hstep : RoutingSubregionTile.add.step o i routes h with
    | none =>
      rw [hstep] at hrun
      cases hrun
    | some r =>
      rw [hstep] at hrun
      obtain ⟨r1, h1⟩ := r
      obtain ⟨q1, q2⟩ := tile_add_step_pos o i (his i (List.mem_cons_self _ _)) hlen routes h hpos
        r1 h1 hstep
      obtain ⟨q3, q4⟩ := ih r1 h1 (fun j hj => his j (List.mem_cons_of_mem _ hj)) q1
        routes' h' hrun
      exact ⟨q3, fun p k hp => q4 p k (q2 p k hp)⟩

/-- `add(o)` of a road of at most 65536 points keeps the position invariant. -/
theorem tile_add_pos (e : Externals) (t : RoutingSubregionTile) (h : SegmentHeap)
    (o : RouteDataObject) (hlen : o.pointsX.length ≤ 65536)
    (hpos : ∀ k, h.PosChain (t.head k) k) (t' : RoutingSubregionTile) (h' : SegmentHeap)
    (hrun : t.add e h o = some (t', h')) :
    (∀ k, h'.PosChain (t'.head k) k) ∧ ∀ p k, h.PosChain p k → h'.PosChain p k := by
  unfold RoutingSubregionTile.add at hrun
  cases hloop : RoutingSubregionTile.add.loop o (List.range o.pointsX.length) t.routes h with
  | none =>
    rw [hloop] at hrun
    cases hrun
  | some r =>
    rw [hloop] at hrun
    obtain ⟨r1, h1⟩ := r
    cases hrun
    exact tile_add_loop_pos o hlen _ t.routes h (fun i hi => List.mem_range.1 hi) hpos r1 h1 hloop
theorem posChain_none (h : SegmentHeap) (k : Int) : h.PosChain none k :=
  ⟨[], rfl, fun x hx => absurd hx (List.not_mem_nil x)⟩

theorem posChain_grow (h h' : SegmentHeap) (hs : h.size ≤ h'.size)
    (hcells : ∀ x, x < h.size → h'.cells x = h.cells x) (p : Option Addr) (k : Int)
    (hp : h.PosChain p k) : h'.PosChain p k := by
  obtain ⟨l, hl, hpos⟩ := hp
  refine ⟨l, isChain_grow h h' hs hcells p l hl, fun x hx => ?_⟩
  rw [hcells x (isChain_lt h p l hl x hx)]
  exact hpos x hx

theorem finiteChains_of_posInv (c : RoutingContext) (hpos : c.PosInv) : c.FiniteChains :=
  fun a k => (hpos a k).imp fun _ hl => hl.1

theorem addAll_pos (e : Externals) (config : RoutingConfiguration)
    (res : List (Option RouteDataObject)) :
    (∀ o, some o ∈ res → o.pointsX.length ≤ 65536) →
    ∀ (t : RoutingSubregionTile) (h : SegmentHeap), (∀ k, h.PosChain (t.head k) k) →
      ∀ (t' : RoutingSubregionTile) (h' : SegmentHeap),
        loadHeaderObjects.addAll e config res t h = some (t', h') →
        (∀ k, h'.PosChain (t'.head k) k) ∧ ∀ p k, h.PosChain p k → h'.PosChain p k := by
  induction res with
  | nil =>
    intro _ t h hpos t' h' hrun
    rw [loadHeaderObjects.addAll] at hrun
    cases hrun
    exact ⟨hpos, fun _ _ hp => hp⟩
  | cons r rest ih =>
    intro hsmall t h hpos t' h' hrun
    have hrest : ∀ o, some o ∈ rest → o.pointsX.length ≤ 65536 :=
      fun o ho => hsmall o (List.mem_cons_of_mem _ ho)
    cases r with
    | none =>
      rw [loadHeaderObjects.addAll] at hrun
      exact ih hrest t h hpos t' h' hrun
    | some o =>
      rw [loadHeaderObjects.addAll] at hrun
      by_cases hacc : config.acceptLine o = true
      · rw [if_pos hacc] at hrun
        cases hadd : t.add e h o with
        | none =>
          rw [hadd] at hrun
          cases hrun
        | some r =>
          rw [hadd] at hrun
          obtain ⟨t1, h1⟩ := r
          obtain ⟨q1, q2⟩ := tile_add_pos e t h o (hsmall o (List.mem_cons_self _ _)) hpos
            t1 h1 hadd
          obtain ⟨q3, q4⟩ := ih hrest t1 h1 q1 t' h' hrun
          exact ⟨q3, fun p k hp => q4 p k (q2 p k hp)⟩
      · rw [if_neg hacc] at hrun
        exact ih hrest t h hpos t' h' hrun

theorem loadHeaderObjects_loop_pos (e : Externals) (hs : e.smallRoads) (subs : List Addr) :
    ∀ c : RoutingContext, c.PosInv →
      ∀ c', loadHeaderObjects.loop e subs c = some c' → c'.PosInv := by
  induction subs with
  | nil =>
    intro c hpos c' hrun
    rw [loadHeaderObjects.loop] at hrun
    cases hrun
    exact hpos
  | cons a rest ih =>
    intro c hpos c' hrun
    rw [loadHeaderObjects.loop] at hrun
    by_cases hload : (c.tiles a).isLoaded = true
    · rw [if_pos hload] at hrun
      exact ih c hpos c' hrun
    · rw [if_neg hload] at hrun
      cases hadd : loadHeaderObjects.addAll e c.config
          (e.searchRouteDataForSubRegion (c.tiles a).subregion) (c.tiles a).setLoaded
          c.segments with
      | none =>
        rw [hadd] at hrun
        cases hrun
      | some r =>
        rw [hadd] at hrun
        obtain ⟨t1, h1⟩ := r
        obtain ⟨q1, q2⟩ := addAll_pos e c.config _ (fun o ho => hs _ o ho)
          (c.tiles a).setLoaded c.segments (hpos a) t1 h1 hadd
        refine ih _ (fun b k => ?_) c' hrun
        show h1.PosChain ((Function.update c.tiles a t1 b).head k) k
        by_cases hba : b = a
        · subst hba
          rw [Function.update_same]
          exact q1 k
        · rw [Function.update_noteq hba]
          exact q2 _ k (hpos b k)

theorem posInv_unloadUnusedTiles (e : Externals) (c : RoutingContext) (memoryLimit : Int)
    (hpos : c.PosInv) : (c.unloadUnusedTiles e memoryLimit).PosInv := by
  obtain ⟨_, _, _, hseg, _, _, _, htiles⟩ := unloadUnusedTiles_frame e c memoryLimit
  intro a k
  rw [hseg]
  rcases (htiles a).2 with h | h
  · have := hpos a k
    unfold RoutingSubregionTile.head at this ⊢
    rw [h]
    exact this
  · unfold RoutingSubregionTile.head
    rw [h]
    exact posChain_none _ k

theorem loadHeaderObjects_pos (e : Externals) (hs : e.smallRoads) (c c' : RoutingContext)
    (tileId : Int) (hpos : c.PosInv) (hrun : c.loadHeaderObjects e tileId = some c') :
    c'.PosInv := by
  cases hlook : c.indexedSubregions.lookup tileId with
  | none =>
    rw [loadHeaderObjects_of_none e c tileId hlook] at hrun
    cases hrun
    exact fun a k => hpos a k
  | some l =>
    rw [loadHeaderObjects_of_some e c tileId l hlook] at hrun
    by_cases hgc : (l.any fun a => !(c.tiles a).isLoaded) = true
    · rw [if_pos hgc] at hrun
      exact loadHeaderObjects_loop_pos e hs l _ (posInv_unloadUnusedTiles e c _ hpos) c' hrun
    · rw [if_neg hgc] at hrun
      exact loadHeaderObjects_loop_pos e hs l c hpos c' hrun

theorem loadHeaders_pos (e : Externals) (hs : e.smallRoads) (c c' : RoutingContext)
    (xloc yloc : Nat) (hpos : c.PosInv) (hm : c.MapsWF)
    (hrun : c.loadHeaders e xloc yloc = some c') : c'.PosInv := by
  cases hlook : c.indexedSubregions.lookup (tileIdOf c.config.zoomToLoad xloc yloc) with
  | some l =>
    rw [loadHeaders_of_indexed e c xloc yloc l hlook] at hrun
    exact loadHeaderObjects_pos e hs c c' _ hpos hrun
  | none =>
    rw [loadHeaders_of_new e c xloc yloc hlook] at hrun
    obtain ⟨_, _, _, r4, _, _, r7⟩ := loadHeaders_collect_spec e
      (e.searchRouteSubregions
        ⟨shl32 xloc (31 - c.config.zoomToLoad), shl32 (xloc + 1) (31 - c.config.zoomToLoad),
          shl32 yloc (31 - c.config.zoomToLoad), shl32 (yloc + 1) (31 - c.config.zoomToLoad)⟩
        c.basemap) c [] hm (fun a ha => absurd ha (List.not_mem_nil a))
    generalize loadHeaders.collect e
      (e.searchRouteSubregions
        ⟨shl32 xloc (31 - c.config.zoomToLoad), shl32 (xloc + 1) (31 - c.config.zoomToLoad),
          shl32 yloc (31 - c.config.zoomToLoad), shl32 (yloc + 1) (31 - c.config.zoomToLoad)⟩
        c.basemap) c [] = r at *
    refine loadHeaderObjects_pos e hs _ c' _ (fun a k => ?_) hrun
    show r.1.segments.PosChain ((r.1.tiles a).head k) k
    rw [r4]
    rcases r7 a with h | h
    · rw [h]
      exact hpos a k
    · unfold RoutingSubregionTile.head
      rw [h]
      exact posChain_none _ k
theorem tileOp_run_pos (e : Externals) (ops : List TileOp) :
    ops.all TileOp.small = true →
    ∀ (t0 : RoutingSubregionTile) (h0 : SegmentHeap), (∀ k, h0.PosChain (t0.head k) k) →
      ∃ t h, TileOp.run e ops (t0, h0) = some (t, h) ∧ ∀ k, h.PosChain (t.head k) k := by
  induction ops with
  | nil => intro _ t0 h0 hpos; exact ⟨t0, h0, rfl, hpos⟩
  | cons op ops ih =>
    intro hsmall t0 h0 hpos
    rw [List.all_cons, Bool.and_eq_true] at hsmall
    cases op with
    | setLoaded =>
      obtain ⟨t, h, hrun, hp⟩ := ih hsmall.2 t0.setLoaded h0 hpos
      exact ⟨t, h, by simp only [TileOp.run, TileOp.apply]; exact hrun, hp⟩
    | unload =>
      obtain ⟨t, h, hrun, hp⟩ := ih hsmall.2 t0.unload h0 (fun k => posChain_none h0 k)
      exact ⟨t, h, by simp only [TileOp.run, TileOp.apply]; exact hrun, hp⟩
    | add o =>
      have hlen : o.pointsX.length ≤ 65536 := by
        have := hsmall.1
        unfold TileOp.small at this
        exact of_decide_eq_true this
      obtain ⟨t1, h1, hadd, _⟩ := add_total e t0 h0 o (fun k => (hpos k).imp fun _ hl => hl.1)
      obtain ⟨q1, _⟩ := tile_add_pos e t0 h0 o hlen hpos t1 h1 hadd
      obtain ⟨t, h, hrun, hp⟩ := ih hsmall.2 t1 h1 q1
      exact ⟨t, h, by simp only [TileOp.run, TileOp.apply, hadd]; exact hrun, hp⟩

theorem select_mem (xs : List (RouteDataObject × Nat)) :
    ∀ (excl : List (Int × RouteDataObject)) (it : RouteDataObject × Nat),
      it ∈ (loadRouteSegment.select xs excl).2 → it ∈ xs := by
  induction xs with
  | nil => intro excl it h; exact h
  | cons x rest ih =>
    intro excl it h
    rw [loadRouteSegment.select] at h
    by_cases hacc : loadRouteSegment.accepts excl x.1 x.2 = true
    · rw [if_pos hacc] at h
      rcases List.mem_cons.1 h with h | h
      · rw [h]; exact List.mem_cons_self _ _
      · exact List.mem_cons_of_mem _ (ih _ it h)
    · rw [if_neg hacc] at h
      exact List.mem_cons_of_mem _ (ih _ it h)

theorem visited_mem (c : RoutingContext) (hpos : c.PosInv) (l : Int) (subs : List Addr)
    (it : RouteDataObject × Nat) (h : it ∈ loadRouteSegment.visited c l subs) :
    ∃ s : RouteSegment, s.atKey l ∧ it = (s.road, s.segmentStart) := by
  unfold loadRouteSegment.visited at h
  obtain ⟨a, _, ha⟩ := List.mem_flatMap.1 h
  by_cases hload : (c.tiles a).isLoaded = true
  · rw [if_pos hload] at ha
    obtain ⟨la, hla, hp⟩ := hpos a l
    rw [chainFrom_of_isChain c.segments la _ _ hla (isChain_length_le _ _ _ hla)] at ha
    unfold SegmentHeap.items at ha
    obtain ⟨x, hx, hxe⟩ := List.mem_map.1 ha
    exact ⟨c.segments.cells x, hp x hx, hxe.symm⟩
  · rw [if_neg hload] at ha
    exact absurd ha (List.not_mem_nil it)

theorem atKey_of_new (s s' : RouteSegment) (k : Int) (hs : s.atKey k)
    (h : segData s' = RouteSegment.new s.road s.segmentStart) : s'.atKey k := by
  have e1 : s'.segmentStart = (RouteSegment.new s.road s.segmentStart).segmentStart :=
    show (segData s').segmentStart = _ from congrArg RouteSegment.segmentStart h
  have e2 : s'.road = s.road :=
    show (segData s').road = (RouteSegment.new s.road s.segmentStart).road from
      congrArg RouteSegment.road h
  have e3 : (RouteSegment.new s.road s.segmentStart).segmentStart = s.segmentStart := by
    rw [(routeSegment_new_fields s.road s.segmentStart).2.1]
    exact Nat.mod_eq_of_lt hs.1
  unfold RouteSegment.atKey at hs ⊢
  rw [e1, e2, e3]
  exact hs

theorem key_point (x31 y31 : Int) (px py : Nat) (hx0 : 0 ≤ x31) (hx : x31 < 2147483648)
    (hy0 : 0 ≤ y31) (hy : y31 < 2147483648) (hpx : px < 2147483648) (hpy : py < 2147483648)
    (h : pointKey px py = loadRouteSegment.key x31 y31) : (px : Int) = x31 ∧ (py : Int) = y31 := by
  unfold loadRouteSegment.key at h
  have e1 : (x31 % 18446744073709551616).toNat = x31.toNat := by omega
  have e2 : (y31 % 18446744073709551616).toNat = y31.toNat := by omega
  rw [e1, e2, pointKey_eq px py hpx hpy, pointKey_eq _ _ (by omega) (by omega)] at h
  have h' : px * 2147483648 + py = x31.toNat * 2147483648 + y31.toNat := by exact_mod_cast h
  omega
theorem roadMany_small (n : Nat) :
    (∀ v ∈ (roadMany n).pointsX, v ≤ 1) ∧ ∀ v ∈ (roadMany n).pointsY, v ≤ 1 := by
  constructor
  · intro v hv
    simp only [roadMany, List.mem_append, List.mem_replicate, List.mem_singleton] at hv
    rcases hv with ⟨_, rfl⟩ | rfl <;> omega
  · intro v hv
    simp only [roadMany, List.mem_replicate] at hv
    omega

theorem roadMany_add (n : Nat) :
    ∃ t h x rest,
      (RoutingSubregionTile.new (externalsOf [] []) (subregionOf 0 0)).add
        (externalsOf [] []) heapEmpty (roadMany n) = some (t, h) ∧
      h.isChain (t.head (pointKey 1 0)) (x :: rest) = true ∧
      (h.cells x).road = roadMany n ∧ (h.cells x).segmentStart = n % 65536 := by
  obtain ⟨r', h', hloop, _, _, hnew, hchain, _⟩ :=
    add_loop_strong (roadMany n) (List.range (roadMany n).pointsX.length)
      (RoutingSubregionTile.new (externalsOf [] []) (subregionOf 0 0)).routes heapEmpty
      (chainsWF_nil _)
  have hc := hchain (pointKey 1 0) [] rfl
  rw [List.nil_append] at hc
  have hmap := map_newAddrs (roadMany n) (pointKey 1 0) (fun a => segData (h'.cells a))
    (List.range (roadMany n).pointsX.length) heapEmpty.size hnew
  rw [roadMany_filter] at hmap
  generalize RoutingSubregionTile.add.newAddrs (roadMany n) (pointKey 1 0)
    (List.range (roadMany n).pointsX.length) heapEmpty.size = extra at hc hmap
  cases extra with
  | nil => cases hmap
  | cons x rest =>
    rw [List.map_cons, List.map_cons, List.map_nil] at hmap
    have hx : segData (h'.cells x) = RouteSegment.new (roadMany n) (n : Int) :=
      (List.cons.inj hmap).1
    have e1 : (h'.cells x).segmentStart = n % 65536 := by
      have := congrArg RouteSegment.segmentStart hx
      exact this.trans (routeSegment_new_fields (roadMany n) n).2.1
    have e2 : (h'.cells x).road = roadMany n := congrArg RouteSegment.road hx
    have hadd : ∃ t, (RoutingSubregionTile.new (externalsOf [] []) (subregionOf 0 0)).add
        (externalsOf [] []) heapEmpty (roadMany n) = some (t, h') ∧ t.routes = r' := by
      unfold RoutingSubregionTile.add
      rw [hloop]
      exact ⟨_, rfl, rfl⟩
    obtain ⟨t, ht, hr⟩ := hadd
    refine ⟨t, h', x, rest, ht, ?_, e2, e1⟩
    unfold RoutingSubregionTile.head
    rw [hr]
    exact hc

theorem tileOp_run_add (e : Externals) (t t' : RoutingSubregionTile) (h h' : SegmentHeap)
    (o : RouteDataObject) (hadd : t.add e h o = some (t', h')) :
    TileOp.run e [TileOp.add o] (t, h) = some (t', h') := by
  show (match t.add e h o with
    | none => none
    | some s1 => TileOp.run e [] s1) = some (t', h')
  rw [hadd]
  rfl

/-- C29 (as stated, refuted): the road `roadMany 65536` has 65537 points with
31-bit coordinates, the last one alone with the key `pointKey 1 0`. After
`add` of this road on a new tile, the chain stored under that key holds a
segment whose `segmentStart` is 0 (the index 65536 does not fit the
`uint16_t` field), and the point 0 of the road does not pack to that key. -/
theorem chain_position_counterexample :
    (∀ v ∈ (roadMany 65536).pointsX, v < 2 ^ 31) ∧
    (∀ v ∈ (roadMany 65536).pointsY, v < 2 ^ 31) ∧
    ∃ t h l x,
      TileOp.run (externalsOf [] []) [TileOp.add (roadMany 65536)]
        (RoutingSubregionTile.new (externalsOf [] []) (subregionOf 0 0), heapEmpty) =
          some (t, h) ∧
      h.isChain (t.head (pointKey 1 0)) l = true ∧ x ∈ l ∧
      (h.cells x).segmentStart = 0 ∧
      (h.cells x).road.keyAt (h.cells x).segmentStart ≠ pointKey 1 0 := by
  obtain ⟨t, h, x, rest, hadd, hc, e2, e1⟩ := roadMany_add 65536
  have hne : pointKey 0 0 ≠ pointKey 1 0 := by decide
  have hz : (h.cells x).segmentStart = 0 := e1
  refine ⟨fun v hv => lt_of_le_of_lt ((roadMany_small 65536).1 v hv) (by decide),
    fun v hv => lt_of_le_of_lt ((roadMany_small 65536).2 v hv) (by decide),
    t, h, x :: rest, x, ?_, hc, List.mem_cons_self _ _, hz, ?_⟩
  · exact tileOp_run_add _ _ _ _ _ _ hadd
  · rw [hz, e2, (roadMany_keys 65536).2.1 0 (by decide)]
    exact hne

/-- C29 (amended): with roads of at most 65536 points, (a) every sequence of
`setLoaded`, `unload` and `add` calls on a new tile returns, and then the chain
stored under each key is finite and acyclic and each of its segments has a
`segmentStart` inside the point array of its road, at a point that packs to the
key; (b) in a consistent context that has this chain-position property,
`loadRouteSegment(x31, y31)` returns a finite acyclic chain, every segment of
which refers to a road whose point at `segmentStart` packs to the key of
`(x31, y31)` - and is the point `(x31, y31)` itself when the coordinates are
in the 31-bit range - and the context on return has the property again. -/
theorem chain_position (e : Externals) (sub : RouteSubregion) (h0 : SegmentHeap)
    (ops : List TileOp) (c : RoutingContext) (x31 y31 : Int)
    (hops : ops.all TileOp.small = true) (hext : e.smallRoads) (hpos : c.PosInv)
    (hm : c.MapsWF) :
    (∃ t h, TileOp.run e ops (RoutingSubregionTile.new e sub, h0) = some (t, h) ∧
      ∀ k, ∃ l, h.isChain (t.head k) l = true ∧ l.Nodup ∧ ∀ x ∈ l, (h.cells x).atKey k) ∧
    ∃ p c' l', c.loadRouteSegment e x31 y31 = some (p, c') ∧ c'.PosInv ∧
      c'.segments.isChain p l' = true ∧ l'.Nodup ∧
      ∀ x ∈ l', (c'.segments.cells x).atKey (loadRouteSegment.key x31 y31) ∧
        (0 ≤ x31 → x31 < 2 ^ 31 → 0 ≤ y31 → y31 < 2 ^ 31 →
          (c'.segments.cells x).road.pointsX.getD (c'.segments.cells x).segmentStart 0 < 2 ^ 31 →
          (c'.segments.cells x).road.pointsY.getD (c'.segments.cells x).segmentStart 0 < 2 ^ 31 →
          (((c'.segments.cells x).road.pointsX.getD (c'.segments.cells x).segmentStart 0 : Nat) :
              Int) = x31 ∧
            (((c'.segments.cells x).road.pointsY.getD (c'.segments.cells x).segmentStart 0 :
              Nat) : Int) = y31) := by
  constructor
  · obtain ⟨t, h, hrun, hp⟩ := tileOp_run_pos e ops hops (RoutingSubregionTile.new e sub) h0
      (fun k => posChain_none h0 k)
    refine ⟨t, h, hrun, fun k => ?_⟩
    obtain ⟨l, hl, hpl⟩ := hp k
    exact ⟨l, hl, isChain_nodup h _ l hl, hpl⟩
  · obtain ⟨cA, p, c', l', hlh, _, _, _, _, _, hrun, _, _, _, _, hhd, _, hsz, hcells, hchain, _,
      hdata⟩ := loadRouteSegment_run e c x31 y31 _ _ _ rfl rfl rfl
        (finiteChains_of_posInv c hpos) hm
    have hposA : cA.PosInv := loadHeaders_pos e hext c cA _ _ hpos hm hlh
    have hpos' : c'.PosInv := by
      intro a k
      rw [hhd a k]
      exact posChain_grow cA.segments c'.segments hsz hcells _ k (hposA a k)
    have hat : ∀ x ∈ l', (c'.segments.cells x).atKey (loadRouteSegment.key x31 y31) := by
      intro x hx
      have hmem : segData (c'.segments.cells x) ∈
          l'.map (fun x => segData (c'.segments.cells x)) := List.mem_map.2 ⟨x, hx, rfl⟩
      rw [hdata] at hmem
      obtain ⟨it, hit, hnew⟩ := List.mem_map.1 hmem
      obtain ⟨s, hs, hse⟩ := visited_mem cA hposA _ _ it
        (select_mem _ _ it (List.mem_reverse.1 hit))
      rw [hse] at hnew
      exact atKey_of_new s _ _ hs hnew.symm
    refine ⟨p, c', l', hrun, hpos', hchain, isChain_nodup _ _ l' hchain, fun x hx =>
      ⟨hat x hx, fun hx0 hx1 hy0 hy1 hpx hpy => ?_⟩⟩
    have h2 : (2 : Int) ^ 31 = 2147483648 := by norm_num
    have h3 : (2 : Nat) ^ 31 = 2147483648 := by norm_num
    rw [h2] at hx1 hy1
    rw [h3] at hpx hpy
    exact key_point x31 y31 _ _ hx0 hx1 hy0 hy1 hpx hpy (hat x hx).2.2

/-- Witness of `chain_position`: a tile that is loaded with `roadFirst`,
unloaded and loaded with `roadThree`; a new context with an index of one
subregion that holds `roadFirst`. -/
theorem chain_position_witness :
    [TileOp.setLoaded, TileOp.add roadFirst, TileOp.unload, TileOp.add roadThree].all
        TileOp.small = true ∧
    (externalsOf [subregionOf 0 10] [some roadFirst]).smallRoads ∧
    (RoutingContext.new cfgPrimary90 false heapEmpty).PosInv ∧
    (RoutingContext.new cfgPrimary90 false heapEmpty).MapsWF ∧
    (∃ t h, TileOp.run (externalsOf [subregionOf 0 10] [some roadFirst])
        [TileOp.setLoaded, TileOp.add roadFirst, TileOp.unload, TileOp.add roadThree]
        (RoutingSubregionTile.new (externalsOf [subregionOf 0 10] [some roadFirst])
          (subregionOf 0 10), heapEmpty) = some (t, h) ∧
      ∀ k, ∃ l, h.isChain (t.head k) l = true ∧ l.Nodup ∧ ∀ x ∈ l, (h.cells x).atKey k) ∧
    ∃ p c' l',
      (RoutingContext.new cfgPrimary90 false heapEmpty).loadRouteSegment
        (externalsOf [subregionOf 0 10] [some roadFirst]) 98304 163840 = some (p, c') ∧
      c'.PosInv ∧ c'.segments.isChain p l' = true ∧ l'.Nodup ∧
      ∀ x ∈ l', (c'.segments.cells x).atKey (loadRouteSegment.key 98304 163840) ∧
        ((0 : Int) ≤ 98304 → (98304 : Int) < 2 ^ 31 → (0 : Int) ≤ 163840 →
          (163840 : Int) < 2 ^ 31 →
          (c'.segments.cells x).road.pointsX.getD (c'.segments.cells x).segmentStart 0 < 2 ^ 31 →
          (c'.segments.cells x).road.pointsY.getD (c'.segments.cells x).segmentStart 0 < 2 ^ 31 →
          (((c'.segments.cells x).road.pointsX.getD (c'.segments.cells x).segmentStart 0 : Nat) :
              Int) = 98304 ∧
            (((c'.segments.cells x).road.pointsY.getD (c'.segments.cells x).segmentStart 0 :
              Nat) : Int) = 163840) := by
  have hops : [TileOp.setLoaded, TileOp.add roadFirst, TileOp.unload, TileOp.add roadThree].all
      TileOp.small = true := by decide
  have hext : (externalsOf [subregionOf 0 10] [some roadFirst]).smallRoads := by
    intro sub o ho
    have ho' : some o ∈ [some roadFirst] := ho
    rw [List.mem_singleton] at ho'
    cases ho'
    decide
  have hpos : (RoutingContext.new cfgPrimary90 false heapEmpty).PosInv :=
    fun a k => posChain_none _ k
  have hm := mapsWF_new cfgPrimary90 false heapEmpty
  exact ⟨hops, hext, hpos, hm,
    chain_position (externalsOf [subregionOf 0 10] [some roadFirst]) (subregionOf 0 10) heapEmpty
      [TileOp.setLoaded, TileOp.add roadFirst, TileOp.unload, TileOp.add roadThree]
      (RoutingContext.new cfgPrimary90 false heapEmpty) 98304 163840 hops hext hpos hm⟩
